import Mathlib

/-!
# go-esnsi: the schema-driven classifier decoder

A shallow embedding of `decoder.go`, `classifier.go` and `cnsi.go` of package `esnsi`
(`Decoder.Decode`, `Decoder.unmarshal` and the document types they walk), of
`classifiers/okato.go` (`OkatoRecord.ParseCode`, `NewOkato`), of `classifiers/sfr.go`
(`NewSfr`), of package `cnsi` (`SimpleClassifier.Unmarshal` and the document types it walks)
and of `classifiers/sfr-co.go` (`NewSfrCo`, `unmarshalHelper`), followed by the properties of
the decoder and of the classifiers stated in the specification.

Modelling conventions.
* Go maps `map[string]V` are association lists in which the newest binding of a key is in front
  (`mapSet` conses, `mapGet` returns the first match), so a later write to a key shadows an
  earlier one exactly as a Go map assignment does.
* The target record type `T` is seen by the code only through `reflect`: it is modelled by what
  `reflect.TypeOf(*new(T))` exposes (kind, and for each field its name, kind, `esnsi` tag and
  package path, which is empty exactly for an exported field).
  A record value is the list of its field values, in declaration order. The methods
  `SetString` and `SetInt` of a field value panic on an unexported field (`reflectSet`); the
  predicate `taggedExported` says that no tagged field is unexported, as is the case for the
  record types of the repository.
* Go `error` values are `GoError`; `fmt.Errorf` with a `%w` verb keeps the wrapped error, with
  a `%v` verb it keeps the text only.
* The handler is a Go closure: besides the record it may read and write the classifier being
  decoded and any state of its own, so it is modelled as a function on that state.
  It may also hold its decoder and call `WithHandler` on it: `unmarshal` reads the field
  `handler` anew for every record, so a call that sets it to nil makes the loop append the
  records that follow; the result of a handler call says whether the handler is still set
  (`keepsHandler`), and `handlerStaysSet` is the predicate that it always is.
  The list `calls` of a decoder state is a trace of the records passed to the handler, in order.
  The callback of `SimpleClassifier.Unmarshal` is a closure in the same way, over the slice
  behind `dst` and state of its own; the list `calls` of its state is a trace of the calls.
* Go `int` values are unbounded integers: the decoder performs no arithmetic on them.
* A compiled `regexp` pattern is a term of the type `Regex`, written after the pattern text,
  with a matcher that follows the rules of Go regular expressions without flags.
* Strings are sequences of characters. `ParseCode` and the handler of `NewSfr` take lengths
  and slices only of codes that hold ASCII digits once they have passed the pattern, so bytes
  and characters agree. The run-time checks of a slice expression and of `strings.Repeat`
  are modelled apart, by `goSliceChecked` and `goRepeatChecked`, where `none` is the panic.
* A pointer to a record that an index map holds while the record is still written to is
  modelled as a number: the number of the handler call whose variable it points to (`NewSfr`),
  or the index of the element of `Records` it points to (`NewSfrCo`). A nil slice and an empty
  slice are both the empty list.
-/

namespace Esnsi

/-! ## reflect kinds and Go errors -/

/-- The kinds of `reflect.Kind`. -/
inductive Kind where
  | Invalid | Bool | Int | Int8 | Int16 | Int32 | Int64
  | Uint | Uint8 | Uint16 | Uint32 | Uint64 | Uintptr
  | Float32 | Float64 | Complex64 | Complex128
  | Array | Chan | Func | Interface | Map | Pointer | Slice | String | Struct | UnsafePointer
  deriving DecidableEq, Repr

/-- The text `reflect.Kind.String()` prints for a kind (what `%s` prints for it). -/
def kindString (k : Kind) : String :=
  match k with
  | .Invalid => "invalid" | .Bool => "bool" | .Int => "int" | .Int8 => "int8"
  | .Int16 => "int16" | .Int32 => "int32" | .Int64 => "int64"
  | .Uint => "uint" | .Uint8 => "uint8" | .Uint16 => "uint16" | .Uint32 => "uint32"
  | .Uint64 => "uint64" | .Uintptr => "uintptr"
  | .Float32 => "float32" | .Float64 => "float64"
  | .Complex64 => "complex64" | .Complex128 => "complex128"
  | .Array => "array" | .Chan => "chan" | .Func => "func" | .Interface => "interface"
  | .Map => "map" | .Pointer => "ptr" | .Slice => "slice" | .String => "string"
  | .Struct => "struct" | .UnsafePointer => "unsafe.Pointer"

/-- A Go `error` value: `new msg` is an error made without `%w`, `wrap msg err` one made by
`fmt.Errorf` with a `%w` verb for `err` (`msg` is the complete formatted text). -/
inductive GoError where
  | new (msg : String)
  | wrap (msg : String) (err : GoError)
  deriving DecidableEq, Repr

/-- The method `Error()` of a Go error: its message. -/
def GoError.Error : GoError → String
  | .new msg => msg
  | .wrap msg _ => msg

/-- The error directly wrapped by an error (`errors.Unwrap`). -/
def GoError.Unwrap : GoError → Option GoError
  | .new _ => none
  | .wrap _ err => some err

/-- How a call ends abnormally: by returning a non-nil error or by a run-time panic. -/
inductive Fail where
  | err (e : GoError)
  | panic (msg : String)
  deriving DecidableEq, Repr

/-- How a call of `Decode` or `unmarshal` ends: it returns an `error` value (`none` is `nil`)
or it panics. -/
inductive Result where
  | ret (err : Option GoError)
  | panic (msg : String)
  deriving DecidableEq, Repr

/-- The way a failed step ends the whole call. -/
def Fail.toResult : Fail → Result
  | .err e => .ret (some e)
  | .panic msg => .panic msg

/-! ## Go maps with string keys -/

/-- The assignment `m[k] = v`. -/
def mapSet {α : Type} (m : List (String × α)) (k : String) (v : α) : List (String × α) :=
  (k, v) :: m

/-- The lookup `v, ok := m[k]`. -/
def mapGet {α : Type} : List (String × α) → String → Option α
  | [], _ => none
  | (k1, v) :: m, k => if k1 = k then some v else mapGet m k

/-! ## cnsi.go: the parsed document -/

/-- The type `cnsiStringAttr`: a string or text attribute definition. -/
structure cnsiStringAttr where
  UID : String
  Name : String
  deriving DecidableEq, Repr

/-- The type `cnsiIntegerAttr`: an integer attribute definition. -/
structure cnsiIntegerAttr where
  UID : String
  Name : String
  deriving DecidableEq, Repr

/-- The type `cnsiMeta`: the metadata block `simple-classifier`. -/
structure cnsiMeta where
  Name : String
  Code : String
  UID : String
  Version : Int
  StringAttrs : List cnsiStringAttr
  TextAttrs : List cnsiStringAttr
  IntegerAttrs : List cnsiIntegerAttr
  deriving DecidableEq, Repr

/-- The type `cnsiIntegerVal`. -/
structure cnsiIntegerVal where
  Val : Int
  deriving DecidableEq, Repr

/-- The type `cnsiStringVal`. -/
structure cnsiStringVal where
  Val : String
  deriving DecidableEq, Repr

/-- The type `cnsiAttrVal`: one pair of a record; a nil payload pointer is `none`. -/
structure cnsiAttrVal where
  AttrRef : String
  IntegerVal : Option cnsiIntegerVal
  TextVal : Option cnsiStringVal
  StringVal : Option cnsiStringVal
  deriving DecidableEq, Repr

/-- The type `cnsiRecord`. -/
structure cnsiRecord where
  UID : String
  AttrVals : List cnsiAttrVal
  deriving DecidableEq, Repr

/-- The type `cnsiDoc` (its `XMLName` is used by the XML parser only). -/
structure cnsiDoc where
  Meta : cnsiMeta
  Records : List cnsiRecord
  deriving DecidableEq, Repr

/-! ## The target record type and its values -/

/-- What the decoder reads of a `reflect.StructField`: `Name`, `Type.Kind()` and
`Tag.Get("esnsi")` (empty when the field has no such tag); and `PkgPath`, which `reflect`
leaves empty for an exported field and sets to the package path for an unexported one: the
`Set...` methods of `reflect.Value` panic on a field with a non-empty `PkgPath`. -/
structure StructField where
  Name : String
  Kind : Esnsi.Kind
  Tag : String
  PkgPath : String
  deriving DecidableEq, Repr

/-- What the decoder reads of the `reflect.Type` of `*new(T)`: its kind and, for a struct,
its fields in declaration order. -/
structure RType where
  Kind : Esnsi.Kind
  Fields : List StructField
  deriving DecidableEq, Repr

/-- The value held by one field of a record: a string, an int, a slice of strings (a field of
type `[]string` that has been assigned), or the untouched zero value of a field of another
kind. -/
inductive Value where
  | str (s : String)
  | int (n : Int)
  | strs (l : List String)
  | zero (k : Kind)
  deriving DecidableEq, Repr

/-- A value of the record type `T`: its field values in declaration order. -/
abbrev Record := List Value

/-- The zero value of a field of kind `k`. -/
def zeroValue (k : Kind) : Value :=
  match k with
  | .String => .str ""
  | .Int => .int 0
  | k => .zero k

/-- The declaration `var record T`: every field holds its zero value. -/
def zeroRecord (typ : RType) : Record :=
  typ.Fields.map (fun f => zeroValue f.Kind)

/-! ## classifier.go and the decoder state -/

/-- The type `Classifier[T]`. -/
structure Classifier where
  Name : String
  Code : String
  UID : String
  Version : Int
  Records : List Record
  deriving DecidableEq, Repr

/-- What a handler call leaves behind: its returned error (`none` is `nil`), the classifier,
the state the closure captured, and whether the field `handler` of the decoder is still set:
a closure over the decoder can call `d.WithHandler(nil)`, and `unmarshal` reads `d.handler`
anew for every record. -/
structure HandlerResult (σ : Type) where
  err : Option GoError
  c : Classifier
  env : σ
  keepsHandler : Bool := true

/-- A handler `func(*T) error`, a closure over the classifier being decoded, over the decoder
and over state of its own of type `σ`. What it writes through the record pointer is not read
back by the decoder, which drops the record after the call. A call that replaces the
decoder's handler by another closure is a handler whose behaviour depends on its state; only
the replacement by nil changes what the decoder does, and is recorded in the result. -/
abbrev Handler (σ : Type) := Record → Classifier → σ → HandlerResult σ

/-- The type `Decoder[T]`: the reader (`none` when nil) and the handler (`none` when nil). -/
structure Decoder (ρ σ : Type) where
  r : Option ρ
  handler : Option (Handler σ)

/-- The mutable state during `unmarshal`: the classifier behind the pointer `c`, the state
captured by the handler, and the trace of the records passed to the handler so far. -/
structure UState (σ : Type) where
  c : Classifier
  env : σ
  calls : List Record

/-- What a call of `Decode` leaves behind: how it ended, the classifier behind the pointer
(`none` when the pointer is nil), the reader, the handler state and the handler trace. -/
structure Outcome (ρ σ : Type) where
  result : Result
  c : Option Classifier
  r : Option ρ
  env : σ
  calls : List Record

/-! ## decoder.go -/

/-- The function `NewDecoder`. -/
def NewDecoder {ρ σ : Type} (r : Option ρ) : Decoder ρ σ :=
  { r := r, handler := none }

/-- The method `WithHandler`. -/
def Decoder.WithHandler {ρ σ : Type} (d : Decoder ρ σ) (h : Option (Handler σ)) : Decoder ρ σ :=
  { d with handler := h }

/-- One of the first two loops of `unmarshal`: index the string (or text) attributes. -/
def indexStringAttrs :
    List cnsiStringAttr → List (String × String) × List (String × Kind) →
      List (String × String) × List (String × Kind)
  | [], maps => maps
  | attr :: attrs, (attrNameToRef, attrRefToKind) =>
    indexStringAttrs attrs
      (mapSet attrNameToRef attr.Name attr.UID, mapSet attrRefToKind attr.UID Kind.String)

/-- The third loop of `unmarshal`: index the integer attributes. -/
def indexIntegerAttrs :
    List cnsiIntegerAttr → List (String × String) × List (String × Kind) →
      List (String × String) × List (String × Kind)
  | [], maps => maps
  | attr :: attrs, (attrNameToRef, attrRefToKind) =>
    indexIntegerAttrs attrs
      (mapSet attrNameToRef attr.Name attr.UID, mapSet attrRefToKind attr.UID Kind.Int)

/-- The attribute indexes `attrNameToRef` and `attrRefToKind` built at the start of
`unmarshal`: string attributes, then text attributes, then integer attributes. -/
def attrIndexes (m : cnsiMeta) : List (String × String) × List (String × Kind) :=
  indexIntegerAttrs m.IntegerAttrs
    (indexStringAttrs m.TextAttrs (indexStringAttrs m.StringAttrs ([], [])))

/-- The body of the field loop of `unmarshal` for one field: `ok none` when the field has no
`esnsi` tag (`continue`), `ok (some uid)` when it passes and is to be bound to the reference
`uid`, and the returned error otherwise. -/
def checkField (attrNameToRef : List (String × String)) (attrRefToKind : List (String × Kind))
    (field : StructField) : Except GoError (Option String) :=
  let attrName := field.Tag
  if attrName = "" then .ok none
  else
    match mapGet attrNameToRef attrName with
    | none => .error (.new ("attribute " ++ attrName ++ " not found in classifier"))
    | some uid =>
      match mapGet attrRefToKind uid with
      | none =>
        .error (.new ("attribute " ++ attrName ++ " with Ref " ++ uid ++
          " not found in classifier"))
      | some kind =>
        if field.Kind ≠ kind then
          .error (.new ("field " ++ field.Name ++ " has type " ++ kindString field.Kind ++
            ", expected " ++ kindString kind ++ " for attribute " ++ attrName ++
            " with Ref " ++ uid))
        else .ok (some uid)

/-- The field loop of `unmarshal` (the pre-flight check) from field number `i` on, the fields
still to visit being `fields`: it returns the first error, or the index `fieldRefToIndex`. -/
def fieldLoop (attrNameToRef : List (String × String)) (attrRefToKind : List (String × Kind)) :
    List StructField → Nat → List (String × Nat) → Except GoError (List (String × Nat))
  | [], _, fieldRefToIndex => .ok fieldRefToIndex
  | field :: fields, i, fieldRefToIndex =>
    match checkField attrNameToRef attrRefToKind field with
    | .error e => .error e
    | .ok none => fieldLoop attrNameToRef attrRefToKind fields (i + 1) fieldRefToIndex
    | .ok (some uid) =>
      fieldLoop attrNameToRef attrRefToKind fields (i + 1) (mapSet fieldRefToIndex uid i)

/-- The pre-flight check of `unmarshal` on a document's metadata and a record type. -/
def preflight (typ : RType) (m : cnsiMeta) : Except GoError (List (String × Nat)) :=
  fieldLoop (attrIndexes m).1 (attrIndexes m).2 typ.Fields 0 []

/-- The methods `SetString` and `SetInt` of `reflect.Value` on field number `fieldIndex` of
the record `val`: the field is set, unless it is unexported, on which the method panics. -/
def reflectSet (method : String) (field : StructField) (val : Record) (fieldIndex : Nat)
    (x : Value) : Except Fail Record :=
  if field.PkgPath ≠ "" then
    .error (.panic ("reflect: reflect.Value." ++ method ++
      " using value obtained using unexported field"))
  else .ok (val.set fieldIndex x)

/-- The body of the inner loop of `unmarshal`: one pair `attrVal` applied to the record `val`
under construction. -/
def setAttrVal (typ : RType) (fieldRefToIndex : List (String × Nat)) (attrVal : cnsiAttrVal)
    (val : Record) : Except Fail Record :=
  match mapGet fieldRefToIndex attrVal.AttrRef with
  | none => .ok val
  | some fieldIndex =>
    match typ.Fields.get? fieldIndex with
    | none => .error (.panic "reflect: Field index out of range")
    | some field =>
      match field.Kind with
      | .String =>
        match attrVal.StringVal with
        | some s => reflectSet "SetString" field val fieldIndex (.str s.Val)
        | none =>
          match attrVal.TextVal with
          | some t => reflectSet "SetString" field val fieldIndex (.str t.Val)
          | none =>
            .error (.err (.new ("string value for attribute " ++ attrVal.AttrRef ++
              " is not set")))
      | .Int =>
        match attrVal.IntegerVal with
        | some n => reflectSet "SetInt" field val fieldIndex (.int n.Val)
        | none =>
          .error (.err (.new ("integer value for attribute " ++ attrVal.AttrRef ++
            " is not set")))
      | k => .error (.err (.new ("unsupported field type: " ++ kindString k)))

/-- The inner loop of `unmarshal` over the pairs of one record. -/
def setAttrVals (typ : RType) (fieldRefToIndex : List (String × Nat)) :
    List cnsiAttrVal → Record → Except Fail Record
  | [], val => .ok val
  | attrVal :: attrVals, val =>
    match setAttrVal typ fieldRefToIndex attrVal val with
    | .error f => .error f
    | .ok val1 => setAttrVals typ fieldRefToIndex attrVals val1

/-- The decoding of one document record: a fresh zero record filled by the record's pairs. -/
def decodeRecord (typ : RType) (fieldRefToIndex : List (String × Nat)) (docRecord : cnsiRecord) :
    Except Fail Record :=
  setAttrVals typ fieldRefToIndex docRecord.AttrVals (zeroRecord typ)

/-- The record loop of `unmarshal` from record number `i` on. The argument `handler` is the
field `d.handler` as it stands when record number `i` is reached: the loop reads it for
every record, and a handler call can have set it to nil. -/
def recordLoop {σ : Type} (handler : Option (Handler σ)) (typ : RType)
    (fieldRefToIndex : List (String × Nat)) :
    List cnsiRecord → Nat → UState σ → Result × UState σ
  | [], _, s => (.ret none, s)
  | docRecord :: docRecords, i, s =>
    match decodeRecord typ fieldRefToIndex docRecord with
    | .error f => (f.toResult, s)
    | .ok record =>
      match handler with
      | none =>
        recordLoop handler typ fieldRefToIndex docRecords (i + 1)
          { s with c := { s.c with Records := s.c.Records ++ [record] } }
      | some h =>
        let hr := h record s.c s.env
        let s1 : UState σ := { c := hr.c, env := hr.env, calls := s.calls ++ [record] }
        match hr.err with
        | some err =>
          (.ret (some (.wrap ("handler error at record " ++ toString i ++ ": " ++ err.Error)
            err)), s1)
        | none =>
          recordLoop (if hr.keepsHandler then handler else none) typ fieldRefToIndex docRecords
            (i + 1) s1

/-- The method `unmarshal`, for a record type that is a struct. -/
def Decoder.unmarshal {ρ σ : Type} (d : Decoder ρ σ) (typ : RType) (c : Classifier)
    (doc : cnsiDoc) (env : σ) : Result × UState σ :=
  match preflight typ doc.Meta with
  | .error e => (.ret (some e), { c := c, env := env, calls := [] })
  | .ok fieldRefToIndex =>
    let c1 : Classifier :=
      { c with Name := doc.Meta.Name, Code := doc.Meta.Code, UID := doc.Meta.UID,
               Version := doc.Meta.Version }
    let c2 : Classifier := if d.handler.isSome then { c1 with Records := [] } else c1
    recordLoop d.handler typ fieldRefToIndex doc.Records 0 { c := c2, env := env, calls := [] }

/-- The method `Decode`. The argument `xmlDecode` stands for `xml.NewDecoder(r).Decode(doc)`:
it gives the parsed document or the parser's error, and the reader after the read. The
argument `T` is `reflect.TypeOf(*new(T))`, `none` when that is the nil `reflect.Type` (an
interface type `T`), on which the call of `Kind` panics. -/
def Decoder.Decode {ρ σ : Type} (xmlDecode : ρ → Except GoError cnsiDoc × ρ) (T : Option RType)
    (d : Decoder ρ σ) (c : Option Classifier) (env : σ) : Outcome ρ σ :=
  match c with
  | none =>
    { result := .ret (some (.new "nil pointer passed")), c := none, r := d.r, env := env,
      calls := [] }
  | some c0 =>
    match T with
    | none =>
      { result := .panic "invalid memory address or nil pointer dereference", c := some c0,
        r := d.r, env := env, calls := [] }
    | some typeOf =>
      if typeOf.Kind ≠ Kind.Struct then
        { result := .ret (some (.new ("struct type expected, got " ++ kindString typeOf.Kind))),
          c := some c0, r := d.r, env := env, calls := [] }
      else
        match d.r with
        | none =>
          { result := .ret (some (.new "reader is nil")), c := some c0, r := none, env := env,
            calls := [] }
        | some r =>
          match xmlDecode r with
          | (.error err, r1) =>
            { result := .ret (some (.wrap ("failed to decode XML: " ++ err.Error) err)),
              c := some c0, r := some r1, env := env, calls := [] }
          | (.ok doc, r1) =>
            let out := d.unmarshal typeOf c0 doc env
            { result := out.1, c := some out.2.c, r := some r1, env := out.2.env,
              calls := out.2.calls }

/-! ## Declarative views used to state the properties -/

/-- The attribute definitions of a schema as triples (name, reference id, declared kind), in
the order in which `unmarshal` indexes them: string attributes and text attributes are
declared with kind string, integer attributes with kind int. -/
def declaredAttrs (m : cnsiMeta) : List (String × String × Kind) :=
  m.StringAttrs.map (fun a => (a.Name, a.UID, Kind.String)) ++
    (m.TextAttrs.map (fun a => (a.Name, a.UID, Kind.String)) ++
      m.IntegerAttrs.map (fun a => (a.Name, a.UID, Kind.Int)))

/-- The attribute a tag `name` is bound to among the declarations `attrs`: the last
declaration of that name, given by its reference id and its declared kind. -/
def boundAttr (name : String) : List (String × String × Kind) → Option (String × Kind)
  | [] => none
  | (n, uid, k) :: attrs =>
    match boundAttr name attrs with
    | some b => some b
    | none => if n = name then some (uid, k) else none

/-- The three index loops of `unmarshal` seen as one loop over the declarations. -/
def indexAttrs :
    List (String × String × Kind) → List (String × String) × List (String × Kind) →
      List (String × String) × List (String × Kind)
  | [], maps => maps
  | (n, uid, k) :: attrs, (attrNameToRef, attrRefToKind) =>
    indexAttrs attrs (mapSet attrNameToRef n uid, mapSet attrRefToKind uid k)

/-- Whether a pair is bound to a field by the field index. -/
def boundPair (fieldRefToIndex : List (String × Nat)) (attrVal : cnsiAttrVal) : Bool :=
  (mapGet fieldRefToIndex attrVal.AttrRef).isSome

/-- A document with every pair deleted whose reference the field index binds to no field. -/
def dropUnbound (fieldRefToIndex : List (String × Nat)) (doc : cnsiDoc) : cnsiDoc :=
  { doc with
    Records := doc.Records.map
      (fun r => { r with AttrVals := r.AttrVals.filter (boundPair fieldRefToIndex) }) }

/-- The decodings of the document records that come before the first record whose decoding
fails (of all records when none fails), in source order. -/
def decodedPrefix (typ : RType) (fieldRefToIndex : List (String × Nat)) :
    List cnsiRecord → List Record
  | [] => []
  | docRecord :: docRecords =>
    match decodeRecord typ fieldRefToIndex docRecord with
    | .error _ => []
    | .ok record => record :: decodedPrefix typ fieldRefToIndex docRecords

/-- Whether the payload of a pair fits the field the pair is bound to: an integer payload for
an int field, a string or a text payload for a string field (nothing is asked of a pair that
is bound to no field). -/
def payloadFits (typ : RType) (fieldRefToIndex : List (String × Nat)) (attrVal : cnsiAttrVal) :
    Bool :=
  match mapGet fieldRefToIndex attrVal.AttrRef with
  | none => true
  | some fieldIndex =>
    match typ.Fields.get? fieldIndex with
    | none => true
    | some field =>
      match field.Kind with
      | .Int => attrVal.IntegerVal.isSome
      | .String => attrVal.StringVal.isSome || attrVal.TextVal.isSome
      | _ => true

/-- The field index in force while the records are decoded: the one built by the pre-flight
check, and the empty one (no field bound) when that check fails. -/
def fieldIndex (typ : RType) (m : cnsiMeta) : List (String × Nat) :=
  match preflight typ m with
  | .ok fieldRefToIndex => fieldRefToIndex
  | .error _ => []

/-- The effect on the classifier and on the handler state of calling the handler on the
records `recs` one after the other. -/
def replayHandler {σ : Type} (h : Handler σ) : List Record → Classifier → σ → Classifier × σ
  | [], c, env => (c, env)
  | rec :: recs, c, env => replayHandler h recs (h rec c env).c (h rec c env).env

/-- The records a call of `Decode` produced, read off its outcome: with a handler, the records
passed to the handler; without one, the records appended to the `Records` the classifier
`c0` held before the call. -/
def producedRecords {ρ σ : Type} (handler : Option (Handler σ)) (c0 : Classifier)
    (o : Outcome ρ σ) : List Record :=
  match handler with
  | some _ => o.calls
  | none =>
    match o.c with
    | some c => c.Records.drop c0.Records.length
    | none => []

/-- Every field of the record type that carries an `esnsi` tag is exported, so that
`reflect` can set it. -/
def taggedExported (typ : RType) : Prop :=
  ∀ f ∈ typ.Fields, f.Tag ≠ "" → f.PkgPath = ""

instance (typ : RType) : Decidable (taggedExported typ) := by
  unfold taggedExported
  exact inferInstance

/-- The handler leaves the field `handler` of the decoder set, whatever it is called on. -/
def handlerStaysSet {σ : Type} (h : Handler σ) : Prop :=
  ∀ rec c env, (h rec c env).keepsHandler = true

/-! ## Sample inputs -/

/-- A record type shaped like `testRecord` of the tests: three tagged fields and one untagged
field. -/
def sampleType : RType :=
  { Kind := Kind.Struct,
    Fields := [⟨"ToSfrCode", Kind.String, "ToSfrCode", ""⟩, ⟨"RegionName", Kind.String, "RegionName", ""⟩,
      ⟨"OfficeType", Kind.Int, "OfficeType", ""⟩, ⟨"TestField", Kind.String, "", ""⟩] }

/-- A schema with one string, one text and one integer attribute. -/
def sampleMeta : cnsiMeta :=
  { Name := "Test classifier", Code := "TestClassifier", UID := "2fad55ce", Version := 55,
    StringAttrs := [⟨"ref-code", "ToSfrCode"⟩], TextAttrs := [⟨"ref-name", "RegionName"⟩],
    IntegerAttrs := [⟨"ref-type", "OfficeType"⟩] }

/-- A complete record: a string, a text and an integer pair, and a pair no field is bound to
that carries no payload. -/
def sampleRecord : cnsiRecord :=
  { UID := "r0",
    AttrVals := [⟨"ref-code", none, none, some ⟨"210"⟩⟩, ⟨"ref-other", none, none, none⟩,
      ⟨"ref-name", none, some ⟨"Tatarstan"⟩, none⟩, ⟨"ref-type", some ⟨2⟩, none, none⟩] }

/-- A record with a code pair only. -/
def shortRecord : cnsiRecord :=
  { UID := "r1", AttrVals := [⟨"ref-code", none, none, some ⟨"201"⟩⟩] }

/-- A record whose integer pair carries a string payload instead of an integer payload. -/
def brokenRecord : cnsiRecord :=
  { UID := "r2",
    AttrVals := [⟨"ref-code", none, none, some ⟨"059"⟩⟩, ⟨"ref-type", none, none, some ⟨"2"⟩⟩] }

/-- A document whose records all decode. -/
def sampleDoc : cnsiDoc := { Meta := sampleMeta, Records := [sampleRecord, shortRecord] }

/-- A document whose second record fails to decode. -/
def brokenDoc : cnsiDoc :=
  { Meta := sampleMeta, Records := [sampleRecord, brokenRecord, shortRecord] }

/-- The empty classifier `&Classifier[T]{}`. -/
def emptyClassifier : Classifier := { Name := "", Code := "", UID := "", Version := 0, Records := [] }

/-- A parser for a reader counted in read calls: it yields the given document. -/
def parseAs (doc : cnsiDoc) (r : Nat) : Except GoError cnsiDoc × Nat := (.ok doc, r + 1)

/-- A handler that keeps every record in a list of its own and leaves the classifier alone. -/
def collectHandler : Handler (List Record) :=
  fun rec c env => { err := none, c := c, env := env ++ [rec] }

/-- A schema in which a string attribute and an integer attribute share one reference id. -/
def clashMeta : cnsiMeta :=
  { Name := "Clash", Code := "Clash", UID := "c1a5", Version := 1,
    StringAttrs := [⟨"ref-1", "Code"⟩], TextAttrs := [], IntegerAttrs := [⟨"ref-1", "Count"⟩] }

/-- A document over the clashing schema with one record. -/
def clashDoc : cnsiDoc :=
  { Meta := clashMeta, Records := [⟨"r0", [⟨"ref-1", some ⟨5⟩, none, none⟩]⟩] }

/-- A record type with an int field bound to the string attribute of the clashing schema. -/
def clashType : RType := { Kind := Kind.Struct, Fields := [⟨"Code", Kind.Int, "Code", ""⟩] }

/-- A record type shaped like `testWrongFieldTypeRecord` of the tests: a string field bound to
an integer attribute. -/
def wrongKindType : RType :=
  { Kind := Kind.Struct, Fields := [⟨"OfficeType", Kind.String, "OfficeType", ""⟩] }

/-- A record type whose second field names an attribute the sample schema does not declare. -/
def unknownAttrType : RType :=
  { Kind := Kind.Struct,
    Fields := [⟨"ToSfrCode", Kind.String, "ToSfrCode", ""⟩, ⟨"RegionName", Kind.String, "RegionTitle", ""⟩] }

/-- A record type with two int fields and two string fields, each bound to an attribute. -/
def pairsType : RType :=
  { Kind := Kind.Struct,
    Fields := [⟨"Low", Kind.Int, "Low", ""⟩, ⟨"High", Kind.Int, "High", ""⟩,
      ⟨"First", Kind.String, "First", ""⟩, ⟨"Second", Kind.String, "Second", ""⟩] }

/-- The schema of the record type `pairsType`. -/
def pairsMeta : cnsiMeta :=
  { Name := "Pairs", Code := "Pairs", UID := "9a1b", Version := 3,
    StringAttrs := [⟨"ref-first", "First"⟩, ⟨"ref-second", "Second"⟩], TextAttrs := [],
    IntegerAttrs := [⟨"ref-low", "Low"⟩, ⟨"ref-high", "High"⟩] }

/-- A document whose only record has two integer pairs without an integer payload. -/
def twoBadIntsDoc : cnsiDoc :=
  { Meta := pairsMeta,
    Records := [⟨"r0", [⟨"ref-low", none, none, none⟩, ⟨"ref-high", none, none, none⟩]⟩] }

/-- A document whose only record has two string pairs without a string or text payload, the
second with an integer payload. -/
def twoBadStringsDoc : cnsiDoc :=
  { Meta := pairsMeta,
    Records := [⟨"r0", [⟨"ref-first", none, none, none⟩, ⟨"ref-second", some ⟨7⟩, none, none⟩]⟩] }

/-- The decoder `NewDecoder[T](r)` on a fresh reader, without a handler. -/
def plainDecoder : Decoder Nat Unit := NewDecoder (some 0)

/-- The decoder `NewDecoder[T](r).WithHandler(h)` on a fresh reader, with the collecting
handler. -/
def collectingDecoder : Decoder Nat (List Record) :=
  (NewDecoder (some 0)).WithHandler (some collectHandler)

/-- The integer pair of the broken record: a string payload and no integer payload. -/
def typePairWithoutInteger : cnsiAttrVal := ⟨"ref-type", none, none, some ⟨"2"⟩⟩

/-- A string pair that carries an integer payload only. -/
def codePairWithoutString : cnsiAttrVal := ⟨"ref-code", some ⟨210⟩, none, none⟩

/-- A document whose second record has a code pair without string and text payload. -/
def codelessDoc : cnsiDoc :=
  { Meta := sampleMeta, Records := [sampleRecord, ⟨"r3", [codePairWithoutString]⟩] }

/-- A parser for readers that hold an already parsed document and count the reads. -/
def parseHeld (r : cnsiDoc × Nat) : Except GoError cnsiDoc × (cnsiDoc × Nat) :=
  (.ok r.1, (r.1, r.2 + 1))

/-- A handler like the one of the test `handler error`: it returns an error on the record
whose first field is `201` and collects every other record. -/
def rejectHandler : Handler (List Record) :=
  fun rec c env =>
    if rec.get? 0 = some (.str "201") then
      { err := some (.new "handler error for record 201"), c := c, env := env }
    else { err := none, c := c, env := env ++ [rec] }

/-- A handler that collects the record it is given and sets the handler of its decoder to
nil: a closure over its decoder `d` with the body `d.WithHandler(nil); return nil`. -/
def clearingHandler : Handler (List Record) :=
  fun rec c env => { err := none, c := c, env := env ++ [rec], keepsHandler := false }

/-- A record type like `sampleType` whose first field is unexported: `toSfrCode string` with
the tag `esnsi:"ToSfrCode"`, declared in package `main`. -/
def hiddenFieldType : RType :=
  { Kind := Kind.Struct,
    Fields := [⟨"toSfrCode", Kind.String, "ToSfrCode", "main"⟩,
      ⟨"RegionName", Kind.String, "RegionName", ""⟩, ⟨"OfficeType", Kind.Int, "OfficeType", ""⟩,
      ⟨"TestField", Kind.String, "", ""⟩] }

/-- A record type like `sampleType` whose int field is unexported: `officeType int` with the
tag `esnsi:"OfficeType"`, declared in package `main`. -/
def hiddenIntType : RType :=
  { Kind := Kind.Struct,
    Fields := [⟨"ToSfrCode", Kind.String, "ToSfrCode", ""⟩,
      ⟨"RegionName", Kind.String, "RegionName", ""⟩, ⟨"officeType", Kind.Int, "OfficeType", "main"⟩,
      ⟨"TestField", Kind.String, "", ""⟩] }

/-- A handler that overwrites the name of the classifier it is decoding into. -/
def renameHandler : Handler Unit :=
  fun _ c env => { err := none, c := { c with Name := "renamed" }, env := env }

/-! ## regexp: the fragment of Go regular expressions used by package classifiers -/

/-- The syntax of the regular expressions the classifiers compile: `^` (`bot`), `$` (`eot`),
`\d` (`digit`), a literal character, concatenation and `?`; `eps` matches the empty string.
A counted repetition `x{n}` is the n-fold concatenation `Regex.times n x`. -/
inductive Regex where
  | bot
  | eot
  | digit
  | lit (c : Char)
  | eps
  | seq (a b : Regex)
  | opt (a : Regex)
  deriving DecidableEq, Repr

/-- The repetition `x{n}`. -/
def Regex.times : Nat → Regex → Regex
  | 0, _ => .eps
  | n + 1, x => .seq x (Regex.times n x)

/-- Whether the expression matches a prefix of the text `s` such that the continuation `k`
accepts what follows. The flag `atStart` tells whether `s` starts at the beginning of the
whole text; `k` receives the flag and the text left after the match. Without flags `^`
matches at the beginning of the text only, `$` at its end only, and `\d` an ASCII digit. -/
def Regex.matchK : Regex → Bool → List Char → (Bool → List Char → Bool) → Bool
  | .bot, atStart, s, k => atStart && k atStart s
  | .eot, atStart, s, k => s.isEmpty && k atStart s
  | .digit, _, [], _ => false
  | .digit, _, c :: s, k => c.isDigit && k false s
  | .lit _, _, [], _ => false
  | .lit a, _, c :: s, k => (c == a) && k false s
  | .eps, atStart, s, k => k atStart s
  | .seq a b, atStart, s, k => a.matchK atStart s (fun st rest => b.matchK st rest k)
  | .opt a, atStart, s, k => a.matchK atStart s k || k atStart s

/-- Whether the expression matches somewhere in the text that starts at `s`. -/
def Regex.searchFrom (re : Regex) : Bool → List Char → Bool
  | atStart, [] => re.matchK atStart [] (fun _ _ => true)
  | atStart, c :: s =>
    re.matchK atStart (c :: s) (fun _ _ => true) || re.searchFrom false s

/-- The method `MatchString`: whether the text contains a match of the expression. -/
def Regex.MatchString (re : Regex) (s : String) : Bool :=
  re.searchFrom true s.data

/-! ## strings: the operations `ParseCode` uses

The strings these operations are applied to consist of ASCII digits, so that a byte of the Go
string is a character of the model: `len` is the number of characters and a slice is taken
by character positions. -/

/-- The Go expression `len(s)`. -/
def goLen (s : String) : Nat := s.length

/-- The Go slice expression `s[lo:hi]`, for `lo ≤ hi ≤ len(s)`. -/
def goSlice (s : String) (lo hi : Nat) : String :=
  String.mk ((s.data.drop lo).take (hi - lo))

/-- The function `strings.Repeat(s, count)`, for `count ≥ 0`. -/
def goRepeat (s : String) (count : Int) : String :=
  String.join (List.replicate count.toNat s)

/-! ## classifiers/okato.go -/

/-- The variable `reValidOkatoC`, compiled from `^\d{2}(\.\d{3}(\.\d{3}(\.\d{3})?)?)?$`. -/
def reValidOkatoC : Regex :=
  .seq .bot (.seq (Regex.times 2 .digit) (.seq
    (.opt (.seq (.lit '.') (.seq (Regex.times 3 .digit)
      (.opt (.seq (.lit '.') (.seq (Regex.times 3 .digit)
        (.opt (.seq (.lit '.') (Regex.times 3 .digit)))))))))
    .eot))

/-- The type `OkatoRecord`. -/
structure OkatoRecord where
  C : String
  K4 : String
  Name : String
  AdditionalData : String
  Code : String
  Code11 : String
  Region : String
  Level1 : String
  Level2 : String
  Level3 : String
  deriving DecidableEq, Repr

/-- The loop of `ParseCode` that appends to `code` every character of `c` other than a dot. -/
def appendNonDots (c : List Char) (code : String) : String :=
  c.foldl (fun acc ch => if ch ≠ '.' then acc ++ String.singleton ch else acc) code

/-- The method `ParseCode`: the record after the call and the returned error. -/
def OkatoRecord.ParseCode (r : OkatoRecord) : OkatoRecord × Option GoError :=
  if !reValidOkatoC.MatchString r.C then
    (r, some (.new ("invalid OKATO code '" ++ r.C ++ "'")))
  else
    let r1 := { r with Code := "" }
    let r2 := { r1 with Code := appendNonDots r1.C.data r1.Code }
    let r3 := { r2 with Code11 := r2.Code ++ goRepeat "0" (11 - (goLen r2.Code : Int)) }
    let r4 := if goLen r3.Code ≥ 2 then { r3 with Region := goSlice r3.Code 0 2 } else r3
    let r5 := if goLen r4.Code ≥ 5 then { r4 with Level1 := goSlice r4.Code 2 5 } else r4
    let r6 := if goLen r5.Code ≥ 8 then { r5 with Level2 := goSlice r5.Code 5 8 } else r5
    let r7 := if goLen r6.Code = 11 then { r6 with Level3 := goSlice r6.Code 8 11 } else r6
    (r7, none)

/-- The record type `OkatoRecord` as `reflect` shows it: four tagged fields followed by the
six fields `ParseCode` fills. -/
def okatoType : RType :=
  { Kind := Kind.Struct,
    Fields := [⟨"C", Kind.String, "Код", ""⟩, ⟨"K4", Kind.String, "КЧ", ""⟩,
      ⟨"Name", Kind.String, "Наименование", ""⟩,
      ⟨"AdditionalData", Kind.String, "Дополнительные данные", ""⟩,
      ⟨"Code", Kind.String, "", ""⟩, ⟨"Code11", Kind.String, "", ""⟩, ⟨"Region", Kind.String, "", ""⟩,
      ⟨"Level1", Kind.String, "", ""⟩, ⟨"Level2", Kind.String, "", ""⟩, ⟨"Level3", Kind.String, "", ""⟩] }

/-- The string held by field number `i` of a record value. -/
def stringField (rec : Record) (i : Nat) : String :=
  match rec.get? i with
  | some (.str s) => s
  | _ => ""

/-- A record value of the decoder read as an `OkatoRecord`. -/
def OkatoRecord.ofRecord (rec : Record) : OkatoRecord :=
  { C := stringField rec 0, K4 := stringField rec 1, Name := stringField rec 2,
    AdditionalData := stringField rec 3, Code := stringField rec 4,
    Code11 := stringField rec 5, Region := stringField rec 6, Level1 := stringField rec 7,
    Level2 := stringField rec 8, Level3 := stringField rec 9 }

/-- An `OkatoRecord` as a record value of the decoder. -/
def OkatoRecord.toRecord (r : OkatoRecord) : Record :=
  [.str r.C, .str r.K4, .str r.Name, .str r.AdditionalData, .str r.Code, .str r.Code11,
    .str r.Region, .str r.Level1, .str r.Level2, .str r.Level3]

/-- The four index maps `NewOkato` declares and its handler fills. The maps of the source hold
pointers to the records passed to the handler; a record is not written again once its
pointer is stored, so the maps of the model hold the records themselves. -/
structure OkatoIndexes where
  byCode : List (String × OkatoRecord)
  byCode11 : List (String × OkatoRecord)
  byRegion : List (String × List OkatoRecord)
  Region : List (String × OkatoRecord)
  deriving DecidableEq, Repr

/-- The type `Okato`: the embedded classifier and the four indexes. -/
structure Okato where
  Classifier : Classifier
  byCode : List (String × OkatoRecord)
  byCode11 : List (String × OkatoRecord)
  byRegion : List (String × List OkatoRecord)
  Region : List (String × OkatoRecord)
  deriving DecidableEq, Repr

/-- The handler `NewOkato` passes to `WithHandler`, a closure over the classifier `c` and the
four index maps. -/
def okatoHandler : Handler OkatoIndexes :=
  fun record c env =>
    let parsed := (OkatoRecord.ofRecord record).ParseCode
    match parsed.2 with
    | some _ => { err := none, c := c, env := env }
    | none =>
      let rec1 := parsed.1
      match mapGet env.byCode rec1.Code with
      | some _ =>
        { err := some (.new ("duplicate OKATO code '" ++ rec1.Code ++ "'")), c := c,
          env := env }
      | none =>
        let byCode := mapSet env.byCode rec1.Code rec1
        let byCode11 := mapSet env.byCode11 rec1.Code11 rec1
        let byRegion := mapSet env.byRegion rec1.Region
          ((mapGet env.byRegion rec1.Region).getD [] ++ [rec1])
        let Region := if goLen rec1.Code = 2 then mapSet env.Region rec1.Code rec1
          else env.Region
        { err := none, c := { c with Records := c.Records ++ [rec1.toRecord] },
          env := { byCode := byCode, byCode11 := byCode11, byRegion := byRegion,
                   Region := Region } }

/-- The function `NewOkato`: the classifier it returns, or the error it returns with a nil
classifier. -/
def NewOkato {ρ : Type} (xmlDecode : ρ → Except GoError cnsiDoc × ρ) (r : Option ρ) :
    Except Fail Okato :=
  let c : Classifier := { Name := "", Code := "", UID := "", Version := 0, Records := [] }
  let o := ((NewDecoder r : Decoder ρ OkatoIndexes).WithHandler (some okatoHandler)).Decode
    xmlDecode (some okatoType) (some c)
    { byCode := [], byCode11 := [], byRegion := [], Region := [] }
  match o.result with
  | .panic msg => .error (.panic msg)
  | .ret (some err) => .error (.err (.wrap ("error decoding: " ++ err.Error) err))
  | .ret none =>
    match o.c with
    | none => .error (.panic "invalid memory address or nil pointer dereference")
    | some c1 =>
      .ok { Classifier := c1, byCode := o.env.byCode, byCode11 := o.env.byCode11,
            byRegion := o.env.byRegion, Region := o.env.Region }

/-! ## Declarative views of the OKATO codes -/

/-- A text made of at most `n` groups, each a dot followed by three ASCII digits. -/
def DotGroups (n : Nat) (t : List Char) : Prop :=
  ∃ groups : List (List Char),
    t = (groups.map (fun g => '.' :: g)).flatten ∧ groups.length ≤ n ∧
      ∀ g ∈ groups, g.length = 3 ∧ ∀ ch ∈ g, ch.isDigit = true

/-- A code of one of the four shapes DD, DD.DDD, DD.DDD.DDD, DD.DDD.DDD.DDD: two ASCII digits
followed by at most three groups of a dot and three ASCII digits, and nothing else. -/
def IsDottedCode (s : String) : Prop :=
  ∃ a b t, s.data = a :: b :: t ∧ a.isDigit = true ∧ b.isDigit = true ∧ DotGroups 3 t

/-- What the handler of `NewOkato` keeps of a decoded input record: the record with its parsed
fields filled when its code is valid, nothing otherwise. -/
def keepValidOkato (record : Record) : Option Record :=
  if reValidOkatoC.MatchString (OkatoRecord.ofRecord record).C then
    some (OkatoRecord.ofRecord record).ParseCode.1.toRecord
  else none

/-! ## Sample OKATO inputs -/

/-- The schema of the OKATO classifier: the four attributes `OkatoRecord` binds. -/
def okatoMeta : cnsiMeta :=
  { Name := "OKATO", Code := "classifierOkato", UID := "b8628acb", Version := 7,
    StringAttrs := [⟨"a-code", "Код"⟩, ⟨"a-k4", "КЧ"⟩, ⟨"a-name", "Наименование"⟩,
      ⟨"a-add", "Дополнительные данные"⟩],
    TextAttrs := [], IntegerAttrs := [] }

/-- A document record with the given code and name. -/
def okatoRow (code name : String) : cnsiRecord :=
  { UID := "", AttrVals := [⟨"a-code", none, none, some ⟨code⟩⟩,
      ⟨"a-name", none, none, some ⟨name⟩⟩] }

/-- A document with a region, a record with a malformed code, and a settlement. -/
def okatoDoc : cnsiDoc :=
  { Meta := okatoMeta,
    Records := [okatoRow "01" "Altai", okatoRow ";;classifierOkato_75.249.550" "broken",
      okatoRow "01.201.802.002" "Village"] }

/-- The code with its dots removed. -/
def dotless (c : String) : String := String.mk (c.data.filter (fun ch => ch ≠ '.'))

/-- The record `v` is the parse of one of the decoded input records `inputs`, one whose code
matches the pattern. -/
def parsedFrom (inputs : List Record) (v : OkatoRecord) : Prop :=
  ∃ rec ∈ inputs, reValidOkatoC.MatchString (OkatoRecord.ofRecord rec).C = true ∧
    (OkatoRecord.ofRecord rec).ParseCode = (v, none)

/-- What holds of the classifier and of the indexes of `NewOkato` after the handler has
handled the records `ks` without error: `Records` holds the kept records, and every record
held by an index is the parse of a record of `ks` with a valid code. -/
def okatoInvariant (ks : List Record) (c : Classifier) (env : OkatoIndexes) : Prop :=
  c.Records = ks.filterMap keepValidOkato ∧
    (∀ kv ∈ env.byCode, parsedFrom ks kv.2) ∧
    (∀ kv ∈ env.byCode11, parsedFrom ks kv.2) ∧
    (∀ kv ∈ env.byRegion, ∀ v ∈ kv.2, parsedFrom ks v) ∧
    (∀ kv ∈ env.Region, parsedFrom ks kv.2)

/-- A fresh `OkatoRecord` with the given code. -/
def okatoRecordOf (code : String) : OkatoRecord :=
  { C := code, K4 := "", Name := "", AdditionalData := "", Code := "", Code11 := "",
    Region := "", Level1 := "", Level2 := "", Level3 := "" }

/-! ## strings and regexp: what the SFR classifiers add -/

/-- The function `unicode.IsSpace`: the characters with the Unicode property White_Space. -/
def unicodeIsSpace (c : Char) : Bool :=
  (9 ≤ c.toNat && c.toNat ≤ 13) || c.toNat = 32 || c.toNat = 0x85 || c.toNat = 0xA0 ||
    c.toNat = 0x1680 || (0x2000 ≤ c.toNat && c.toNat ≤ 0x200A) || c.toNat = 0x2028 ||
    c.toNat = 0x2029 || c.toNat = 0x202F || c.toNat = 0x205F || c.toNat = 0x3000

/-- The function `strings.TrimSpace`: the text without its leading and trailing white
space. -/
def stringsTrimSpace (s : String) : String :=
  String.mk ((s.data.dropWhile unicodeIsSpace).reverse.dropWhile unicodeIsSpace).reverse

/-- The pieces of a text between the occurrences of the character `sep`. -/
def splitChars (sep : Char) : List Char → List (List Char)
  | [] => [[]]
  | c :: s =>
    if c = sep then [] :: splitChars sep s
    else
      match splitChars sep s with
      | [] => [[c]]
      | t :: ts => (c :: t) :: ts

/-- The function `strings.Split(s, sep)` for a separator of one character: the pieces of `s`
between the separators, one more than there are separators (one empty piece for an empty
`s`). -/
def stringsSplit (s : String) (sep : Char) : List String :=
  (splitChars sep s.data).map String.mk

/-- The counted repetition `x{0,n}`, compiled as `(x(x(...)?)?)?`. -/
def Regex.atMost : Nat → Regex → Regex
  | 0, _ => .eps
  | n + 1, x => .opt (.seq x (Regex.atMost n x))

/-- The variable `reOKATOPlain`, compiled from `^\d{2,11}$` (declared in `sfr.go` and, with
the same pattern, in `sfr-co.go`). -/
def reOKATOPlain : Regex :=
  .seq .bot (.seq (Regex.times 2 .digit) (.seq (Regex.atMost 9 .digit) .eot))


/-! ## classifiers/sfr.go -/

/-- The type `SfrRecord`. -/
structure SfrRecord where
  COID : Int
  AutoKey : String
  ToSfrCode : String
  RegionCode : String
  RegionName : String
  DivisionCode : String
  OfficeCode : String
  OfficeDistrictName : String
  ToSfrName : String
  OfficeType : Int
  Predecessor : Int
  Address : String
  OKATO : String
  OKATOArea : String
  OKTMO : String
  OKTMOArea : String
  Email : String
  Phone : String
  Latitude : String
  Longitude : String
  WorkingTime : String
  UTC : String
  MSK : Int
  TOFSS : String
  OKATOAreas : List String
  deriving DecidableEq, Repr

/-- The record type `SfrRecord` as `reflect` shows it: twenty-four tagged fields followed by
the untagged field `OKATOAreas` of type `[]string`. -/
def sfrType : RType :=
  { Kind := Kind.Struct,
    Fields := [⟨"COID", Kind.Int, "COID", ""⟩, ⟨"AutoKey", Kind.String, "autokey", ""⟩,
      ⟨"ToSfrCode", Kind.String, "ToSfrCode", ""⟩, ⟨"RegionCode", Kind.String, "RegionCode", ""⟩,
      ⟨"RegionName", Kind.String, "RegionName", ""⟩, ⟨"DivisionCode", Kind.String, "DivisionCode", ""⟩,
      ⟨"OfficeCode", Kind.String, "OfficeCode", ""⟩,
      ⟨"OfficeDistrictName", Kind.String, "OfficeDistrictName", ""⟩,
      ⟨"ToSfrName", Kind.String, "ToSfrName", ""⟩, ⟨"OfficeType", Kind.Int, "OfficeType", ""⟩,
      ⟨"Predecessor", Kind.Int, "Predecessor", ""⟩, ⟨"Address", Kind.String, "Address", ""⟩,
      ⟨"OKATO", Kind.String, "OKATO", ""⟩, ⟨"OKATOArea", Kind.String, "OKATO_Area", ""⟩,
      ⟨"OKTMO", Kind.String, "OKTMO", ""⟩, ⟨"OKTMOArea", Kind.String, "OKTMO_Area", ""⟩,
      ⟨"Email", Kind.String, "Email", ""⟩, ⟨"Phone", Kind.String, "Phone", ""⟩,
      ⟨"Latitude", Kind.String, "Latitude", ""⟩, ⟨"Longitude", Kind.String, "Longitude", ""⟩,
      ⟨"WorkingTime", Kind.String, "WorkingTime", ""⟩, ⟨"UTC", Kind.String, "UTC", ""⟩,
      ⟨"MSK", Kind.Int, "MSK", ""⟩, ⟨"TOFSS", Kind.String, "TOFSS", ""⟩,
      ⟨"OKATOAreas", Kind.Slice, "", ""⟩] }

/-- The int held by field number `i` of a record value. -/
def intField (rec : Record) (i : Nat) : Int :=
  match rec.get? i with
  | some (.int n) => n
  | _ => 0

/-- The slice of strings held by field number `i` of a record value; a nil slice is the empty
list. -/
def stringsField (rec : Record) (i : Nat) : List String :=
  match rec.get? i with
  | some (.strs l) => l
  | _ => []

/-- A record value of the decoder read as an `SfrRecord`. -/
def SfrRecord.ofRecord (rec : Record) : SfrRecord :=
  { COID := intField rec 0, AutoKey := stringField rec 1, ToSfrCode := stringField rec 2,
    RegionCode := stringField rec 3, RegionName := stringField rec 4,
    DivisionCode := stringField rec 5, OfficeCode := stringField rec 6,
    OfficeDistrictName := stringField rec 7, ToSfrName := stringField rec 8,
    OfficeType := intField rec 9, Predecessor := intField rec 10, Address := stringField rec 11,
    OKATO := stringField rec 12, OKATOArea := stringField rec 13, OKTMO := stringField rec 14,
    OKTMOArea := stringField rec 15, Email := stringField rec 16, Phone := stringField rec 17,
    Latitude := stringField rec 18, Longitude := stringField rec 19,
    WorkingTime := stringField rec 20, UTC := stringField rec 21, MSK := intField rec 22,
    TOFSS := stringField rec 23, OKATOAreas := stringsField rec 24 }

/-- An `SfrRecord` as a record value of the decoder. -/
def SfrRecord.toRecord (r : SfrRecord) : Record :=
  [.int r.COID, .str r.AutoKey, .str r.ToSfrCode, .str r.RegionCode, .str r.RegionName,
    .str r.DivisionCode, .str r.OfficeCode, .str r.OfficeDistrictName, .str r.ToSfrName,
    .int r.OfficeType, .int r.Predecessor, .str r.Address, .str r.OKATO, .str r.OKATOArea,
    .str r.OKTMO, .str r.OKTMOArea, .str r.Email, .str r.Phone, .str r.Latitude,
    .str r.Longitude, .str r.WorkingTime, .str r.UTC, .int r.MSK, .str r.TOFSS,
    .strs r.OKATOAreas]

/-- The state the handler of `NewSfr` works on. The handler is given a pointer `rec` to a
fresh record variable on each call and stores that pointer in the index maps while it still
writes to the variable, so the maps of the model hold pointers too: the pointer given to call
number `n` (counted from 0) is the number `n`, and `heap` holds the contents of the variables
of the calls made so far, in order. -/
structure SfrIndexes where
  heap : List SfrRecord
  byOkato : List (String × Nat)
  byOkato11 : List (String × List Nat)
  byOkato8 : List (String × List Nat)
  byOkato5 : List (String × List Nat)
  byOkato2 : List (String × List Nat)
  deriving DecidableEq, Repr

/-- The type `Sfr`: the embedded classifier and the five indexes, with the record variables the
pointers held by the indexes point to. -/
structure Sfr where
  Classifier : Classifier
  ByOkato : List (String × Nat)
  ByOkato11 : List (String × List Nat)
  ByOkato8 : List (String × List Nat)
  ByOkato5 : List (String × List Nat)
  ByOkato2 : List (String × List Nat)
  heap : List SfrRecord
  deriving DecidableEq, Repr

/-- The loop of the handler of `NewSfr` over the pieces `areas` of `OKATOArea`. The pointer
`rec` points to the variable whose contents are `cell`. The result is the error the handler
returns from inside the loop (`none` when the loop ends), the variable and the maps. -/
def sfrAreas (rec : Nat) : List String → SfrRecord → SfrIndexes →
    Option GoError × SfrRecord × SfrIndexes
  | [], cell, env => (none, cell, env)
  | area0 :: areas, cell, env =>
    let area := stringsTrimSpace area0
    if area = "" then sfrAreas rec areas cell env
    else if !reOKATOPlain.MatchString area then
      (some (.new ("invalid OKATO '" ++ area ++ "'")), cell, env)
    else
      let cell1 := { cell with OKATOAreas := cell.OKATOAreas ++ [area] }
      let byOkato := mapSet env.byOkato area rec
      let okato11 := area ++ goRepeat "0" (11 - (goLen area : Int))
      let byOkato11 :=
        match mapGet env.byOkato11 okato11 with
        | some _ => env.byOkato11
        | none => mapSet env.byOkato11 okato11 ((mapGet env.byOkato11 okato11).getD [] ++ [rec])
      let okato8 := goSlice okato11 0 8
      let byOkato8 := mapSet env.byOkato8 okato8 ((mapGet env.byOkato8 okato8).getD [] ++ [rec])
      let okato5 := goSlice okato11 0 5
      let byOkato5 := mapSet env.byOkato5 okato5 ((mapGet env.byOkato5 okato5).getD [] ++ [rec])
      let okato2 := goSlice okato11 0 2
      let byOkato2 := mapSet env.byOkato2 okato2 ((mapGet env.byOkato2 okato2).getD [] ++ [rec])
      sfrAreas rec areas cell1
        { heap := env.heap, byOkato := byOkato, byOkato11 := byOkato11, byOkato8 := byOkato8,
          byOkato5 := byOkato5, byOkato2 := byOkato2 }

/-- The handler `NewSfr` passes to `WithHandler`, a closure over the classifier `c` and the
five index maps. -/
def sfrHandler : Handler SfrIndexes :=
  fun record c env =>
    let areas := stringsSplit (SfrRecord.ofRecord record).OKATOArea ','
    let out := sfrAreas env.heap.length areas (SfrRecord.ofRecord record) env
    match out.1 with
    | some err =>
      { err := some err, c := c, env := { out.2.2 with heap := out.2.2.heap ++ [out.2.1] } }
    | none =>
      { err := none, c := { c with Records := c.Records ++ [out.2.1.toRecord] },
        env := { out.2.2 with heap := out.2.2.heap ++ [out.2.1] } }

/-- The function `NewSfr`: the classifier it returns, or the error it returns with a nil
classifier. -/
def NewSfr {ρ : Type} (xmlDecode : ρ → Except GoError cnsiDoc × ρ) (r : Option ρ) :
    Except Fail Sfr :=
  let c : Classifier := { Name := "", Code := "", UID := "", Version := 0, Records := [] }
  let o := ((NewDecoder r : Decoder ρ SfrIndexes).WithHandler (some sfrHandler)).Decode
    xmlDecode (some sfrType) (some c)
    { heap := [], byOkato := [], byOkato11 := [], byOkato8 := [], byOkato5 := [],
      byOkato2 := [] }
  match o.result with
  | .panic msg => .error (.panic msg)
  | .ret (some err) => .error (.err (.new ("error decoding: " ++ err.Error)))
  | .ret none =>
    match o.c with
    | none => .error (.panic "invalid memory address or nil pointer dereference")
    | some c1 =>
      .ok { Classifier := c1, ByOkato := o.env.byOkato, ByOkato11 := o.env.byOkato11,
            ByOkato8 := o.env.byOkato8, ByOkato5 := o.env.byOkato5,
            ByOkato2 := o.env.byOkato2, heap := o.env.heap }

/-! ## Package cnsi: records.go, meta.go, attributes.go, simple-classifier.go -/

namespace cnsi

/-- The type `StringAttribute`: a string or text attribute definition. -/
structure StringAttribute where
  UID : String
  Name : String
  deriving DecidableEq, Repr

/-- The type `IntegerAttribute`: an integer attribute definition. -/
structure IntegerAttribute where
  UID : String
  Name : String
  deriving DecidableEq, Repr

/-- The type `Attributes`. -/
structure Attributes where
  StringAttributes : List StringAttribute
  TextAttributes : List StringAttribute
  IntegerAttributes : List IntegerAttribute
  deriving DecidableEq, Repr

/-- The type `Meta`. -/
structure Meta where
  Name : String
  Code : String
  UID : String
  Version : Int
  deriving DecidableEq, Repr

/-- The type `IntegerValue`. -/
structure IntegerValue where
  Value : Int
  deriving DecidableEq, Repr

/-- The type `StringValue`. -/
structure StringValue where
  Value : String
  deriving DecidableEq, Repr

/-- The type `AttributeValue`: one pair of a record; a nil payload pointer is `none`. -/
structure AttributeValue where
  AttributeRef : String
  IntegerValue : Option IntegerValue
  TextValue : Option StringValue
  StringValue : Option StringValue
  deriving DecidableEq, Repr

/-- The type `Record` of package cnsi: a record of the document. -/
structure Record where
  UID : String
  AttributeValues : List AttributeValue
  deriving DecidableEq, Repr

/-- The type `SimpleClassifierProperties`: the embedded `Meta` and `Attributes`. -/
structure SimpleClassifierProperties where
  Meta : Meta
  Attributes : Attributes
  deriving DecidableEq, Repr

/-- The type `SimpleClassifier` (its `XMLName` is used by the XML parser only; `PFRF` holds the
records of the field `PFRF.Records`). -/
structure SimpleClassifier where
  Properties : SimpleClassifierProperties
  Records : List Record
  PFRF : List Record
  deriving DecidableEq, Repr

/-- The method `indexes`: the maps `nameToUID` and `UIDToKind`, filled from the string
attributes, then the text attributes, then the integer attributes. -/
def Attributes.indexes (a : Attributes) : List (String × String) × List (String × Kind) :=
  let m1 := a.StringAttributes.foldl
    (fun m attr => (mapSet m.1 attr.Name attr.UID, mapSet m.2 attr.UID Kind.String)) ([], [])
  let m2 := a.TextAttributes.foldl
    (fun m attr => (mapSet m.1 attr.Name attr.UID, mapSet m.2 attr.UID Kind.String)) m1
  a.IntegerAttributes.foldl
    (fun m attr => (mapSet m.1 attr.Name attr.UID, mapSet m.2 attr.UID Kind.Int)) m2

/-- The function `NewSimpleClassifier` on a non-nil reader. The argument `xmlDecode` stands for
`xml.NewDecoder(r).Decode(&classifier)`. -/
def NewSimpleClassifier {ρ : Type} (xmlDecode : ρ → Except GoError SimpleClassifier × ρ)
    (r : ρ) : Except GoError SimpleClassifier :=
  match (xmlDecode r).1 with
  | .error err => .error (.new ("error decoding xml: " ++ err.Error))
  | .ok classifier => .ok classifier

/-- What `reflect` shows of the argument `dst` of `Unmarshal`: the kind of `dst`, the kind of
what it points to (read when `dst` is a pointer; invalid for a nil pointer), and the element
type of the slice it points to (read when it points to a slice). -/
structure DstType where
  Kind : Esnsi.Kind
  ElemKind : Esnsi.Kind
  ElemType : RType
  deriving DecidableEq, Repr

/-- What a callback call leaves behind: how it ended, the slice behind `dst` and the state
the closure captured. -/
structure CallbackResult (σ : Type) where
  result : Result
  dst : List Esnsi.Record
  env : σ

/-- A callback `func(index int) error`, a closure that may read and write the slice behind
`dst` and state of its own of type `σ`. -/
abbrev Callback (σ : Type) := Nat → List Esnsi.Record → σ → CallbackResult σ

/-- The mutable state during `Unmarshal`: the slice behind `dst`, the state captured by the
callback, and the trace of the callback calls made so far: for each call the index passed,
the slice behind `dst` and the callback state at the time of the call. -/
structure UnmarshalState (σ : Type) where
  dst : List Esnsi.Record
  env : σ
  calls : List (Nat × List Esnsi.Record × σ)

/-- The body of the field loop of `Unmarshal` for one field: `ok none` when the field has no
`esnsi` tag (`continue`), `ok (some uid)` when it passes, the returned error otherwise. -/
def SimpleClassifier.checkField (attrNameToUID : List (String × String))
    (attrUIDToKind : List (String × Kind)) (field : StructField) :
    Except GoError (Option String) :=
  let attrName := field.Tag
  if attrName = "" then .ok none
  else
    match mapGet attrNameToUID attrName with
    | none => .error (.new ("attribute " ++ attrName ++ " not found in classifier"))
    | some uid =>
      match mapGet attrUIDToKind uid with
      | none =>
        .error (.new ("attribute " ++ attrName ++ " with UID " ++ uid ++
          " not found in classifier"))
      | some kind =>
        if field.Kind ≠ kind then
          .error (.new ("field " ++ field.Name ++ " has type " ++ kindString field.Kind ++
            ", expected " ++ kindString kind ++ " for attribute " ++ attrName ++
            " with UID " ++ uid))
        else .ok (some uid)

/-- The field loop of `Unmarshal` from field number `i` on: the first error, or the index
`fieldUIDToIndex`. -/
def SimpleClassifier.fieldLoop (attrNameToUID : List (String × String))
    (attrUIDToKind : List (String × Kind)) :
    List StructField → Nat → List (String × Nat) → Except GoError (List (String × Nat))
  | [], _, fieldUIDToIndex => .ok fieldUIDToIndex
  | field :: fields, i, fieldUIDToIndex =>
    match SimpleClassifier.checkField attrNameToUID attrUIDToKind field with
    | .error e => .error e
    | .ok none =>
      SimpleClassifier.fieldLoop attrNameToUID attrUIDToKind fields (i + 1) fieldUIDToIndex
    | .ok (some uid) =>
      SimpleClassifier.fieldLoop attrNameToUID attrUIDToKind fields (i + 1)
        (mapSet fieldUIDToIndex uid i)

/-- The body of the inner loop of `Unmarshal`: one pair `attrValue` applied to the element
`newElem` under construction. -/
def SimpleClassifier.setField (structElem : RType) (fieldUIDToIndex : List (String × Nat))
    (attrValue : AttributeValue) (newElem : Esnsi.Record) : Except Fail Esnsi.Record :=
  match mapGet fieldUIDToIndex attrValue.AttributeRef with
  | none => .ok newElem
  | some fieldIndex =>
    match structElem.Fields.get? fieldIndex with
    | none => .error (.panic "reflect: Field index out of range")
    | some field =>
      match field.Kind with
      | .Int =>
        match attrValue.IntegerValue with
        | none =>
          .error (.err (.new ("integer value for attribute " ++ attrValue.AttributeRef ++
            " is nil")))
        | some n => reflectSet "SetInt" field newElem fieldIndex (.int n.Value)
      | .String =>
        match attrValue.TextValue, attrValue.StringValue with
        | none, none =>
          .error (.err (.new ("text or string values for attribute " ++
            attrValue.AttributeRef ++ " is nil")))
        | some t, _ => reflectSet "SetString" field newElem fieldIndex (.str t.Value)
        | none, some s => reflectSet "SetString" field newElem fieldIndex (.str s.Value)
      | k =>
        .error (.err (.new ("unsupported field type " ++ kindString k ++ " for attribute " ++
          attrValue.AttributeRef)))

/-- The inner loop of `Unmarshal` over the pairs of one record. -/
def SimpleClassifier.setFields (structElem : RType) (fieldUIDToIndex : List (String × Nat)) :
    List AttributeValue → Esnsi.Record → Except Fail Esnsi.Record
  | [], newElem => .ok newElem
  | attrValue :: attrValues, newElem =>
    match SimpleClassifier.setField structElem fieldUIDToIndex attrValue newElem with
    | .error f => .error f
    | .ok newElem1 => SimpleClassifier.setFields structElem fieldUIDToIndex attrValues newElem1

/-- The element `Unmarshal` builds for one record of the classifier: a fresh zero value of the
element type filled by the record's pairs. -/
def SimpleClassifier.newElem (structElem : RType) (fieldUIDToIndex : List (String × Nat))
    (record : Record) : Except Fail Esnsi.Record :=
  SimpleClassifier.setFields structElem fieldUIDToIndex record.AttributeValues
    (zeroRecord structElem)

/-- The record loop of `Unmarshal` from record number `i` on. -/
def SimpleClassifier.recordLoop {σ : Type} (structElem : RType)
    (fieldUIDToIndex : List (String × Nat)) (callback : Option (Callback σ)) :
    List Record → Nat → UnmarshalState σ → Result × UnmarshalState σ
  | [], _, s => (.ret none, s)
  | record :: records, i, s =>
    match SimpleClassifier.newElem structElem fieldUIDToIndex record with
    | .error f => (f.toResult, s)
    | .ok newElem =>
      let dst1 := s.dst ++ [newElem]
      match callback with
      | none =>
        SimpleClassifier.recordLoop structElem fieldUIDToIndex callback records (i + 1)
          { s with dst := dst1 }
      | some cb =>
        let cr := cb i dst1 s.env
        let s1 : UnmarshalState σ :=
          { dst := cr.dst, env := cr.env, calls := s.calls ++ [(i, dst1, s.env)] }
        match cr.result with
        | .panic msg => (.panic msg, s1)
        | .ret (some err) =>
          (.ret (some (.wrap ("callback error at index " ++ toString i ++ ": " ++ err.Error)
            err)), s1)
        | .ret none =>
          SimpleClassifier.recordLoop structElem fieldUIDToIndex callback records (i + 1) s1

/-- The method `Unmarshal`. The argument `typ` is what `reflect` shows of `dst`, the argument
`dst` the slice behind it when it is a pointer to a slice. -/
def SimpleClassifier.Unmarshal {σ : Type} (c : SimpleClassifier) (typ : DstType)
    (dst : List Esnsi.Record) (callback : Option (Callback σ)) (env : σ) :
    Result × UnmarshalState σ :=
  if typ.Kind ≠ Kind.Pointer ∨ typ.ElemKind ≠ Kind.Slice ∨ typ.ElemType.Kind ≠ Kind.Struct then
    (.ret (some (.new ("destination must be a pointer to a slice of structs, got " ++
      kindString typ.Kind))), { dst := dst, env := env, calls := [] })
  else
    let structElem := typ.ElemType
    let maps := c.Properties.Attributes.indexes
    match SimpleClassifier.fieldLoop maps.1 maps.2 structElem.Fields 0 [] with
    | .error e => (.ret (some e), { dst := dst, env := env, calls := [] })
    | .ok fieldUIDToIndex =>
      SimpleClassifier.recordLoop structElem fieldUIDToIndex callback c.Records 0
        { dst := dst, env := env, calls := [] }

end cnsi

/-! ## classifiers/sfr-co.go -/

/-- The type `SfrCoRecord`. -/
structure SfrCoRecord where
  COID : Int
  AutoKey : String
  ToSfrCode : String
  RegionCode : String
  RegionName : String
  DivisionCode : String
  OfficeCode : String
  OfficeDistrictName : String
  ToSfrName : String
  OfficeType : Int
  Predecessor : Int
  Address : String
  OKATO : String
  OKATOAreaOrig : String
  OKTMO : String
  OKTMOAreaOrig : String
  Email : String
  Phone : String
  Latitude : String
  Longitude : String
  WorkingTime : String
  UTC : String
  MSK : Int
  TOFSS : String
  OKATOAreas : List String
  deriving DecidableEq, Repr

/-- The record type `SfrCoRecord` as `reflect` shows it. -/
def sfrCoType : RType :=
  { Kind := Kind.Struct,
    Fields := [⟨"COID", Kind.Int, "COID", ""⟩, ⟨"AutoKey", Kind.String, "autokey", ""⟩,
      ⟨"ToSfrCode", Kind.String, "ToSfrCode", ""⟩, ⟨"RegionCode", Kind.String, "RegionCode", ""⟩,
      ⟨"RegionName", Kind.String, "RegionName", ""⟩, ⟨"DivisionCode", Kind.String, "DivisionCode", ""⟩,
      ⟨"OfficeCode", Kind.String, "OfficeCode", ""⟩,
      ⟨"OfficeDistrictName", Kind.String, "OfficeDistrictName", ""⟩,
      ⟨"ToSfrName", Kind.String, "ToSfrName", ""⟩, ⟨"OfficeType", Kind.Int, "OfficeType", ""⟩,
      ⟨"Predecessor", Kind.Int, "Predecessor", ""⟩, ⟨"Address", Kind.String, "Address", ""⟩,
      ⟨"OKATO", Kind.String, "OKATO", ""⟩, ⟨"OKATOAreaOrig", Kind.String, "OKATO_Area", ""⟩,
      ⟨"OKTMO", Kind.String, "OKTMO", ""⟩, ⟨"OKTMOAreaOrig", Kind.String, "OKTMO_Area", ""⟩,
      ⟨"Email", Kind.String, "Email", ""⟩, ⟨"Phone", Kind.String, "Phone", ""⟩,
      ⟨"Latitude", Kind.String, "Latitude", ""⟩, ⟨"Longitude", Kind.String, "Longitude", ""⟩,
      ⟨"WorkingTime", Kind.String, "WorkingTime", ""⟩, ⟨"UTC", Kind.String, "UTC", ""⟩,
      ⟨"MSK", Kind.Int, "MSK", ""⟩, ⟨"TOFSS", Kind.String, "TOFSS", ""⟩,
      ⟨"OKATOAreas", Kind.Slice, "", ""⟩] }

/-- A record value read as an `SfrCoRecord`. -/
def SfrCoRecord.ofRecord (rec : Record) : SfrCoRecord :=
  { COID := intField rec 0, AutoKey := stringField rec 1, ToSfrCode := stringField rec 2,
    RegionCode := stringField rec 3, RegionName := stringField rec 4,
    DivisionCode := stringField rec 5, OfficeCode := stringField rec 6,
    OfficeDistrictName := stringField rec 7, ToSfrName := stringField rec 8,
    OfficeType := intField rec 9, Predecessor := intField rec 10, Address := stringField rec 11,
    OKATO := stringField rec 12, OKATOAreaOrig := stringField rec 13,
    OKTMO := stringField rec 14, OKTMOAreaOrig := stringField rec 15,
    Email := stringField rec 16, Phone := stringField rec 17, Latitude := stringField rec 18,
    Longitude := stringField rec 19, WorkingTime := stringField rec 20,
    UTC := stringField rec 21, MSK := intField rec 22, TOFSS := stringField rec 23,
    OKATOAreas := stringsField rec 24 }

/-- An `SfrCoRecord` as a record value. -/
def SfrCoRecord.toRecord (r : SfrCoRecord) : Record :=
  [.int r.COID, .str r.AutoKey, .str r.ToSfrCode, .str r.RegionCode, .str r.RegionName,
    .str r.DivisionCode, .str r.OfficeCode, .str r.OfficeDistrictName, .str r.ToSfrName,
    .int r.OfficeType, .int r.Predecessor, .str r.Address, .str r.OKATO, .str r.OKATOAreaOrig,
    .str r.OKTMO, .str r.OKTMOAreaOrig, .str r.Email, .str r.Phone, .str r.Latitude,
    .str r.Longitude, .str r.WorkingTime, .str r.UTC, .int r.MSK, .str r.TOFSS,
    .strs r.OKATOAreas]

/-- The type `SfrCo`. The map `ByOKATO` of the source holds pointers to elements of `Records`;
an element is not written again once the callback call that stored its pointer has returned,
so the map of the model holds the index of the element in `Records`. -/
structure SfrCo where
  SimpleClassifier : cnsi.SimpleClassifier
  ByOKATO : List (String × Nat)
  Records : List Record
  deriving DecidableEq, Repr

/-- The loop of `unmarshalHelper` over `record.OKATOAreas`: `done` holds the elements already
trimmed, `todo` the elements from the loop position on. The result is the error returned from
inside the loop (`none` when the loop ends), the slice `record.OKATOAreas` and the map
`ByOKATO`. -/
def unmarshalHelperLoop (index : Nat) : List String → List String → List (String × Nat) →
    Option GoError × List String × List (String × Nat)
  | done, [], byOKATO => (none, done, byOKATO)
  | done, area0 :: todo, byOKATO =>
    let area := stringsTrimSpace area0
    if !reOKATOPlain.MatchString area then
      (some (.new ("invalid OKATO '" ++ area ++ "' in record at index " ++ toString index)),
        done ++ area :: todo, byOKATO)
    else
      match mapGet byOKATO area with
      | some _ =>
        (some (.new ("duplicate OKATO '" ++ area ++ "' found in record at index " ++
          toString index)), done ++ area :: todo, byOKATO)
      | none => unmarshalHelperLoop index (done ++ [area]) todo (mapSet byOKATO area index)

/-- The method `unmarshalHelper`, as a callback over the slice `c.Records` and the map
`c.ByOKATO`. -/
def SfrCo.unmarshalHelper : cnsi.Callback (List (String × Nat)) :=
  fun index Records ByOKATO =>
    match Records.get? index with
    | none => { result := .panic "index out of range", dst := Records, env := ByOKATO }
    | some record =>
      let out := unmarshalHelperLoop index []
        (stringsSplit (SfrCoRecord.ofRecord record).OKATOAreaOrig ',') ByOKATO
      { result := .ret out.1,
        dst := Records.set index
          ({ SfrCoRecord.ofRecord record with OKATOAreas := out.2.1 } : SfrCoRecord).toRecord,
        env := out.2.2 }

/-- The function `NewSfrCo` on a non-nil reader: the classifier it returns, or the error it
returns with a nil classifier. -/
def NewSfrCo {ρ : Type} (xmlDecode : ρ → Except GoError cnsi.SimpleClassifier × ρ) (r : ρ) :
    Except Fail SfrCo :=
  match cnsi.NewSimpleClassifier xmlDecode r with
  | .error err => .error (.err (.new ("failed to create simple clasifier : " ++ err.Error)))
  | .ok classifier =>
    let out := classifier.Unmarshal
      { Kind := Kind.Pointer, ElemKind := Kind.Slice, ElemType := sfrCoType } []
      (some SfrCo.unmarshalHelper) []
    match out.1 with
    | .panic msg => .error (.panic msg)
    | .ret (some err) => .error (.err (.new ("failed to unmarshal records: " ++ err.Error)))
    | .ret none =>
      .ok { SimpleClassifier := classifier, ByOKATO := out.2.env, Records := out.2.dst }

/-! ## Declarative views of the SFR indexes -/

/-- A plain OKATO code: 2 to 11 ASCII digits and nothing else. -/
def IsPlainOkato (s : String) : Prop :=
  2 ≤ s.length ∧ s.length ≤ 11 ∧ ∀ ch ∈ s.data, ch.isDigit = true

instance (s : String) : Decidable (IsPlainOkato s) := by
  unfold IsPlainOkato
  exact inferInstance

/-- The tokens of a comma-separated list: its pieces, each trimmed of surrounding white space,
in their order. -/
def trimmedTokens (s : String) : List String :=
  (stringsSplit s ',').map stringsTrimSpace

/-- The non-empty tokens of a comma-separated list, in their order. -/
def acceptedTokens (s : String) : List String :=
  (trimmedTokens s).filter (fun t => t ≠ "")

/-- A code right-padded with the character `0` to 11 characters. -/
def zeroPadded11 (t : String) : String :=
  String.mk (t.data ++ List.replicate (11 - t.length) '0')

/-- The first `n` characters of a text. -/
def firstChars (n : Nat) (t : String) : String := String.mk (t.data.take n)

/-- The token occurrences of a sequence of token lists, in processing order: each token with
the number of the list it stands in, the first list having the number `p`. -/
def occurrencesFrom (p : Nat) : List (List String) → List (Nat × String)
  | [] => []
  | ts :: rest => ts.map (fun t => (p, t)) ++ occurrencesFrom (p + 1) rest

/-- The records of the token occurrences whose token is sent to the key `k` by `f`, in
processing order. -/
def recordsUnder (f : String → String) (o : List (Nat × String)) (k : String) : List Nat :=
  (o.filter (fun x => f x.2 = k)).map Prod.fst

/-- What the five index maps of `NewSfr` hold once the token occurrences `o` have been
indexed: `byOkato` the last record of each token, `byOkato11` the first record of each padded
code, and the three maps by leading characters every occurrence under its key, in order. -/
def sfrIndexed (o : List (Nat × String)) (env : SfrIndexes) : Prop :=
  (∀ k, mapGet env.byOkato k = (recordsUnder id o k).getLast?) ∧
  (∀ k, mapGet env.byOkato11 k = (recordsUnder zeroPadded11 o k).head?.map (fun p => [p])) ∧
  (∀ k, mapGet env.byOkato8 k =
    if recordsUnder (fun t => firstChars 8 (zeroPadded11 t)) o k = [] then none
    else some (recordsUnder (fun t => firstChars 8 (zeroPadded11 t)) o k)) ∧
  (∀ k, mapGet env.byOkato5 k =
    if recordsUnder (fun t => firstChars 5 (zeroPadded11 t)) o k = [] then none
    else some (recordsUnder (fun t => firstChars 5 (zeroPadded11 t)) o k)) ∧
  (∀ k, mapGet env.byOkato2 k =
    if recordsUnder (fun t => firstChars 2 (zeroPadded11 t)) o k = [] then none
    else some (recordsUnder (fun t => firstChars 2 (zeroPadded11 t)) o k))

/-- What the handler of `NewSfr` leaves in the variable behind its pointer for a decoded input
record, when it returns nil: the record with its accepted tokens appended to `OKATOAreas`. -/
def sfrKept (record : Record) : SfrRecord :=
  { SfrRecord.ofRecord record with
    OKATOAreas := (SfrRecord.ofRecord record).OKATOAreas ++
      acceptedTokens (SfrRecord.ofRecord record).OKATOArea }

/-- What holds of the classifier and of the handler state of `NewSfr` after the handler has
handled the records `ks` without error. -/
def sfrInvariant (ks : List Record) (c : Classifier) (env : SfrIndexes) : Prop :=
  env.heap = ks.map sfrKept ∧
    c.Records = ks.map (fun r => (sfrKept r).toRecord) ∧
    sfrIndexed
      (occurrencesFrom 0 (ks.map (fun r => acceptedTokens (SfrRecord.ofRecord r).OKATOArea)))
      env ∧
    ∀ r ∈ ks, ∀ t ∈ acceptedTokens (SfrRecord.ofRecord r).OKATOArea, IsPlainOkato t

/-! ## Sample SFR inputs -/

/-- The schema of the SFR classifier: the twenty-four attributes `SfrRecord` binds, each with
its name as reference id. -/
def sfrMeta : cnsiMeta :=
  { Name := "SFR", Code := "SFR_CO", UID := "10991", Version := 3,
    StringAttrs := [⟨"autokey", "autokey"⟩, ⟨"ToSfrCode", "ToSfrCode"⟩,
      ⟨"RegionCode", "RegionCode"⟩, ⟨"RegionName", "RegionName"⟩,
      ⟨"DivisionCode", "DivisionCode"⟩, ⟨"OfficeCode", "OfficeCode"⟩,
      ⟨"OfficeDistrictName", "OfficeDistrictName"⟩, ⟨"ToSfrName", "ToSfrName"⟩,
      ⟨"Address", "Address"⟩, ⟨"OKATO", "OKATO"⟩, ⟨"OKATO_Area", "OKATO_Area"⟩,
      ⟨"OKTMO", "OKTMO"⟩, ⟨"OKTMO_Area", "OKTMO_Area"⟩, ⟨"Email", "Email"⟩,
      ⟨"Phone", "Phone"⟩, ⟨"Latitude", "Latitude"⟩, ⟨"Longitude", "Longitude"⟩,
      ⟨"WorkingTime", "WorkingTime"⟩, ⟨"UTC", "UTC"⟩, ⟨"TOFSS", "TOFSS"⟩],
    TextAttrs := [],
    IntegerAttrs := [⟨"COID", "COID"⟩, ⟨"OfficeType", "OfficeType"⟩,
      ⟨"Predecessor", "Predecessor"⟩, ⟨"MSK", "MSK"⟩] }

/-- A document record of an office with the given id and served territories. -/
def sfrRow (coid : Int) (area : String) : cnsiRecord :=
  { UID := "", AttrVals := [⟨"COID", some ⟨coid⟩, none, none⟩,
      ⟨"OKATO_Area", none, none, some ⟨area⟩⟩] }

/-- A document of three offices: the first has an empty token in its list, the second serves
a territory of the first and one whose code pads to the same 11 digits, the third serves no
territory. -/
def sfrDoc : cnsiDoc :=
  { Meta := sfrMeta,
    Records := [sfrRow 1 "92430,,92432", sfrRow 2 " 92430 , 9243", sfrRow 3 " "] }

/-- A document whose second and third records both hold a token that is not a plain code. -/
def sfrTwoBadDoc : cnsiDoc :=
  { Meta := sfrMeta,
    Records := [sfrRow 1 "92430", sfrRow 2 "92X30,AB", sfrRow 3 "ZZ"] }

/-- A document whose first record has an `COID` pair without payload and whose second record
holds a token that is not a plain code. -/
def sfrUndecodableDoc : cnsiDoc :=
  { Meta := sfrMeta,
    Records := [{ UID := "", AttrVals := [⟨"COID", none, none, none⟩] }, sfrRow 2 "ZZ"] }

/-- The text of the error a call returned, empty when it returned a value or panicked. -/
def errorText {α : Type} (x : Except Fail α) : String :=
  match x with
  | .error (.err e) => e.Error
  | _ => ""

/-! ## Declarative views and samples for the duplicate check of `NewOkato` -/

/-- The codes, with their dots removed, of the records among `ks` whose code is valid, in
order. -/
def validCodes (ks : List Record) : List String :=
  (ks.filter (fun r => reValidOkatoC.MatchString (OkatoRecord.ofRecord r).C)).map
    (fun r => dotless (OkatoRecord.ofRecord r).C)

/-- What holds of the map `byCode` after the handler of `NewOkato` has handled the records
`ks` without error: its keys are the valid codes of `ks`. -/
def byCodeInvariant (ks : List Record) (_c : Classifier) (env : OkatoIndexes) : Prop :=
  ∀ k, (mapGet env.byCode k).isSome = true ↔ k ∈ validCodes ks

/-- What holds of the index `Region` after the handler of `NewOkato` has handled the
records `ks` without error. -/
def regionInvariant (ks : List Record) (c : Classifier) (env : OkatoIndexes) : Prop :=
  okatoInvariant ks c env ∧
    (∀ rec ∈ c.Records, (mapGet env.byCode (OkatoRecord.ofRecord rec).Code).isSome = true) ∧
    (∀ k v, mapGet env.Region k = some v →
      v.toRecord ∈ c.Records ∧ v.Code = k ∧ goLen v.Code = 2) ∧
    (∀ rec ∈ c.Records, goLen (OkatoRecord.ofRecord rec).Code = 2 →
      mapGet env.Region (OkatoRecord.ofRecord rec).Code = some (OkatoRecord.ofRecord rec))

/-- A document in which the code `02` is repeated before the code `01` is. -/
def okatoTwoDuplicatesDoc : cnsiDoc :=
  { Meta := okatoMeta,
    Records := [okatoRow "01" "Altai", okatoRow "02" "Amur", okatoRow "02" "Amur again",
      okatoRow "01" "Altai again"] }

/-- A document in which the code `01` is repeated after a record whose name pair has no
payload. -/
def okatoUndecodableDoc : cnsiDoc :=
  { Meta := okatoMeta,
    Records := [okatoRow "01" "Altai",
      { UID := "", AttrVals := [⟨"a-code", none, none, some ⟨"02"⟩⟩,
          ⟨"a-name", none, none, none⟩] },
      okatoRow "01" "Altai again"] }

/-- A document with two regions and a district. -/
def okatoRegionsDoc : cnsiDoc :=
  { Meta := okatoMeta,
    Records := [okatoRow "01" "Altai", okatoRow "01.201" "District", okatoRow "02" "Amur"] }

/-! ## Declarative views of `Unmarshal` and of the SFR_CO index -/

/-- The elements `Unmarshal` builds for the records that come before the first record whose
element cannot be built (for all records when there is none), in order. -/
def cnsi.decodedElems (structElem : RType) (fieldUIDToIndex : List (String × Nat)) :
    List cnsi.Record → List Esnsi.Record
  | [] => []
  | record :: records =>
    match cnsi.SimpleClassifier.newElem structElem fieldUIDToIndex record with
    | .error _ => []
    | .ok newElem => newElem :: cnsi.decodedElems structElem fieldUIDToIndex records

/-- The slice behind `dst` and the callback state just before the step of call number `j` of
a trace `calls`: those `Unmarshal` started with for the first call, those the preceding call
left for a later one. -/
def cnsi.stateBefore {σ : Type} (cb : cnsi.Callback σ) (dst0 : List Esnsi.Record) (env0 : σ)
    (calls : List (Nat × List Esnsi.Record × σ)) : Nat → List Esnsi.Record × σ
  | 0 => (dst0, env0)
  | j + 1 =>
    match calls.get? j with
    | some entry => ((cb entry.1 entry.2.1 entry.2.2).dst, (cb entry.1 entry.2.1 entry.2.2).env)
    | none => (dst0, env0)

/-- The trimmed tokens of the field `OKATOAreaOrig` of an element. -/
def sfrCoTokens (elem : Record) : List String :=
  trimmedTokens (SfrCoRecord.ofRecord elem).OKATOAreaOrig

/-- What `unmarshalHelper` leaves of an element when it returns nil: the element with the
trimmed tokens of `OKATOAreaOrig` in `OKATOAreas`. -/
def sfrCoKept (elem : Record) : Record :=
  ({ SfrCoRecord.ofRecord elem with OKATOAreas := sfrCoTokens elem } : SfrCoRecord).toRecord

/-- What holds of `Records` and `ByOKATO` after `unmarshalHelper` has returned nil for the
elements `ks`: `Records` holds the elements with their tokens, `ByOKATO` one entry for each
token occurrence, the newest in front, and the tokens are plain codes, pairwise distinct. -/
def sfrCoInvariant (ks : List Record) (Records : List Record) (ByOKATO : List (String × Nat)) :
    Prop :=
  Records = ks.map sfrCoKept ∧
    ByOKATO = ((occurrencesFrom 0 (ks.map sfrCoTokens)).map (fun x => (x.2, x.1))).reverse ∧
    (∀ t ∈ (ks.map sfrCoTokens).flatten, IsPlainOkato t) ∧
    ((ks.map sfrCoTokens).flatten).Nodup

/-! ## Sample SFR_CO inputs -/

/-- The attributes of the SFR_CO classifier as package cnsi reads them, each with its name as
UID. -/
def sfrCoProperties : cnsi.SimpleClassifierProperties :=
  { Meta := { Name := "SFR", Code := "SFR_CO", UID := "10991", Version := 3 },
    Attributes :=
      { StringAttributes := [⟨"autokey", "autokey"⟩, ⟨"ToSfrCode", "ToSfrCode"⟩,
          ⟨"RegionCode", "RegionCode"⟩, ⟨"RegionName", "RegionName"⟩,
          ⟨"DivisionCode", "DivisionCode"⟩, ⟨"OfficeCode", "OfficeCode"⟩,
          ⟨"OfficeDistrictName", "OfficeDistrictName"⟩, ⟨"ToSfrName", "ToSfrName"⟩,
          ⟨"Address", "Address"⟩, ⟨"OKATO", "OKATO"⟩, ⟨"OKATO_Area", "OKATO_Area"⟩,
          ⟨"OKTMO", "OKTMO"⟩, ⟨"OKTMO_Area", "OKTMO_Area"⟩, ⟨"Email", "Email"⟩,
          ⟨"Phone", "Phone"⟩, ⟨"Latitude", "Latitude"⟩, ⟨"Longitude", "Longitude"⟩,
          ⟨"WorkingTime", "WorkingTime"⟩, ⟨"UTC", "UTC"⟩, ⟨"TOFSS", "TOFSS"⟩],
        TextAttributes := [],
        IntegerAttributes := [⟨"COID", "COID"⟩, ⟨"OfficeType", "OfficeType"⟩,
          ⟨"Predecessor", "Predecessor"⟩, ⟨"MSK", "MSK"⟩] } }

/-- A record of an office with the given id and served territories. -/
def sfrCoRow (coid : Int) (area : String) : cnsi.Record :=
  { UID := "", AttributeValues := [⟨"COID", some ⟨coid⟩, none, none⟩,
      ⟨"OKATO_Area", none, none, some ⟨area⟩⟩] }

/-- A classifier with the attributes of SFR_CO holding the given records. -/
def sfrCoClassifier (records : List cnsi.Record) : cnsi.SimpleClassifier :=
  { Properties := sfrCoProperties, Records := records, PFRF := [] }

/-- An XML parser that reads the given classifier and advances the reader by one. -/
def parseSimple (c : cnsi.SimpleClassifier) : Nat → Except GoError cnsi.SimpleClassifier × Nat :=
  fun r => (.ok c, r + 1)

/-- What `reflect` shows of a pointer to a slice of `SfrCoRecord`. -/
def sfrCoDst : cnsi.DstType :=
  { Kind := Kind.Pointer, ElemKind := Kind.Slice, ElemType := sfrCoType }

/-- A callback that counts its calls and fails at the index `bad`. -/
def countingCallback (bad : Nat) : cnsi.Callback Nat :=
  fun index dst n =>
    { result := if index = bad then .ret (some (.new "expected error")) else .ret none,
      dst := dst, env := n + 1 }

/-! ## strings: the run-time checks of slicing and of `strings.Repeat` -/

/-- The Go slice expression `s[lo:hi]` with its run-time check: `none` stands for the panic
`slice bounds out of range`, raised unless `lo ≤ hi ≤ len(s)`. -/
def goSliceChecked (s : String) (lo hi : Nat) : Option String :=
  if lo ≤ hi ∧ hi ≤ goLen s then some (goSlice s lo hi) else none

/-- The function `strings.Repeat(s, count)` with its run-time check: `none` stands for the
panic `strings: negative Repeat count`. -/
def goRepeatChecked (s : String) (count : Int) : Option String :=
  if count < 0 then none else some (goRepeat s count)

/-- The function `strings.Join` applied to the non-empty strings among `parts`. -/
def joinNonEmpty (parts : List String) (sep : String) : String :=
  sep.intercalate (parts.filter (fun p => p ≠ ""))

/-- The dotted form of a digit code: its characters [0,2), and the groups [2,5), [5,8) and
[8,11) the code is long enough to hold, joined by dots. -/
def dottedForm (code : String) : String :=
  joinNonEmpty [goSlice code 0 2, if goLen code ≥ 5 then goSlice code 2 5 else "",
    if goLen code ≥ 8 then goSlice code 5 8 else "",
    if goLen code = 11 then goSlice code 8 11 else ""] "."

/-- The record `r` with its field `C` replaced: the assignment `r.C = c` on a record that was
parsed before. -/
def OkatoRecord.withC (r : OkatoRecord) (c : String) : OkatoRecord := { r with C := c }

/-! ## Declarative views and samples for attribute names declared more than once -/

/-- The kind a reference id `uid` is declared with among the declarations `attrs`: the kind
of the last declaration that carries that reference id. -/
def declaredKind (uid : String) : List (String × String × Kind) → Option Kind
  | [] => none
  | (_, u, k) :: attrs =>
    match declaredKind uid attrs with
    | some k1 => some k1
    | none => if u = uid then some k else none

/-- A schema that declares the name `Code` twice as a string attribute, the second time with
a reference id that an integer attribute of another name carries too. -/
def sharedRefMeta : cnsiMeta :=
  { Name := "Shared", Code := "Shared", UID := "5a2e", Version := 1,
    StringAttrs := [⟨"ref-1", "Code"⟩, ⟨"ref-2", "Code"⟩], TextAttrs := [],
    IntegerAttrs := [⟨"ref-2", "Count"⟩] }

/-- A record type with a string field tagged `Code`. -/
def codeStringType : RType := { Kind := Kind.Struct, Fields := [⟨"Code", Kind.String, "Code", ""⟩] }

/-- A schema that declares the name `Code` as a string, as a text and as an integer
attribute. -/
def thriceMeta : cnsiMeta :=
  { Name := "Thrice", Code := "Thrice", UID := "7c3f", Version := 1,
    StringAttrs := [⟨"ref-s", "Code"⟩], TextAttrs := [⟨"ref-t", "Code"⟩],
    IntegerAttrs := [⟨"ref-i", "Code"⟩] }

/-- A classifier that holds one record already. -/
def heldClassifier : Classifier :=
  { Name := "old", Code := "old", UID := "old", Version := 1,
    Records := [[.str "held", .str "", .int 0, .str ""]] }

/-! ## Declarative views and samples for the three code indexes of `NewOkato` -/

/-- The retained records of a classifier, read as `OkatoRecord`s, in source order. -/
def okatoRecords (c : Classifier) : List OkatoRecord := c.Records.map OkatoRecord.ofRecord

/-- What a list-valued index holds under a key with the members `l`: nothing when there is
none, the list otherwise. -/
def listEntry {α : Type} (l : List α) : Option (List α) :=
  match l with
  | [] => none
  | _ :: _ => some l

/-- What holds of the maps `byCode`, `byCode11` and `byRegion` after the handler of
`NewOkato` has handled the records `ks` without error: `byCode` holds the retained records,
newest first, each under its `Code`, and the codes are pairwise distinct; `byCode11` holds
under a key the last retained record with that `Code11`; `byRegion` holds under a key the
retained records with that `Region`, in source order. -/
def okatoIndexInvariant (ks : List Record) (c : Classifier) (env : OkatoIndexes) : Prop :=
  okatoInvariant ks c env ∧
    env.byCode = ((okatoRecords c).map (fun v => (v.Code, v))).reverse ∧
    ((okatoRecords c).map (fun v => v.Code)).Nodup ∧
    (∀ k, mapGet env.byCode11 k =
      ((okatoRecords c).filter (fun v => v.Code11 = k)).getLast?) ∧
    (∀ k, mapGet env.byRegion k =
      listEntry ((okatoRecords c).filter (fun v => v.Region = k)))

/-- A document in which the codes `01` and `01.000` pad to the same 11-digit code. -/
def okatoPaddedDoc : cnsiDoc :=
  { Meta := okatoMeta,
    Records := [okatoRow "01" "Altai", okatoRow "02" "Amur", okatoRow "01.000" "Altai again"] }

/-! ## The two decoders on one document

Package esnsi and package cnsi parse the same XML elements and attributes into types of
their own; the definitions below carry a document parsed by the one over to the types of the
other, field by field. -/

/-- A pair of package esnsi as the `AttributeValue` package cnsi parses from the same
element. -/
def cnsiAttrVal.toAttributeValue (p : cnsiAttrVal) : cnsi.AttributeValue :=
  { AttributeRef := p.AttrRef, IntegerValue := p.IntegerVal.map (fun v => ⟨v.Val⟩),
    TextValue := p.TextVal.map (fun v => ⟨v.Val⟩),
    StringValue := p.StringVal.map (fun v => ⟨v.Val⟩) }

/-- A record of package esnsi as the `Record` package cnsi parses from the same element. -/
def cnsiRecord.toCnsi (r : cnsiRecord) : cnsi.Record :=
  { UID := r.UID, AttributeValues := r.AttrVals.map cnsiAttrVal.toAttributeValue }

/-- A document of package esnsi as the `SimpleClassifier` package cnsi parses from the same
XML text (without records under `PFRF`). -/
def cnsiDoc.toSimpleClassifier (doc : cnsiDoc) : cnsi.SimpleClassifier :=
  { Properties :=
      { Meta := { Name := doc.Meta.Name, Code := doc.Meta.Code, UID := doc.Meta.UID,
                  Version := doc.Meta.Version },
        Attributes :=
          { StringAttributes := doc.Meta.StringAttrs.map (fun a => ⟨a.UID, a.Name⟩),
            TextAttributes := doc.Meta.TextAttrs.map (fun a => ⟨a.UID, a.Name⟩),
            IntegerAttributes := doc.Meta.IntegerAttrs.map (fun a => ⟨a.UID, a.Name⟩) } },
    Records := doc.Records.map cnsiRecord.toCnsi, PFRF := [] }

/-- What `reflect` shows of a pointer to a slice of the struct type `typ`. -/
def sliceOf (typ : RType) : cnsi.DstType :=
  { Kind := Kind.Pointer, ElemKind := Kind.Slice, ElemType := typ }

/-- A pair from which the two decoders read the same string: it carries a text payload and a
string payload only when the two are equal. -/
def onePayload (p : cnsiAttrVal) : Prop :=
  p.TextVal = none ∨ p.StringVal = none ∨ p.TextVal = p.StringVal

/-- Whether the field index binds the pair `p` to a string field of `typ`. -/
def boundToString (typ : RType) (fieldRefToIndex : List (String × Nat)) (p : cnsiAttrVal) :
    Prop :=
  ∃ j f, mapGet fieldRefToIndex p.AttrRef = some j ∧ typ.Fields.get? j = some f ∧
    f.Kind = Kind.String

/-- A document whose only record has a code pair with a text payload and a different string
payload. -/
def twoPayloadsDoc : cnsiDoc :=
  { Meta := sampleMeta,
    Records := [⟨"r0", [⟨"ref-code", none, some ⟨"from text"⟩, some ⟨"from string"⟩⟩]⟩] }

/-! ## Lemmas: maps and attribute indexes -/

theorem mapGet_mapSet {α : Type} (m : List (String × α)) (k k1 : String) (v : α) :
    mapGet (mapSet m k v) k1 = if k = k1 then some v else mapGet m k1 := rfl

theorem indexAttrs_append (l1 l2 : List (String × String × Kind))
    (maps : List (String × String) × List (String × Kind)) :
    indexAttrs (l1 ++ l2) maps = indexAttrs l2 (indexAttrs l1 maps) := by
  induction l1 generalizing maps with
  | nil => rfl
  | cons a l1 ih =>
    obtain ⟨n, uid, k⟩ := a
    obtain ⟨m1, m2⟩ := maps
    simp [indexAttrs, ih]

theorem indexStringAttrs_eq (attrs : List cnsiStringAttr)
    (maps : List (String × String) × List (String × Kind)) :
    indexStringAttrs attrs maps =
      indexAttrs (attrs.map (fun a => (a.Name, a.UID, Kind.String))) maps := by
  induction attrs generalizing maps with
  | nil => rfl
  | cons a attrs ih =>
    obtain ⟨m1, m2⟩ := maps
    simp [indexStringAttrs, indexAttrs, ih]

theorem indexIntegerAttrs_eq (attrs : List cnsiIntegerAttr)
    (maps : List (String × String) × List (String × Kind)) :
    indexIntegerAttrs attrs maps =
      indexAttrs (attrs.map (fun a => (a.Name, a.UID, Kind.Int))) maps := by
  induction attrs generalizing maps with
  | nil => rfl
  | cons a attrs ih =>
    obtain ⟨m1, m2⟩ := maps
    simp [indexIntegerAttrs, indexAttrs, ih]

theorem attrIndexes_eq (m : cnsiMeta) :
    attrIndexes m = indexAttrs (declaredAttrs m) ([], []) := by
  simp [attrIndexes, declaredAttrs, indexAttrs_append, indexStringAttrs_eq, indexIntegerAttrs_eq]

theorem indexAttrs_nameToRef (l : List (String × String × Kind))
    (m1 : List (String × String)) (m2 : List (String × Kind)) (name : String) :
    mapGet (indexAttrs l (m1, m2)).1 name =
      match boundAttr name l with
      | some b => some b.1
      | none => mapGet m1 name := by
  induction l generalizing m1 m2 with
  | nil => rfl
  | cons a l ih =>
    obtain ⟨n, uid, k⟩ := a
    simp only [indexAttrs, boundAttr]
    rw [ih]
    cases hb : boundAttr name l with
    | some b => rfl
    | none =>
      simp only [mapGet_mapSet]
      by_cases h : n = name <;> simp [h]

theorem boundAttr_mem {name : String} {l : List (String × String × Kind)} {uid : String}
    {k : Kind} (h : boundAttr name l = some (uid, k)) : (name, uid, k) ∈ l := by
  induction l with
  | nil => simp [boundAttr] at h
  | cons a l ih =>
    obtain ⟨n, u, k1⟩ := a
    simp only [boundAttr] at h
    cases hb : boundAttr name l with
    | some b =>
      rw [hb] at h
      simp only [Option.some.injEq] at h
      subst h
      exact List.mem_cons_of_mem _ (ih hb)
    | none =>
      rw [hb] at h
      by_cases hn : n = name
      · simp [hn] at h
        obtain ⟨h1, h2⟩ := h
        subst h1 h2 hn
        exact List.mem_cons_self _ _
      · simp [hn] at h

theorem boundAttr_none_iff {name : String} {l : List (String × String × Kind)} :
    boundAttr name l = none ↔ ∀ a ∈ l, a.1 ≠ name := by
  induction l with
  | nil => simp [boundAttr]
  | cons a l ih =>
    obtain ⟨n, u, k1⟩ := a
    simp only [boundAttr]
    cases hb : boundAttr name l with
    | some b =>
      have := @boundAttr_mem name l b.1 b.2 (by simpa using hb)
      simp only [false_iff, reduceCtorEq]
      intro hall
      exact hall _ (List.mem_cons_of_mem _ this) rfl
    | none =>
      have h1 := ih.mp hb
      by_cases hn : n = name
      · simp [hn]
      · simp only [hn, if_false, true_iff]
        intro a ha
        rcases List.mem_cons.mp ha with rfl | ha
        · exact hn
        · exact h1 a ha

theorem indexAttrs_refToKind_some (l : List (String × String × Kind))
    (m1 : List (String × String)) (m2 : List (String × Kind)) (uid : String) (k : Kind)
    (h : mapGet (indexAttrs l (m1, m2)).2 uid = some k) :
    (∃ n, (n, uid, k) ∈ l) ∨ mapGet m2 uid = some k := by
  induction l generalizing m1 m2 with
  | nil => exact Or.inr h
  | cons a l ih =>
    obtain ⟨n, u, k1⟩ := a
    simp only [indexAttrs] at h
    rcases ih _ _ h with ⟨n1, hn1⟩ | h2
    · exact Or.inl ⟨n1, List.mem_cons_of_mem _ hn1⟩
    · rw [mapGet_mapSet] at h2
      by_cases hu : u = uid
      · simp [hu] at h2
        subst hu h2
        exact Or.inl ⟨n, List.mem_cons_self _ _⟩
      · simp [hu] at h2
        exact Or.inr h2

theorem indexAttrs_refToKind_isSome (l : List (String × String × Kind))
    (m1 : List (String × String)) (m2 : List (String × Kind)) (uid : String)
    (h : (∃ n k, (n, uid, k) ∈ l) ∨ (mapGet m2 uid).isSome) :
    (mapGet (indexAttrs l (m1, m2)).2 uid).isSome := by
  induction l generalizing m1 m2 with
  | nil =>
    rcases h with ⟨n, k, hm⟩ | h
    · simp at hm
    · exact h
  | cons a l ih =>
    obtain ⟨n, u, k1⟩ := a
    simp only [indexAttrs]
    apply ih
    rcases h with ⟨n1, k, hm⟩ | h
    · rcases List.mem_cons.mp hm with heq | hm
      · right
        simp only [Prod.mk.injEq] at heq
        simp [mapGet_mapSet, heq.2.1]
      · exact Or.inl ⟨n1, k, hm⟩
    · right
      rw [mapGet_mapSet]
      by_cases hu : u = uid <;> simp [hu, h]

/-! ## Lemmas: the pre-flight check -/

theorem fieldLoop_append_ok (n2r : List (String × String)) (r2k : List (String × Kind))
    (pre rest : List StructField) (i : Nat) (idx : List (String × Nat))
    (hpre : ∀ g ∈ pre, ∃ o, checkField n2r r2k g = .ok o) :
    ∃ idx1, fieldLoop n2r r2k (pre ++ rest) i idx =
      fieldLoop n2r r2k rest (i + pre.length) idx1 := by
  induction pre generalizing i idx with
  | nil => exact ⟨idx, by simp⟩
  | cons g pre ih =>
    obtain ⟨o, ho⟩ := hpre g (List.mem_cons_self _ _)
    have hrest : ∀ g1 ∈ pre, ∃ o, checkField n2r r2k g1 = .ok o :=
      fun g1 hg1 => hpre g1 (List.mem_cons_of_mem _ hg1)
    cases o with
    | none =>
      obtain ⟨idx1, h1⟩ := ih (i + 1) idx hrest
      refine ⟨idx1, ?_⟩
      rw [List.cons_append, fieldLoop, ho]
      simp only [List.length_cons]
      rw [h1, show i + 1 + pre.length = i + (pre.length + 1) by omega]
    | some uid =>
      obtain ⟨idx1, h1⟩ := ih (i + 1) (mapSet idx uid i) hrest
      refine ⟨idx1, ?_⟩
      rw [List.cons_append, fieldLoop, ho]
      simp only [List.length_cons]
      rw [h1, show i + 1 + pre.length = i + (pre.length + 1) by omega]

theorem fieldLoop_first_error (n2r : List (String × String)) (r2k : List (String × Kind))
    (pre post : List StructField) (f : StructField) (e : GoError) (i : Nat)
    (idx : List (String × Nat))
    (hpre : ∀ g ∈ pre, ∃ o, checkField n2r r2k g = .ok o)
    (hf : checkField n2r r2k f = .error e) :
    fieldLoop n2r r2k (pre ++ f :: post) i idx = .error e := by
  obtain ⟨idx1, h1⟩ := fieldLoop_append_ok n2r r2k pre (f :: post) i idx hpre
  rw [h1]
  simp [fieldLoop, hf]

theorem fieldLoop_error_of_mem (n2r : List (String × String)) (r2k : List (String × Kind))
    (fields : List StructField) (f : StructField) (e : GoError) (i : Nat)
    (idx : List (String × Nat)) (hmem : f ∈ fields)
    (hf : checkField n2r r2k f = .error e) :
    ∃ e1, fieldLoop n2r r2k fields i idx = .error e1 := by
  induction fields generalizing i idx with
  | nil => simp at hmem
  | cons g fields ih =>
    simp only [fieldLoop]
    cases hg : checkField n2r r2k g with
    | error e1 => exact ⟨e1, rfl⟩
    | ok o =>
      have hmem1 : f ∈ fields := by
        rcases List.mem_cons.mp hmem with rfl | h
        · rw [hf] at hg
          cases hg
        · exact h
      cases o with
      | none => exact ih (i + 1) idx hmem1
      | some uid => exact ih (i + 1) (mapSet idx uid i) hmem1

theorem fieldLoop_ok_forall (n2r : List (String × String)) (r2k : List (String × Kind))
    (fields : List StructField) (i : Nat) (idx idx1 : List (String × Nat))
    (h : fieldLoop n2r r2k fields i idx = .ok idx1) :
    ∀ f ∈ fields, ∃ o, checkField n2r r2k f = .ok o := by
  intro f hf
  cases hc : checkField n2r r2k f with
  | ok o => exact ⟨o, rfl⟩
  | error e =>
    obtain ⟨e1, he1⟩ := fieldLoop_error_of_mem n2r r2k fields f e i idx hf hc
    rw [he1] at h
    cases h

theorem checkField_ok_some (n2r : List (String × String)) (r2k : List (String × Kind))
    (f : StructField) (uid : String) (h : checkField n2r r2k f = .ok (some uid)) :
    f.Tag ≠ "" ∧ mapGet n2r f.Tag = some uid ∧ mapGet r2k uid = some f.Kind := by
  unfold checkField at h
  simp only at h
  split at h
  · cases h
  · rename_i htag
    split at h
    · cases h
    · rename_i uid1 hn
      split at h
      · cases h
      · rename_i kind hk
        split at h
        · cases h
        · rename_i hkind
          simp only [Except.ok.injEq, Option.some.injEq] at h
          subst h
          refine ⟨htag, hn, ?_⟩
          rw [hk]
          simp only [ne_eq, not_not] at hkind
          rw [hkind]

/-- Every binding of the field index built by the pre-flight check points at a tagged field
whose attribute resolves to that reference and whose kind is the kind indexed for it. -/
theorem fieldLoop_index (n2r : List (String × String)) (r2k : List (String × Kind))
    (fields : List StructField) (i : Nat) (idx idx1 : List (String × Nat))
    (h : fieldLoop n2r r2k fields i idx = .ok idx1) (ref : String) (j : Nat)
    (hj : mapGet idx1 ref = some j) :
    mapGet idx ref = some j ∨
      ∃ f, fields.get? (j - i) = some f ∧ i ≤ j ∧ f.Tag ≠ "" ∧
        mapGet n2r f.Tag = some ref ∧ mapGet r2k ref = some f.Kind := by
  induction fields generalizing i idx with
  | nil =>
    simp only [fieldLoop, Except.ok.injEq] at h
    subst h
    exact Or.inl hj
  | cons g fields ih =>
    simp only [fieldLoop] at h
    have shift : ∀ f, fields.get? (j - (i + 1)) = some f → i + 1 ≤ j →
        (g :: fields).get? (j - i) = some f := by
      intro f hf hle
      have : j - i = (j - (i + 1)) + 1 := by omega
      rw [this]
      simpa using hf
    cases hg : checkField n2r r2k g with
    | error e => rw [hg] at h; cases h
    | ok o =>
      rw [hg] at h
      cases o with
      | none =>
        rcases ih (i + 1) idx h with h1 | ⟨f, hf, hle, h2⟩
        · exact Or.inl h1
        · exact Or.inr ⟨f, shift f hf hle, by omega, h2⟩
      | some uid =>
        rcases ih (i + 1) (mapSet idx uid i) h with h1 | ⟨f, hf, hle, h2⟩
        · rw [mapGet_mapSet] at h1
          by_cases hu : uid = ref
          · simp only [hu, if_true, Option.some.injEq] at h1
            subst h1 hu
            obtain ⟨ht, hn, hk⟩ := checkField_ok_some n2r r2k g uid hg
            exact Or.inr ⟨g, by simp, le_refl _, ht, hn, hk⟩
          · simp only [hu, if_false] at h1
            exact Or.inl h1
        · exact Or.inr ⟨f, shift f hf hle, by omega, h2⟩

theorem attrIndexes_kind (m : cnsiMeta) (uid : String) (k : Kind)
    (h : mapGet (attrIndexes m).2 uid = some k) : k = Kind.String ∨ k = Kind.Int := by
  rw [attrIndexes_eq] at h
  rcases indexAttrs_refToKind_some _ _ _ _ _ h with ⟨n, hn⟩ | h2
  · simp only [declaredAttrs, List.mem_append, List.mem_map, Prod.mk.injEq] at hn
    rcases hn with ⟨a, _, _, _, hk⟩ | ⟨a, _, _, _, hk⟩ | ⟨a, _, _, _, hk⟩
    · exact Or.inl hk.symm
    · exact Or.inl hk.symm
    · exact Or.inr hk.symm
  · simp [mapGet] at h2

/-- For a record type that passed the pre-flight check, a reference bound by the field index
points at an existing tagged field of kind string or int. -/
theorem preflight_index (typ : RType) (m : cnsiMeta) (idx : List (String × Nat))
    (h : preflight typ m = .ok idx) (ref : String) (j : Nat) (hj : mapGet idx ref = some j) :
    ∃ f, typ.Fields.get? j = some f ∧ f.Tag ≠ "" ∧
      mapGet (attrIndexes m).1 f.Tag = some ref ∧
      (f.Kind = Kind.String ∨ f.Kind = Kind.Int) := by
  rcases fieldLoop_index _ _ _ _ _ _ h ref j hj with h1 | ⟨f, hf, _, ht, hn, hk⟩
  · simp [mapGet] at h1
  · exact ⟨f, by simpa using hf, ht, hn, attrIndexes_kind m ref f.Kind hk⟩

/-! ## Lemmas: filling one record -/

theorem reflectSet_exported (method : String) (field : StructField) (val : Record) (i : Nat)
    (x : Value) (h : field.PkgPath = "") :
    reflectSet method field val i x = .ok (val.set i x) := by
  simp [reflectSet, h]

theorem reflectSet_unexported (method : String) (field : StructField) (val : Record) (i : Nat)
    (x : Value) (h : field.PkgPath ≠ "") :
    reflectSet method field val i x =
      .error (.panic ("reflect: reflect.Value." ++ method ++
        " using value obtained using unexported field")) := by
  simp [reflectSet, h]

theorem reflectSet_ok (method : String) (field : StructField) (val v : Record) (i : Nat)
    (x : Value) (h : reflectSet method field val i x = .ok v) :
    v = val.set i x ∧ field.PkgPath = "" := by
  unfold reflectSet at h
  by_cases hp : field.PkgPath = ""
  · simp only [hp, ne_eq, not_true_eq_false, if_false, Except.ok.injEq] at h
    exact ⟨h.symm, hp⟩
  · simp [hp] at h

theorem reflectSet_error (method : String) (field : StructField) (val : Record) (i : Nat)
    (x : Value) (f : Fail) (h : reflectSet method field val i x = .error f) :
    field.PkgPath ≠ "" ∧ ∃ msg, f = .panic msg := by
  unfold reflectSet at h
  by_cases hp : field.PkgPath = ""
  · simp [hp] at h
  · simp only [hp, ne_eq, not_false_eq_true, if_true, Except.error.injEq] at h
    exact ⟨hp, _, h.symm⟩

/-- A field the pre-flight check bound is exported when every tagged field is. -/
theorem bound_field_exported (typ : RType) (m : cnsiMeta) (idx : List (String × Nat))
    (hpre : preflight typ m = .ok idx) (hexp : taggedExported typ) (ref : String) (j : Nat)
    (f : StructField) (hj : mapGet idx ref = some j) (hf : typ.Fields.get? j = some f) :
    f.PkgPath = "" := by
  obtain ⟨f1, hf1, htag, _, _⟩ := preflight_index typ m idx hpre ref j hj
  rw [hf] at hf1
  cases hf1
  exact hexp f (List.get?_mem hf) htag

theorem setAttrVal_unbound (typ : RType) (idx : List (String × Nat)) (p : cnsiAttrVal)
    (val : Record) (h : mapGet idx p.AttrRef = none) : setAttrVal typ idx p val = .ok val := by
  simp [setAttrVal, h]

/-- A successful step writes the bound field and nothing else. -/
theorem setAttrVal_ok (typ : RType) (idx : List (String × Nat)) (p : cnsiAttrVal)
    (val v : Record) (h : setAttrVal typ idx p val = .ok v) :
    (mapGet idx p.AttrRef = none ∧ v = val) ∨
      ∃ j x, mapGet idx p.AttrRef = some j ∧ v = val.set j x := by
  unfold setAttrVal at h
  split at h
  · left
    rename_i hg
    simp only [Except.ok.injEq] at h
    exact ⟨hg, h.symm⟩
  · rename_i j hg
    right
    split at h
    · cases h
    · split at h
      · split at h
        · exact ⟨j, _, hg, (reflectSet_ok _ _ _ _ _ _ h).1⟩
        · split at h
          · exact ⟨j, _, hg, (reflectSet_ok _ _ _ _ _ _ h).1⟩
          · cases h
      · split at h
        · exact ⟨j, _, hg, (reflectSet_ok _ _ _ _ _ _ h).1⟩
        · cases h
      · cases h

theorem setAttrVal_frame (typ : RType) (idx : List (String × Nat)) (p : cnsiAttrVal)
    (val v : Record) (h : setAttrVal typ idx p val = .ok v) (j : Nat)
    (hj : mapGet idx p.AttrRef ≠ some j) : v.get? j = val.get? j := by
  rcases setAttrVal_ok typ idx p val v h with ⟨_, rfl⟩ | ⟨i, x, hi, rfl⟩
  · rfl
  · have hne : i ≠ j := by
      intro hij
      subst hij
      exact hj hi
    simp [List.getElem?_set_ne hne]

theorem setAttrVals_frame (typ : RType) (idx : List (String × Nat)) (ps : List cnsiAttrVal)
    (val v : Record) (h : setAttrVals typ idx ps val = .ok v) (j : Nat)
    (hj : ∀ p ∈ ps, mapGet idx p.AttrRef ≠ some j) : v.get? j = val.get? j := by
  induction ps generalizing val with
  | nil =>
    simp only [setAttrVals, Except.ok.injEq] at h
    rw [h]
  | cons p ps ih =>
    simp only [setAttrVals] at h
    cases hp : setAttrVal typ idx p val with
    | error f => rw [hp] at h; cases h
    | ok v1 =>
      rw [hp] at h
      rw [ih v1 h (fun q hq => hj q (List.mem_cons_of_mem _ hq))]
      exact setAttrVal_frame typ idx p val v1 hp j (hj p (List.mem_cons_self _ _))

theorem setAttrVals_append (typ : RType) (idx : List (String × Nat))
    (ps qs : List cnsiAttrVal) (val : Record) :
    setAttrVals typ idx (ps ++ qs) val =
      match setAttrVals typ idx ps val with
      | .error f => .error f
      | .ok v => setAttrVals typ idx qs v := by
  induction ps generalizing val with
  | nil => rfl
  | cons p ps ih =>
    rw [List.cons_append, setAttrVals, setAttrVals]
    cases hp : setAttrVal typ idx p val with
    | error f => rfl
    | ok v1 => exact ih v1

theorem setAttrVals_filter (typ : RType) (idx : List (String × Nat)) (ps : List cnsiAttrVal)
    (val : Record) :
    setAttrVals typ idx (ps.filter (boundPair idx)) val = setAttrVals typ idx ps val := by
  induction ps generalizing val with
  | nil => rfl
  | cons p ps ih =>
    by_cases hb : boundPair idx p = true
    · rw [List.filter_cons_of_pos hb, setAttrVals, setAttrVals]
      cases hp : setAttrVal typ idx p val with
      | error f => rfl
      | ok v1 => exact ih v1
    · rw [List.filter_cons_of_neg hb, setAttrVals]
      have hn : mapGet idx p.AttrRef = none := by
        simpa [boundPair] using hb
      rw [setAttrVal_unbound typ idx p val hn]
      exact ih val

/-- A pair on which the step fails whatever the record under construction makes the whole
record fail. -/
theorem setAttrVals_error_of_mem (typ : RType) (idx : List (String × Nat))
    (ps : List cnsiAttrVal) (p : cnsiAttrVal) (hp : p ∈ ps)
    (hbad : ∀ val, ∃ f, setAttrVal typ idx p val = .error f) (val : Record) :
    ∃ f, setAttrVals typ idx ps val = .error f := by
  induction ps generalizing val with
  | nil => simp at hp
  | cons q ps ih =>
    simp only [setAttrVals]
    cases hq : setAttrVal typ idx q val with
    | error f => exact ⟨f, rfl⟩
    | ok v1 =>
      rcases List.mem_cons.mp hp with rfl | hmem
      · obtain ⟨f, hf⟩ := hbad val
        rw [hf] at hq
        cases hq
      · exact ih hmem v1

theorem setAttrVal_ok_of_fits (typ : RType) (m : cnsiMeta) (idx : List (String × Nat))
    (hpre : preflight typ m = .ok idx) (hexp : taggedExported typ) (p : cnsiAttrVal)
    (hfit : payloadFits typ idx p = true) (val : Record) :
    ∃ v, setAttrVal typ idx p val = .ok v := by
  unfold setAttrVal
  cases hg : mapGet idx p.AttrRef with
  | none => exact ⟨val, rfl⟩
  | some j =>
    obtain ⟨f, hf, _, _, hk⟩ := preflight_index typ m idx hpre p.AttrRef j hg
    have hpkg := bound_field_exported typ m idx hpre hexp p.AttrRef j f hg hf
    unfold payloadFits at hfit
    simp only [hg, hf] at hfit
    simp only [hf]
    rcases hk with hk | hk
    · simp only [hk] at hfit
      simp only [hk]
      cases hs : p.StringVal with
      | some s => exact ⟨_, reflectSet_exported _ _ _ _ _ hpkg⟩
      | none =>
        cases ht : p.TextVal with
        | some t => exact ⟨_, reflectSet_exported _ _ _ _ _ hpkg⟩
        | none => simp [hs, ht] at hfit
    · simp only [hk] at hfit
      simp only [hk]
      cases hi : p.IntegerVal with
      | some n => exact ⟨_, reflectSet_exported _ _ _ _ _ hpkg⟩
      | none => simp [hi] at hfit

theorem setAttrVals_ok_of_fits (typ : RType) (m : cnsiMeta) (idx : List (String × Nat))
    (hpre : preflight typ m = .ok idx) (hexp : taggedExported typ) (ps : List cnsiAttrVal)
    (hfit : ∀ p ∈ ps, payloadFits typ idx p = true) (val : Record) :
    ∃ v, setAttrVals typ idx ps val = .ok v := by
  induction ps generalizing val with
  | nil => exact ⟨val, rfl⟩
  | cons p ps ih =>
    obtain ⟨v1, hv1⟩ :=
      setAttrVal_ok_of_fits typ m idx hpre hexp p (hfit p (List.mem_cons_self _ _)) val
    simp only [setAttrVals, hv1]
    exact ih (fun q hq => hfit q (List.mem_cons_of_mem _ hq)) v1
/-! ## Lemmas: the record loop -/

theorem setAttrVal_no_panic (typ : RType) (m : cnsiMeta) (idx : List (String × Nat))
    (hpre : preflight typ m = .ok idx) (hexp : taggedExported typ) (p : cnsiAttrVal)
    (val : Record) (f : Fail)
    (h : setAttrVal typ idx p val = .error f) : ∃ e, f = .err e := by
  unfold setAttrVal at h
  cases hg : mapGet idx p.AttrRef with
  | none => simp [hg] at h
  | some j =>
    obtain ⟨fd, hfd, _, _, hk⟩ := preflight_index typ m idx hpre p.AttrRef j hg
    have hpkg := bound_field_exported typ m idx hpre hexp p.AttrRef j fd hg hfd
    simp only [hg, hfd] at h
    rcases hk with hk | hk
    · simp only [hk] at h
      cases hs : p.StringVal with
      | some s =>
        rw [hs] at h
        simp only [reflectSet_exported _ _ _ _ _ hpkg] at h
        cases h
      | none =>
        rw [hs] at h
        cases ht : p.TextVal with
        | some t =>
          rw [ht] at h
          simp only [reflectSet_exported _ _ _ _ _ hpkg] at h
          cases h
        | none =>
          rw [ht] at h
          simp only [Except.error.injEq] at h
          exact ⟨_, h.symm⟩
    · simp only [hk] at h
      cases hi : p.IntegerVal with
      | some n =>
        rw [hi] at h
        simp only [reflectSet_exported _ _ _ _ _ hpkg] at h
        cases h
      | none =>
        rw [hi] at h
        simp only [Except.error.injEq] at h
        exact ⟨_, h.symm⟩

theorem setAttrVals_no_panic (typ : RType) (m : cnsiMeta) (idx : List (String × Nat))
    (hpre : preflight typ m = .ok idx) (hexp : taggedExported typ) (ps : List cnsiAttrVal)
    (val : Record) (f : Fail)
    (h : setAttrVals typ idx ps val = .error f) : ∃ e, f = .err e := by
  induction ps generalizing val with
  | nil => simp [setAttrVals] at h
  | cons p ps ih =>
    simp only [setAttrVals] at h
    cases hp : setAttrVal typ idx p val with
    | error f1 =>
      rw [hp] at h
      simp only [Except.error.injEq] at h
      subst h
      exact setAttrVal_no_panic typ m idx hpre hexp p val f1 hp
    | ok v1 =>
      rw [hp] at h
      exact ih v1 h

/-- The field `d.handler` after a call of a handler that stays set. -/
theorem recordLoop_next {σ : Type} (h : Handler σ) (hset : handlerStaysSet h) (rec : Record)
    (c : Classifier) (env : σ) :
    (if (h rec c env).keepsHandler = true then some h else none) = some h :=
  if_pos (hset _ _ _)

/-- After a passed pre-flight check on a record type whose tagged fields are exported, the
record loop returns (an error or nil): it never panics. -/
theorem recordLoop_returns {σ : Type} (handler : Option (Handler σ)) (typ : RType)
    (m : cnsiMeta) (idx : List (String × Nat)) (hpre : preflight typ m = .ok idx)
    (hexp : taggedExported typ) (recs : List cnsiRecord) (i : Nat) (s : UState σ) :
    ∃ x, (recordLoop handler typ idx recs i s).1 = .ret x := by
  induction recs generalizing handler i s with
  | nil => exact ⟨none, rfl⟩
  | cons dr recs ih =>
    simp only [recordLoop]
    cases hd : decodeRecord typ idx dr with
    | error f =>
      obtain ⟨e, rfl⟩ := setAttrVals_no_panic typ m idx hpre hexp _ _ f hd
      exact ⟨some e, rfl⟩
    | ok record =>
      cases handler with
      | none => exact ih _ _ _
      | some h =>
        simp only
        cases he : (h record s.c s.env).err with
        | some err => exact ⟨_, rfl⟩
        | none => exact ih _ _ _

/-- A record loop that returned nil on the records `pre` goes on, on the records that follow,
from the state it reached, with the handler as the calls left it. -/
theorem recordLoop_append_some {σ : Type} (handler : Option (Handler σ)) (typ : RType)
    (idx : List (String × Nat)) (pre rest : List cnsiRecord) (i : Nat) (s s1 : UState σ)
    (h : recordLoop handler typ idx pre i s = (.ret none, s1)) :
    ∃ handler1, recordLoop handler typ idx (pre ++ rest) i s =
      recordLoop handler1 typ idx rest (i + pre.length) s1 := by
  induction pre generalizing handler i s with
  | nil =>
    simp only [recordLoop, Prod.mk.injEq, true_and] at h
    subst h
    exact ⟨handler, rfl⟩
  | cons dr pre ih =>
    rw [List.cons_append, recordLoop]
    rw [recordLoop] at h
    simp only [List.length_cons]
    rw [show i + (pre.length + 1) = i + 1 + pre.length by omega]
    cases hd : decodeRecord typ idx dr with
    | error f =>
      rw [hd] at h
      cases f <;> simp [Fail.toResult] at h
    | ok record =>
      rw [hd] at h
      cases handler with
      | none => exact ih _ _ _ h
      | some hh =>
        simp only at h ⊢
        cases he : (hh record s.c s.env).err with
        | some err => rw [he] at h; simp at h
        | none =>
          rw [he] at h
          exact ih _ _ _ h

/-- A record loop without handler, or with a handler that stays set, that returned nil on the
records `pre` goes on, on the records that follow, from the state it reached. -/
theorem recordLoop_append {σ : Type} (handler : Option (Handler σ)) (typ : RType)
    (idx : List (String × Nat)) (pre rest : List cnsiRecord) (i : Nat) (s s1 : UState σ)
    (hset : ∀ hh, handler = some hh → handlerStaysSet hh)
    (h : recordLoop handler typ idx pre i s = (.ret none, s1)) :
    recordLoop handler typ idx (pre ++ rest) i s =
      recordLoop handler typ idx rest (i + pre.length) s1 := by
  induction pre generalizing i s with
  | nil =>
    simp only [recordLoop, Prod.mk.injEq, true_and] at h
    subst h
    rfl
  | cons dr pre ih =>
    rw [List.cons_append, recordLoop]
    rw [recordLoop] at h
    simp only [List.length_cons]
    rw [show i + (pre.length + 1) = i + 1 + pre.length by omega]
    cases hd : decodeRecord typ idx dr with
    | error f =>
      rw [hd] at h
      cases f <;> simp [Fail.toResult] at h
    | ok record =>
      rw [hd] at h
      cases handler with
      | none => exact ih _ _ h
      | some hh =>
        simp only at h ⊢
        cases he : (hh record s.c s.env).err with
        | some err => rw [he] at h; simp at h
        | none =>
          rw [he] at h
          simp only [recordLoop_next hh (hset hh rfl)] at h ⊢
          exact ih _ _ h

/-- A record loop that returns nil has decoded every record. -/
theorem recordLoop_ok_all {σ : Type} (handler : Option (Handler σ)) (typ : RType)
    (idx : List (String × Nat)) (recs : List cnsiRecord) (i : Nat) (s s1 : UState σ)
    (h : recordLoop handler typ idx recs i s = (.ret none, s1)) :
    ∀ dr ∈ recs, ∃ r, decodeRecord typ idx dr = .ok r := by
  induction recs generalizing handler i s with
  | nil => intro dr hdr; simp at hdr
  | cons d recs ih =>
    rw [recordLoop] at h
    cases hd : decodeRecord typ idx d with
    | error f =>
      rw [hd] at h
      cases f <;> simp [Fail.toResult] at h
    | ok record =>
      rw [hd] at h
      have tail : ∀ dr ∈ recs, ∃ r, decodeRecord typ idx dr = .ok r := by
        cases handler with
        | none => exact ih _ _ _ h
        | some hh =>
          simp only at h
          cases he : (hh record s.c s.env).err with
          | some err => rw [he] at h; simp at h
          | none =>
            rw [he] at h
            exact ih _ _ _ h
      intro dr hdr
      rcases List.mem_cons.mp hdr with rfl | hm
      · exact ⟨record, hd⟩
      · exact tail dr hm

/-- Without a handler the record loop appends the decoded prefix to `Records` and touches
nothing else. -/
theorem recordLoop_nohandler_state {σ : Type} (typ : RType) (idx : List (String × Nat))
    (recs : List cnsiRecord) (i : Nat) (s : UState σ) :
    (recordLoop none typ idx recs i s).2 =
      { s with c := { s.c with Records := s.c.Records ++ decodedPrefix typ idx recs } } := by
  induction recs generalizing i s with
  | nil => simp [recordLoop, decodedPrefix]
  | cons d recs ih =>
    rw [recordLoop, decodedPrefix]
    cases hd : decodeRecord typ idx d with
    | error f => simp
    | ok record =>
      simp only
      rw [ih]
      simp

theorem recordLoop_nohandler_ok {σ : Type} (typ : RType) (idx : List (String × Nat))
    (recs : List cnsiRecord) (i : Nat) (s : UState σ)
    (hall : ∀ dr ∈ recs, ∃ r, decodeRecord typ idx dr = .ok r) :
    (recordLoop none typ idx recs i s).1 = .ret none := by
  induction recs generalizing i s with
  | nil => rfl
  | cons d recs ih =>
    rw [recordLoop]
    obtain ⟨r, hr⟩ := hall d (List.mem_cons_self _ _)
    rw [hr]
    exact ih _ _ (fun dr hdr => hall dr (List.mem_cons_of_mem _ hdr))

/-- The record loop passes to the handler a prefix of the decoded prefix, in order, whether
the handler stays set or not. -/
theorem recordLoop_calls_prefix {σ : Type} (handler : Option (Handler σ)) (typ : RType)
    (idx : List (String × Nat)) (recs : List cnsiRecord) (i : Nat) (s : UState σ) :
    ∃ ks, ks <+: decodedPrefix typ idx recs ∧
      (recordLoop handler typ idx recs i s).2.calls = s.calls ++ ks := by
  induction recs generalizing handler i s with
  | nil => exact ⟨[], List.nil_prefix, by simp [recordLoop]⟩
  | cons d recs ih =>
    rw [recordLoop, decodedPrefix]
    cases hd : decodeRecord typ idx d with
    | error f => exact ⟨[], List.nil_prefix, by simp⟩
    | ok record =>
      cases handler with
      | none =>
        simp only
        obtain ⟨ks, hks, hcalls⟩ := ih none (i + 1)
          { s with c := { s.c with Records := s.c.Records ++ [record] } }
        have hnil : ks = [] := by
          have hst := recordLoop_nohandler_state typ idx recs (i + 1)
            { s with c := { s.c with Records := s.c.Records ++ [record] } }
          rw [hst] at hcalls
          simpa using hcalls
        exact ⟨[], List.nil_prefix, by rw [hcalls, hnil]⟩
      | some h =>
        simp only
        cases he : (h record s.c s.env).err with
        | some err =>
          exact ⟨[record], by simp [List.prefix_cons_inj, List.nil_prefix], by simp⟩
        | none =>
          obtain ⟨ks, hks, hcalls⟩ :=
            ih (if (h record s.c s.env).keepsHandler = true then some h else none) (i + 1)
              { c := (h record s.c s.env).c, env := (h record s.c s.env).env,
                calls := s.calls ++ [record] }
          refine ⟨record :: ks, (List.prefix_cons_inj record).mpr hks, ?_⟩
          rw [hcalls]
          simp

/-- The record loop with a handler passes to the handler a prefix of the decoded prefix, in
order. -/
theorem recordLoop_handler_calls {σ : Type} (h : Handler σ) (typ : RType)
    (idx : List (String × Nat)) (recs : List cnsiRecord) (i : Nat) (s : UState σ) :
    ∃ ks, ks <+: decodedPrefix typ idx recs ∧
      (recordLoop (some h) typ idx recs i s).2.calls = s.calls ++ ks :=
  recordLoop_calls_prefix (some h) typ idx recs i s

/-- The record loop with a handler that stays set changes the classifier only through the
handler. -/
theorem recordLoop_handler_c {σ : Type} (h : Handler σ) (typ : RType)
    (idx : List (String × Nat)) (recs : List cnsiRecord) (i : Nat) (s : UState σ)
    (hset : handlerStaysSet h) (hkeep : ∀ rec c env, (h rec c env).c = c) :
    (recordLoop (some h) typ idx recs i s).2.c = s.c := by
  induction recs generalizing i s with
  | nil => rfl
  | cons d recs ih =>
    rw [recordLoop]
    cases hd : decodeRecord typ idx d with
    | error f => rfl
    | ok record =>
      simp only
      cases he : (h record s.c s.env).err with
      | some err => exact hkeep _ _ _
      | none =>
        simp only [recordLoop_next h hset]
        rw [ih]
        exact hkeep _ _ _
/-! ## Lemmas: the decoded prefix -/

theorem decodedPrefix_get (typ : RType) (idx : List (String × Nat)) (recs : List cnsiRecord)
    (n : Nat) (r : Record) (h : (decodedPrefix typ idx recs).get? n = some r) :
    ∃ dr, recs.get? n = some dr ∧ decodeRecord typ idx dr = .ok r := by
  induction recs generalizing n with
  | nil => simp [decodedPrefix] at h
  | cons d recs ih =>
    rw [decodedPrefix] at h
    cases hd : decodeRecord typ idx d with
    | error f => rw [hd] at h; simp at h
    | ok record =>
      rw [hd] at h
      cases n with
      | zero =>
        simp only [List.get?_cons_zero, Option.some.injEq] at h
        subst h
        exact ⟨d, rfl, hd⟩
      | succ n =>
        simp only [List.get?_cons_succ] at h
        obtain ⟨dr, h1, h2⟩ := ih n h
        exact ⟨dr, by simpa using h1, h2⟩

theorem decodedPrefix_all (typ : RType) (idx : List (String × Nat)) (recs : List cnsiRecord)
    (hall : ∀ dr ∈ recs, ∃ r, decodeRecord typ idx dr = .ok r) :
    List.Forall₂ (fun dr r => decodeRecord typ idx dr = .ok r) recs
      (decodedPrefix typ idx recs) := by
  induction recs with
  | nil => simp [decodedPrefix]
  | cons d recs ih =>
    obtain ⟨r, hr⟩ := hall d (List.mem_cons_self _ _)
    rw [decodedPrefix, hr]
    exact List.Forall₂.cons hr (ih (fun dr hdr => hall dr (List.mem_cons_of_mem _ hdr)))

theorem decodedPrefix_length_le (typ : RType) (idx : List (String × Nat))
    (recs : List cnsiRecord) (n : Nat) (dr : cnsiRecord) (f : Fail)
    (hn : recs.get? n = some dr) (hbad : decodeRecord typ idx dr = .error f) :
    (decodedPrefix typ idx recs).length ≤ n := by
  by_contra hlt
  push_neg at hlt
  have hsome : (decodedPrefix typ idx recs).get? n =
      some ((decodedPrefix typ idx recs).get ⟨n, hlt⟩) := List.get?_eq_get hlt
  obtain ⟨dr1, h1, h2⟩ := decodedPrefix_get typ idx recs n _ hsome
  rw [hn] at h1
  cases h1
  rw [hbad] at h2
  cases h2

theorem decodedPrefix_dropUnbound (typ : RType) (idx : List (String × Nat))
    (recs : List cnsiRecord) :
    decodedPrefix typ idx
        (recs.map (fun r => { r with AttrVals := r.AttrVals.filter (boundPair idx) })) =
      decodedPrefix typ idx recs := by
  induction recs with
  | nil => rfl
  | cons d recs ih =>
    rw [List.map_cons, decodedPrefix, decodedPrefix, ih]
    simp only [decodeRecord, setAttrVals_filter]

theorem recordLoop_dropUnbound {σ : Type} (handler : Option (Handler σ)) (typ : RType)
    (idx : List (String × Nat)) (recs : List cnsiRecord) (i : Nat) (s : UState σ) :
    recordLoop handler typ idx
        (recs.map (fun r => { r with AttrVals := r.AttrVals.filter (boundPair idx) })) i s =
      recordLoop handler typ idx recs i s := by
  induction recs generalizing handler i s with
  | nil => rfl
  | cons d recs ih =>
    rw [List.map_cons, recordLoop, recordLoop]
    simp only [decodeRecord, setAttrVals_filter]
    cases hd : setAttrVals typ idx d.AttrVals (zeroRecord typ) with
    | error f => rfl
    | ok record =>
      cases handler with
      | none => exact ih _ _ _
      | some hh =>
        simp only
        cases he : (hh record s.c s.env).err with
        | some err => rfl
        | none => exact ih _ _ _

/-! ## Lemmas: `unmarshal` and `Decode` -/

/-- What `Decode` does once its three guards pass and the document is parsed. -/
theorem Decode_parsed {ρ σ : Type} (xmlDecode : ρ → Except GoError cnsiDoc × ρ) (typ : RType)
    (d : Decoder ρ σ) (c0 : Classifier) (env : σ) (r r1 : ρ) (doc : cnsiDoc)
    (hk : typ.Kind = Kind.Struct) (hr : d.r = some r) (hx : xmlDecode r = (.ok doc, r1)) :
    d.Decode xmlDecode (some typ) (some c0) env =
      { result := (d.unmarshal typ c0 doc env).1, c := some (d.unmarshal typ c0 doc env).2.c,
        r := some r1, env := (d.unmarshal typ c0 doc env).2.env,
        calls := (d.unmarshal typ c0 doc env).2.calls } := by
  simp [Decoder.Decode, hk, hr, hx]

theorem unmarshal_preflight_error {ρ σ : Type} (d : Decoder ρ σ) (typ : RType) (c0 : Classifier)
    (doc : cnsiDoc) (env : σ) (e : GoError) (h : preflight typ doc.Meta = .error e) :
    d.unmarshal typ c0 doc env = (.ret (some e), { c := c0, env := env, calls := [] }) := by
  simp [Decoder.unmarshal, h]

theorem unmarshal_preflight_ok {ρ σ : Type} (d : Decoder ρ σ) (typ : RType) (c0 : Classifier)
    (doc : cnsiDoc) (env : σ) (idx : List (String × Nat)) (h : preflight typ doc.Meta = .ok idx) :
    d.unmarshal typ c0 doc env =
      recordLoop d.handler typ idx doc.Records 0
        { c := if d.handler.isSome then
                 { Name := doc.Meta.Name, Code := doc.Meta.Code, UID := doc.Meta.UID,
                   Version := doc.Meta.Version, Records := [] }
               else
                 { Name := doc.Meta.Name, Code := doc.Meta.Code, UID := doc.Meta.UID,
                   Version := doc.Meta.Version, Records := c0.Records },
          env := env, calls := [] } := by
  simp [Decoder.unmarshal, h]

/-- A field that fails the pre-flight check makes `unmarshal` return an error at once. -/
theorem unmarshal_of_failing_field {ρ σ : Type} (d : Decoder ρ σ) (typ : RType)
    (c0 : Classifier) (doc : cnsiDoc) (env : σ) (f : StructField) (e : GoError)
    (hf : f ∈ typ.Fields)
    (hfail : checkField (attrIndexes doc.Meta).1 (attrIndexes doc.Meta).2 f = .error e) :
    ∃ e1, d.unmarshal typ c0 doc env = (.ret (some e1), { c := c0, env := env, calls := [] }) := by
  obtain ⟨e1, he1⟩ := fieldLoop_error_of_mem _ _ typ.Fields f e 0 [] hf hfail
  exact ⟨e1, unmarshal_preflight_error d typ c0 doc env e1 he1⟩

/-- The first field that fails the pre-flight check decides the error of `unmarshal`. -/
theorem unmarshal_of_first_failing_field {ρ σ : Type} (d : Decoder ρ σ) (typ : RType)
    (c0 : Classifier) (doc : cnsiDoc) (env : σ) (pre post : List StructField) (f : StructField)
    (e : GoError) (hsplit : typ.Fields = pre ++ f :: post)
    (hpre : ∀ g ∈ pre, ∃ o, checkField (attrIndexes doc.Meta).1 (attrIndexes doc.Meta).2 g = .ok o)
    (hfail : checkField (attrIndexes doc.Meta).1 (attrIndexes doc.Meta).2 f = .error e) :
    d.unmarshal typ c0 doc env = (.ret (some e), { c := c0, env := env, calls := [] }) := by
  apply unmarshal_preflight_error
  unfold preflight
  rw [hsplit]
  exact fieldLoop_first_error _ _ pre post f e 0 [] hpre hfail

theorem boundAttr_declaredAttrs_none (m : cnsiMeta) (name : String)
    (hs : ∀ a ∈ m.StringAttrs, a.Name ≠ name) (ht : ∀ a ∈ m.TextAttrs, a.Name ≠ name)
    (hi : ∀ a ∈ m.IntegerAttrs, a.Name ≠ name) :
    boundAttr name (declaredAttrs m) = none := by
  rw [boundAttr_none_iff]
  intro a ha
  simp only [declaredAttrs, List.mem_append, List.mem_map] at ha
  rcases ha with ⟨b, hb, rfl⟩ | ⟨b, hb, rfl⟩ | ⟨b, hb, rfl⟩
  · exact hs b hb
  · exact ht b hb
  · exact hi b hb

theorem checkField_unknown (m : cnsiMeta) (f : StructField) (htag : f.Tag ≠ "")
    (hb : boundAttr f.Tag (declaredAttrs m) = none) :
    checkField (attrIndexes m).1 (attrIndexes m).2 f =
      .error (.new ("attribute " ++ f.Tag ++ " not found in classifier")) := by
  have hget : mapGet (attrIndexes m).1 f.Tag = none := by
    rw [attrIndexes_eq, indexAttrs_nameToRef, hb]
    rfl
  simp [checkField, htag, hget]

theorem checkField_mismatch (m : cnsiMeta) (f : StructField) (uid : String) (kind : Kind)
    (htag : f.Tag ≠ "") (hb : boundAttr f.Tag (declaredAttrs m) = some (uid, kind))
    (huniq : ∀ a ∈ declaredAttrs m, a.2.1 = uid → a.2.2 = kind) (hne : f.Kind ≠ kind) :
    checkField (attrIndexes m).1 (attrIndexes m).2 f =
      .error (.new ("field " ++ f.Name ++ " has type " ++ kindString f.Kind ++ ", expected " ++
        kindString kind ++ " for attribute " ++ f.Tag ++ " with Ref " ++ uid)) := by
  have hget : mapGet (attrIndexes m).1 f.Tag = some uid := by
    rw [attrIndexes_eq, indexAttrs_nameToRef, hb]
  have hmem := boundAttr_mem hb
  have hsome : (mapGet (attrIndexes m).2 uid).isSome := by
    rw [attrIndexes_eq]
    exact indexAttrs_refToKind_isSome _ _ _ _ (Or.inl ⟨f.Tag, kind, hmem⟩)
  obtain ⟨k1, hk1⟩ := Option.isSome_iff_exists.mp hsome
  have hk : k1 = kind := by
    have h2 := hk1
    rw [attrIndexes_eq] at h2
    rcases indexAttrs_refToKind_some _ _ _ _ _ h2 with ⟨n, hn⟩ | h3
    · exact huniq _ hn rfl
    · simp [mapGet] at h3
  subst hk
  simp [checkField, htag, hget, hk1, hne]

/-! ## Lemmas: pairs bound to a field -/

theorem setAttrVal_int (typ : RType) (idx : List (String × Nat)) (p : cnsiAttrVal) (i : Nat)
    (field : StructField) (val : Record) (hb : mapGet idx p.AttrRef = some i)
    (hfield : typ.Fields.get? i = some field) (hint : field.Kind = Kind.Int)
    (hexp : field.PkgPath = "") :
    setAttrVal typ idx p val =
      match p.IntegerVal with
      | some n => .ok (val.set i (.int n.Val))
      | none =>
        .error (.err (.new ("integer value for attribute " ++ p.AttrRef ++ " is not set"))) := by
  cases h : p.IntegerVal <;>
    simp only [setAttrVal, hb, hfield, hint, h, reflectSet_exported _ _ _ _ _ hexp]

theorem setAttrVal_string (typ : RType) (idx : List (String × Nat)) (p : cnsiAttrVal) (i : Nat)
    (field : StructField) (val : Record) (hb : mapGet idx p.AttrRef = some i)
    (hfield : typ.Fields.get? i = some field) (hstr : field.Kind = Kind.String)
    (hexp : field.PkgPath = "") :
    setAttrVal typ idx p val =
      match p.StringVal with
      | some s => .ok (val.set i (.str s.Val))
      | none =>
        match p.TextVal with
        | some t => .ok (val.set i (.str t.Val))
        | none =>
          .error (.err (.new ("string value for attribute " ++ p.AttrRef ++ " is not set"))) := by
  cases h : p.StringVal <;> cases h1 : p.TextVal <;>
    simp only [setAttrVal, hb, hfield, hstr, h, h1, reflectSet_exported _ _ _ _ _ hexp]

/-- A pair without integer payload that is bound to an int field is rejected, whether the
field is exported or not. -/
theorem setAttrVal_int_missing (typ : RType) (idx : List (String × Nat)) (p : cnsiAttrVal)
    (i : Nat) (field : StructField) (val : Record) (hb : mapGet idx p.AttrRef = some i)
    (hfield : typ.Fields.get? i = some field) (hint : field.Kind = Kind.Int)
    (hmiss : p.IntegerVal = none) :
    setAttrVal typ idx p val =
      .error (.err (.new ("integer value for attribute " ++ p.AttrRef ++ " is not set"))) := by
  simp only [setAttrVal, hb, hfield, hint, hmiss]

/-- A pair without string and text payload that is bound to a string field is rejected,
whether the field is exported or not. -/
theorem setAttrVal_string_missing (typ : RType) (idx : List (String × Nat)) (p : cnsiAttrVal)
    (i : Nat) (field : StructField) (val : Record) (hb : mapGet idx p.AttrRef = some i)
    (hfield : typ.Fields.get? i = some field) (hstr : field.Kind = Kind.String)
    (hs : p.StringVal = none) (ht : p.TextVal = none) :
    setAttrVal typ idx p val =
      .error (.err (.new ("string value for attribute " ++ p.AttrRef ++ " is not set"))) := by
  simp only [setAttrVal, hb, hfield, hstr, hs, ht]

/-- Writing field `i` of a record that has such a field: the field holds the new value and
every other field is unchanged. -/
theorem set_field (val : Record) (i : Nat) (x : Value) (hi : i < val.length) :
    (val.set i x).get? i = some x ∧ ∀ j, j ≠ i → (val.set i x).get? j = val.get? j := by
  constructor
  · simp [List.getElem?_set_self, hi]
  · intro j hj
    simp [List.getElem?_set_ne (Ne.symm hj)]

theorem field_lt_of_get (typ : RType) (i : Nat) (field : StructField) (val : Record)
    (hfield : typ.Fields.get? i = some field) (hlen : val.length = typ.Fields.length) :
    i < val.length := by
  rw [hlen]
  by_contra hge
  push_neg at hge
  have : typ.Fields.get? i = none := by simpa using hge
  rw [this] at hfield
  cases hfield

/-- A pair on which the step always fails makes `unmarshal` return an error, wherever the
pair stands in the document, when the tagged fields of the record type are exported. -/
theorem unmarshal_fails_of_bad_pair {ρ σ : Type} (d : Decoder ρ σ) (typ : RType)
    (c0 : Classifier) (doc : cnsiDoc) (env : σ) (idx : List (String × Nat))
    (hpre : preflight typ doc.Meta = .ok idx) (hexp : taggedExported typ) (dr : cnsiRecord)
    (hdr : dr ∈ doc.Records)
    (p : cnsiAttrVal) (hp : p ∈ dr.AttrVals)
    (hbad : ∀ val, ∃ f, setAttrVal typ idx p val = .error f) :
    ∃ e, (d.unmarshal typ c0 doc env).1 = .ret (some e) := by
  rw [unmarshal_preflight_ok d typ c0 doc env idx hpre]
  obtain ⟨x, hx⟩ := recordLoop_returns d.handler typ doc.Meta idx hpre hexp doc.Records 0
    { c := if d.handler.isSome then
             { Name := doc.Meta.Name, Code := doc.Meta.Code, UID := doc.Meta.UID,
               Version := doc.Meta.Version, Records := [] }
           else
             { Name := doc.Meta.Name, Code := doc.Meta.Code, UID := doc.Meta.UID,
               Version := doc.Meta.Version, Records := c0.Records },
      env := env, calls := [] }
  cases x with
  | some e => exact ⟨e, hx⟩
  | none =>
    obtain ⟨rec, hrec⟩ :=
      recordLoop_ok_all d.handler typ idx doc.Records 0 _ _ (Prod.ext hx rfl) dr hdr
    obtain ⟨f, hf⟩ := setAttrVals_error_of_mem typ idx dr.AttrVals p hp hbad (zeroRecord typ)
    rw [decodeRecord, hf] at hrec
    cases hrec

/-- A pair on which the step always fails keeps `unmarshal` from returning nil, wherever the
pair stands in the document. -/
theorem unmarshal_not_nil_of_bad_pair {ρ σ : Type} (d : Decoder ρ σ) (typ : RType)
    (c0 : Classifier) (doc : cnsiDoc) (env : σ) (idx : List (String × Nat))
    (hpre : preflight typ doc.Meta = .ok idx) (dr : cnsiRecord)
    (hdr : dr ∈ doc.Records)
    (p : cnsiAttrVal) (hp : p ∈ dr.AttrVals)
    (hbad : ∀ val, ∃ f, setAttrVal typ idx p val = .error f) :
    (d.unmarshal typ c0 doc env).1 ≠ .ret none := by
  rw [unmarshal_preflight_ok d typ c0 doc env idx hpre]
  intro hx
  obtain ⟨rec, hrec⟩ :=
    recordLoop_ok_all d.handler typ idx doc.Records 0 _ _ (Prod.ext hx rfl) dr hdr
  obtain ⟨f, hf⟩ := setAttrVals_error_of_mem typ idx dr.AttrVals p hp hbad (zeroRecord typ)
  rw [decodeRecord, hf] at hrec
  cases hrec

/-- The first pair on which decoding fails decides the result of `unmarshal`: the records
before it decode and are dispatched without error, and so do the pairs before it in its
record. -/
theorem unmarshal_first_failing_pair {ρ σ : Type} (d : Decoder ρ σ) (typ : RType)
    (c0 : Classifier) (doc : cnsiDoc) (env : σ) (idx : List (String × Nat))
    (hpre : preflight typ doc.Meta = .ok idx) (pre post : List cnsiRecord) (uid : String)
    (ps qs : List cnsiAttrVal) (p : cnsiAttrVal) (val : Record) (f : Fail)
    (hsplit : doc.Records = pre ++ ⟨uid, ps ++ p :: qs⟩ :: post)
    (hearlier : (d.unmarshal typ c0 { doc with Records := pre } env).1 = .ret none)
    (hps : setAttrVals typ idx ps (zeroRecord typ) = .ok val)
    (hp : setAttrVal typ idx p val = .error f) :
    (d.unmarshal typ c0 doc env).1 = f.toResult := by
  have hpre1 : preflight typ ({ doc with Records := pre } : cnsiDoc).Meta = .ok idx := hpre
  rw [unmarshal_preflight_ok d typ c0 _ env idx hpre1] at hearlier
  obtain ⟨handler1, hgo⟩ := recordLoop_append_some d.handler typ idx pre
    (⟨uid, ps ++ p :: qs⟩ :: post) 0 _ _ (Prod.ext hearlier rfl)
  rw [unmarshal_preflight_ok d typ c0 doc env idx hpre, hsplit, hgo, recordLoop]
  simp only [decodeRecord]
  rw [setAttrVals_append, hps]
  simp only [setAttrVals, hp]

/-! ## Lemmas: unbound pairs, untouched fields, handler mode -/

theorem unmarshal_congr_handler {ρ σ : Type} (d1 d2 : Decoder ρ σ) (typ : RType)
    (c0 : Classifier) (doc : cnsiDoc) (env : σ) (h : d1.handler = d2.handler) :
    d1.unmarshal typ c0 doc env = d2.unmarshal typ c0 doc env := by
  simp [Decoder.unmarshal, h]

theorem unmarshal_dropUnbound {ρ σ : Type} (d : Decoder ρ σ) (typ : RType) (c0 : Classifier)
    (doc : cnsiDoc) (env : σ) :
    d.unmarshal typ c0 (dropUnbound (fieldIndex typ doc.Meta) doc) env =
      d.unmarshal typ c0 doc env := by
  cases hpre : preflight typ doc.Meta with
  | error e =>
    have hpre1 : preflight typ (dropUnbound (fieldIndex typ doc.Meta) doc).Meta = .error e :=
      hpre
    rw [unmarshal_preflight_error d typ c0 _ env e hpre1,
      unmarshal_preflight_error d typ c0 doc env e hpre]
  | ok idx =>
    have hidx : fieldIndex typ doc.Meta = idx := by simp [fieldIndex, hpre]
    have hpre1 : preflight typ (dropUnbound (fieldIndex typ doc.Meta) doc).Meta = .ok idx :=
      hpre
    rw [unmarshal_preflight_ok d typ c0 _ env idx hpre1,
      unmarshal_preflight_ok d typ c0 doc env idx hpre, hidx]
    exact recordLoop_dropUnbound d.handler typ idx doc.Records 0 _

theorem zeroRecord_get (typ : RType) (j : Nat) (field : StructField)
    (h : typ.Fields.get? j = some field) :
    (zeroRecord typ).get? j = some (zeroValue field.Kind) := by
  simp only [List.get?_eq_getElem?] at h
  simp [zeroRecord, h]

/-- A record decoded from a document record: a field that no pair of the record targets
holds its zero value. -/
theorem decodeRecord_untargeted (typ : RType) (idx : List (String × Nat)) (dr : cnsiRecord)
    (rec : Record) (h : decodeRecord typ idx dr = .ok rec) (j : Nat) (field : StructField)
    (hfield : typ.Fields.get? j = some field)
    (hfree : ∀ p ∈ dr.AttrVals, mapGet idx p.AttrRef ≠ some j) :
    rec.get? j = some (zeroValue field.Kind) := by
  rw [setAttrVals_frame typ idx dr.AttrVals (zeroRecord typ) rec h j hfree]
  exact zeroRecord_get typ j field hfield

/-- A tagged field of a record type that passed the pre-flight check has kind string or
int. -/
theorem preflight_tagged_kind (typ : RType) (m : cnsiMeta) (idx : List (String × Nat))
    (hpre : preflight typ m = .ok idx) (j : Nat) (field : StructField)
    (hfield : typ.Fields.get? j = some field) (htag : field.Tag ≠ "") :
    field.Kind = Kind.String ∨ field.Kind = Kind.Int := by
  obtain ⟨o, ho⟩ := fieldLoop_ok_forall _ _ typ.Fields 0 [] idx hpre field (List.get?_mem hfield)
  cases o with
  | none =>
    simp only [checkField] at ho
    split at ho
    · rename_i h0
      exact absurd h0 htag
    · split at ho
      · cases ho
      · split at ho
        · cases ho
        · split at ho <;> cases ho
  | some uid =>
    obtain ⟨_, _, hk⟩ := checkField_ok_some _ _ field uid ho
    exact attrIndexes_kind m uid field.Kind hk

/-- The records passed to a handler that stays set, and what the handler calls made of the
classifier and of the handler state. -/
theorem recordLoop_handler_replay {σ : Type} (h : Handler σ) (hset : handlerStaysSet h)
    (typ : RType) (idx : List (String × Nat)) (recs : List cnsiRecord) (i : Nat)
    (s : UState σ) :
    ∃ ks, (recordLoop (some h) typ idx recs i s).2.calls = s.calls ++ ks ∧
      ((recordLoop (some h) typ idx recs i s).2.c, (recordLoop (some h) typ idx recs i s).2.env) =
        replayHandler h ks s.c s.env := by
  induction recs generalizing i s with
  | nil => exact ⟨[], by simp [recordLoop], rfl⟩
  | cons d recs ih =>
    rw [recordLoop]
    cases hd : decodeRecord typ idx d with
    | error f => exact ⟨[], by simp, rfl⟩
    | ok record =>
      simp only
      cases he : (h record s.c s.env).err with
      | some err => exact ⟨[record], rfl, rfl⟩
      | none =>
        simp only [recordLoop_next h hset]
        obtain ⟨ks, hcalls, hstate⟩ := ih (i + 1)
          { c := (h record s.c s.env).c, env := (h record s.c s.env).env,
            calls := s.calls ++ [record] }
        refine ⟨record :: ks, ?_, ?_⟩
        · rw [hcalls]
          simp
        · rw [hstate]
          rfl

/-- What `Decode` produced is a prefix of the decoded prefix of the document. -/
theorem produced_initial_segment {ρ σ : Type} (d : Decoder ρ σ) (typ : RType) (c0 : Classifier)
    (doc : cnsiDoc) (env : σ) (idx : List (String × Nat))
    (hpre : preflight typ doc.Meta = .ok idx) (r1 : Option ρ) :
    producedRecords d.handler c0
        ({ result := (d.unmarshal typ c0 doc env).1, c := some (d.unmarshal typ c0 doc env).2.c,
           r := r1, env := (d.unmarshal typ c0 doc env).2.env,
           calls := (d.unmarshal typ c0 doc env).2.calls } : Outcome ρ σ) <+:
      decodedPrefix typ idx doc.Records := by
  rw [unmarshal_preflight_ok d typ c0 doc env idx hpre]
  cases hh : d.handler with
  | none =>
    simp only [producedRecords, recordLoop_nohandler_state]
    simp
  | some h =>
    simp only [producedRecords]
    obtain ⟨ks, hks, hcalls⟩ := recordLoop_handler_calls h typ idx doc.Records 0
      { c := { Name := doc.Meta.Name, Code := doc.Meta.Code, UID := doc.Meta.UID,
               Version := doc.Meta.Version, Records := [] }, env := env, calls := [] }
    simp only [Option.isSome_some, if_true]
    rw [hcalls]
    simpa using hks

theorem initial_segment_get {α : Type} (ks l : List α) (hp : ks <+: l) (n : Nat) (a : α)
    (h : ks.get? n = some a) : l.get? n = some a := by
  obtain ⟨t, rfl⟩ := hp
  simp only [List.get?_eq_getElem?] at h ⊢
  have hlt : n < ks.length := by
    by_contra hge
    push_neg at hge
    simp [List.getElem?_eq_none hge] at h
  rw [List.getElem?_append_left hlt]
  exact h

/-! ## Lemmas: the handler path -/

/-- With a handler that stays set and returns nil on every call, a record loop whose records
all decode returns nil after passing every decoded record to the handler. -/
theorem recordLoop_handler_all {σ : Type} (h : Handler σ) (typ : RType)
    (idx : List (String × Nat)) (recs : List cnsiRecord) (i : Nat) (s : UState σ)
    (hset : handlerStaysSet h)
    (hall : ∀ dr ∈ recs, ∃ r, decodeRecord typ idx dr = .ok r)
    (hnil : ∀ rec c env, (h rec c env).err = none) :
    (recordLoop (some h) typ idx recs i s).1 = .ret none ∧
      (recordLoop (some h) typ idx recs i s).2.calls = s.calls ++ decodedPrefix typ idx recs := by
  induction recs generalizing i s with
  | nil => simp [recordLoop, decodedPrefix]
  | cons d recs ih =>
    obtain ⟨r, hr⟩ := hall d (List.mem_cons_self _ _)
    rw [recordLoop, decodedPrefix, hr]
    simp only [hnil, recordLoop_next h hset]
    obtain ⟨h1, h2⟩ := ih (i + 1)
      { c := (h r s.c s.env).c, env := (h r s.c s.env).env, calls := s.calls ++ [r] }
      (fun dr hdr => hall dr (List.mem_cons_of_mem _ hdr))
    exact ⟨h1, by rw [h2]; simp⟩

/-- A record loop with a handler that stays set, when it returns nil, has passed every
decoded record to the handler. -/
theorem recordLoop_handler_ok_calls {σ : Type} (h : Handler σ) (typ : RType)
    (idx : List (String × Nat)) (recs : List cnsiRecord) (i : Nat) (s : UState σ)
    (hset : handlerStaysSet h)
    (hok : (recordLoop (some h) typ idx recs i s).1 = .ret none) :
    (recordLoop (some h) typ idx recs i s).2.calls = s.calls ++ decodedPrefix typ idx recs := by
  induction recs generalizing i s with
  | nil => simp [recordLoop, decodedPrefix]
  | cons d recs ih =>
    rw [recordLoop] at hok ⊢
    rw [decodedPrefix]
    cases hd : decodeRecord typ idx d with
    | error f =>
      rw [hd] at hok
      cases f <;> simp [Fail.toResult] at hok
    | ok record =>
      rw [hd] at hok
      simp only at hok ⊢
      cases he : (h record s.c s.env).err with
      | some err => rw [he] at hok; simp at hok
      | none =>
        rw [he] at hok
        simp only [recordLoop_next h hset] at hok ⊢
        rw [ih _ _ hok]
        simp

/-- The step of the record loop at a record on which the handler returns an error. -/
theorem recordLoop_handler_error {σ : Type} (h : Handler σ) (typ : RType)
    (idx : List (String × Nat)) (dr : cnsiRecord) (post : List cnsiRecord) (i : Nat)
    (s : UState σ) (rec : Record) (e : GoError)
    (hdec : decodeRecord typ idx dr = .ok rec) (herr : (h rec s.c s.env).err = some e) :
    recordLoop (some h) typ idx (dr :: post) i s =
      (.ret (some (.wrap ("handler error at record " ++ toString i ++ ": " ++ e.Error) e)),
        { c := (h rec s.c s.env).c, env := (h rec s.c s.env).env,
          calls := s.calls ++ [rec] }) := by
  rw [recordLoop, hdec]
  simp only [herr]

/-- The four metadata fields pass unchanged through the record loop when the handler, if
one is set, keeps them: so they do once the handler has been unset. -/
theorem recordLoop_meta {σ : Type} (handler : Option (Handler σ)) (typ : RType)
    (idx : List (String × Nat)) (recs : List cnsiRecord) (i : Nat) (s : UState σ)
    (hkeep : ∀ h, handler = some h → ∀ rec c env,
      (h rec c env).c.Name = c.Name ∧ (h rec c env).c.Code = c.Code ∧
      (h rec c env).c.UID = c.UID ∧ (h rec c env).c.Version = c.Version) :
    (recordLoop handler typ idx recs i s).2.c.Name = s.c.Name ∧
      (recordLoop handler typ idx recs i s).2.c.Code = s.c.Code ∧
      (recordLoop handler typ idx recs i s).2.c.UID = s.c.UID ∧
      (recordLoop handler typ idx recs i s).2.c.Version = s.c.Version := by
  induction recs generalizing handler i s with
  | nil => exact ⟨rfl, rfl, rfl, rfl⟩
  | cons d recs ih =>
    rw [recordLoop]
    cases hd : decodeRecord typ idx d with
    | error f => exact ⟨rfl, rfl, rfl, rfl⟩
    | ok record =>
      cases handler with
      | none =>
        simp only
        exact ih none (i + 1) _ (fun h hh => by cases hh)
      | some h =>
        simp only
        cases he : (h record s.c s.env).err with
        | some err => exact hkeep h rfl _ _ _
        | none =>
          obtain ⟨h1, h2, h3, h4⟩ :=
            ih (if (h record s.c s.env).keepsHandler = true then some h else none) (i + 1)
              { c := (h record s.c s.env).c, env := (h record s.c s.env).env,
                calls := s.calls ++ [record] }
              (by
                intro h1 hh1
                by_cases hk : (h record s.c s.env).keepsHandler = true
                · rw [if_pos hk] at hh1
                  cases hh1
                  exact hkeep _ rfl
                · rw [if_neg hk] at hh1
                  cases hh1)
          obtain ⟨k1, k2, k3, k4⟩ := hkeep h rfl record s.c s.env
          exact ⟨h1.trans k1, h2.trans k2, h3.trans k3, h4.trans k4⟩

/-- A handler that keeps the four metadata fields keeps them through the record loop. -/
theorem recordLoop_handler_meta {σ : Type} (h : Handler σ) (typ : RType)
    (idx : List (String × Nat)) (recs : List cnsiRecord) (i : Nat) (s : UState σ)
    (hkeep : ∀ rec c env, (h rec c env).c.Name = c.Name ∧ (h rec c env).c.Code = c.Code ∧
      (h rec c env).c.UID = c.UID ∧ (h rec c env).c.Version = c.Version) :
    (recordLoop (some h) typ idx recs i s).2.c.Name = s.c.Name ∧
      (recordLoop (some h) typ idx recs i s).2.c.Code = s.c.Code ∧
      (recordLoop (some h) typ idx recs i s).2.c.UID = s.c.UID ∧
      (recordLoop (some h) typ idx recs i s).2.c.Version = s.c.Version :=
  recordLoop_meta (some h) typ idx recs i s (fun h1 hh1 => by cases hh1; exact hkeep)

/-! ## Lemmas: the guards of `Decode` -/

/-- A nil classifier pointer ends `Decode` at its first guard. -/
theorem Decode_nil_classifier {ρ σ : Type} (xmlDecode : ρ → Except GoError cnsiDoc × ρ)
    (T : Option RType) (d : Decoder ρ σ) (env : σ) :
    d.Decode xmlDecode T none env =
      { result := .ret (some (.new "nil pointer passed")), c := none, r := d.r, env := env,
        calls := [] } := rfl

/-- A record type that has a `reflect.Type` of a kind other than struct ends `Decode` at its
second guard. -/
theorem Decode_not_struct {ρ σ : Type} (xmlDecode : ρ → Except GoError cnsiDoc × ρ)
    (typ : RType) (d : Decoder ρ σ) (c0 : Classifier) (env : σ)
    (hk : typ.Kind ≠ Kind.Struct) :
    d.Decode xmlDecode (some typ) (some c0) env =
      { result := .ret (some (.new ("struct type expected, got " ++ kindString typ.Kind))),
        c := some c0, r := d.r, env := env, calls := [] } := by
  simp [Decoder.Decode, hk]

/-- A nil reader ends `Decode` for a struct record type at its third guard. -/
theorem Decode_nil_reader {ρ σ : Type} (xmlDecode : ρ → Except GoError cnsiDoc × ρ)
    (typ : RType) (d : Decoder ρ σ) (c0 : Classifier) (env : σ)
    (hk : typ.Kind = Kind.Struct) (hr : d.r = none) :
    d.Decode xmlDecode (some typ) (some c0) env =
      { result := .ret (some (.new "reader is nil")), c := some c0, r := none, env := env,
        calls := [] } := by
  simp [Decoder.Decode, hk, hr]

/-- An interface record type, whose `reflect.Type` is nil, makes `Decode` panic at its second
guard. -/
theorem Decode_interface {ρ σ : Type} (xmlDecode : ρ → Except GoError cnsiDoc × ρ)
    (d : Decoder ρ σ) (c0 : Classifier) (env : σ) :
    d.Decode xmlDecode none (some c0) env =
      { result := .panic "invalid memory address or nil pointer dereference", c := some c0,
        r := d.r, env := env, calls := [] } := rfl

/-! ## Lemmas: the regular expression of the OKATO codes -/

theorem matchK_digit_iff (st : Bool) (s : List Char) (k : Bool → List Char → Bool) :
    Regex.digit.matchK st s k = true ↔
      ∃ c t, s = c :: t ∧ c.isDigit = true ∧ k false t = true := by
  cases s with
  | nil => simp [Regex.matchK]
  | cons c t =>
    simp only [Regex.matchK, Bool.and_eq_true, List.cons.injEq]
    constructor
    · rintro ⟨hc, hk⟩
      exact ⟨c, t, ⟨rfl, rfl⟩, hc, hk⟩
    · rintro ⟨c1, t1, ⟨rfl, rfl⟩, hc, hk⟩
      exact ⟨hc, hk⟩

theorem matchK_lit_iff (a : Char) (st : Bool) (s : List Char) (k : Bool → List Char → Bool) :
    (Regex.lit a).matchK st s k = true ↔ ∃ t, s = a :: t ∧ k false t = true := by
  cases s with
  | nil => simp [Regex.matchK]
  | cons c t =>
    simp only [Regex.matchK, Bool.and_eq_true, beq_iff_eq, List.cons.injEq]
    constructor
    · rintro ⟨rfl, hk⟩
      exact ⟨t, ⟨rfl, rfl⟩, hk⟩
    · rintro ⟨t1, ⟨rfl, rfl⟩, hk⟩
      exact ⟨rfl, hk⟩

theorem matchK_times2_iff (st : Bool) (s : List Char) (k : Bool → List Char → Bool) :
    (Regex.times 2 .digit).matchK st s k = true ↔
      ∃ a b t, s = a :: b :: t ∧ a.isDigit = true ∧ b.isDigit = true ∧ k false t = true := by
  simp only [Regex.times, Regex.matchK, matchK_digit_iff]
  constructor
  · rintro ⟨a, t1, rfl, ha, b, t, rfl, hb, hk⟩
    exact ⟨a, b, t, rfl, ha, hb, hk⟩
  · rintro ⟨a, b, t, rfl, ha, hb, hk⟩
    exact ⟨a, _, rfl, ha, b, t, rfl, hb, hk⟩

theorem matchK_times3_iff (st : Bool) (s : List Char) (k : Bool → List Char → Bool) :
    (Regex.times 3 .digit).matchK st s k = true ↔
      ∃ a b c t, s = a :: b :: c :: t ∧ a.isDigit = true ∧ b.isDigit = true ∧
        c.isDigit = true ∧ k false t = true := by
  simp only [Regex.times, Regex.matchK, matchK_digit_iff]
  constructor
  · rintro ⟨a, t1, rfl, ha, b, t2, rfl, hb, c, t, rfl, hc, hk⟩
    exact ⟨a, b, c, t, rfl, ha, hb, hc, hk⟩
  · rintro ⟨a, b, c, t, rfl, ha, hb, hc, hk⟩
    exact ⟨a, _, rfl, ha, b, _, rfl, hb, c, t, rfl, hc, hk⟩

/-- A group `\.\d{3}` followed by the expression `R`. -/
theorem matchK_group_iff (R : Regex) (st : Bool) (s : List Char)
    (k : Bool → List Char → Bool) :
    (Regex.seq (.lit '.') (.seq (Regex.times 3 .digit) R)).matchK st s k = true ↔
      ∃ a b c t, s = '.' :: a :: b :: c :: t ∧ a.isDigit = true ∧ b.isDigit = true ∧
        c.isDigit = true ∧ R.matchK false t k = true := by
  rw [Regex.matchK, matchK_lit_iff]
  constructor
  · rintro ⟨t1, rfl, hk⟩
    rw [Regex.matchK, matchK_times3_iff] at hk
    obtain ⟨a, b, c, t, rfl, ha, hb, hc, hk⟩ := hk
    exact ⟨a, b, c, t, rfl, ha, hb, hc, hk⟩
  · rintro ⟨a, b, c, t, rfl, ha, hb, hc, hk⟩
    refine ⟨_, rfl, ?_⟩
    rw [Regex.matchK, matchK_times3_iff]
    exact ⟨a, b, c, t, rfl, ha, hb, hc, hk⟩

/-- The innermost group `\.\d{3}`. -/
theorem matchK_last_group_iff (st : Bool) (s : List Char) (k : Bool → List Char → Bool) :
    (Regex.seq (.lit '.') (Regex.times 3 .digit)).matchK st s k = true ↔
      ∃ a b c t, s = '.' :: a :: b :: c :: t ∧ a.isDigit = true ∧ b.isDigit = true ∧
        c.isDigit = true ∧ k false t = true := by
  rw [Regex.matchK, matchK_lit_iff]
  constructor
  · rintro ⟨t1, rfl, hk⟩
    rw [matchK_times3_iff] at hk
    obtain ⟨a, b, c, t, rfl, ha, hb, hc, hk⟩ := hk
    exact ⟨a, b, c, t, rfl, ha, hb, hc, hk⟩
  · rintro ⟨a, b, c, t, rfl, ha, hb, hc, hk⟩
    refine ⟨_, rfl, ?_⟩
    rw [matchK_times3_iff]
    exact ⟨a, b, c, t, rfl, ha, hb, hc, hk⟩

theorem matchK_opt_iff (R : Regex) (st : Bool) (s : List Char) (k : Bool → List Char → Bool) :
    (Regex.opt R).matchK st s k = true ↔ R.matchK st s k = true ∨ k st s = true := by
  simp [Regex.matchK]

theorem dotGroups_zero (t : List Char) : DotGroups 0 t ↔ t = [] := by
  constructor
  · rintro ⟨groups, rfl, hlen, _⟩
    have : groups = [] := List.length_eq_zero.mp (Nat.le_zero.mp hlen)
    subst this
    rfl
  · rintro rfl
    exact ⟨[], rfl, le_refl _, by simp⟩

theorem dotGroups_succ (n : Nat) (t : List Char) :
    DotGroups (n + 1) t ↔
      t = [] ∨ ∃ a b c t1, t = '.' :: a :: b :: c :: t1 ∧ a.isDigit = true ∧
        b.isDigit = true ∧ c.isDigit = true ∧ DotGroups n t1 := by
  constructor
  · rintro ⟨groups, rfl, hlen, hgood⟩
    cases groups with
    | nil => exact Or.inl rfl
    | cons g gs =>
      right
      obtain ⟨hg3, hgd⟩ := hgood g (List.mem_cons_self _ _)
      match g, hg3, hgd with
      | [a, b, c], _, hgd =>
        refine ⟨a, b, c, (gs.map (fun g => '.' :: g)).flatten, by simp, hgd a (by simp),
          hgd b (by simp), hgd c (by simp), gs, rfl, ?_, ?_⟩
        · simpa using hlen
        · exact fun g1 hg1 => hgood g1 (List.mem_cons_of_mem _ hg1)
  · rintro (rfl | ⟨a, b, c, t1, rfl, ha, hb, hc, gs, rfl, hlen, hgood⟩)
    · exact ⟨[], rfl, Nat.zero_le _, by simp⟩
    · refine ⟨[a, b, c] :: gs, by simp, by simpa using hlen, ?_⟩
      intro g hg
      rcases List.mem_cons.mp hg with rfl | hg
      · refine ⟨rfl, ?_⟩
        intro ch hch
        simp only [List.mem_cons, List.mem_singleton, List.not_mem_nil, or_false] at hch
        rcases hch with rfl | rfl | rfl
        · exact ha
        · exact hb
        · exact hc
      · exact hgood g hg

/-- The continuation that stands for the closing `$` of the pattern. -/
theorem matchK_eot_true (st : Bool) (s : List Char) :
    Regex.eot.matchK st s (fun _ _ => true) = true ↔ s = [] := by
  simp [Regex.matchK]

/-- The pattern of the OKATO codes matches at the beginning of a text exactly when the text
is two digits followed by at most three groups of a dot and three digits. -/
theorem matchK_reValidOkatoC (s : List Char) :
    reValidOkatoC.matchK true s (fun _ _ => true) = true ↔
      ∃ a b t, s = a :: b :: t ∧ a.isDigit = true ∧ b.isDigit = true ∧ DotGroups 3 t := by
  have htail : ∀ (st : Bool) (t : List Char),
      (Regex.opt (.seq (.lit '.') (.seq (Regex.times 3 .digit)
        (.opt (.seq (.lit '.') (.seq (Regex.times 3 .digit)
          (.opt (.seq (.lit '.') (Regex.times 3 .digit))))))))).matchK st t
          (fun st1 rest => Regex.eot.matchK st1 rest (fun _ _ => true)) = true ↔
        DotGroups 3 t := by
    intro st t
    simp only [matchK_opt_iff, matchK_group_iff, matchK_last_group_iff, matchK_eot_true,
      dotGroups_succ, dotGroups_zero]
    constructor
    · rintro (⟨a, b, c, t1, rfl, ha, hb, hc, h1⟩ | rfl)
      · right
        refine ⟨a, b, c, t1, rfl, ha, hb, hc, ?_⟩
        rcases h1 with ⟨a2, b2, c2, t2, rfl, ha2, hb2, hc2, h2⟩ | rfl
        · right
          refine ⟨a2, b2, c2, t2, rfl, ha2, hb2, hc2, ?_⟩
          rcases h2 with ⟨a3, b3, c3, t3, rfl, ha3, hb3, hc3, rfl⟩ | rfl
          · exact Or.inr ⟨a3, b3, c3, [], rfl, ha3, hb3, hc3, rfl⟩
          · exact Or.inl rfl
        · exact Or.inl rfl
      · exact Or.inl rfl
    · rintro (rfl | ⟨a, b, c, t1, rfl, ha, hb, hc, h1⟩)
      · exact Or.inr rfl
      · left
        refine ⟨a, b, c, t1, rfl, ha, hb, hc, ?_⟩
        rcases h1 with rfl | ⟨a2, b2, c2, t2, rfl, ha2, hb2, hc2, h2⟩
        · exact Or.inr rfl
        · left
          refine ⟨a2, b2, c2, t2, rfl, ha2, hb2, hc2, ?_⟩
          rcases h2 with rfl | ⟨a3, b3, c3, t3, rfl, ha3, hb3, hc3, rfl⟩
          · exact Or.inr rfl
          · exact Or.inl ⟨a3, b3, c3, [], rfl, ha3, hb3, hc3, rfl⟩
  unfold reValidOkatoC
  rw [Regex.matchK, Regex.matchK]
  simp only [Bool.true_and]
  rw [Regex.matchK, matchK_times2_iff]
  constructor
  · rintro ⟨a, b, t, rfl, ha, hb, hk⟩
    rw [Regex.matchK] at hk
    exact ⟨a, b, t, rfl, ha, hb, (htail false t).mp hk⟩
  · rintro ⟨a, b, t, rfl, ha, hb, hk⟩
    refine ⟨a, b, t, rfl, ha, hb, ?_⟩
    rw [Regex.matchK]
    exact (htail false t).mpr hk

/-- The pattern starts with `^`: it matches nowhere but at the beginning of the text. -/
theorem searchFrom_reValidOkatoC_false (s : List Char) :
    reValidOkatoC.searchFrom false s = false := by
  have hno : ∀ t : List Char, reValidOkatoC.matchK false t (fun _ _ => true) = false := by
    intro t
    unfold reValidOkatoC
    rw [Regex.matchK, Regex.matchK]
    rfl
  induction s with
  | nil => simp [Regex.searchFrom, hno]
  | cons c s ih => simp [Regex.searchFrom, hno, ih]

/-- The method `MatchString` of the OKATO pattern decides the four dotted shapes. -/
theorem matchString_reValidOkatoC (s : String) :
    reValidOkatoC.MatchString s = true ↔ IsDottedCode s := by
  unfold Regex.MatchString IsDottedCode
  rw [← matchK_reValidOkatoC]
  cases hs : s.data with
  | nil => simp [Regex.searchFrom]
  | cons c t => simp [Regex.searchFrom, searchFrom_reValidOkatoC_false]

/-! ## Lemmas: `ParseCode` -/

theorem isDigit_ne_dot (c : Char) (h : c.isDigit = true) : c ≠ '.' := by
  rintro rfl
  exact absurd h (by decide)

theorem appendNonDots_eq (c : List Char) (code : String) :
    appendNonDots c code = code ++ String.mk (c.filter (fun ch => ch ≠ '.')) := by
  unfold appendNonDots
  induction c generalizing code with
  | nil =>
    apply String.ext
    simp
  | cons ch c ih =>
    rw [List.foldl_cons, ih]
    apply String.ext
    by_cases hch : ch = '.'
    · simp [hch]
    · simp [hch, String.singleton]

theorem goRepeat_zero_data (n : Nat) :
    (goRepeat "0" (n : Int)).data = List.replicate n '0' := by
  unfold goRepeat
  simp only [Int.toNat_ofNat]
  have key : ∀ (acc : String) (m : Nat),
      (List.foldl (fun r s => r ++ s) acc (List.replicate m "0")).data =
        acc.data ++ List.replicate m '0' := by
    intro acc m
    induction m generalizing acc with
    | zero => simp
    | succ m ih =>
      rw [List.replicate_succ, List.foldl_cons, ih]
      simp [List.replicate_succ]
  have := key "" n
  simpa [String.join] using this

/-- What `ParseCode` does to a record whose code matches the pattern. -/
theorem ParseCode_valid (r : OkatoRecord) (h : reValidOkatoC.MatchString r.C = true) :
    r.ParseCode =
      ({ r with
          Code := dotless r.C,
          Code11 := dotless r.C ++ goRepeat "0" (11 - (goLen (dotless r.C) : Int)),
          Region := if goLen (dotless r.C) ≥ 2 then goSlice (dotless r.C) 0 2 else r.Region,
          Level1 := if goLen (dotless r.C) ≥ 5 then goSlice (dotless r.C) 2 5 else r.Level1,
          Level2 := if goLen (dotless r.C) ≥ 8 then goSlice (dotless r.C) 5 8 else r.Level2,
          Level3 := if goLen (dotless r.C) = 11 then goSlice (dotless r.C) 8 11
            else r.Level3 }, none) := by
  have hcode : appendNonDots r.C.data "" = dotless r.C := by
    rw [appendNonDots_eq]
    apply String.ext
    simp [dotless]
  unfold OkatoRecord.ParseCode
  simp only [h, Bool.not_true, Bool.false_eq_true, if_false, hcode]
  by_cases h2 : goLen (dotless r.C) ≥ 2 <;> by_cases h5 : goLen (dotless r.C) ≥ 5 <;>
    by_cases h8 : goLen (dotless r.C) ≥ 8 <;> by_cases h11 : goLen (dotless r.C) = 11 <;>
    simp [h2, h5, h8, h11]

/-- What `ParseCode` does to a record whose code does not match the pattern. -/
theorem ParseCode_invalid (r : OkatoRecord) (h : reValidOkatoC.MatchString r.C = false) :
    r.ParseCode = (r, some (.new ("invalid OKATO code '" ++ r.C ++ "'"))) := by
  simp [OkatoRecord.ParseCode, h]

theorem ParseCode_none_iff (r : OkatoRecord) :
    r.ParseCode.2 = none ↔ reValidOkatoC.MatchString r.C = true := by
  cases h : reValidOkatoC.MatchString r.C with
  | true => simp [ParseCode_valid r h]
  | false => simp [ParseCode_invalid r h]

/-- The digits of at most `n` dotted groups. -/
theorem dotGroups_filter (n : Nat) (t : List Char) (h : DotGroups n t) :
    (∀ ch ∈ t.filter (fun ch => ch ≠ '.'), ch.isDigit = true) ∧
      ∃ m, m ≤ n ∧ (t.filter (fun ch => ch ≠ '.')).length = 3 * m := by
  induction n generalizing t with
  | zero =>
    rw [dotGroups_zero] at h
    subst h
    exact ⟨by simp, 0, le_refl _, rfl⟩
  | succ n ih =>
    rw [dotGroups_succ] at h
    rcases h with rfl | ⟨a, b, c, t1, rfl, ha, hb, hc, h1⟩
    · exact ⟨by simp, 0, Nat.zero_le _, rfl⟩
    · obtain ⟨hd, m, hm, hlen⟩ := ih t1 h1
      have na := isDigit_ne_dot a ha
      have nb := isDigit_ne_dot b hb
      have nc := isDigit_ne_dot c hc
      have hf : ('.' :: a :: b :: c :: t1).filter (fun ch => ch ≠ '.') =
          a :: b :: c :: t1.filter (fun ch => ch ≠ '.') := by
        simp [List.filter_cons, na, nb, nc]
      rw [hf]
      refine ⟨?_, m + 1, by omega, by simp only [List.length_cons, hlen]; omega⟩
      intro ch hch
      simp only [List.mem_cons] at hch
      rcases hch with rfl | rfl | rfl | hch
      · exact ha
      · exact hb
      · exact hc
      · exact hd ch hch

/-- The code of a dotted shape with its dots removed: 2, 5, 8 or 11 digits. -/
theorem dotless_of_dotted (s : String) (h : IsDottedCode s) :
    (∀ ch ∈ (dotless s).data, ch.isDigit = true) ∧
      ((dotless s).length = 2 ∨ (dotless s).length = 5 ∨ (dotless s).length = 8 ∨
        (dotless s).length = 11) := by
  obtain ⟨a, b, t, hs, ha, hb, ht⟩ := h
  obtain ⟨hd, m, hm, hlen⟩ := dotGroups_filter 3 t ht
  have na := isDigit_ne_dot a ha
  have nb := isDigit_ne_dot b hb
  have hdata : (dotless s).data = a :: b :: t.filter (fun ch => ch ≠ '.') := by
    simp [dotless, hs, List.filter_cons, na, nb]
  have hlength : (dotless s).length = 2 + 3 * m := by
    show (dotless s).data.length = _
    rw [hdata]
    simp only [List.length_cons, hlen]
    omega
  constructor
  · rw [hdata]
    intro ch hch
    simp only [List.mem_cons] at hch
    rcases hch with rfl | rfl | hch
    · exact ha
    · exact hb
    · exact hd ch hch
  · rw [hlength]
    interval_cases m <;> simp

/-! ## Lemmas: `NewOkato` -/

theorem mapGet_mem {α : Type} (m : List (String × α)) (k : String) (v : α)
    (h : mapGet m k = some v) : (k, v) ∈ m := by
  induction m with
  | nil => simp [mapGet] at h
  | cons kv m ih =>
    obtain ⟨k1, v1⟩ := kv
    simp only [mapGet] at h
    by_cases hk : k1 = k
    · simp only [hk, if_true, Option.some.injEq] at h
      subst hk h
      exact List.mem_cons_self _ _
    · simp only [hk, if_false] at h
      exact List.mem_cons_of_mem _ (ih h)

/-- A property of the handler trace, the classifier and the handler state that every
handler call returning nil preserves holds after a record loop that returns nil, for a
handler that stays set. -/
theorem recordLoop_handler_invariant {σ : Type} (h : Handler σ) (hset : handlerStaysSet h)
    (typ : RType) (idx : List (String × Nat)) (P : List Record → Classifier → σ → Prop)
    (hstep : ∀ ks rec c env, P ks c env → (h rec c env).err = none →
      P (ks ++ [rec]) (h rec c env).c (h rec c env).env)
    (recs : List cnsiRecord) (i : Nat) (s : UState σ) (h0 : P s.calls s.c s.env)
    (hok : (recordLoop (some h) typ idx recs i s).1 = .ret none) :
    P (recordLoop (some h) typ idx recs i s).2.calls (recordLoop (some h) typ idx recs i s).2.c
      (recordLoop (some h) typ idx recs i s).2.env := by
  induction recs generalizing i s with
  | nil => exact h0
  | cons d recs ih =>
    rw [recordLoop] at hok ⊢
    cases hd : decodeRecord typ idx d with
    | error f =>
      rw [hd] at hok
      cases f <;> simp [Fail.toResult] at hok
    | ok record =>
      rw [hd] at hok
      simp only at hok ⊢
      cases he : (h record s.c s.env).err with
      | some err => rw [he] at hok; simp at hok
      | none =>
        rw [he] at hok
        simp only [recordLoop_next h hset] at hok ⊢
        exact ih (i + 1) _ (hstep s.calls record s.c s.env h0 he) hok

theorem parsedFrom_mono (ks : List Record) (rec : Record) (v : OkatoRecord)
    (h : parsedFrom ks v) : parsedFrom (ks ++ [rec]) v := by
  obtain ⟨r, hr, hm, hp⟩ := h
  exact ⟨r, List.mem_append_left _ hr, hm, hp⟩

/-- The handler of `NewOkato` does not capture the decoder: it leaves its handler set. -/
theorem okatoHandler_staysSet : handlerStaysSet okatoHandler := by
  intro rec c env
  unfold okatoHandler
  simp only
  split
  · rfl
  · split <;> rfl

/-- The tagged fields of `OkatoRecord` are exported. -/
theorem okatoType_exported : taggedExported okatoType := by decide

/-- The handler of `NewOkato` on a record whose code does not match the pattern: it returns
nil and changes nothing. -/
theorem okatoHandler_invalid (record : Record) (c : Classifier) (env : OkatoIndexes)
    (h : reValidOkatoC.MatchString (OkatoRecord.ofRecord record).C = false) :
    (okatoHandler record c env).err = none ∧ (okatoHandler record c env).c = c ∧
      (okatoHandler record c env).env = env := by
  simp [okatoHandler, ParseCode_invalid _ h]

/-- The handler of `NewOkato` preserves the invariant when it returns nil. -/
theorem okatoHandler_invariant (ks : List Record) (rec : Record) (c : Classifier)
    (env : OkatoIndexes) (hinv : okatoInvariant ks c env)
    (hnil : (okatoHandler rec c env).err = none) :
    okatoInvariant (ks ++ [rec]) (okatoHandler rec c env).c (okatoHandler rec c env).env := by
  obtain ⟨hrec, hbc, hbc11, hbr, hreg⟩ := hinv
  cases hm : reValidOkatoC.MatchString (OkatoRecord.ofRecord rec).C with
  | false =>
    obtain ⟨_, hc, henv⟩ := okatoHandler_invalid rec c env hm
    rw [hc, henv]
    refine ⟨?_, fun kv hkv => parsedFrom_mono ks rec _ (hbc kv hkv),
      fun kv hkv => parsedFrom_mono ks rec _ (hbc11 kv hkv),
      fun kv hkv v hv => parsedFrom_mono ks rec _ (hbr kv hkv v hv),
      fun kv hkv => parsedFrom_mono ks rec _ (hreg kv hkv)⟩
    rw [List.filterMap_append, hrec]
    simp [keepValidOkato, hm]
  | true =>
    have hnew : parsedFrom (ks ++ [rec]) (OkatoRecord.ofRecord rec).ParseCode.1 :=
      ⟨rec, by simp, hm, by rw [ParseCode_valid _ hm]⟩
    have hp2 : (OkatoRecord.ofRecord rec).ParseCode.2 = none :=
      (ParseCode_none_iff _).mpr hm
    cases hdup : mapGet env.byCode (OkatoRecord.ofRecord rec).ParseCode.1.Code with
    | some v =>
      simp [okatoHandler, hp2, hdup] at hnil
    | none =>
      have hc : (okatoHandler rec c env).c =
          { c with Records := c.Records ++ [(OkatoRecord.ofRecord rec).ParseCode.1.toRecord] } := by
        simp [okatoHandler, hp2, hdup]
      have henv : (okatoHandler rec c env).env =
          { byCode := mapSet env.byCode (OkatoRecord.ofRecord rec).ParseCode.1.Code
              (OkatoRecord.ofRecord rec).ParseCode.1,
            byCode11 := mapSet env.byCode11 (OkatoRecord.ofRecord rec).ParseCode.1.Code11
              (OkatoRecord.ofRecord rec).ParseCode.1,
            byRegion := mapSet env.byRegion (OkatoRecord.ofRecord rec).ParseCode.1.Region
              ((mapGet env.byRegion (OkatoRecord.ofRecord rec).ParseCode.1.Region).getD [] ++
                [(OkatoRecord.ofRecord rec).ParseCode.1]),
            Region := if goLen (OkatoRecord.ofRecord rec).ParseCode.1.Code = 2 then
                mapSet env.Region (OkatoRecord.ofRecord rec).ParseCode.1.Code
                  (OkatoRecord.ofRecord rec).ParseCode.1
              else env.Region } := by
        simp [okatoHandler, hp2, hdup]
      rw [hc, henv]
      refine ⟨?_, ?_, ?_, ?_, ?_⟩
      · show c.Records ++ _ = _
        rw [List.filterMap_append, hrec]
        simp [keepValidOkato, hm]
      · intro kv hkv
        rcases List.mem_cons.mp hkv with rfl | hkv
        · exact hnew
        · exact parsedFrom_mono ks rec _ (hbc kv hkv)
      · intro kv hkv
        rcases List.mem_cons.mp hkv with rfl | hkv
        · exact hnew
        · exact parsedFrom_mono ks rec _ (hbc11 kv hkv)
      · intro kv hkv v hv
        rcases List.mem_cons.mp hkv with rfl | hkv
        · rcases List.mem_append.mp hv with hv | hv
          · cases hold : mapGet env.byRegion (OkatoRecord.ofRecord rec).ParseCode.1.Region with
            | none => simp [hold] at hv
            | some l =>
              simp only [hold, Option.getD_some] at hv
              exact parsedFrom_mono ks rec _ (hbr _ (mapGet_mem _ _ _ hold) v hv)
          · simp only [List.mem_singleton] at hv
            subst hv
            exact hnew
        · exact parsedFrom_mono ks rec _ (hbr kv hkv v hv)
      · intro kv hkv
        by_cases h2 : goLen (OkatoRecord.ofRecord rec).ParseCode.1.Code = 2
        · simp only [h2, if_true] at hkv
          rcases List.mem_cons.mp hkv with rfl | hkv
          · exact hnew
          · exact parsedFrom_mono ks rec _ (hreg kv hkv)
        · simp only [h2, if_false] at hkv
          exact parsedFrom_mono ks rec _ (hreg kv hkv)

/-- What a successful `NewOkato` says of the `Decode` it ran. -/
theorem NewOkato_ok {ρ : Type} (xmlDecode : ρ → Except GoError cnsiDoc × ρ) (r : Option ρ)
    (okato : Okato) (hok : NewOkato xmlDecode r = .ok okato) :
    (((NewDecoder r : Decoder ρ OkatoIndexes).WithHandler (some okatoHandler)).Decode xmlDecode
        (some okatoType)
        (some { Name := "", Code := "", UID := "", Version := 0, Records := [] })
        { byCode := [], byCode11 := [], byRegion := [], Region := [] }).result = .ret none ∧
      (((NewDecoder r : Decoder ρ OkatoIndexes).WithHandler (some okatoHandler)).Decode xmlDecode
        (some okatoType)
        (some { Name := "", Code := "", UID := "", Version := 0, Records := [] })
        { byCode := [], byCode11 := [], byRegion := [], Region := [] }).c =
        some okato.Classifier ∧
      (((NewDecoder r : Decoder ρ OkatoIndexes).WithHandler (some okatoHandler)).Decode xmlDecode
        (some okatoType)
        (some { Name := "", Code := "", UID := "", Version := 0, Records := [] })
        { byCode := [], byCode11 := [], byRegion := [], Region := [] }).env =
        { byCode := okato.byCode, byCode11 := okato.byCode11, byRegion := okato.byRegion,
          Region := okato.Region } := by
  unfold NewOkato at hok
  simp only at hok
  split at hok
  · cases hok
  · cases hok
  · rename_i hres
    split at hok
    · cases hok
    · rename_i c1 hc1
      simp only [Except.ok.injEq] at hok
      subst hok
      exact ⟨hres, hc1, rfl⟩

/-! ## Lemmas: a decode with a handler, seen from its outcome -/

/-- A record loop with a handler that stays set stops at the first record on which the
handler returns an error: when the handler returns nil on the records before record `k` (they are `Good`, which
with the invariant `P` makes the handler return nil) and an error on record `k`, the loop
returns that error wrapped with the index of the record. -/
theorem recordLoop_handler_stops {σ : Type} (h : Handler σ) (hset : handlerStaysSet h)
    (typ : RType) (idx : List (String × Nat)) (P : List Record → Classifier → σ → Prop)
    (Good : List Record → Record → Prop)
    (hstep : ∀ ks r c env, P ks c env → Good ks r →
      (h r c env).err = none ∧ P (ks ++ [r]) (h r c env).c (h r c env).env)
    (recs : List cnsiRecord) (i : Nat) (s : UState σ) (h0 : P s.calls s.c s.env)
    (k : Nat) (rec : Record) (hk : (decodedPrefix typ idx recs).get? k = some rec)
    (hgood : ∀ j r, j < k → (decodedPrefix typ idx recs).get? j = some r →
      Good (s.calls ++ (decodedPrefix typ idx recs).take j) r)
    (e : GoError)
    (hbad : ∀ c env, P (s.calls ++ (decodedPrefix typ idx recs).take k) c env →
      (h rec c env).err = some e) :
    (recordLoop (some h) typ idx recs i s).1 =
      .ret (some (.wrap ("handler error at record " ++ toString (i + k) ++ ": " ++ e.Error) e)) := by
  induction recs generalizing i s k with
  | nil => simp [decodedPrefix] at hk
  | cons d recs ih =>
    cases hd : decodeRecord typ idx d with
    | error f => simp [decodedPrefix, hd] at hk
    | ok record =>
      have hdp : decodedPrefix typ idx (d :: recs) = record :: decodedPrefix typ idx recs := by
        simp [decodedPrefix, hd]
      rw [hdp] at hk hgood hbad
      cases k with
      | zero =>
        simp only [List.get?_cons_zero, Option.some.injEq] at hk
        subst hk
        have he := hbad s.c s.env (by simpa using h0)
        rw [recordLoop_handler_error h typ idx d recs i s record e hd he]
        rfl
      | succ k =>
        obtain ⟨hnil, hP⟩ := hstep s.calls record s.c s.env h0
          (by simpa using hgood 0 record (Nat.succ_pos k) rfl)
        rw [recordLoop, hd]
        simp only [hnil, recordLoop_next h hset]
        rw [show i + (k + 1) = i + 1 + k by omega]
        apply ih (i + 1)
          { c := (h record s.c s.env).c, env := (h record s.c s.env).env,
            calls := s.calls ++ [record] } hP k
        · simpa using hk
        · intro j r hj hr
          have := hgood (j + 1) r (by omega) (by simpa using hr)
          simpa using this
        · intro c env hp
          apply hbad c env
          simpa using hp

/-- A successful `Decode` with a handler that stays set: the document was parsed, the pre-flight check
passed, every record was decoded, and a property of the handler trace, the classifier and the
handler state that every handler call returning nil preserves holds of all decoded records. -/
theorem Decode_handler_invariant {ρ σ : Type} (xmlDecode : ρ → Except GoError cnsiDoc × ρ)
    (typ : RType) (r : Option ρ) (h : Handler σ) (hset : handlerStaysSet h) (c0 : Classifier)
    (env0 : σ) (P : List Record → Classifier → σ → Prop)
    (hstep : ∀ ks rec c env, P ks c env → (h rec c env).err = none →
      P (ks ++ [rec]) (h rec c env).c (h rec c env).env)
    (h0 : ∀ n cd u v, P [] { Name := n, Code := cd, UID := u, Version := v, Records := [] } env0)
    (hok : (((NewDecoder r : Decoder ρ σ).WithHandler (some h)).Decode xmlDecode (some typ)
      (some c0) env0).result = .ret none) :
    ∃ (doc : cnsiDoc) (idx : List (String × Nat)) (c : Classifier),
      preflight typ doc.Meta = .ok idx ∧
      (∀ dr ∈ doc.Records, ∃ rec, decodeRecord typ idx dr = .ok rec) ∧
      (((NewDecoder r : Decoder ρ σ).WithHandler (some h)).Decode xmlDecode (some typ)
        (some c0) env0).c = some c ∧
      P (decodedPrefix typ idx doc.Records) c
        (((NewDecoder r : Decoder ρ σ).WithHandler (some h)).Decode xmlDecode (some typ)
          (some c0) env0).env := by
  by_cases hk : typ.Kind = Kind.Struct
  · cases r with
    | none => simp [Decoder.Decode, hk, NewDecoder, Decoder.WithHandler] at hok
    | some r0 =>
      cases hx : xmlDecode r0 with
      | mk res r1 =>
        cases res with
        | error err =>
          simp [Decoder.Decode, hk, NewDecoder, Decoder.WithHandler, hx] at hok
        | ok doc =>
          rw [Decode_parsed xmlDecode typ _ c0 env0 r0 r1 doc hk rfl hx] at hok ⊢
          simp only at hok ⊢
          cases hpre : preflight typ doc.Meta with
          | error e =>
            rw [unmarshal_preflight_error _ typ _ doc _ e hpre] at hok
            cases hok
          | ok idx =>
            rw [unmarshal_preflight_ok _ typ _ doc _ idx hpre] at hok ⊢
            simp only [NewDecoder, Decoder.WithHandler, Option.isSome_some, if_true] at hok ⊢
            have hall := recordLoop_ok_all (some h) typ idx doc.Records 0 _ _
              (Prod.ext hok rfl)
            have hcalls := recordLoop_handler_ok_calls h typ idx doc.Records 0 _ hset hok
            have hinv := recordLoop_handler_invariant h hset typ idx P hstep doc.Records 0
              { c := { Name := doc.Meta.Name, Code := doc.Meta.Code, UID := doc.Meta.UID,
                       Version := doc.Meta.Version, Records := [] },
                env := env0, calls := [] } (h0 _ _ _ _) hok
            rw [hcalls] at hinv
            simp only [List.nil_append] at hinv
            exact ⟨doc, idx, _, hpre, hall, rfl, hinv⟩
  · simp [Decoder.Decode, hk, NewDecoder, Decoder.WithHandler] at hok

/-- A `Decode` with a handler that stays set, on a parsed document that passes the
pre-flight check, returns
the error of the first handler call that fails, wrapped with the index of its record. -/
theorem Decode_handler_stops {ρ σ : Type} (xmlDecode : ρ → Except GoError cnsiDoc × ρ)
    (typ : RType) (r r1 : ρ) (doc : cnsiDoc) (idx : List (String × Nat)) (h : Handler σ)
    (hset : handlerStaysSet h) (c0 : Classifier) (env0 : σ)
    (P : List Record → Classifier → σ → Prop)
    (Good : List Record → Record → Prop)
    (hstep : ∀ ks rec c env, P ks c env → Good ks rec →
      (h rec c env).err = none ∧ P (ks ++ [rec]) (h rec c env).c (h rec c env).env)
    (h0 : ∀ n cd u v, P [] { Name := n, Code := cd, UID := u, Version := v, Records := [] } env0)
    (hkind : typ.Kind = Kind.Struct) (hx : xmlDecode r = (.ok doc, r1))
    (hpre : preflight typ doc.Meta = .ok idx) (k : Nat) (rec : Record)
    (hk : (decodedPrefix typ idx doc.Records).get? k = some rec)
    (hgood : ∀ j rj, j < k → (decodedPrefix typ idx doc.Records).get? j = some rj →
      Good ((decodedPrefix typ idx doc.Records).take j) rj)
    (e : GoError)
    (hbad : ∀ c env, P ((decodedPrefix typ idx doc.Records).take k) c env →
      (h rec c env).err = some e) :
    (((NewDecoder (some r) : Decoder ρ σ).WithHandler (some h)).Decode xmlDecode (some typ)
      (some c0) env0).result =
      .ret (some (.wrap ("handler error at record " ++ toString k ++ ": " ++ e.Error) e)) := by
  rw [Decode_parsed xmlDecode typ _ c0 env0 r r1 doc hkind rfl hx]
  simp only
  rw [unmarshal_preflight_ok _ typ _ doc _ idx hpre]
  simp only [NewDecoder, Decoder.WithHandler, Option.isSome_some, if_true]
  have := recordLoop_handler_stops h hset typ idx P Good hstep doc.Records 0
    { c := { Name := doc.Meta.Name, Code := doc.Meta.Code, UID := doc.Meta.UID,
             Version := doc.Meta.Version, Records := [] },
      env := env0, calls := [] } (h0 _ _ _ _) k rec hk
    (by simpa using hgood) e (by simpa using hbad)
  simpa using this

/-- A record loop with a handler that returned nil on the records `pre` goes on, on the
records that follow, either with the handler still set, having called it on every record of
`pre`, or without handler, having called it on at most `pre.length` records. -/
theorem recordLoop_handler_split {σ : Type} (h : Handler σ) (typ : RType)
    (idx : List (String × Nat)) (pre rest : List cnsiRecord) (i : Nat) (s s1 : UState σ)
    (hpre : recordLoop (some h) typ idx pre i s = (.ret none, s1)) :
    (recordLoop (some h) typ idx (pre ++ rest) i s =
        recordLoop (some h) typ idx rest (i + pre.length) s1 ∧
      s1.calls = s.calls ++ decodedPrefix typ idx pre) ∨
    (recordLoop (some h) typ idx (pre ++ rest) i s =
        recordLoop none typ idx rest (i + pre.length) s1 ∧
      s1.calls.length ≤ s.calls.length + pre.length) := by
  induction pre generalizing i s with
  | nil =>
    simp only [recordLoop, Prod.mk.injEq, true_and] at hpre
    subst hpre
    exact Or.inl ⟨rfl, by simp [decodedPrefix]⟩
  | cons dr pre ih =>
    rw [List.cons_append, recordLoop, decodedPrefix]
    rw [recordLoop] at hpre
    simp only [List.length_cons]
    rw [show i + (pre.length + 1) = i + 1 + pre.length by omega]
    cases hd : decodeRecord typ idx dr with
    | error f =>
      rw [hd] at hpre
      cases f <;> simp [Fail.toResult] at hpre
    | ok record =>
      rw [hd] at hpre
      simp only at hpre ⊢
      cases he : (h record s.c s.env).err with
      | some err => rw [he] at hpre; simp at hpre
      | none =>
        rw [he] at hpre
        simp only at hpre ⊢
        cases hkeep : (h record s.c s.env).keepsHandler with
        | true =>
          rw [hkeep] at hpre
          simp only [if_true] at hpre ⊢
          rcases ih (i + 1) _ hpre with ⟨hgo, hcalls⟩ | ⟨hgo, hlen⟩
          · exact Or.inl ⟨hgo, by rw [hcalls]; simp⟩
          · refine Or.inr ⟨hgo, ?_⟩
            simp only [List.length_append, List.length_singleton] at hlen
            omega
        | false =>
          rw [hkeep] at hpre
          simp only [Bool.false_eq_true, if_false] at hpre ⊢
          refine Or.inr ⟨recordLoop_append none typ idx pre rest (i + 1) _ s1
            (fun hh e => by cases e) hpre, ?_⟩
          have hst := recordLoop_nohandler_state typ idx pre (i + 1)
            { c := (h record s.c s.env).c, env := (h record s.c s.env).env,
              calls := s.calls ++ [record] }
          rw [hpre] at hst
          simp only at hst
          rw [hst]
          simp only [List.length_append, List.length_singleton]
          omega

/-! ## Lemmas: the pattern of the plain OKATO codes -/

/-- At most `n` digits up to the end of the text. -/
theorem matchK_atMost_digit (n : Nat) (st : Bool) (s : List Char) :
    (Regex.atMost n .digit).matchK st s
        (fun st1 rest => Regex.eot.matchK st1 rest (fun _ _ => true)) = true ↔
      s.length ≤ n ∧ ∀ c ∈ s, c.isDigit = true := by
  induction n generalizing st s with
  | zero => cases s <;> simp [Regex.atMost, Regex.matchK]
  | succ n ih =>
    have hseq : (Regex.seq .digit (Regex.atMost n .digit)).matchK st s
        (fun st1 rest => Regex.eot.matchK st1 rest (fun _ _ => true)) = true ↔
        ∃ c t, s = c :: t ∧ c.isDigit = true ∧
          (Regex.atMost n .digit).matchK false t
            (fun st1 rest => Regex.eot.matchK st1 rest (fun _ _ => true)) = true := by
      rw [Regex.matchK, matchK_digit_iff]
    rw [Regex.atMost, matchK_opt_iff, hseq]
    cases s with
    | nil => simp [Regex.matchK]
    | cons c t =>
      constructor
      · rintro (⟨c1, t1, hs, hc, ht⟩ | h)
        · simp only [List.cons.injEq] at hs
          obtain ⟨rfl, rfl⟩ := hs
          obtain ⟨hl, hd⟩ := (ih false t).mp ht
          refine ⟨by simp only [List.length_cons]; omega, ?_⟩
          intro x hx
          rcases List.mem_cons.mp hx with rfl | hx
          · exact hc
          · exact hd x hx
        · simp [Regex.matchK] at h
      · rintro ⟨hl, hd⟩
        left
        refine ⟨c, t, rfl, hd c (List.mem_cons_self _ _), (ih false t).mpr ⟨?_, ?_⟩⟩
        · simp only [List.length_cons] at hl
          omega
        · intro x hx
          exact hd x (List.mem_cons_of_mem _ hx)

theorem searchFrom_reOKATOPlain_false (s : List Char) :
    reOKATOPlain.searchFrom false s = false := by
  have hno : ∀ t : List Char, reOKATOPlain.matchK false t (fun _ _ => true) = false := by
    intro t
    unfold reOKATOPlain
    rw [Regex.matchK, Regex.matchK]
    rfl
  induction s with
  | nil => simp [Regex.searchFrom, hno]
  | cons c s ih => simp [Regex.searchFrom, hno, ih]

/-- The method `MatchString` of the plain pattern decides the strings of 2 to 11 digits. -/
theorem matchString_reOKATOPlain (s : String) :
    reOKATOPlain.MatchString s = true ↔ IsPlainOkato s := by
  have hmatch : reOKATOPlain.matchK true s.data (fun _ _ => true) = true ↔ IsPlainOkato s := by
    unfold reOKATOPlain IsPlainOkato
    rw [Regex.matchK, Regex.matchK]
    simp only [Bool.true_and]
    rw [Regex.matchK, matchK_times2_iff]
    have hlen : s.length = s.data.length := rfl
    constructor
    · rintro ⟨a, b, t, hs, ha, hb, hk⟩
      rw [Regex.matchK] at hk
      obtain ⟨hl, hd⟩ := (matchK_atMost_digit 9 false t).mp hk
      rw [hlen, hs]
      refine ⟨by simp, by simp; omega, ?_⟩
      intro ch hch
      simp only [List.mem_cons] at hch
      rcases hch with rfl | rfl | hch
      · exact ha
      · exact hb
      · exact hd ch hch
    · rintro ⟨h2, h11, hd⟩
      rw [hlen] at h2 h11
      cases hs : s.data with
      | nil => rw [hs] at h2; simp at h2
      | cons a t1 =>
        cases t1 with
        | nil => rw [hs] at h2; simp at h2
        | cons b t =>
          rw [hs] at h11 hd
          refine ⟨a, b, t, rfl, hd a (by simp), hd b (by simp), ?_⟩
          rw [Regex.matchK]
          refine (matchK_atMost_digit 9 false t).mpr ⟨?_, ?_⟩
          · simp at h11
            omega
          · intro c hc
            exact hd c (by simp [hc])
  unfold Regex.MatchString
  rw [← hmatch]
  cases hs : s.data with
  | nil => simp [Regex.searchFrom]
  | cons c t => simp [Regex.searchFrom, searchFrom_reOKATOPlain_false]

theorem matchString_reOKATOPlain_false (s : String) :
    reOKATOPlain.MatchString s = false ↔ ¬ IsPlainOkato s := by
  rw [← matchString_reOKATOPlain]
  simp

/-- The padded code of the handler of `NewSfr`. -/
theorem okato11_eq (area : String) :
    area ++ goRepeat "0" (11 - (goLen area : Int)) = zeroPadded11 area := by
  apply String.ext
  have hcast : (11 - (goLen area : Int)) = ((11 - area.length : Nat) : Int) ∨
      ((11 - (goLen area : Int)).toNat = 0 ∧ 11 - area.length = 0) := by
    unfold goLen
    omega
  rw [String.data_append]
  show area.data ++ _ = area.data ++ _
  congr 1
  rcases hcast with h | ⟨h1, h2⟩
  · rw [h, goRepeat_zero_data]
  · rw [h2]
    unfold goRepeat
    rw [h1]
    rfl

theorem goSlice_zero (s : String) (n : Nat) : goSlice s 0 n = firstChars n s := by
  simp [goSlice, firstChars]

theorem zeroPadded11_length (t : String) (h : t.length ≤ 11) : (zeroPadded11 t).length = 11 := by
  show (zeroPadded11 t).data.length = 11
  have : t.data.length = t.length := rfl
  simp [zeroPadded11]
  omega

theorem firstChars_length (n : Nat) (t : String) (h : n ≤ t.length) :
    (firstChars n t).length = n := by
  show (firstChars n t).data.length = n
  have : t.data.length = t.length := rfl
  simp [firstChars]
  omega

/-! ## Lemmas: token occurrences and the SFR indexes -/

theorem sfrRecord_ofRecord_toRecord (r : SfrRecord) : SfrRecord.ofRecord r.toRecord = r := rfl

theorem occurrencesFrom_append (p : Nat) (l : List (List String)) (ts : List String) :
    occurrencesFrom p (l ++ [ts]) =
      occurrencesFrom p l ++ ts.map (fun t => (p + l.length, t)) := by
  induction l generalizing p with
  | nil => simp [occurrencesFrom]
  | cons a l ih =>
    rw [List.cons_append, occurrencesFrom, occurrencesFrom, ih, List.length_cons,
      show p + 1 + l.length = p + (l.length + 1) by omega, List.append_assoc]

theorem mem_occurrencesFrom (p : Nat) (l : List (List String)) (q : Nat) (t : String) :
    (q, t) ∈ occurrencesFrom p l ↔ ∃ j ts, l.get? j = some ts ∧ q = p + j ∧ t ∈ ts := by
  induction l generalizing p with
  | nil => simp [occurrencesFrom]
  | cons a l ih =>
    simp only [occurrencesFrom, List.mem_append, List.mem_map, Prod.mk.injEq, ih]
    constructor
    · rintro (⟨t1, ht1, rfl, rfl⟩ | ⟨j, ts, hj, rfl, ht⟩)
      · exact ⟨0, a, rfl, rfl, ht1⟩
      · exact ⟨j + 1, ts, by simpa using hj, by omega, ht⟩
    · rintro ⟨j, ts, hj, rfl, ht⟩
      cases j with
      | zero =>
        simp only [List.get?_cons_zero, Option.some.injEq] at hj
        subst hj
        exact Or.inl ⟨t, ht, rfl, rfl⟩
      | succ j => exact Or.inr ⟨j, ts, by simpa using hj, by omega, ht⟩

theorem occurrencesFrom_length (p : Nat) (l : List (List String)) :
    (occurrencesFrom p l).length = (l.map List.length).sum := by
  induction l generalizing p with
  | nil => rfl
  | cons a l ih => simp [occurrencesFrom, ih]

theorem recordsUnder_append (f : String → String) (o1 o2 : List (Nat × String)) (k : String) :
    recordsUnder f (o1 ++ o2) k = recordsUnder f o1 k ++ recordsUnder f o2 k := by
  simp [recordsUnder]

theorem recordsUnder_one (f : String → String) (p : Nat) (t : String) (k : String) :
    recordsUnder f [(p, t)] k = if f t = k then [p] else [] := by
  by_cases h : f t = k <;> simp [recordsUnder, h]

theorem mem_recordsUnder (f : String → String) (o : List (Nat × String)) (k : String)
    (p : Nat) : p ∈ recordsUnder f o k ↔ ∃ t, (p, t) ∈ o ∧ f t = k := by
  simp [recordsUnder]

/-- One more occurrence in an index that keeps the last record of each key. -/
theorem lastIndex_step (m : List (String × Nat)) (o : List (Nat × String)) (p : Nat)
    (t : String) (h : ∀ k, mapGet m k = (recordsUnder id o k).getLast?) (k : String) :
    mapGet (mapSet m t p) k = (recordsUnder id (o ++ [(p, t)]) k).getLast? := by
  rw [mapGet_mapSet, recordsUnder_append, recordsUnder_one]
  by_cases hk : t = k
  · simp [hk]
  · simp [hk, h]

/-- One more occurrence in an index that keeps the first record of each key. -/
theorem firstIndex_step (f : String → String) (m : List (String × List Nat))
    (o : List (Nat × String)) (p : Nat) (t : String)
    (h : ∀ k, mapGet m k = (recordsUnder f o k).head?.map (fun q => [q])) (k : String) :
    mapGet (match mapGet m (f t) with
      | some _ => m
      | none => mapSet m (f t) ((mapGet m (f t)).getD [] ++ [p])) k =
      (recordsUnder f (o ++ [(p, t)]) k).head?.map (fun q => [q]) := by
  rw [recordsUnder_append, recordsUnder_one]
  cases hget : mapGet m (f t) with
  | some l =>
    simp only
    rw [h k]
    by_cases hk : f t = k
    · subst hk
      rw [h (f t)] at hget
      cases hl : recordsUnder f o (f t) with
      | nil => simp [hl] at hget
      | cons a l1 => simp
    · simp [hk]
  | none =>
    simp only [Option.getD_none, List.nil_append]
    rw [mapGet_mapSet]
    by_cases hk : f t = k
    · subst hk
      rw [h (f t)] at hget
      cases hl : recordsUnder f o (f t) with
      | nil => simp
      | cons a l1 => simp [hl] at hget
    · simp [hk, h]

/-- One more occurrence in an index that lists every record of each key. -/
theorem listIndex_step (f : String → String) (m : List (String × List Nat))
    (o : List (Nat × String)) (p : Nat) (t : String)
    (h : ∀ k, mapGet m k = if recordsUnder f o k = [] then none else some (recordsUnder f o k))
    (k : String) :
    mapGet (mapSet m (f t) ((mapGet m (f t)).getD [] ++ [p])) k =
      if recordsUnder f (o ++ [(p, t)]) k = [] then none
      else some (recordsUnder f (o ++ [(p, t)]) k) := by
  rw [mapGet_mapSet, recordsUnder_append, recordsUnder_one]
  by_cases hk : f t = k
  · subst hk
    have hold : (mapGet m (f t)).getD [] = recordsUnder f o (f t) := by
      rw [h (f t)]
      by_cases hl : recordsUnder f o (f t) = [] <;> simp [hl]
    simp [hold]
  · simp [hk, h]

/-- The index maps after one more accepted token. -/
theorem sfrIndexed_step (o : List (Nat × String)) (env : SfrIndexes) (rec : Nat)
    (area : String) (h : sfrIndexed o env) :
    sfrIndexed (o ++ [(rec, area)])
      { heap := env.heap,
        byOkato := mapSet env.byOkato area rec,
        byOkato11 :=
          match mapGet env.byOkato11 (zeroPadded11 area) with
          | some _ => env.byOkato11
          | none => mapSet env.byOkato11 (zeroPadded11 area)
              ((mapGet env.byOkato11 (zeroPadded11 area)).getD [] ++ [rec]),
        byOkato8 := mapSet env.byOkato8 (firstChars 8 (zeroPadded11 area))
          ((mapGet env.byOkato8 (firstChars 8 (zeroPadded11 area))).getD [] ++ [rec]),
        byOkato5 := mapSet env.byOkato5 (firstChars 5 (zeroPadded11 area))
          ((mapGet env.byOkato5 (firstChars 5 (zeroPadded11 area))).getD [] ++ [rec]),
        byOkato2 := mapSet env.byOkato2 (firstChars 2 (zeroPadded11 area))
          ((mapGet env.byOkato2 (firstChars 2 (zeroPadded11 area))).getD [] ++ [rec]) } := by
  obtain ⟨h1, h11, h8, h5, h2⟩ := h
  exact ⟨lastIndex_step _ o rec area h1, firstIndex_step zeroPadded11 _ o rec area h11,
    listIndex_step (fun t => firstChars 8 (zeroPadded11 t)) _ o rec area h8,
    listIndex_step (fun t => firstChars 5 (zeroPadded11 t)) _ o rec area h5,
    listIndex_step (fun t => firstChars 2 (zeroPadded11 t)) _ o rec area h2⟩

/-- The error of the loop over the pieces of `OKATOArea`: the one of the first non-empty token
that does not match the pattern. -/
theorem sfrAreas_err (rec : Nat) (areas : List String) (cell : SfrRecord) (env : SfrIndexes) :
    (sfrAreas rec areas cell env).1 =
      (((areas.map stringsTrimSpace).filter (fun t => t ≠ "")).find?
        (fun t => !reOKATOPlain.MatchString t)).map
        (fun t => GoError.new ("invalid OKATO '" ++ t ++ "'")) := by
  induction areas generalizing cell env with
  | nil => rfl
  | cons a areas ih =>
    rw [sfrAreas]
    simp only [List.map_cons]
    by_cases he : stringsTrimSpace a = ""
    · simp only [he, if_true]
      rw [ih]
      simp
    · simp only [he, if_false]
      rw [List.filter_cons_of_pos (by simpa using he)]
      cases hm : reOKATOPlain.MatchString (stringsTrimSpace a) with
      | false => simp [hm]
      | true =>
        simp only [Bool.not_true, Bool.false_eq_true, if_false]
        rw [ih]
        simp [hm]

/-- The loop over the pieces of `OKATOArea` when every non-empty token matches the pattern:
the accepted tokens are appended to `OKATOAreas` and indexed. -/
theorem sfrAreas_ok (rec : Nat) (areas : List String) (cell : SfrRecord) (env : SfrIndexes)
    (o : List (Nat × String)) (hinv : sfrIndexed o env)
    (hall : ∀ t ∈ (areas.map stringsTrimSpace).filter (fun t => t ≠ ""),
      reOKATOPlain.MatchString t = true) :
    (sfrAreas rec areas cell env).2.1 =
        { cell with OKATOAreas := cell.OKATOAreas ++
            (areas.map stringsTrimSpace).filter (fun t => t ≠ "") } ∧
      (sfrAreas rec areas cell env).2.2.heap = env.heap ∧
      sfrIndexed
        (o ++ ((areas.map stringsTrimSpace).filter (fun t => t ≠ "")).map (fun t => (rec, t)))
        (sfrAreas rec areas cell env).2.2 := by
  induction areas generalizing cell env o with
  | nil => simpa [sfrAreas] using hinv
  | cons a areas ih =>
    simp only [List.map_cons]
    by_cases he : stringsTrimSpace a = ""
    · rw [sfrAreas]
      simp only [he, if_true]
      have hf : List.filter (fun t => decide (t ≠ "")) ("" :: areas.map stringsTrimSpace) =
          List.filter (fun t => decide (t ≠ "")) (areas.map stringsTrimSpace) := by simp
      rw [hf]
      apply ih cell env o hinv
      intro t ht
      apply hall t
      simp only [List.map_cons, he]
      rw [hf]
      exact ht
    · have hf : List.filter (fun t => decide (t ≠ ""))
          (stringsTrimSpace a :: areas.map stringsTrimSpace) =
          stringsTrimSpace a ::
            List.filter (fun t => decide (t ≠ "")) (areas.map stringsTrimSpace) :=
        List.filter_cons_of_pos (by simpa using he)
      have hm : reOKATOPlain.MatchString (stringsTrimSpace a) = true := by
        apply hall
        simp only [List.map_cons]
        rw [hf]
        exact List.mem_cons_self _ _
      have hstep : sfrAreas rec (a :: areas) cell env =
          sfrAreas rec areas { cell with OKATOAreas := cell.OKATOAreas ++ [stringsTrimSpace a] }
            { heap := env.heap,
              byOkato := mapSet env.byOkato (stringsTrimSpace a) rec,
              byOkato11 :=
                match mapGet env.byOkato11 (zeroPadded11 (stringsTrimSpace a)) with
                | some _ => env.byOkato11
                | none => mapSet env.byOkato11 (zeroPadded11 (stringsTrimSpace a))
                    ((mapGet env.byOkato11 (zeroPadded11 (stringsTrimSpace a))).getD [] ++ [rec]),
              byOkato8 := mapSet env.byOkato8 (firstChars 8 (zeroPadded11 (stringsTrimSpace a)))
                ((mapGet env.byOkato8 (firstChars 8 (zeroPadded11 (stringsTrimSpace a)))).getD []
                  ++ [rec]),
              byOkato5 := mapSet env.byOkato5 (firstChars 5 (zeroPadded11 (stringsTrimSpace a)))
                ((mapGet env.byOkato5 (firstChars 5 (zeroPadded11 (stringsTrimSpace a)))).getD []
                  ++ [rec]),
              byOkato2 := mapSet env.byOkato2 (firstChars 2 (zeroPadded11 (stringsTrimSpace a)))
                ((mapGet env.byOkato2 (firstChars 2 (zeroPadded11 (stringsTrimSpace a)))).getD []
                  ++ [rec]) } := by
        rw [sfrAreas]
        simp only [he, if_false, hm, Bool.not_true, Bool.false_eq_true, okato11_eq,
          goSlice_zero]
        try rfl
      obtain ⟨h1, h2, h3⟩ := ih { cell with OKATOAreas := cell.OKATOAreas ++ [stringsTrimSpace a] }
        _ (o ++ [(rec, stringsTrimSpace a)])
        (sfrIndexed_step o env rec (stringsTrimSpace a) hinv)
        (by
          intro t ht
          apply hall t
          simp only [List.map_cons]
          rw [hf]
          exact List.mem_cons_of_mem _ ht)
      rw [hstep, hf]
      refine ⟨?_, h2, ?_⟩
      · rw [h1]
        simp
      · simpa using h3

/-! ## Lemmas: `NewSfr` -/

/-- The error of the handler of `NewSfr`: the one of the first accepted token of `OKATOArea`
that does not match the pattern; it does not depend on the classifier or on the indexes. -/
theorem sfrHandler_err (record : Record) (c : Classifier) (env : SfrIndexes) :
    (sfrHandler record c env).err =
      ((acceptedTokens (SfrRecord.ofRecord record).OKATOArea).find?
        (fun t => !reOKATOPlain.MatchString t)).map
        (fun t => GoError.new ("invalid OKATO '" ++ t ++ "'")) := by
  have h : (sfrAreas env.heap.length (stringsSplit (SfrRecord.ofRecord record).OKATOArea ',')
      (SfrRecord.ofRecord record) env).1 =
      ((acceptedTokens (SfrRecord.ofRecord record).OKATOArea).find?
        (fun t => !reOKATOPlain.MatchString t)).map
        (fun t => GoError.new ("invalid OKATO '" ++ t ++ "'")) :=
    sfrAreas_err env.heap.length
      (stringsSplit (SfrRecord.ofRecord record).OKATOArea ',') (SfrRecord.ofRecord record) env
  unfold sfrHandler
  simp only
  split
  · rename_i err herr
    rw [← h, herr]
  · rename_i herr
    rw [← h, herr]

theorem sfrHandler_nil_iff (record : Record) (c : Classifier) (env : SfrIndexes) :
    (sfrHandler record c env).err = none ↔
      ∀ t ∈ acceptedTokens (SfrRecord.ofRecord record).OKATOArea, IsPlainOkato t := by
  rw [sfrHandler_err]
  simp only [Option.map_eq_none', List.find?_eq_none, Bool.not_eq_true', Bool.not_eq_false]
  constructor
  · intro h t ht
    exact (matchString_reOKATOPlain t).mp (by simpa using h t ht)
  · intro h t ht
    simpa using (matchString_reOKATOPlain t).mpr (h t ht)

/-- The handler of `NewSfr` preserves the invariant when it returns nil. -/
theorem sfrHandler_invariant (ks : List Record) (rec : Record) (c : Classifier)
    (env : SfrIndexes) (hinv : sfrInvariant ks c env)
    (hnil : (sfrHandler rec c env).err = none) :
    sfrInvariant (ks ++ [rec]) (sfrHandler rec c env).c (sfrHandler rec c env).env := by
  obtain ⟨hheap, hrecs, hidx, hplain⟩ := hinv
  have hall := (sfrHandler_nil_iff rec c env).mp hnil
  have hmatch : ∀ t ∈ ((stringsSplit (SfrRecord.ofRecord rec).OKATOArea ',').map
      stringsTrimSpace).filter (fun t => t ≠ ""), reOKATOPlain.MatchString t = true :=
    fun t ht => (matchString_reOKATOPlain t).mpr (hall t ht)
  obtain ⟨h1, h2, h3⟩ := sfrAreas_ok env.heap.length
    (stringsSplit (SfrRecord.ofRecord rec).OKATOArea ',') (SfrRecord.ofRecord rec) env _ hidx
    hmatch
  have herr : (sfrAreas env.heap.length (stringsSplit (SfrRecord.ofRecord rec).OKATOArea ',')
      (SfrRecord.ofRecord rec) env).1 = none := by
    rw [sfrAreas_err]
    simp only [Option.map_eq_none', List.find?_eq_none]
    intro t ht
    simp [hmatch t ht]
  have hkept : (sfrAreas env.heap.length (stringsSplit (SfrRecord.ofRecord rec).OKATOArea ',')
      (SfrRecord.ofRecord rec) env).2.1 = sfrKept rec := h1
  have hc : (sfrHandler rec c env).c =
      { c with Records := c.Records ++ [(sfrKept rec).toRecord] } := by
    unfold sfrHandler
    simp only [herr, hkept]
  have henv : (sfrHandler rec c env).env =
      { (sfrAreas env.heap.length (stringsSplit (SfrRecord.ofRecord rec).OKATOArea ',')
          (SfrRecord.ofRecord rec) env).2.2 with heap := env.heap ++ [sfrKept rec] } := by
    unfold sfrHandler
    simp only [herr, hkept, h2]
  rw [hc, henv]
  refine ⟨?_, ?_, ?_, ?_⟩
  · simp [hheap]
  · simp [hrecs]
  · have hlen : env.heap.length = ks.length := by simp [hheap]
    rw [List.map_append, List.map_singleton, occurrencesFrom_append, List.length_map,
      Nat.zero_add, ← hlen]
    exact h3
  · intro r hr t ht
    rcases List.mem_append.mp hr with hr | hr
    · exact hplain r hr t ht
    · simp only [List.mem_singleton] at hr
      subst hr
      exact hall t ht

/-- The handler of `NewSfr` does not capture the decoder: it leaves its handler set. -/
theorem sfrHandler_staysSet : handlerStaysSet sfrHandler := by
  intro rec c env
  unfold sfrHandler
  simp only
  split <;> rfl

/-- The tagged fields of `SfrRecord` are exported. -/
theorem sfrType_exported : taggedExported sfrType := by decide

/-- What a successful `NewSfr` says of the `Decode` it ran. -/
theorem NewSfr_ok {ρ : Type} (xmlDecode : ρ → Except GoError cnsiDoc × ρ) (r : Option ρ)
    (sfr : Sfr) (hok : NewSfr xmlDecode r = .ok sfr) :
    (((NewDecoder r : Decoder ρ SfrIndexes).WithHandler (some sfrHandler)).Decode xmlDecode
        (some sfrType)
        (some { Name := "", Code := "", UID := "", Version := 0, Records := [] })
        { heap := [], byOkato := [], byOkato11 := [], byOkato8 := [], byOkato5 := [],
          byOkato2 := [] }).result = .ret none ∧
      (((NewDecoder r : Decoder ρ SfrIndexes).WithHandler (some sfrHandler)).Decode xmlDecode
        (some sfrType)
        (some { Name := "", Code := "", UID := "", Version := 0, Records := [] })
        { heap := [], byOkato := [], byOkato11 := [], byOkato8 := [], byOkato5 := [],
          byOkato2 := [] }).c = some sfr.Classifier ∧
      (((NewDecoder r : Decoder ρ SfrIndexes).WithHandler (some sfrHandler)).Decode xmlDecode
        (some sfrType)
        (some { Name := "", Code := "", UID := "", Version := 0, Records := [] })
        { heap := [], byOkato := [], byOkato11 := [], byOkato8 := [], byOkato5 := [],
          byOkato2 := [] }).env =
        { heap := sfr.heap, byOkato := sfr.ByOkato, byOkato11 := sfr.ByOkato11,
          byOkato8 := sfr.ByOkato8, byOkato5 := sfr.ByOkato5, byOkato2 := sfr.ByOkato2 } := by
  unfold NewSfr at hok
  simp only at hok
  split at hok
  · cases hok
  · cases hok
  · rename_i hres
    split at hok
    · cases hok
    · rename_i c1 hc1
      simp only [Except.ok.injEq] at hok
      subst hok
      exact ⟨hres, hc1, rfl⟩

/-- A record decoded for `NewSfr` has an empty `OKATOAreas`: no attribute is bound to that
field. -/
theorem sfr_decoded_areas (m : cnsiMeta) (idx : List (String × Nat))
    (hpre : preflight sfrType m = .ok idx) (dr : cnsiRecord) (rec : Record)
    (h : decodeRecord sfrType idx dr = .ok rec) : (SfrRecord.ofRecord rec).OKATOAreas = [] := by
  have hz := decodeRecord_untargeted sfrType idx dr rec h 24 ⟨"OKATOAreas", Kind.Slice, "", ""⟩ rfl
    (by
      intro p _ hp
      obtain ⟨f, hf, hft, _⟩ := preflight_index sfrType m idx hpre p.AttrRef 24 hp
      have : f = ⟨"OKATOAreas", Kind.Slice, "", ""⟩ := by
        have h24 : sfrType.Fields.get? 24 = some ⟨"OKATOAreas", Kind.Slice, "", ""⟩ := rfl
        rw [h24] at hf
        exact (Option.some.inj hf).symm
      subst this
      exact hft rfl)
  show stringsField rec 24 = []
  unfold stringsField
  rw [hz]
  rfl

/-- What a successful `NewSfr` returns: `Records` holds the variables the handler was given,
in order; each holds the accepted tokens of its `OKATOArea` in `OKATOAreas`, all of them plain
codes; and the five maps index the token occurrences of these variables. -/
theorem NewSfr_spec {ρ : Type} (xmlDecode : ρ → Except GoError cnsiDoc × ρ) (r : Option ρ)
    (sfr : Sfr) (hok : NewSfr xmlDecode r = .ok sfr) :
    sfr.Classifier.Records = sfr.heap.map SfrRecord.toRecord ∧
      (∀ rec ∈ sfr.heap, rec.OKATOAreas = acceptedTokens rec.OKATOArea ∧
        ∀ t ∈ rec.OKATOAreas, IsPlainOkato t) ∧
      sfrIndexed (occurrencesFrom 0 (sfr.heap.map (fun rec => rec.OKATOAreas)))
        { heap := sfr.heap, byOkato := sfr.ByOkato, byOkato11 := sfr.ByOkato11,
          byOkato8 := sfr.ByOkato8, byOkato5 := sfr.ByOkato5, byOkato2 := sfr.ByOkato2 } := by
  obtain ⟨hres, hc, henv⟩ := NewSfr_ok xmlDecode r sfr hok
  obtain ⟨doc, idx, c, hpre, hall, hc1, hinv⟩ := Decode_handler_invariant xmlDecode sfrType r
    sfrHandler sfrHandler_staysSet _ _ sfrInvariant sfrHandler_invariant
    (by
      intro n cd u v
      refine ⟨rfl, rfl, ?_, by simp⟩
      refine ⟨?_, ?_, ?_, ?_, ?_⟩ <;> intro k <;> simp [occurrencesFrom, recordsUnder, mapGet])
    hres
  rw [hc] at hc1
  cases hc1
  rw [henv] at hinv
  obtain ⟨hheap, hrecs, hidx, hplain⟩ := hinv
  simp only at hheap
  have hempty : ∀ rec ∈ decodedPrefix sfrType idx doc.Records,
      (SfrRecord.ofRecord rec).OKATOAreas = [] := by
    intro rec hrec
    obtain ⟨n, hn⟩ := List.get?_of_mem hrec
    obtain ⟨dr, _, hdec⟩ := decodedPrefix_get sfrType idx doc.Records n rec hn
    exact sfr_decoded_areas doc.Meta idx hpre dr rec hdec
  have hkept : ∀ rec ∈ decodedPrefix sfrType idx doc.Records,
      (sfrKept rec).OKATOAreas = acceptedTokens (sfrKept rec).OKATOArea := by
    intro rec hrec
    show (SfrRecord.ofRecord rec).OKATOAreas ++ _ = _
    rw [hempty rec hrec]
    rfl
  refine ⟨?_, ?_, ?_⟩
  · rw [hrecs, hheap]
    simp
  · intro rec hrec
    rw [hheap] at hrec
    obtain ⟨r0, hr0, rfl⟩ := List.mem_map.mp hrec
    refine ⟨hkept r0 hr0, ?_⟩
    intro t ht
    rw [hkept r0 hr0] at ht
    exact hplain r0 hr0 t ht
  · have hmap : sfr.heap.map (fun rec => rec.OKATOAreas) =
        (decodedPrefix sfrType idx doc.Records).map
          (fun r => acceptedTokens (SfrRecord.ofRecord r).OKATOArea) := by
      rw [hheap, List.map_map]
      apply List.map_congr_left
      intro r0 hr0
      exact hkept r0 hr0
    rw [hmap]
    exact hidx

/-! ## Lemmas: the order and the number of the token occurrences -/

theorem occurrencesFrom_ge (p : Nat) (l : List (List String)) (x : Nat × String)
    (h : x ∈ occurrencesFrom p l) : p ≤ x.1 := by
  obtain ⟨q, t⟩ := x
  obtain ⟨j, ts, _, rfl, _⟩ := (mem_occurrencesFrom p l q t).mp h
  exact Nat.le_add_right _ _

/-- The token occurrences are listed record by record. -/
theorem occurrencesFrom_pairwise (p : Nat) (l : List (List String)) :
    (occurrencesFrom p l).Pairwise (fun a b => a.1 ≤ b.1) := by
  induction l generalizing p with
  | nil => simp [occurrencesFrom]
  | cons ts l ih =>
    rw [occurrencesFrom, List.pairwise_append]
    refine ⟨?_, ih (p + 1), ?_⟩
    · rw [List.pairwise_map]
      exact List.pairwise_of_forall (fun _ _ => Nat.le_refl _)
    · intro a ha b hb
      obtain ⟨t, _, rfl⟩ := List.mem_map.mp ha
      have := occurrencesFrom_ge (p + 1) l b hb
      show p ≤ b.1
      omega

theorem recordsUnder_pairwise (f : String → String) (p : Nat) (l : List (List String))
    (k : String) : (recordsUnder f (occurrencesFrom p l) k).Pairwise (fun a b => a ≤ b) := by
  unfold recordsUnder
  rw [List.pairwise_map]
  exact (occurrencesFrom_pairwise p l).filter _

/-- A record is listed under a key exactly when one of its tokens is sent to the key. -/
theorem mem_recordsUnder_occurrences (f : String → String) (l : List (List String))
    (k : String) (p : Nat) :
    p ∈ recordsUnder f (occurrencesFrom 0 l) k ↔
      ∃ ts, l.get? p = some ts ∧ ∃ t ∈ ts, f t = k := by
  rw [mem_recordsUnder]
  constructor
  · rintro ⟨t, ht, hf⟩
    obtain ⟨j, ts, hj, rfl, hts⟩ := (mem_occurrencesFrom 0 l p t).mp ht
    exact ⟨ts, by simpa using hj, t, hts, hf⟩
  · rintro ⟨ts, hp, t, hts, hf⟩
    exact ⟨t, (mem_occurrencesFrom 0 l p t).mpr ⟨p, ts, hp, by simp, hts⟩, hf⟩

/-- The last record listed under a key: one of its tokens is sent to the key, and no token of
a later record is. -/
theorem recordsUnder_getLast (f : String → String) (l : List (List String)) (k : String)
    (p : Nat) (h : (recordsUnder f (occurrencesFrom 0 l) k).getLast? = some p) :
    (∃ ts, l.get? p = some ts ∧ ∃ t ∈ ts, f t = k) ∧
      ∀ q ts, p < q → l.get? q = some ts → ∀ t ∈ ts, f t ≠ k := by
  obtain ⟨ys, hys⟩ := List.getLast?_eq_some_iff.mp h
  have hmem : p ∈ recordsUnder f (occurrencesFrom 0 l) k := by simp [hys]
  refine ⟨(mem_recordsUnder_occurrences f l k p).mp hmem, ?_⟩
  intro q ts hpq hq t ht hf
  have hq1 : q ∈ recordsUnder f (occurrencesFrom 0 l) k :=
    (mem_recordsUnder_occurrences f l k q).mpr ⟨ts, hq, t, ht, hf⟩
  have hpw := recordsUnder_pairwise f 0 l k
  rw [hys, List.pairwise_append] at hpw
  rw [hys] at hq1
  rcases List.mem_append.mp hq1 with hq2 | hq2
  · have := hpw.2.2 q hq2 p (List.mem_singleton_self p)
    omega
  · simp only [List.mem_singleton] at hq2
    omega

/-- The first record listed under a key: one of its tokens is sent to the key, and no token of
an earlier record is. -/
theorem recordsUnder_head (f : String → String) (l : List (List String)) (k : String)
    (p : Nat) (h : (recordsUnder f (occurrencesFrom 0 l) k).head? = some p) :
    (∃ ts, l.get? p = some ts ∧ ∃ t ∈ ts, f t = k) ∧
      ∀ q ts, q < p → l.get? q = some ts → ∀ t ∈ ts, f t ≠ k := by
  obtain ⟨ys, hys⟩ := List.head?_eq_some_iff.mp h
  have hmem : p ∈ recordsUnder f (occurrencesFrom 0 l) k := by simp [hys]
  refine ⟨(mem_recordsUnder_occurrences f l k p).mp hmem, ?_⟩
  intro q ts hpq hq t ht hf
  have hq1 : q ∈ recordsUnder f (occurrencesFrom 0 l) k :=
    (mem_recordsUnder_occurrences f l k q).mpr ⟨ts, hq, t, ht, hf⟩
  have hpw := recordsUnder_pairwise f 0 l k
  rw [hys, List.pairwise_cons] at hpw
  rw [hys] at hq1
  rcases List.mem_cons.mp hq1 with hq2 | hq2
  · omega
  · have := hpw.1 q hq2
    omega

theorem recordsUnder_length (f : String → String) (o : List (Nat × String)) (k : String) :
    (recordsUnder f o k).length = (o.map (fun x => f x.2)).count k := by
  induction o with
  | nil => rfl
  | cons x o ih =>
    have hcons : recordsUnder f (x :: o) k = recordsUnder f [x] k ++ recordsUnder f o k :=
      recordsUnder_append f [x] o k
    obtain ⟨p, t⟩ := x
    rw [hcons, recordsUnder_one, List.length_append, ih, List.map_cons, List.count_cons]
    by_cases hk : f t = k
    · simp [hk]
      omega
    · simp [hk]

/-- The lists held under the keys of an index that lists every occurrence have as many
entries in all as there are occurrences. -/
theorem recordsUnder_total (f : String → String) (o : List (Nat × String)) (ks : List String)
    (hnodup : ks.Nodup) (hkeys : ∀ k, k ∈ ks ↔ recordsUnder f o k ≠ []) :
    (ks.map (fun k => (recordsUnder f o k).length)).sum = o.length := by
  have hperm : ks.Perm (o.map (fun x => f x.2)).dedup := by
    rw [List.perm_ext_iff_of_nodup hnodup (List.nodup_dedup _)]
    intro k
    rw [hkeys k, List.mem_dedup, ← List.length_pos, recordsUnder_length, List.count_pos_iff]
  have hsum := List.sum_map_count_dedup_eq_length (o.map (fun x => f x.2))
  rw [List.length_map] at hsum
  rw [← hsum]
  apply List.Perm.sum_eq
  have := hperm.map (fun k => (recordsUnder f o k).length)
  simpa [recordsUnder_length] using this

/-- How often a record is listed under a key: once for each of its tokens sent to the
key. -/
theorem recordsUnder_count (f : String → String) (b : Nat) (l : List (List String))
    (k : String) (j : Nat) (ts : List String) (h : l.get? j = some ts) :
    (recordsUnder f (occurrencesFrom b l) k).count (b + j) =
      (ts.filter (fun t => f t = k)).length := by
  have hblock : ∀ (q : Nat) (us : List String),
      recordsUnder f (us.map (fun t => (q, t))) k =
        List.replicate (us.filter (fun t => f t = k)).length q := by
    intro q us
    induction us with
    | nil => rfl
    | cons u us ih =>
      have hcons : recordsUnder f ((u :: us).map (fun t => (q, t))) k =
          recordsUnder f [(q, u)] k ++ recordsUnder f (us.map (fun t => (q, t))) k :=
        recordsUnder_append f [(q, u)] _ k
      rw [hcons, ih, recordsUnder_one]
      by_cases hk : f u = k <;> simp [hk, List.replicate_succ]
  induction l generalizing b j with
  | nil => simp at h
  | cons us l ih =>
    rw [occurrencesFrom, recordsUnder_append, List.count_append, hblock]
    cases j with
    | zero =>
      simp only [List.get?_cons_zero, Option.some.injEq] at h
      subst h
      have hzero : (recordsUnder f (occurrencesFrom (b + 1) l) k).count (b + 0) = 0 := by
        rw [List.count_eq_zero]
        intro hmem
        obtain ⟨t, ht, _⟩ := (mem_recordsUnder f _ k _).mp hmem
        have := occurrencesFrom_ge (b + 1) l _ ht
        simp at this
      rw [hzero]
      simp
    | succ j =>
      have hne : b ≠ b + (j + 1) := by omega
      rw [List.count_replicate]
      simp only [hne, beq_iff_eq, if_false, Nat.zero_add]
      rw [show b + (j + 1) = b + 1 + j by omega]
      exact ih (b + 1) j (by simpa using h)

/-! ## Lemmas: the indexes of a successful `NewSfr` -/

theorem heap_areas_get (heap : List SfrRecord) (p : Nat) (ts : List String) :
    (heap.map (fun rec => rec.OKATOAreas)).get? p = some ts ↔
      ∃ rec, heap.get? p = some rec ∧ rec.OKATOAreas = ts := by
  simp only [List.get?_eq_getElem?, List.getElem?_map]
  cases heap[p]? with
  | none => simp
  | some rec => simp

/-- A record is listed under a key exactly when one of its tokens is sent to the key. -/
theorem mem_recordsUnder_heap (f : String → String) (heap : List SfrRecord) (k : String)
    (p : Nat) :
    p ∈ recordsUnder f (occurrencesFrom 0 (heap.map (fun rec => rec.OKATOAreas))) k ↔
      ∃ rec, heap.get? p = some rec ∧ ∃ t ∈ rec.OKATOAreas, f t = k := by
  rw [mem_recordsUnder_occurrences]
  constructor
  · rintro ⟨ts, hts, ht⟩
    obtain ⟨rec, hrec, rfl⟩ := (heap_areas_get heap p ts).mp hts
    exact ⟨rec, hrec, ht⟩
  · rintro ⟨rec, hrec, ht⟩
    exact ⟨rec.OKATOAreas, (heap_areas_get heap p _).mpr ⟨rec, hrec, rfl⟩, ht⟩

theorem recordsUnder_getLast_heap (f : String → String) (heap : List SfrRecord) (k : String)
    (p : Nat)
    (h : (recordsUnder f (occurrencesFrom 0 (heap.map (fun rec => rec.OKATOAreas))) k).getLast? =
      some p) :
    (∃ rec, heap.get? p = some rec ∧ ∃ t ∈ rec.OKATOAreas, f t = k) ∧
      ∀ q rq, p < q → heap.get? q = some rq → ∀ t ∈ rq.OKATOAreas, f t ≠ k := by
  obtain ⟨⟨ts, hts, ht⟩, hafter⟩ := recordsUnder_getLast f _ k p h
  obtain ⟨rec, hrec, rfl⟩ := (heap_areas_get heap p ts).mp hts
  refine ⟨⟨rec, hrec, ht⟩, ?_⟩
  intro q rq hpq hq
  exact hafter q _ hpq ((heap_areas_get heap q _).mpr ⟨rq, hq, rfl⟩)

theorem recordsUnder_head_heap (f : String → String) (heap : List SfrRecord) (k : String)
    (p : Nat)
    (h : (recordsUnder f (occurrencesFrom 0 (heap.map (fun rec => rec.OKATOAreas))) k).head? =
      some p) :
    (∃ rec, heap.get? p = some rec ∧ ∃ t ∈ rec.OKATOAreas, f t = k) ∧
      ∀ q rq, q < p → heap.get? q = some rq → ∀ t ∈ rq.OKATOAreas, f t ≠ k := by
  obtain ⟨⟨ts, hts, ht⟩, hbefore⟩ := recordsUnder_head f _ k p h
  obtain ⟨rec, hrec, rfl⟩ := (heap_areas_get heap p ts).mp hts
  refine ⟨⟨rec, hrec, ht⟩, ?_⟩
  intro q rq hpq hq
  exact hbefore q _ hpq ((heap_areas_get heap q _).mpr ⟨rq, hq, rfl⟩)

/-- What the five maps of a successful `NewSfr` hold, in terms of the token occurrences of
the variables the handler was given. -/
theorem NewSfr_indexes {ρ : Type} (xmlDecode : ρ → Except GoError cnsiDoc × ρ) (r : Option ρ)
    (sfr : Sfr) (hok : NewSfr xmlDecode r = .ok sfr) :
    (∀ k, mapGet sfr.ByOkato k =
      (recordsUnder id (occurrencesFrom 0 (sfr.heap.map (fun rec => rec.OKATOAreas))) k).getLast?) ∧
    (∀ k, mapGet sfr.ByOkato11 k =
      (recordsUnder zeroPadded11
        (occurrencesFrom 0 (sfr.heap.map (fun rec => rec.OKATOAreas))) k).head?.map
          (fun p => [p])) ∧
    (∀ n m, (n, m) ∈ [(8, sfr.ByOkato8), (5, sfr.ByOkato5), (2, sfr.ByOkato2)] →
      ∀ k, mapGet m k =
        if recordsUnder (fun t => firstChars n (zeroPadded11 t))
            (occurrencesFrom 0 (sfr.heap.map (fun rec => rec.OKATOAreas))) k = [] then none
        else some (recordsUnder (fun t => firstChars n (zeroPadded11 t))
          (occurrencesFrom 0 (sfr.heap.map (fun rec => rec.OKATOAreas))) k)) := by
  obtain ⟨_, _, h1, h11, h8, h5, h2⟩ := NewSfr_spec xmlDecode r sfr hok
  refine ⟨h1, h11, ?_⟩
  intro n m hnm
  simp only [List.mem_cons, Prod.mk.injEq, List.mem_singleton, List.mem_nil_iff, or_false] at hnm
  rcases hnm with ⟨rfl, rfl⟩ | ⟨rfl, rfl⟩ | ⟨rfl, rfl⟩
  · exact h8
  · exact h5
  · exact h2

/-! ## Lemmas: the duplicate check and the region index of `NewOkato` -/

theorem okatoRecord_ofRecord_toRecord (r : OkatoRecord) :
    OkatoRecord.ofRecord r.toRecord = r := rfl

theorem validCodes_append (ks : List Record) (rec : Record) :
    validCodes (ks ++ [rec]) =
      validCodes ks ++
        (if reValidOkatoC.MatchString (OkatoRecord.ofRecord rec).C = true then
          [dotless (OkatoRecord.ofRecord rec).C] else []) := by
  unfold validCodes
  rw [List.filter_append, List.map_append]
  by_cases h : reValidOkatoC.MatchString (OkatoRecord.ofRecord rec).C = true <;> simp [h]

/-- The handler of `NewOkato` on a record with a valid code that `byCode` does not hold. -/
theorem okatoHandler_new (rec : Record) (c : Classifier) (env : OkatoIndexes)
    (hm : reValidOkatoC.MatchString (OkatoRecord.ofRecord rec).C = true)
    (hnew : mapGet env.byCode (dotless (OkatoRecord.ofRecord rec).C) = none) :
    (okatoHandler rec c env).err = none ∧
      (okatoHandler rec c env).c =
        { c with Records := c.Records ++ [(OkatoRecord.ofRecord rec).ParseCode.1.toRecord] } ∧
      (okatoHandler rec c env).env =
        { byCode := mapSet env.byCode (OkatoRecord.ofRecord rec).ParseCode.1.Code
            (OkatoRecord.ofRecord rec).ParseCode.1,
          byCode11 := mapSet env.byCode11 (OkatoRecord.ofRecord rec).ParseCode.1.Code11
            (OkatoRecord.ofRecord rec).ParseCode.1,
          byRegion := mapSet env.byRegion (OkatoRecord.ofRecord rec).ParseCode.1.Region
            ((mapGet env.byRegion (OkatoRecord.ofRecord rec).ParseCode.1.Region).getD [] ++
              [(OkatoRecord.ofRecord rec).ParseCode.1]),
          Region := if goLen (OkatoRecord.ofRecord rec).ParseCode.1.Code = 2 then
              mapSet env.Region (OkatoRecord.ofRecord rec).ParseCode.1.Code
                (OkatoRecord.ofRecord rec).ParseCode.1
            else env.Region } := by
  have hp2 : (OkatoRecord.ofRecord rec).ParseCode.2 = none := (ParseCode_none_iff _).mpr hm
  have hcode : (OkatoRecord.ofRecord rec).ParseCode.1.Code = dotless (OkatoRecord.ofRecord rec).C := by
    rw [ParseCode_valid _ hm]
  have hdup : mapGet env.byCode (OkatoRecord.ofRecord rec).ParseCode.1.Code = none := by
    rw [hcode]
    exact hnew
  refine ⟨?_, ?_, ?_⟩ <;> simp [okatoHandler, hp2, hdup]

/-- The handler of `NewOkato` on a record with a valid code that `byCode` holds already. -/
theorem okatoHandler_duplicate (rec : Record) (c : Classifier) (env : OkatoIndexes)
    (hm : reValidOkatoC.MatchString (OkatoRecord.ofRecord rec).C = true)
    (hold : (mapGet env.byCode (dotless (OkatoRecord.ofRecord rec).C)).isSome = true) :
    (okatoHandler rec c env).err =
      some (.new ("duplicate OKATO code '" ++ dotless (OkatoRecord.ofRecord rec).C ++ "'")) := by
  have hp2 : (OkatoRecord.ofRecord rec).ParseCode.2 = none := (ParseCode_none_iff _).mpr hm
  have hcode : (OkatoRecord.ofRecord rec).ParseCode.1.Code = dotless (OkatoRecord.ofRecord rec).C := by
    rw [ParseCode_valid _ hm]
  cases hget : mapGet env.byCode (dotless (OkatoRecord.ofRecord rec).C) with
  | none => simp [hget] at hold
  | some v =>
    simp [okatoHandler, hp2, hcode, hget]

/-- A handler call on a record whose code, if valid, is new keeps `byCode` in step with the
valid codes handled. -/
theorem okatoHandler_byCode (ks : List Record) (rec : Record) (c : Classifier)
    (env : OkatoIndexes) (hinv : byCodeInvariant ks c env)
    (hgood : reValidOkatoC.MatchString (OkatoRecord.ofRecord rec).C = true →
      dotless (OkatoRecord.ofRecord rec).C ∉ validCodes ks) :
    (okatoHandler rec c env).err = none ∧
      byCodeInvariant (ks ++ [rec]) (okatoHandler rec c env).c (okatoHandler rec c env).env := by
  cases hm : reValidOkatoC.MatchString (OkatoRecord.ofRecord rec).C with
  | false =>
    obtain ⟨herr, _, henv⟩ := okatoHandler_invalid rec c env hm
    refine ⟨herr, ?_⟩
    intro k
    rw [henv, validCodes_append, hinv k]
    simp [hm]
  | true =>
    have hnew : mapGet env.byCode (dotless (OkatoRecord.ofRecord rec).C) = none := by
      cases hget : mapGet env.byCode (dotless (OkatoRecord.ofRecord rec).C) with
      | none => rfl
      | some v =>
        exact absurd ((hinv _).mp (by simp [hget])) (hgood hm)
    obtain ⟨herr, _, henv⟩ := okatoHandler_new rec c env hm hnew
    refine ⟨herr, ?_⟩
    intro k
    have hcode : (OkatoRecord.ofRecord rec).ParseCode.1.Code =
        dotless (OkatoRecord.ofRecord rec).C := by
      rw [ParseCode_valid _ hm]
    rw [henv, validCodes_append]
    simp only [hm, if_true, mapGet_mapSet, hcode, List.mem_append, List.mem_singleton]
    by_cases hk : dotless (OkatoRecord.ofRecord rec).C = k
    · simp [hk]
    · simp only [hk, if_false, hinv k]
      constructor
      · exact Or.inl
      · rintro (h | h)
        · exact h
        · exact absurd h.symm hk

theorem validCodes_initial (dp : List Record) (a b : Nat) (hab : a ≤ b) :
    validCodes (dp.take a) <+: validCodes (dp.take b) := by
  have h : dp.take a <+: dp.take b := (List.take_prefix_take_left dp hab)
  obtain ⟨t, ht⟩ := h
  rw [← ht]
  unfold validCodes
  rw [List.filter_append, List.map_append]
  exact List.prefix_append _ _

theorem take_succ_get (dp : List Record) (j : Nat) (rj : Record) (h : dp.get? j = some rj) :
    dp.take (j + 1) = dp.take j ++ [rj] := by
  rw [List.take_succ]
  simp only [List.get?_eq_getElem?] at h
  simp [h]

/-- The handler of `NewOkato` preserves the invariant of the region index when it returns
nil. -/
theorem okatoHandler_region (ks : List Record) (rec : Record) (c : Classifier)
    (env : OkatoIndexes) (hinv : regionInvariant ks c env)
    (hnil : (okatoHandler rec c env).err = none) :
    regionInvariant (ks ++ [rec]) (okatoHandler rec c env).c (okatoHandler rec c env).env := by
  obtain ⟨hok, hcodes, hreg, hrecs⟩ := hinv
  refine ⟨okatoHandler_invariant ks rec c env hok hnil, ?_⟩
  cases hm : reValidOkatoC.MatchString (OkatoRecord.ofRecord rec).C with
  | false =>
    obtain ⟨_, hc, henv⟩ := okatoHandler_invalid rec c env hm
    rw [hc, henv]
    exact ⟨hcodes, hreg, hrecs⟩
  | true =>
    have hcode : (OkatoRecord.ofRecord rec).ParseCode.1.Code =
        dotless (OkatoRecord.ofRecord rec).C := by
      rw [ParseCode_valid _ hm]
    have hnew : mapGet env.byCode (dotless (OkatoRecord.ofRecord rec).C) = none := by
      cases hget : mapGet env.byCode (dotless (OkatoRecord.ofRecord rec).C) with
      | none => rfl
      | some v =>
        rw [okatoHandler_duplicate rec c env hm (by simp [hget])] at hnil
        cases hnil
    obtain ⟨_, hc, henv⟩ := okatoHandler_new rec c env hm hnew
    rw [hc, henv]
    have hfresh : ∀ r0 ∈ c.Records,
        (OkatoRecord.ofRecord r0).Code ≠ (OkatoRecord.ofRecord rec).ParseCode.1.Code := by
      intro r0 hr0 heq
      have := hcodes r0 hr0
      rw [heq, hcode, hnew] at this
      simp at this
    refine ⟨?_, ?_, ?_⟩
    · intro r0 hr0
      simp only [List.mem_append, List.mem_singleton] at hr0
      rw [mapGet_mapSet]
      rcases hr0 with hr0 | rfl
      · simp only [Ne.symm (hfresh r0 hr0), if_false]
        exact hcodes r0 hr0
      · simp [okatoRecord_ofRecord_toRecord]
    · intro k v hkv
      by_cases h2 : goLen (OkatoRecord.ofRecord rec).ParseCode.1.Code = 2
      · simp only [h2, if_true, mapGet_mapSet] at hkv
        by_cases hk : (OkatoRecord.ofRecord rec).ParseCode.1.Code = k
        · simp only [hk, if_true, Option.some.injEq] at hkv
          subst hkv
          exact ⟨by simp, hk, h2⟩
        · simp only [hk, if_false] at hkv
          obtain ⟨h1, h3, h4⟩ := hreg k v hkv
          exact ⟨by simp [h1], h3, h4⟩
      · simp only [h2, if_false] at hkv
        obtain ⟨h1, h3, h4⟩ := hreg k v hkv
        exact ⟨by simp [h1], h3, h4⟩
    · intro r0 hr0 hlen
      simp only [List.mem_append, List.mem_singleton] at hr0
      rcases hr0 with hr0 | rfl
      · have hold := hrecs r0 hr0 hlen
        by_cases h2 : goLen (OkatoRecord.ofRecord rec).ParseCode.1.Code = 2
        · simp only [h2, if_true, mapGet_mapSet, Ne.symm (hfresh r0 hr0), if_false]
          exact hold
        · simp only [h2, if_false]
          exact hold
      · rw [okatoRecord_ofRecord_toRecord] at hlen ⊢
        simp [hlen, mapGet_mapSet]

/-! ## Lemmas: the record loop of `Unmarshal` -/

theorem stateBefore_cons {σ : Type} (cb : cnsi.Callback σ) (dst0 : List Record) (env0 : σ)
    (x : Nat × List Record × σ) (calls : List (Nat × List Record × σ)) (j : Nat)
    (hj : j < calls.length) :
    cnsi.stateBefore cb dst0 env0 (x :: calls) (j + 1) =
      cnsi.stateBefore cb (cb x.1 x.2.1 x.2.2).dst (cb x.1 x.2.1 x.2.2).env calls j := by
  cases j with
  | zero => simp [cnsi.stateBefore]
  | succ j =>
    have hlt : j < calls.length := by omega
    have hsome : calls.get? j = some (calls.get ⟨j, hlt⟩) := List.get?_eq_get hlt
    simp only [cnsi.stateBefore, List.get?_cons_succ, hsome]

/-- The trace of the callback calls of the record loop of `Unmarshal`: call number `j` is made
for record number `j`, with the index of that record, after the element built for it has been
appended to the slice the preceding call left; the loop ends at the first call that returns an
error, which it wraps with the index; and a loop that returns nil has made one call for each
record. -/
theorem unmarshal_recordLoop_trace {σ : Type} (structElem : RType)
    (idx : List (String × Nat)) (cb : cnsi.Callback σ) (recs : List cnsi.Record) (i : Nat)
    (s : cnsi.UnmarshalState σ) :
    ∃ new : List (Nat × List Record × σ),
      (cnsi.SimpleClassifier.recordLoop structElem idx (some cb) recs i s).2.calls =
        s.calls ++ new ∧
      new.length ≤ recs.length ∧
      ((cnsi.SimpleClassifier.recordLoop structElem idx (some cb) recs i s).1 = .ret none →
        new.length = recs.length) ∧
      (∀ j entry, new.get? j = some entry →
        entry.1 = i + j ∧ entry.2.2 = (cnsi.stateBefore cb s.dst s.env new j).2 ∧
        ∃ record elem, recs.get? j = some record ∧
          cnsi.SimpleClassifier.newElem structElem idx record = .ok elem ∧
          entry.2.1 = (cnsi.stateBefore cb s.dst s.env new j).1 ++ [elem]) ∧
      (∀ j entry err, new.get? j = some entry →
        (cb entry.1 entry.2.1 entry.2.2).result = .ret (some err) →
        new.length = j + 1 ∧
          (cnsi.SimpleClassifier.recordLoop structElem idx (some cb) recs i s).1 =
            .ret (some (.wrap ("callback error at index " ++ toString (i + j) ++ ": " ++
              err.Error) err))) := by
  induction recs generalizing i s with
  | nil =>
    refine ⟨[], by simp [cnsi.SimpleClassifier.recordLoop], by simp, fun _ => rfl, ?_, ?_⟩
    · intro j entry h
      simp at h
    · intro j entry err h
      simp at h
  | cons record recs ih =>
    rw [cnsi.SimpleClassifier.recordLoop]
    cases hd : cnsi.SimpleClassifier.newElem structElem idx record with
    | error f =>
      refine ⟨[], by simp, by simp, ?_, ?_, ?_⟩
      · intro h
        cases f <;> simp [Fail.toResult] at h
      · intro j entry h
        simp at h
      · intro j entry err h
        simp at h
    | ok elem =>
      simp only
      cases hres : (cb i (s.dst ++ [elem]) s.env).result with
      | panic msg =>
        refine ⟨[(i, s.dst ++ [elem], s.env)], rfl, by simp, by simp, ?_, ?_⟩
        · intro j entry h
          cases j with
          | zero =>
            simp only [List.get?_cons_zero, Option.some.injEq] at h
            subst h
            exact ⟨rfl, rfl, record, elem, rfl, hd, rfl⟩
          | succ j => simp at h
        · intro j entry err h hcb
          cases j with
          | zero =>
            simp only [List.get?_cons_zero, Option.some.injEq] at h
            subst h
            rw [hres] at hcb
            cases hcb
          | succ j => simp at h
      | ret e =>
        cases e with
        | some err0 =>
          refine ⟨[(i, s.dst ++ [elem], s.env)], rfl, by simp, by simp, ?_, ?_⟩
          · intro j entry h
            cases j with
            | zero =>
              simp only [List.get?_cons_zero, Option.some.injEq] at h
              subst h
              exact ⟨rfl, rfl, record, elem, rfl, hd, rfl⟩
            | succ j => simp at h
          · intro j entry err h hcb
            cases j with
            | zero =>
              simp only [List.get?_cons_zero, Option.some.injEq] at h
              subst h
              rw [hres] at hcb
              cases hcb
              exact ⟨rfl, rfl⟩
            | succ j => simp at h
        | none =>
          simp only
          obtain ⟨new, hcalls, hlen, hnil, hentries, hstop⟩ := ih (i + 1)
            { dst := (cb i (s.dst ++ [elem]) s.env).dst,
              env := (cb i (s.dst ++ [elem]) s.env).env,
              calls := s.calls ++ [(i, s.dst ++ [elem], s.env)] }
          refine ⟨(i, s.dst ++ [elem], s.env) :: new, ?_, ?_, ?_, ?_, ?_⟩
          · rw [hcalls]
            simp
          · simp only [List.length_cons]
            omega
          · intro h
            simp only [List.length_cons]
            rw [hnil h]
          · intro j entry h
            cases j with
            | zero =>
              simp only [List.get?_cons_zero, Option.some.injEq] at h
              subst h
              exact ⟨rfl, rfl, record, elem, rfl, hd, rfl⟩
            | succ j =>
              simp only [List.get?_cons_succ] at h
              have hj : j < new.length := by
                by_contra hge
                rw [List.get?_eq_none.mpr (by omega)] at h
                cases h
              obtain ⟨h1, h2, rec1, elem1, h3, h4, h5⟩ := hentries j entry h
              rw [stateBefore_cons cb s.dst s.env _ new j hj]
              refine ⟨by omega, h2, rec1, elem1, by simpa using h3, h4, h5⟩
          · intro j entry err h hcb
            cases j with
            | zero =>
              simp only [List.get?_cons_zero, Option.some.injEq] at h
              subst h
              rw [hres] at hcb
              cases hcb
            | succ j =>
              simp only [List.get?_cons_succ] at h
              obtain ⟨h1, h2⟩ := hstop j entry err h hcb
              refine ⟨by simp only [List.length_cons]; omega, ?_⟩
              rw [h2, show i + 1 + j = i + (j + 1) by omega]

/-! ## Lemmas: the record loop of `Unmarshal` under an invariant -/

/-- A property of the elements handled, of the slice and of the callback state that every
callback call returning nil preserves holds after a record loop that returns nil, which has
built an element for every record. -/
theorem unmarshal_recordLoop_invariant {σ : Type} (structElem : RType)
    (idx : List (String × Nat)) (cb : cnsi.Callback σ)
    (P : List Record → List Record → σ → Prop)
    (hstep : ∀ ks elem dst env, P ks dst env →
      (cb ks.length (dst ++ [elem]) env).result = .ret none →
      P (ks ++ [elem]) (cb ks.length (dst ++ [elem]) env).dst
        (cb ks.length (dst ++ [elem]) env).env)
    (recs : List cnsi.Record) (ks : List Record) (s : cnsi.UnmarshalState σ)
    (h0 : P ks s.dst s.env)
    (hok : (cnsi.SimpleClassifier.recordLoop structElem idx (some cb) recs ks.length s).1 =
      .ret none) :
    P (ks ++ cnsi.decodedElems structElem idx recs)
      (cnsi.SimpleClassifier.recordLoop structElem idx (some cb) recs ks.length s).2.dst
      (cnsi.SimpleClassifier.recordLoop structElem idx (some cb) recs ks.length s).2.env := by
  induction recs generalizing ks s with
  | nil => simpa [cnsi.decodedElems, cnsi.SimpleClassifier.recordLoop] using h0
  | cons record recs ih =>
    rw [cnsi.SimpleClassifier.recordLoop] at hok ⊢
    rw [cnsi.decodedElems]
    cases hd : cnsi.SimpleClassifier.newElem structElem idx record with
    | error f =>
      rw [hd] at hok
      cases f <;> simp [Fail.toResult] at hok
    | ok elem =>
      rw [hd] at hok
      simp only at hok ⊢
      cases hres : (cb ks.length (s.dst ++ [elem]) s.env).result with
      | panic msg => rw [hres] at hok; simp at hok
      | ret e =>
        cases e with
        | some err => rw [hres] at hok; simp at hok
        | none =>
          rw [hres] at hok
          simp only at hok ⊢
          have hP := hstep ks elem s.dst s.env h0 hres
          have := ih (ks ++ [elem])
            { dst := (cb ks.length (s.dst ++ [elem]) s.env).dst,
              env := (cb ks.length (s.dst ++ [elem]) s.env).env,
              calls := s.calls ++ [(ks.length, s.dst ++ [elem], s.env)] } hP
            (by simpa using hok)
          simpa using this

/-- The record loop of `Unmarshal` stops at the first callback call that returns an error. -/
theorem unmarshal_recordLoop_stops {σ : Type} (structElem : RType)
    (idx : List (String × Nat)) (cb : cnsi.Callback σ)
    (P : List Record → List Record → σ → Prop) (Good : List Record → Record → Prop)
    (hstep : ∀ ks elem dst env, P ks dst env → Good ks elem →
      (cb ks.length (dst ++ [elem]) env).result = .ret none ∧
        P (ks ++ [elem]) (cb ks.length (dst ++ [elem]) env).dst
          (cb ks.length (dst ++ [elem]) env).env)
    (recs : List cnsi.Record) (ks : List Record) (s : cnsi.UnmarshalState σ)
    (h0 : P ks s.dst s.env) (k : Nat) (elem : Record)
    (hk : (cnsi.decodedElems structElem idx recs).get? k = some elem)
    (hgood : ∀ j ej, j < k → (cnsi.decodedElems structElem idx recs).get? j = some ej →
      Good (ks ++ (cnsi.decodedElems structElem idx recs).take j) ej)
    (e : GoError)
    (hbad : ∀ dst env, P (ks ++ (cnsi.decodedElems structElem idx recs).take k) dst env →
      (cb (ks.length + k) (dst ++ [elem]) env).result = .ret (some e)) :
    (cnsi.SimpleClassifier.recordLoop structElem idx (some cb) recs ks.length s).1 =
      .ret (some (.wrap ("callback error at index " ++ toString (ks.length + k) ++ ": " ++
        e.Error) e)) := by
  induction recs generalizing ks s k with
  | nil => simp [cnsi.decodedElems] at hk
  | cons record recs ih =>
    cases hd : cnsi.SimpleClassifier.newElem structElem idx record with
    | error f => simp [cnsi.decodedElems, hd] at hk
    | ok el =>
      have hde : cnsi.decodedElems structElem idx (record :: recs) =
          el :: cnsi.decodedElems structElem idx recs := by
        simp [cnsi.decodedElems, hd]
      rw [hde] at hk hgood hbad
      rw [cnsi.SimpleClassifier.recordLoop, hd]
      simp only
      cases k with
      | zero =>
        simp only [List.get?_cons_zero, Option.some.injEq] at hk
        subst hk
        have he := hbad s.dst s.env (by simpa using h0)
        simp only [Nat.add_zero] at he ⊢
        rw [he]
      | succ k =>
        obtain ⟨hnil, hP⟩ := hstep ks el s.dst s.env h0
          (by simpa using hgood 0 el (Nat.succ_pos k) rfl)
        rw [hnil]
        simp only
        have := ih (ks ++ [el])
          { dst := (cb ks.length (s.dst ++ [el]) s.env).dst,
            env := (cb ks.length (s.dst ++ [el]) s.env).env,
            calls := s.calls ++ [(ks.length, s.dst ++ [el], s.env)] } hP k
          (by simpa using hk)
          (by
            intro j ej hj hget
            have := hgood (j + 1) ej (by omega) (by simpa using hget)
            simpa using this)
          (by
            intro dst env hp
            have := hbad dst env (by simpa using hp)
            simpa [Nat.add_assoc, Nat.add_comm 1 k] using this)
        simpa [Nat.add_assoc, Nat.add_comm 1 k] using this

theorem decodedElems_length_of_ok {σ : Type} (structElem : RType)
    (idx : List (String × Nat)) (cb : Option (cnsi.Callback σ)) (recs : List cnsi.Record)
    (i : Nat) (s : cnsi.UnmarshalState σ)
    (hok : (cnsi.SimpleClassifier.recordLoop structElem idx cb recs i s).1 = .ret none) :
    (cnsi.decodedElems structElem idx recs).length = recs.length := by
  induction recs generalizing i s with
  | nil => rfl
  | cons record recs ih =>
    rw [cnsi.SimpleClassifier.recordLoop] at hok
    rw [cnsi.decodedElems]
    cases hd : cnsi.SimpleClassifier.newElem structElem idx record with
    | error f =>
      rw [hd] at hok
      cases f <;> simp [Fail.toResult] at hok
    | ok elem =>
      rw [hd] at hok
      simp only at hok ⊢
      cases cb with
      | none =>
        simp only [List.length_cons, Nat.add_right_cancel_iff]
        exact ih _ _ hok
      | some f =>
        simp only at hok
        cases hres : (f i (s.dst ++ [elem]) s.env).result with
        | panic msg => rw [hres] at hok; simp at hok
        | ret e =>
          cases e with
          | some err => rw [hres] at hok; simp at hok
          | none =>
            rw [hres] at hok
            simp only [List.length_cons, Nat.add_right_cancel_iff]
            exact ih _ _ hok

/-! ## Lemmas: `unmarshalHelper` -/

theorem sfrCoRecord_ofRecord_toRecord (r : SfrCoRecord) :
    SfrCoRecord.ofRecord r.toRecord = r := rfl

theorem mapGet_none_iff {α : Type} (m : List (String × α)) (k : String) :
    mapGet m k = none ↔ k ∉ m.map Prod.fst := by
  induction m with
  | nil => simp [mapGet]
  | cons kv m ih =>
    obtain ⟨k1, v⟩ := kv
    simp only [mapGet, List.map_cons, List.mem_cons, not_or]
    by_cases hk : k1 = k
    · simp [hk]
    · simp only [hk, if_false, ih]
      constructor
      · intro h
        exact ⟨fun h1 => hk h1.symm, h⟩
      · intro h
        exact h.2

theorem mapGet_of_nodup {α : Type} (m : List (String × α)) (k : String) (v : α)
    (hnodup : (m.map Prod.fst).Nodup) (hmem : (k, v) ∈ m) : mapGet m k = some v := by
  induction m with
  | nil => simp at hmem
  | cons kv m ih =>
    obtain ⟨k1, v1⟩ := kv
    simp only [List.map_cons, List.nodup_cons] at hnodup
    simp only [mapGet]
    rcases List.mem_cons.mp hmem with h | h
    · cases h
      simp
    · have hne : k1 ≠ k := by
        rintro rfl
        exact hnodup.1 (List.mem_map.mpr ⟨(k1, v), h, rfl⟩)
      simp only [hne, if_false]
      exact ih hnodup.2 h

theorem occurrencesFrom_snd (p : Nat) (l : List (List String)) :
    (occurrencesFrom p l).map Prod.snd = l.flatten := by
  induction l generalizing p with
  | nil => rfl
  | cons ts l ih =>
    simp [occurrencesFrom, ih, List.map_map, Function.comp_def]

/-- The loop of `unmarshalHelper` over tokens that are plain codes, pairwise distinct and not
yet in the index: every token is trimmed and indexed. -/
theorem unmarshalHelperLoop_ok (index : Nat) (todo done : List String)
    (m : List (String × Nat))
    (hplain : ∀ t ∈ todo.map stringsTrimSpace, IsPlainOkato t)
    (hnodup : (todo.map stringsTrimSpace).Nodup)
    (hfresh : ∀ t ∈ todo.map stringsTrimSpace, mapGet m t = none) :
    unmarshalHelperLoop index done todo m =
      (none, done ++ todo.map stringsTrimSpace,
        ((todo.map stringsTrimSpace).map (fun t => (t, index))).reverse ++ m) := by
  induction todo generalizing done m with
  | nil => simp [unmarshalHelperLoop]
  | cons a todo ih =>
    simp only [List.map_cons, List.mem_cons, forall_eq_or_imp, List.nodup_cons] at hplain
    simp only [List.map_cons, List.nodup_cons] at hnodup
    simp only [List.map_cons, List.mem_cons, forall_eq_or_imp] at hfresh
    rw [unmarshalHelperLoop]
    simp only [(matchString_reOKATOPlain _).mpr hplain.1, Bool.not_true, Bool.false_eq_true,
      if_false, hfresh.1]
    rw [ih (done ++ [stringsTrimSpace a]) _ hplain.2 hnodup.2]
    · simp [mapSet]
    · intro t ht
      rw [mapGet_mapSet]
      have hne : stringsTrimSpace a ≠ t := by
        rintro rfl
        exact hnodup.1 ht
      simp only [hne, if_false]
      exact hfresh.2 t ht

/-- A loop of `unmarshalHelper` that ends without error has met plain codes only, pairwise
distinct and not in the index before. -/
theorem unmarshalHelperLoop_nil (index : Nat) (todo done : List String)
    (m : List (String × Nat)) (h : (unmarshalHelperLoop index done todo m).1 = none) :
    (∀ t ∈ todo.map stringsTrimSpace, IsPlainOkato t) ∧ (todo.map stringsTrimSpace).Nodup ∧
      ∀ t ∈ todo.map stringsTrimSpace, mapGet m t = none := by
  induction todo generalizing done m with
  | nil => simp
  | cons a todo ih =>
    rw [unmarshalHelperLoop] at h
    cases hm : reOKATOPlain.MatchString (stringsTrimSpace a) with
    | false => simp [hm] at h
    | true =>
      simp only [hm, Bool.not_true, Bool.false_eq_true, if_false] at h
      cases hget : mapGet m (stringsTrimSpace a) with
      | some v => simp [hget] at h
      | none =>
        simp only [hget] at h
        obtain ⟨h1, h2, h3⟩ := ih _ _ h
        have hnot : stringsTrimSpace a ∉ todo.map stringsTrimSpace := by
          intro hmem
          have := h3 _ hmem
          simp [mapGet_mapSet] at this
        refine ⟨?_, ?_, ?_⟩
        · intro t ht
          simp only [List.map_cons, List.mem_cons] at ht
          rcases ht with rfl | ht
          · exact (matchString_reOKATOPlain _).mp hm
          · exact h1 t ht
        · simp only [List.map_cons, List.nodup_cons]
          exact ⟨hnot, h2⟩
        · intro t ht
          simp only [List.map_cons, List.mem_cons] at ht
          rcases ht with rfl | ht
          · exact hget
          · have := h3 t ht
            rw [mapGet_mapSet] at this
            by_cases hk : stringsTrimSpace a = t
            · simp [hk] at this
            · simpa [hk] using this

/-- The loop of `unmarshalHelper` at the first token that is not a plain code or that is in
the index already or was met before in the same list. -/
theorem unmarshalHelperLoop_stop (index : Nat) (pre post : List String) (t : String)
    (todo done : List String) (m : List (String × Nat))
    (htodo : todo.map stringsTrimSpace = pre ++ t :: post)
    (hplain : ∀ p ∈ pre, IsPlainOkato p) (hnodup : pre.Nodup)
    (hfresh : ∀ p ∈ pre, mapGet m p = none) :
    (¬ IsPlainOkato t →
      (unmarshalHelperLoop index done todo m).1 =
        some (.new ("invalid OKATO '" ++ t ++ "' in record at index " ++ toString index))) ∧
    (IsPlainOkato t → (mapGet m t ≠ none ∨ t ∈ pre) →
      (unmarshalHelperLoop index done todo m).1 =
        some (.new ("duplicate OKATO '" ++ t ++ "' found in record at index " ++
          toString index))) := by
  induction pre generalizing todo done m with
  | nil =>
    cases todo with
    | nil => simp at htodo
    | cons a todo =>
      simp only [List.map_cons, List.nil_append, List.cons.injEq] at htodo
      obtain ⟨ha, _⟩ := htodo
      rw [unmarshalHelperLoop]
      constructor
      · intro hbad
        simp [ha, (matchString_reOKATOPlain_false t).mpr hbad]
      · intro hok hdup
        simp only [List.not_mem_nil, or_false] at hdup
        simp only [ha, (matchString_reOKATOPlain t).mpr hok, Bool.not_true, Bool.false_eq_true,
          if_false]
        cases hget : mapGet m t with
        | none => exact absurd hget hdup
        | some v => rfl
  | cons p pre ih =>
    cases todo with
    | nil => simp at htodo
    | cons a todo =>
      simp only [List.map_cons, List.cons_append, List.cons.injEq] at htodo
      obtain ⟨ha, hrest⟩ := htodo
      simp only [List.mem_cons, forall_eq_or_imp, List.nodup_cons] at hplain hnodup hfresh
      rw [unmarshalHelperLoop]
      simp only [ha, (matchString_reOKATOPlain p).mpr hplain.1, Bool.not_true,
        Bool.false_eq_true, if_false, hfresh.1]
      obtain ⟨h1, h2⟩ := ih todo (done ++ [p]) (mapSet m p index) hrest hplain.2 hnodup.2
        (by
          intro q hq
          rw [mapGet_mapSet]
          have hne : p ≠ q := by
            rintro rfl
            exact hnodup.1 hq
          simp only [hne, if_false]
          exact hfresh.2 q hq)
      refine ⟨h1, ?_⟩
      intro hok hdup
      apply h2 hok
      rw [mapGet_mapSet]
      by_cases hpt : p = t
      · left
        simp [hpt]
      · simp only [hpt, if_false]
        rcases hdup with h | h
        · exact Or.inl h
        · simp only [List.mem_cons] at h
          rcases h with h | h
          · exact absurd h.symm hpt
          · exact Or.inr h

/-! ## Lemmas: `NewSfrCo` -/

theorem sfrCoKept_areas (elem : Record) :
    (SfrCoRecord.ofRecord (sfrCoKept elem)).OKATOAreas = sfrCoTokens elem := rfl

theorem sfrCoKept_orig (elem : Record) :
    (SfrCoRecord.ofRecord (sfrCoKept elem)).OKATOAreaOrig =
      (SfrCoRecord.ofRecord elem).OKATOAreaOrig := rfl

theorem sfrCo_keys (ks : List Record) (m : List (String × Nat))
    (hm : m = ((occurrencesFrom 0 (ks.map sfrCoTokens)).map (fun x => (x.2, x.1))).reverse) :
    m.map Prod.fst = ((ks.map sfrCoTokens).flatten).reverse := by
  rw [hm, List.map_reverse, List.map_map, ← occurrencesFrom_snd 0 (ks.map sfrCoTokens)]
  rfl

/-- A call of `unmarshalHelper` for an element whose tokens are plain codes that are pairwise
distinct and distinct from the tokens indexed so far returns nil and indexes the tokens. -/
theorem unmarshalHelper_good (ks : List Record) (elem : Record) (dst : List Record)
    (m : List (String × Nat)) (hinv : sfrCoInvariant ks dst m)
    (hplain : ∀ t ∈ sfrCoTokens elem, IsPlainOkato t)
    (hnodup : ((ks.map sfrCoTokens).flatten ++ sfrCoTokens elem).Nodup) :
    (SfrCo.unmarshalHelper ks.length (dst ++ [elem]) m).result = .ret none ∧
      sfrCoInvariant (ks ++ [elem]) (SfrCo.unmarshalHelper ks.length (dst ++ [elem]) m).dst
        (SfrCo.unmarshalHelper ks.length (dst ++ [elem]) m).env := by
  obtain ⟨hdst, hm, hpl, hnd⟩ := hinv
  have hlen : dst.length = ks.length := by rw [hdst, List.length_map]
  have hget : (dst ++ [elem]).get? ks.length = some elem := by
    rw [← hlen]
    simp
  rw [List.nodup_append] at hnodup
  have hfresh : ∀ t ∈ sfrCoTokens elem, mapGet m t = none := by
    intro t ht
    rw [mapGet_none_iff, sfrCo_keys ks m hm, List.mem_reverse]
    intro hmem
    exact hnodup.2.2 hmem ht
  have hloop := unmarshalHelperLoop_ok ks.length
    (stringsSplit (SfrCoRecord.ofRecord elem).OKATOAreaOrig ',') [] m hplain hnodup.2.1 hfresh
  have hres : SfrCo.unmarshalHelper ks.length (dst ++ [elem]) m =
      { result := .ret none,
        dst := (dst ++ [elem]).set ks.length (sfrCoKept elem),
        env := ((sfrCoTokens elem).map (fun t => (t, ks.length))).reverse ++ m } := by
    unfold SfrCo.unmarshalHelper
    simp only [hget, hloop]
    rfl
  rw [hres]
  refine ⟨rfl, ?_, ?_, ?_, ?_⟩
  · show (dst ++ [elem]).set ks.length (sfrCoKept elem) = _
    rw [← hlen, hdst]
    simp
  · show ((sfrCoTokens elem).map (fun t => (t, ks.length))).reverse ++ m = _
    rw [List.map_append, List.map_singleton, occurrencesFrom_append, List.map_append,
      List.reverse_append, ← hm, List.length_map, Nat.zero_add, List.map_map]
    rfl
  · intro t ht
    rw [List.map_append, List.flatten_append, List.mem_append] at ht
    rcases ht with ht | ht
    · exact hpl t ht
    · exact hplain t (by simpa using ht)
  · rw [List.map_append, List.flatten_append, List.nodup_append]
    refine ⟨hnd, by simpa using hnodup.2.1, ?_⟩
    intro a ha hb
    exact hnodup.2.2 ha (by simpa using hb)

/-- A call of `unmarshalHelper` that returns nil preserves the invariant of the index. -/
theorem unmarshalHelper_invariant (ks : List Record) (elem : Record) (dst : List Record)
    (m : List (String × Nat)) (hinv : sfrCoInvariant ks dst m)
    (hnil : (SfrCo.unmarshalHelper ks.length (dst ++ [elem]) m).result = .ret none) :
    sfrCoInvariant (ks ++ [elem]) (SfrCo.unmarshalHelper ks.length (dst ++ [elem]) m).dst
      (SfrCo.unmarshalHelper ks.length (dst ++ [elem]) m).env := by
  have hlen : dst.length = ks.length := by rw [hinv.1, List.length_map]
  have hget : (dst ++ [elem]).get? ks.length = some elem := by
    rw [← hlen]
    simp
  have hloop : (unmarshalHelperLoop ks.length []
      (stringsSplit (SfrCoRecord.ofRecord elem).OKATOAreaOrig ',') m).1 = none := by
    unfold SfrCo.unmarshalHelper at hnil
    simp only [hget, Result.ret.injEq] at hnil
    exact hnil
  obtain ⟨h1, h2, h3⟩ := unmarshalHelperLoop_nil _ _ _ _ hloop
  refine (unmarshalHelper_good ks elem dst m hinv h1 ?_).2
  rw [List.nodup_append]
  refine ⟨hinv.2.2.2, h2, ?_⟩
  intro a ha hb
  have hnone := h3 a hb
  rw [mapGet_none_iff, sfrCo_keys ks m hinv.2.1, List.mem_reverse] at hnone
  exact hnone ha

/-- A call of `unmarshalHelper` for an element whose list holds, after tokens that are plain
codes, pairwise distinct and distinct from the tokens indexed so far, a token that is not a
plain code, or one that is indexed already or was met before in the list. -/
theorem unmarshalHelper_bad (ks : List Record) (elem : Record) (dst : List Record)
    (m : List (String × Nat)) (pre post : List String) (t : String)
    (hinv : sfrCoInvariant ks dst m) (htokens : sfrCoTokens elem = pre ++ t :: post)
    (hplain : ∀ p ∈ pre, IsPlainOkato p)
    (hnodup : ((ks.map sfrCoTokens).flatten ++ pre).Nodup) :
    (¬ IsPlainOkato t →
      (SfrCo.unmarshalHelper ks.length (dst ++ [elem]) m).result =
        .ret (some (.new ("invalid OKATO '" ++ t ++ "' in record at index " ++
          toString ks.length)))) ∧
    (IsPlainOkato t → t ∈ (ks.map sfrCoTokens).flatten ++ pre →
      (SfrCo.unmarshalHelper ks.length (dst ++ [elem]) m).result =
        .ret (some (.new ("duplicate OKATO '" ++ t ++ "' found in record at index " ++
          toString ks.length)))) := by
  obtain ⟨hdst, hm, hpl, hnd⟩ := hinv
  have hlen : dst.length = ks.length := by rw [hdst, List.length_map]
  have hget : (dst ++ [elem]).get? ks.length = some elem := by
    rw [← hlen]
    simp
  rw [List.nodup_append] at hnodup
  have hfresh : ∀ p ∈ pre, mapGet m p = none := by
    intro p hp
    rw [mapGet_none_iff, sfrCo_keys ks m hm, List.mem_reverse]
    intro hmem
    exact hnodup.2.2 hmem hp
  obtain ⟨h1, h2⟩ := unmarshalHelperLoop_stop ks.length pre post t
    (stringsSplit (SfrCoRecord.ofRecord elem).OKATOAreaOrig ',') [] m htokens hplain
    hnodup.2.1 hfresh
  constructor
  · intro hbad
    unfold SfrCo.unmarshalHelper
    simp only [hget, h1 hbad]
  · intro hok hmem
    unfold SfrCo.unmarshalHelper
    simp only [hget]
    rw [h2 hok]
    rcases List.mem_append.mp hmem with h | h
    · left
      rw [Ne, mapGet_none_iff, sfrCo_keys ks m hm, List.mem_reverse]
      exact fun hn => hn h
    · exact Or.inr h

/-- What `NewSfrCo` does once the classifier is parsed and the field check passes. -/
theorem NewSfrCo_parsed {ρ : Type} (xmlDecode : ρ → Except GoError cnsi.SimpleClassifier × ρ)
    (r : ρ) (c : cnsi.SimpleClassifier) (idx : List (String × Nat))
    (hx : (xmlDecode r).1 = .ok c)
    (hfields : cnsi.SimpleClassifier.fieldLoop c.Properties.Attributes.indexes.1
      c.Properties.Attributes.indexes.2 sfrCoType.Fields 0 [] = .ok idx) :
    NewSfrCo xmlDecode r =
      match (cnsi.SimpleClassifier.recordLoop sfrCoType idx (some SfrCo.unmarshalHelper)
          c.Records 0 { dst := [], env := [], calls := [] }).1 with
      | .panic msg => .error (.panic msg)
      | .ret (some err) =>
        .error (.err (.new ("failed to unmarshal records: " ++ err.Error)))
      | .ret none =>
        .ok { SimpleClassifier := c,
              ByOKATO := (cnsi.SimpleClassifier.recordLoop sfrCoType idx
                (some SfrCo.unmarshalHelper) c.Records 0
                { dst := [], env := [], calls := [] }).2.env,
              Records := (cnsi.SimpleClassifier.recordLoop sfrCoType idx
                (some SfrCo.unmarshalHelper) c.Records 0
                { dst := [], env := [], calls := [] }).2.dst } := by
  have hun : c.Unmarshal { Kind := Kind.Pointer, ElemKind := Kind.Slice, ElemType := sfrCoType }
      [] (some SfrCo.unmarshalHelper) ([] : List (String × Nat)) =
      cnsi.SimpleClassifier.recordLoop sfrCoType idx (some SfrCo.unmarshalHelper) c.Records 0
        { dst := [], env := [], calls := [] } := by
    unfold cnsi.SimpleClassifier.Unmarshal
    have hk : sfrCoType.Kind = Kind.Struct := rfl
    simp [hk, hfields]
  unfold NewSfrCo cnsi.NewSimpleClassifier
  simp only [hx, hun]
  try rfl

/-- A successful `NewSfrCo`: the classifier was parsed, the field check passed, an element
was built for every record, and the invariant of the index holds of all of them. -/
theorem NewSfrCo_spec {ρ : Type} (xmlDecode : ρ → Except GoError cnsi.SimpleClassifier × ρ)
    (r : ρ) (sfrCo : SfrCo) (hok : NewSfrCo xmlDecode r = .ok sfrCo) :
    ∃ idx : List (String × Nat),
      (xmlDecode r).1 = .ok sfrCo.SimpleClassifier ∧
      cnsi.SimpleClassifier.fieldLoop sfrCo.SimpleClassifier.Properties.Attributes.indexes.1
        sfrCo.SimpleClassifier.Properties.Attributes.indexes.2 sfrCoType.Fields 0 [] =
          .ok idx ∧
      (cnsi.decodedElems sfrCoType idx sfrCo.SimpleClassifier.Records).length =
        sfrCo.SimpleClassifier.Records.length ∧
      sfrCoInvariant (cnsi.decodedElems sfrCoType idx sfrCo.SimpleClassifier.Records)
        sfrCo.Records sfrCo.ByOKATO := by
  cases hx : (xmlDecode r).1 with
  | error err => simp [NewSfrCo, cnsi.NewSimpleClassifier, hx] at hok
  | ok c =>
    cases hfields : cnsi.SimpleClassifier.fieldLoop c.Properties.Attributes.indexes.1
        c.Properties.Attributes.indexes.2 sfrCoType.Fields 0 [] with
    | error e =>
      have hk : sfrCoType.Kind = Kind.Struct := rfl
      simp [NewSfrCo, cnsi.NewSimpleClassifier, hx, cnsi.SimpleClassifier.Unmarshal, hk,
        hfields] at hok
    | ok idx =>
      rw [NewSfrCo_parsed xmlDecode r c idx hx hfields] at hok
      cases hres : (cnsi.SimpleClassifier.recordLoop sfrCoType idx (some SfrCo.unmarshalHelper)
          c.Records 0 { dst := [], env := [], calls := [] }).1 with
      | panic msg => simp [hres] at hok
      | ret e =>
        cases e with
        | some err => simp [hres] at hok
        | none =>
          simp only [hres, Except.ok.injEq] at hok
          subst hok
          refine ⟨idx, rfl, hfields, decodedElems_length_of_ok _ _ _ _ _ _ hres, ?_⟩
          have := unmarshal_recordLoop_invariant sfrCoType idx SfrCo.unmarshalHelper
            sfrCoInvariant unmarshalHelper_invariant c.Records []
            { dst := [], env := [], calls := [] }
            ⟨rfl, rfl, by simp, by simp⟩ hres
          simpa using this

/-- `NewSfrCo` on a parsed classifier that passes the field check returns the error of the
first call of `unmarshalHelper` that fails, wrapped with the index of its record. -/
theorem NewSfrCo_stops {ρ : Type} (xmlDecode : ρ → Except GoError cnsi.SimpleClassifier × ρ)
    (r : ρ) (c : cnsi.SimpleClassifier) (idx : List (String × Nat))
    (hx : (xmlDecode r).1 = .ok c)
    (hfields : cnsi.SimpleClassifier.fieldLoop c.Properties.Attributes.indexes.1
      c.Properties.Attributes.indexes.2 sfrCoType.Fields 0 [] = .ok idx)
    (i : Nat) (elem : Record)
    (hi : (cnsi.decodedElems sfrCoType idx c.Records).get? i = some elem)
    (hplain : ∀ t ∈ (((cnsi.decodedElems sfrCoType idx c.Records).take i).map
      sfrCoTokens).flatten, IsPlainOkato t)
    (hnodup : ((((cnsi.decodedElems sfrCoType idx c.Records).take i).map
      sfrCoTokens).flatten).Nodup)
    (e : GoError)
    (hbad : ∀ dst m, sfrCoInvariant ((cnsi.decodedElems sfrCoType idx c.Records).take i) dst m →
      (SfrCo.unmarshalHelper i (dst ++ [elem]) m).result = .ret (some e)) :
    NewSfrCo xmlDecode r =
      .error (.err (.new ("failed to unmarshal records: " ++
        ("callback error at index " ++ toString i ++ ": " ++ e.Error)))) := by
  have hres := unmarshal_recordLoop_stops sfrCoType idx SfrCo.unmarshalHelper sfrCoInvariant
    (fun ks el => (∀ t ∈ sfrCoTokens el, IsPlainOkato t) ∧
      ((ks.map sfrCoTokens).flatten ++ sfrCoTokens el).Nodup)
    (fun ks el dst m hinv hg => unmarshalHelper_good ks el dst m hinv hg.1 hg.2)
    c.Records [] { dst := [], env := [], calls := [] } ⟨rfl, rfl, by simp, by simp⟩ i elem hi
    (by
      intro j ej hj hget
      have htake : (cnsi.decodedElems sfrCoType idx c.Records).take (j + 1) =
          (cnsi.decodedElems sfrCoType idx c.Records).take j ++ [ej] :=
        take_succ_get _ j ej hget
      obtain ⟨tl, htl⟩ := List.take_prefix_take_left
        (cnsi.decodedElems sfrCoType idx c.Records) (show j + 1 ≤ i by omega)
      rw [htake] at htl
      rw [← htl] at hplain hnodup
      simp only [List.nil_append, List.map_append, List.flatten_append, List.map_singleton,
        List.flatten_cons, List.flatten_nil, List.append_nil, List.mem_append] at hplain hnodup ⊢
      refine ⟨fun t ht => hplain t (Or.inl (Or.inr ht)), ?_⟩
      exact (List.nodup_append.mp hnodup).1)
    e
    (by
      intro dst m hinv
      have := hbad dst m (by simpa using hinv)
      simpa using this)
  rw [NewSfrCo_parsed xmlDecode r c idx hx hfields]
  simp only [List.length_nil] at hres
  rw [hres]
  simp [GoError.Error]

/-! ## Lemmas: bytes and characters of the codes -/

theorem utf8Size_of_isDigit (c : Char) (h : c.isDigit = true) : c.utf8Size = 1 := by
  unfold Char.isDigit at h
  unfold Char.utf8Size
  simp only [Bool.and_eq_true, decide_eq_true_eq] at h
  have h2 : c.val ≤ 127 := by
    have h3 : c.val.toNat ≤ 57 := h.2
    show c.val.toNat ≤ 127
    omega
  simp [h2]

/-- A string made of ASCII digits and dots has as many bytes as characters. -/
theorem utf8ByteSize_of_digits (s : String) (h : ∀ ch ∈ s.data, ch.isDigit = true ∨ ch = '.') :
    s.utf8ByteSize = goLen s := by
  have key : ∀ l : List Char, (∀ ch ∈ l, ch.isDigit = true ∨ ch = '.') →
      String.utf8ByteSize.go l = l.length := by
    intro l
    induction l with
    | nil => intro _; rfl
    | cons c l ih =>
      intro hl
      have hc : c.utf8Size = 1 := by
        rcases hl c (List.mem_cons_self _ _) with hd | rfl
        · exact utf8Size_of_isDigit c hd
        · rfl
      simp only [String.utf8ByteSize.go, List.length_cons, hc]
      rw [ih (fun ch hch => hl ch (List.mem_cons_of_mem _ hch))]
  exact key s.data h

/-- The four shapes of a dotted code, character by character. -/
theorem dotted_shapes (s : String) (h : IsDottedCode s) :
    ∃ a b, a.isDigit = true ∧ b.isDigit = true ∧
      (s.data = [a, b] ∨
        ∃ c d e, c.isDigit = true ∧ d.isDigit = true ∧ e.isDigit = true ∧
          (s.data = [a, b, '.', c, d, e] ∨
            ∃ f g i, f.isDigit = true ∧ g.isDigit = true ∧ i.isDigit = true ∧
              (s.data = [a, b, '.', c, d, e, '.', f, g, i] ∨
                ∃ j k l, j.isDigit = true ∧ k.isDigit = true ∧ l.isDigit = true ∧
                  s.data = [a, b, '.', c, d, e, '.', f, g, i, '.', j, k, l]))) := by
  obtain ⟨a, b, t, hs, ha, hb, ht⟩ := h
  refine ⟨a, b, ha, hb, ?_⟩
  rw [dotGroups_succ] at ht
  rcases ht with rfl | ⟨c, d, e, t1, rfl, hc, hd, he, ht1⟩
  · exact Or.inl hs
  refine Or.inr ⟨c, d, e, hc, hd, he, ?_⟩
  rw [dotGroups_succ] at ht1
  rcases ht1 with rfl | ⟨f, g, i, t2, rfl, hf, hg, hi, ht2⟩
  · exact Or.inl hs
  refine Or.inr ⟨f, g, i, hf, hg, hi, ?_⟩
  rw [dotGroups_succ] at ht2
  rcases ht2 with rfl | ⟨j, k, l, t3, rfl, hj, hk, hl, ht3⟩
  · exact Or.inl hs
  rw [dotGroups_zero] at ht3
  subst ht3
  exact Or.inr ⟨j, k, l, hj, hk, hl, hs⟩

theorem string_mk_ne_empty (c : Char) (l : List Char) : String.mk (c :: l) ≠ "" := by
  intro h
  have := congrArg String.data h
  simp at this

/-- A valid code is the dotted form of its digits. -/
theorem dottedForm_dotless (s : String) (hvalid : reValidOkatoC.MatchString s = true) :
    dottedForm (dotless s) = s := by
  obtain ⟨a, b, ha, hb, hsh⟩ := dotted_shapes s ((matchString_reValidOkatoC s).mp hvalid)
  have na := isDigit_ne_dot a ha
  have nb := isDigit_ne_dot b hb
  rcases hsh with hs | ⟨c, d, e, hc, hd, he, hsh⟩
  · have hdl : dotless s = String.mk [a, b] := by
      simp [dotless, hs, List.filter_cons, na, nb]
    apply String.ext
    rw [hdl, hs]
    simp [dottedForm, goLen, goSlice, joinNonEmpty, string_mk_ne_empty, String.intercalate,
      String.intercalate.go]
  have nc := isDigit_ne_dot c hc
  have nd := isDigit_ne_dot d hd
  have ne := isDigit_ne_dot e he
  rcases hsh with hs | ⟨f, g, i, hf, hg, hi, hsh⟩
  · have hdl : dotless s = String.mk [a, b, c, d, e] := by
      simp [dotless, hs, List.filter_cons, na, nb, nc, nd, ne]
    apply String.ext
    rw [hdl, hs]
    simp [dottedForm, goLen, goSlice, joinNonEmpty, string_mk_ne_empty, String.intercalate,
      String.intercalate.go]
  have nf := isDigit_ne_dot f hf
  have ng := isDigit_ne_dot g hg
  have ni := isDigit_ne_dot i hi
  rcases hsh with hs | ⟨j, k, l, hj, hk, hl, hs⟩
  · have hdl : dotless s = String.mk [a, b, c, d, e, f, g, i] := by
      simp [dotless, hs, List.filter_cons, na, nb, nc, nd, ne, nf, ng, ni]
    apply String.ext
    rw [hdl, hs]
    simp [dottedForm, goLen, goSlice, joinNonEmpty, string_mk_ne_empty, String.intercalate,
      String.intercalate.go]
  have nj := isDigit_ne_dot j hj
  have nk := isDigit_ne_dot k hk
  have nl := isDigit_ne_dot l hl
  have hdl : dotless s = String.mk [a, b, c, d, e, f, g, i, j, k, l] := by
    simp [dotless, hs, List.filter_cons, na, nb, nc, nd, ne, nf, ng, ni, nj, nk, nl]
  apply String.ext
  rw [hdl, hs]
  simp [dottedForm, goLen, goSlice, joinNonEmpty, string_mk_ne_empty, String.intercalate,
    String.intercalate.go]

/-- The slices `ParseCode` cuts from a code made of 2, 5, 8 or 11 characters, put together
again, are the code. -/
theorem slices_concat (code : String)
    (hlen : code.length = 2 ∨ code.length = 5 ∨ code.length = 8 ∨ code.length = 11) :
    goSlice code 0 2 ++ (if goLen code ≥ 5 then goSlice code 2 5 else "") ++
        (if goLen code ≥ 8 then goSlice code 5 8 else "") ++
        (if goLen code = 11 then goSlice code 8 11 else "") = code := by
  have hdata : code.data.length = code.length := rfl
  apply String.ext
  rcases hlen with h | h | h | h
  · have e1 : code.data.take 2 = code.data := List.take_of_length_le (by omega)
    simp [goLen, goSlice, h, e1]
  · have e1 : (code.data.drop 2).take 3 = code.data.drop 2 :=
      List.take_of_length_le (by rw [List.length_drop]; omega)
    simp [goLen, goSlice, h, e1]
  · have e1 : (code.data.drop 5).take 3 = code.data.drop 5 :=
      List.take_of_length_le (by rw [List.length_drop]; omega)
    have e2 : code.data.take 2 ++ ((code.data.drop 2).take 3 ++ code.data.drop 5) =
        code.data := by
      rw [show code.data.drop 5 = (code.data.drop 2).drop 3 by rw [List.drop_drop],
        List.take_append_drop, List.take_append_drop]
    simp [goLen, goSlice, h, e1, e2]
  · have e1 : (code.data.drop 8).take 3 = code.data.drop 8 :=
      List.take_of_length_le (by rw [List.length_drop]; omega)
    have e2 : code.data.take 2 ++ ((code.data.drop 2).take 3 ++
        ((code.data.drop 5).take 3 ++ code.data.drop 8)) = code.data := by
      rw [show code.data.drop 8 = (code.data.drop 5).drop 3 by rw [List.drop_drop],
        List.take_append_drop,
        show code.data.drop 5 = (code.data.drop 2).drop 3 by rw [List.drop_drop],
        List.take_append_drop, List.take_append_drop]
    simp [goLen, goSlice, h, e1, e2]

/-! ## Lemmas: reference ids, kinds and the unreachable branches -/

theorem indexAttrs_refToKind (l : List (String × String × Kind))
    (m1 : List (String × String)) (m2 : List (String × Kind)) (uid : String) :
    mapGet (indexAttrs l (m1, m2)).2 uid =
      match declaredKind uid l with
      | some k => some k
      | none => mapGet m2 uid := by
  induction l generalizing m1 m2 with
  | nil => rfl
  | cons a l ih =>
    obtain ⟨n, u, k1⟩ := a
    simp only [indexAttrs, declaredKind]
    rw [ih]
    cases hd : declaredKind uid l with
    | some k => rfl
    | none =>
      simp only [mapGet_mapSet]
      by_cases hu : u = uid <;> simp [hu]

/-- The index `attrRefToKind` gives a reference id the kind of its last declaration. -/
theorem attrIndexes_refToKind (m : cnsiMeta) (uid : String) :
    mapGet (attrIndexes m).2 uid = declaredKind uid (declaredAttrs m) := by
  rw [attrIndexes_eq, indexAttrs_refToKind]
  cases declaredKind uid (declaredAttrs m) <;> rfl

/-- The index `attrNameToRef` gives a name the reference id of its last declaration. -/
theorem attrIndexes_nameToRef (m : cnsiMeta) (name : String) :
    mapGet (attrIndexes m).1 name = (boundAttr name (declaredAttrs m)).map Prod.fst := by
  rw [attrIndexes_eq, indexAttrs_nameToRef]
  cases boundAttr name (declaredAttrs m) <;> rfl

theorem declaredKind_mem {uid : String} {l : List (String × String × Kind)} {k : Kind}
    (h : declaredKind uid l = some k) : ∃ n, (n, uid, k) ∈ l := by
  induction l with
  | nil => simp [declaredKind] at h
  | cons a l ih =>
    obtain ⟨n, u, k1⟩ := a
    simp only [declaredKind] at h
    cases hd : declaredKind uid l with
    | some k2 =>
      rw [hd] at h
      simp only [Option.some.injEq] at h
      subst h
      obtain ⟨n1, hn1⟩ := ih hd
      exact ⟨n1, List.mem_cons_of_mem _ hn1⟩
    | none =>
      rw [hd] at h
      by_cases hu : u = uid
      · simp only [hu, if_true, Option.some.injEq] at h
        subst hu h
        exact ⟨n, List.mem_cons_self _ _⟩
      · simp [hu] at h

theorem declaredKind_isSome {uid : String} {l : List (String × String × Kind)}
    (h : ∃ n k, (n, uid, k) ∈ l) : (declaredKind uid l).isSome = true := by
  induction l with
  | nil =>
    obtain ⟨n, k, hm⟩ := h
    simp at hm
  | cons a l ih =>
    obtain ⟨n, u, k1⟩ := a
    simp only [declaredKind]
    cases hd : declaredKind uid l with
    | some k2 => rfl
    | none =>
      obtain ⟨n1, k, hm⟩ := h
      rcases List.mem_cons.mp hm with heq | hm
      · simp only [Prod.mk.injEq] at heq
        simp [heq.2.1]
      · have := ih ⟨n1, k, hm⟩
        rw [hd] at this
        cases this

theorem declaredKind_append (uid : String) (l1 l2 : List (String × String × Kind)) :
    declaredKind uid (l1 ++ l2) =
      match declaredKind uid l2 with
      | some k => some k
      | none => declaredKind uid l1 := by
  induction l1 with
  | nil =>
    simp only [List.nil_append, declaredKind]
    cases declaredKind uid l2 <;> rfl
  | cons a l1 ih =>
    obtain ⟨n, u, k1⟩ := a
    rw [List.cons_append]
    simp only [declaredKind]
    rw [ih]
    cases declaredKind uid l2 with
    | some k => rfl
    | none => rfl

theorem boundAttr_append (name : String) (l1 l2 : List (String × String × Kind)) :
    boundAttr name (l1 ++ l2) =
      match boundAttr name l2 with
      | some b => some b
      | none => boundAttr name l1 := by
  induction l1 with
  | nil =>
    simp only [List.nil_append, boundAttr]
    cases boundAttr name l2 <;> rfl
  | cons a l1 ih =>
    obtain ⟨n, u, k1⟩ := a
    rw [List.cons_append]
    simp only [boundAttr]
    rw [ih]
    cases boundAttr name l2 with
    | some b => rfl
    | none => rfl

/-- A name an integer attribute declares is bound to an integer attribute, whatever the
string and text attributes declare. -/
theorem boundAttr_of_integer (m : cnsiMeta) (name uid : String) (k : Kind)
    (hlast : boundAttr name (declaredAttrs m) = some (uid, k))
    (hint : ∃ a ∈ m.IntegerAttrs, a.Name = name) :
    k = Kind.Int ∧ declaredKind uid (declaredAttrs m) = some Kind.Int := by
  obtain ⟨a, ha, hname⟩ := hint
  have hsome : boundAttr name (m.IntegerAttrs.map (fun a => (a.Name, a.UID, Kind.Int))) ≠
      none := by
    rw [Ne, boundAttr_none_iff]
    intro hall
    exact hall (a.Name, a.UID, Kind.Int) (List.mem_map.mpr ⟨a, ha, rfl⟩) hname
  unfold declaredAttrs at hlast ⊢
  rw [← List.append_assoc] at hlast ⊢
  rw [boundAttr_append] at hlast
  cases hb : boundAttr name (m.IntegerAttrs.map (fun a => (a.Name, a.UID, Kind.Int))) with
  | none => exact absurd hb hsome
  | some b =>
    rw [hb] at hlast
    simp only [Option.some.injEq] at hlast
    subst hlast
    have hmem := boundAttr_mem hb
    have hk : k = Kind.Int := by
      simp only [List.mem_map, Prod.mk.injEq] at hmem
      obtain ⟨_, _, _, _, hk⟩ := hmem
      exact hk.symm
    refine ⟨hk, ?_⟩
    rw [declaredKind_append]
    have hs : (declaredKind uid _).isSome = true := declaredKind_isSome ⟨name, k, hmem⟩
    cases hd : declaredKind uid (m.IntegerAttrs.map (fun a => (a.Name, a.UID, Kind.Int))) with
    | none =>
      rw [hd] at hs
      cases hs
    | some k2 =>
      obtain ⟨n2, hn2⟩ := declaredKind_mem hd
      simp only [List.mem_map, Prod.mk.injEq] at hn2
      obtain ⟨_, _, _, _, hk2⟩ := hn2
      rw [← hk2]

/-- Every reference id the index `attrNameToRef` holds has a kind in `attrRefToKind`: the
second lookup of the pre-flight check always succeeds. -/
theorem attrIndexes_ref_has_kind (m : cnsiMeta) (name uid : String)
    (h : mapGet (attrIndexes m).1 name = some uid) :
    ∃ kind, mapGet (attrIndexes m).2 uid = some kind ∧
      (kind = Kind.String ∨ kind = Kind.Int) := by
  rw [attrIndexes_nameToRef] at h
  cases hb : boundAttr name (declaredAttrs m) with
  | none => simp [hb] at h
  | some b =>
    obtain ⟨u, k⟩ := b
    rw [hb] at h
    simp only [Option.map_some', Option.some.injEq] at h
    subst h
    have hs : (declaredKind u (declaredAttrs m)).isSome = true :=
      declaredKind_isSome ⟨name, k, boundAttr_mem hb⟩
    rw [← attrIndexes_refToKind] at hs
    cases hk : mapGet (attrIndexes m).2 u with
    | none =>
      rw [hk] at hs
      cases hs
    | some kind => exact ⟨kind, rfl, attrIndexes_kind m u kind hk⟩

/-- The outcomes of the pre-flight check of one field against the indexes of a schema: the
branch `attribute ... with Ref ... not found` is not among them. -/
theorem checkField_outcomes (m : cnsiMeta) (field : StructField) :
    (field.Tag = "" ∧ checkField (attrIndexes m).1 (attrIndexes m).2 field = .ok none) ∨
    (field.Tag ≠ "" ∧ mapGet (attrIndexes m).1 field.Tag = none ∧
      checkField (attrIndexes m).1 (attrIndexes m).2 field =
        .error (.new ("attribute " ++ field.Tag ++ " not found in classifier"))) ∨
    ∃ uid kind, field.Tag ≠ "" ∧ mapGet (attrIndexes m).1 field.Tag = some uid ∧
      mapGet (attrIndexes m).2 uid = some kind ∧
      ((field.Kind ≠ kind ∧ checkField (attrIndexes m).1 (attrIndexes m).2 field =
          .error (.new ("field " ++ field.Name ++ " has type " ++ kindString field.Kind ++
            ", expected " ++ kindString kind ++ " for attribute " ++ field.Tag ++
            " with Ref " ++ uid))) ∨
        (field.Kind = kind ∧
          checkField (attrIndexes m).1 (attrIndexes m).2 field = .ok (some uid))) := by
  by_cases htag : field.Tag = ""
  · exact Or.inl ⟨htag, by simp [checkField, htag]⟩
  · right
    cases hn : mapGet (attrIndexes m).1 field.Tag with
    | none => exact Or.inl ⟨htag, rfl, by simp [checkField, htag, hn]⟩
    | some uid =>
      obtain ⟨kind, hk, _⟩ := attrIndexes_ref_has_kind m field.Tag uid hn
      refine Or.inr ⟨uid, kind, htag, rfl, hk, ?_⟩
      by_cases hkind : field.Kind = kind
      · exact Or.inr ⟨hkind, by simp [checkField, htag, hn, hk, hkind]⟩
      · exact Or.inl ⟨hkind, by simp [checkField, htag, hn, hk, hkind]⟩

/-- The outcomes of one pair after a passed pre-flight check: it is applied, it is rejected
for its missing payload, or `reflect` panics on the unexported field it is bound to. -/
theorem setAttrVal_outcomes (typ : RType) (m : cnsiMeta) (idx : List (String × Nat))
    (hpre : preflight typ m = .ok idx) (attrVal : cnsiAttrVal) (val : Record) :
    (∃ val1, setAttrVal typ idx attrVal val = .ok val1) ∨
      setAttrVal typ idx attrVal val =
        .error (.err (.new ("string value for attribute " ++ attrVal.AttrRef ++
          " is not set"))) ∨
      setAttrVal typ idx attrVal val =
        .error (.err (.new ("integer value for attribute " ++ attrVal.AttrRef ++
          " is not set"))) ∨
      ∃ method, setAttrVal typ idx attrVal val =
        .error (.panic ("reflect: reflect.Value." ++ method ++
          " using value obtained using unexported field")) := by
  have hset : ∀ (method : String) (fd : StructField) (j : Nat) (x : Value),
      (∃ val1, reflectSet method fd val j x = .ok val1) ∨
        ∃ method1, reflectSet method fd val j x =
          .error (.panic ("reflect: reflect.Value." ++ method1 ++
            " using value obtained using unexported field")) := by
    intro method fd j x
    by_cases hp : fd.PkgPath = ""
    · exact Or.inl ⟨_, reflectSet_exported method fd val j x hp⟩
    · exact Or.inr ⟨method, reflectSet_unexported method fd val j x hp⟩
  unfold setAttrVal
  cases hg : mapGet idx attrVal.AttrRef with
  | none => exact Or.inl ⟨val, rfl⟩
  | some j =>
    obtain ⟨fd, hfd, _, _, hkind⟩ := preflight_index typ m idx hpre attrVal.AttrRef j hg
    simp only [hfd]
    rcases hkind with hk | hk
    · simp only [hk]
      cases hs : attrVal.StringVal with
      | some s =>
        rcases hset "SetString" fd j (.str s.Val) with h | h
        · exact Or.inl h
        · exact Or.inr (Or.inr (Or.inr h))
      | none =>
        cases ht : attrVal.TextVal with
        | some t =>
          rcases hset "SetString" fd j (.str t.Val) with h | h
          · exact Or.inl h
          · exact Or.inr (Or.inr (Or.inr h))
        | none => exact Or.inr (Or.inl rfl)
    · simp only [hk]
      cases hi : attrVal.IntegerVal with
      | some n =>
        rcases hset "SetInt" fd j (.int n.Val) with h | h
        · exact Or.inl h
        · exact Or.inr (Or.inr (Or.inr h))
      | none => exact Or.inr (Or.inr (Or.inl rfl))

theorem string_value_ne_unsupported (ref : String) (k : Kind) :
    "string value for attribute " ++ ref ++ " is not set" ≠
      "unsupported field type: " ++ kindString k := by
  intro h
  have h2 := congrArg (fun s => s.data.head?) h
  simp [String.data_append] at h2

theorem integer_value_ne_unsupported (ref : String) (k : Kind) :
    "integer value for attribute " ++ ref ++ " is not set" ≠
      "unsupported field type: " ++ kindString k := by
  intro h
  have h2 := congrArg (fun s => s.data.head?) h
  simp [String.data_append] at h2

/-- The failure a record's decoding can end in after a passed pre-flight check. -/
theorem setAttrVals_error (typ : RType) (m : cnsiMeta) (idx : List (String × Nat))
    (hpre : preflight typ m = .ok idx) (ps : List cnsiAttrVal) (val : Record) (f : Fail)
    (h : setAttrVals typ idx ps val = .error f) :
    (∃ p ∈ ps,
      f = .err (.new ("string value for attribute " ++ p.AttrRef ++ " is not set")) ∨
      f = .err (.new ("integer value for attribute " ++ p.AttrRef ++ " is not set"))) ∨
    ∃ msg, f = .panic msg := by
  induction ps generalizing val with
  | nil => simp [setAttrVals] at h
  | cons p ps ih =>
    simp only [setAttrVals] at h
    rcases setAttrVal_outcomes typ m idx hpre p val with ⟨v1, hv⟩ | he | he | ⟨msg, he⟩
    · rw [hv] at h
      rcases ih v1 h with ⟨q, hq, hf⟩ | hpanic
      · exact Or.inl ⟨q, List.mem_cons_of_mem _ hq, hf⟩
      · exact Or.inr hpanic
    · rw [he] at h
      simp only [Except.error.injEq] at h
      exact Or.inl ⟨p, List.mem_cons_self _ _, Or.inl h.symm⟩
    · rw [he] at h
      simp only [Except.error.injEq] at h
      exact Or.inl ⟨p, List.mem_cons_self _ _, Or.inr h.symm⟩
    · rw [he] at h
      simp only [Except.error.injEq] at h
      exact Or.inr ⟨_, h.symm⟩

/-- The record loop never returns the error `unsupported field type` after a passed
pre-flight check. -/
theorem recordLoop_supported {σ : Type} (handler : Option (Handler σ)) (typ : RType)
    (m : cnsiMeta) (idx : List (String × Nat)) (hpre : preflight typ m = .ok idx)
    (recs : List cnsiRecord) (i : Nat) (s : UState σ) (k : Kind) :
    (recordLoop handler typ idx recs i s).1 ≠
      .ret (some (.new ("unsupported field type: " ++ kindString k))) := by
  induction recs generalizing handler i s with
  | nil => simp [recordLoop]
  | cons dr recs ih =>
    simp only [recordLoop]
    cases hd : decodeRecord typ idx dr with
    | error f =>
      rcases setAttrVals_error typ m idx hpre _ _ f hd with ⟨p, _, hf | hf⟩ | ⟨msg, hf⟩
      · subst hf
        simp only [Fail.toResult, ne_eq, Result.ret.injEq, Option.some.injEq, GoError.new.injEq]
        exact string_value_ne_unsupported p.AttrRef k
      · subst hf
        simp only [Fail.toResult, ne_eq, Result.ret.injEq, Option.some.injEq, GoError.new.injEq]
        exact integer_value_ne_unsupported p.AttrRef k
      · subst hf
        simp [Fail.toResult]
    | ok record =>
      cases handler with
      | none => exact ih _ _ _
      | some h =>
        simp only
        cases he : (h record s.c s.env).err with
        | some err => simp
        | none => exact ih _ _ _

/-! ## Lemmas: the three code indexes of `NewOkato` -/

theorem listEntry_getD {α : Type} (l : List α) : (listEntry l).getD [] = l := by
  cases l <;> rfl

theorem listEntry_eq_some {α : Type} (l l1 : List α) (h : listEntry l = some l1) :
    l1 = l ∧ l ≠ [] := by
  cases l with
  | nil => cases h
  | cons a l =>
    simp only [listEntry, Option.some.injEq] at h
    exact ⟨h.symm, by simp⟩

theorem listEntry_eq_none {α : Type} (l : List α) : listEntry l = none ↔ l = [] := by
  cases l <;> simp [listEntry]

/-- The last element of a filtered list splits the list: nothing after it passes the
filter. -/
theorem getLast?_filter_some {α : Type} (p : α → Bool) (l : List α) (v : α)
    (h : (l.filter p).getLast? = some v) :
    ∃ l1 l2, l = l1 ++ v :: l2 ∧ p v = true ∧ ∀ w ∈ l2, p w = false := by
  induction l with
  | nil => simp at h
  | cons x l ih =>
    cases hf : l.filter p with
    | nil =>
      have hall : ∀ w ∈ l, p w = false := by
        intro w hw
        cases hp : p w with
        | false => rfl
        | true =>
          have : w ∈ l.filter p := List.mem_filter.mpr ⟨hw, hp⟩
          rw [hf] at this
          cases this
      cases hx : p x with
      | false =>
        rw [List.filter_cons, hx, hf] at h
        simp at h
      | true =>
        rw [List.filter_cons, hx, hf] at h
        simp only [if_true, List.getLast?_singleton, Option.some.injEq] at h
        subst h
        exact ⟨[], l, rfl, hx, hall⟩
    | cons y ys =>
      have hlast : (l.filter p).getLast? = some v := by
        cases hx : p x with
        | false =>
          rw [List.filter_cons, hx] at h
          exact h
        | true =>
          rw [List.filter_cons, hx, hf] at h
          rw [hf]
          simpa [List.getLast?_cons_cons] using h
      obtain ⟨l1, l2, hl, hv, hrest⟩ := ih hlast
      exact ⟨x :: l1, l2, by rw [hl]; rfl, hv, hrest⟩

/-- The fields `ParseCode` derives from a valid code. -/
theorem parsed_fields (r : OkatoRecord) (hvalid : reValidOkatoC.MatchString r.C = true) :
    r.ParseCode.1.Code = dotless r.C ∧
      r.ParseCode.1.Code11 = zeroPadded11 r.ParseCode.1.Code ∧
      r.ParseCode.1.Region = firstChars 2 r.ParseCode.1.Code ∧
      r.ParseCode.1.Region.length = 2 ∧
      (∀ ch ∈ r.ParseCode.1.Region.data, ch.isDigit = true) := by
  obtain ⟨hdig, hlen⟩ := dotless_of_dotted r.C ((matchString_reValidOkatoC r.C).mp hvalid)
  have hge2 : goLen (dotless r.C) ≥ 2 := by
    unfold goLen
    omega
  rw [ParseCode_valid r hvalid]
  simp only [hge2, if_true]
  refine ⟨trivial, okato11_eq _, goSlice_zero _ _, ?_, ?_⟩
  · rw [goSlice_zero]
    show ((dotless r.C).data.take 2).length = 2
    rw [List.length_take]
    have : (dotless r.C).data.length = (dotless r.C).length := rfl
    omega
  · rw [goSlice_zero]
    intro ch hch
    exact hdig ch (List.mem_of_mem_take hch)

/-- Every retained record is the parse of a decoded input record with a valid code. -/
theorem okatoRecords_parsed (ks : List Record) (c : Classifier) (env : OkatoIndexes)
    (hinv : okatoInvariant ks c env) (v : OkatoRecord) (hv : v ∈ okatoRecords c) :
    ∃ rec ∈ ks, reValidOkatoC.MatchString (OkatoRecord.ofRecord rec).C = true ∧
      v = (OkatoRecord.ofRecord rec).ParseCode.1 := by
  obtain ⟨hrec, _⟩ := hinv
  unfold okatoRecords at hv
  rw [hrec] at hv
  simp only [List.mem_map, List.mem_filterMap] at hv
  obtain ⟨x, ⟨rec, hrec1, hkeep⟩, hx⟩ := hv
  unfold keepValidOkato at hkeep
  by_cases hm : reValidOkatoC.MatchString (OkatoRecord.ofRecord rec).C = true
  · simp only [hm, if_true, Option.some.injEq] at hkeep
    refine ⟨rec, hrec1, hm, ?_⟩
    rw [← hx, ← hkeep, okatoRecord_ofRecord_toRecord]
  · simp [hm] at hkeep

theorem okatoRecords_append (c : Classifier) (v : OkatoRecord) :
    okatoRecords { c with Records := c.Records ++ [v.toRecord] } = okatoRecords c ++ [v] := by
  simp [okatoRecords, okatoRecord_ofRecord_toRecord]

theorem getLast?_filter_append_one {α : Type} (p : α → Bool) (l : List α) (v : α) :
    ((l ++ [v]).filter p).getLast? = if p v = true then some v else (l.filter p).getLast? := by
  rw [List.filter_append]
  cases hp : p v with
  | false => simp [hp]
  | true => simp [hp, List.getLast?_append]

/-- The handler of `NewOkato` preserves the invariant of the three code indexes when it
returns nil. -/
theorem okatoHandler_indexes (ks : List Record) (rec : Record) (c : Classifier)
    (env : OkatoIndexes) (hinv : okatoIndexInvariant ks c env)
    (hnil : (okatoHandler rec c env).err = none) :
    okatoIndexInvariant (ks ++ [rec]) (okatoHandler rec c env).c
      (okatoHandler rec c env).env := by
  obtain ⟨hok, hbyCode, hnodup, h11, hregion⟩ := hinv
  refine ⟨okatoHandler_invariant ks rec c env hok hnil, ?_⟩
  cases hm : reValidOkatoC.MatchString (OkatoRecord.ofRecord rec).C with
  | false =>
    obtain ⟨_, hc, henv⟩ := okatoHandler_invalid rec c env hm
    rw [hc, henv]
    exact ⟨hbyCode, hnodup, h11, hregion⟩
  | true =>
    have hcode : (OkatoRecord.ofRecord rec).ParseCode.1.Code =
        dotless (OkatoRecord.ofRecord rec).C := by
      rw [ParseCode_valid _ hm]
    have hnew : mapGet env.byCode (dotless (OkatoRecord.ofRecord rec).C) = none := by
      cases hget : mapGet env.byCode (dotless (OkatoRecord.ofRecord rec).C) with
      | none => rfl
      | some v =>
        rw [okatoHandler_duplicate rec c env hm (by simp [hget])] at hnil
        cases hnil
    obtain ⟨_, hc, henv⟩ := okatoHandler_new rec c env hm hnew
    rw [hc, henv, okatoRecords_append]
    have hfresh : (OkatoRecord.ofRecord rec).ParseCode.1.Code ∉
        (okatoRecords c).map (fun v => v.Code) := by
      rw [← hcode, mapGet_none_iff, hbyCode] at hnew
      simpa [List.map_reverse, Function.comp_def] using hnew
    refine ⟨?_, ?_, ?_, ?_⟩
    · simp only [mapSet, hbyCode, List.map_append, List.map_cons, List.map_nil,
        List.reverse_append, List.reverse_cons, List.reverse_nil, List.nil_append,
        List.singleton_append]
    · rw [List.map_append, List.nodup_append]
      refine ⟨hnodup, by simp, ?_⟩
      intro a ha hb
      simp only [List.map_cons, List.map_nil, List.mem_singleton] at hb
      subst hb
      exact hfresh ha
    · intro k
      rw [mapGet_mapSet, getLast?_filter_append_one, h11 k]
      by_cases hk : (OkatoRecord.ofRecord rec).ParseCode.1.Code11 = k <;> simp [hk]
    · intro k
      rw [mapGet_mapSet, hregion, listEntry_getD, List.filter_append, hregion k]
      by_cases hk : (OkatoRecord.ofRecord rec).ParseCode.1.Region = k
      · subst hk
        simp only [if_true, List.filter_cons, List.filter_nil, decide_True]
        cases hf : (okatoRecords c).filter
            (fun v => decide (v.Region = (OkatoRecord.ofRecord rec).ParseCode.1.Region)) with
        | nil => rfl
        | cons a l => rfl
      · simp [hk]

/-- The three code indexes of a successful `NewOkato`. -/
theorem NewOkato_indexes {ρ : Type} (xmlDecode : ρ → Except GoError cnsiDoc × ρ)
    (r : Option ρ) (okato : Okato) (hok : NewOkato xmlDecode r = .ok okato) :
    ∃ ks, okatoIndexInvariant ks okato.Classifier
      { byCode := okato.byCode, byCode11 := okato.byCode11, byRegion := okato.byRegion,
        Region := okato.Region } := by
  obtain ⟨hres, hc, henv⟩ := NewOkato_ok xmlDecode r okato hok
  obtain ⟨doc, idx, c, _, _, hc1, hinv⟩ := Decode_handler_invariant xmlDecode okatoType r
    okatoHandler okatoHandler_staysSet _ _ okatoIndexInvariant okatoHandler_indexes
    (by
      intro n cd u v
      exact ⟨⟨rfl, by simp, by simp, by simp, by simp⟩, rfl, by simp [okatoRecords],
        by simp [okatoRecords, mapGet], by simp [okatoRecords, mapGet, listEntry]⟩)
    hres
  rw [hc] at hc1
  cases hc1
  rw [henv] at hinv
  exact ⟨_, hinv⟩

theorem filter_length_count (l : List OkatoRecord) (k : String) :
    (l.filter (fun v => v.Region = k)).length = (l.map (fun v => v.Region)).count k := by
  induction l with
  | nil => rfl
  | cons a l ih =>
    rw [List.filter_cons, List.map_cons, List.count_cons]
    by_cases hk : a.Region = k
    · simp [hk, ih]
    · simp [hk, ih]

/-- The lists of `byRegion` have as many entries in all as there are retained records. -/
theorem byRegion_total (recs : List OkatoRecord) (byRegion : List (String × List OkatoRecord))
    (hregion : ∀ k, mapGet byRegion k = listEntry (recs.filter (fun v => v.Region = k))) :
    (((byRegion.map Prod.fst).dedup).map
      (fun k => ((mapGet byRegion k).getD []).length)).sum = recs.length := by
  have hperm : ((byRegion.map Prod.fst).dedup).Perm (recs.map (fun v => v.Region)).dedup := by
    rw [List.perm_ext_iff_of_nodup (List.nodup_dedup _) (List.nodup_dedup _)]
    intro k
    rw [List.mem_dedup, List.mem_dedup]
    have h1 : k ∈ byRegion.map Prod.fst ↔ mapGet byRegion k ≠ none := by
      rw [Ne, mapGet_none_iff, not_not]
    rw [h1, hregion k, Ne, listEntry_eq_none, ← Ne, ← List.length_pos, filter_length_count,
      List.count_pos_iff]
  have hsum := List.sum_map_count_dedup_eq_length (recs.map (fun v => v.Region))
  rw [List.length_map] at hsum
  rw [← hsum]
  apply List.Perm.sum_eq
  have := hperm.map (fun k => ((mapGet byRegion k).getD []).length)
  simpa [hregion, listEntry_getD, filter_length_count] using this

/-! ## Lemmas: the two decoders on one document -/

theorem foldl_indexStringAttrs (attrs : List cnsiStringAttr)
    (maps : List (String × String) × List (String × Kind)) :
    (attrs.map (fun a => (⟨a.UID, a.Name⟩ : cnsi.StringAttribute))).foldl
        (fun m attr => (mapSet m.1 attr.Name attr.UID, mapSet m.2 attr.UID Kind.String)) maps =
      indexStringAttrs attrs maps := by
  induction attrs generalizing maps with
  | nil => rfl
  | cons a attrs ih =>
    obtain ⟨m1, m2⟩ := maps
    simp only [List.map_cons, List.foldl_cons, indexStringAttrs]
    exact ih _

theorem foldl_indexIntegerAttrs (attrs : List cnsiIntegerAttr)
    (maps : List (String × String) × List (String × Kind)) :
    (attrs.map (fun a => (⟨a.UID, a.Name⟩ : cnsi.IntegerAttribute))).foldl
        (fun m attr => (mapSet m.1 attr.Name attr.UID, mapSet m.2 attr.UID Kind.Int)) maps =
      indexIntegerAttrs attrs maps := by
  induction attrs generalizing maps with
  | nil => rfl
  | cons a attrs ih =>
    obtain ⟨m1, m2⟩ := maps
    simp only [List.map_cons, List.foldl_cons, indexIntegerAttrs]
    exact ih _

/-- The method `indexes` builds, on the same schema, the indexes `unmarshal` builds. -/
theorem indexes_eq_attrIndexes (doc : cnsiDoc) :
    doc.toSimpleClassifier.Properties.Attributes.indexes = attrIndexes doc.Meta := by
  simp only [cnsi.Attributes.indexes, cnsiDoc.toSimpleClassifier, attrIndexes,
    foldl_indexStringAttrs, foldl_indexIntegerAttrs]

/-- The two pre-flight checks of one field pass together, with the same result. -/
theorem checkField_agree (n2r : List (String × String)) (r2k : List (String × Kind))
    (field : StructField) :
    (∃ o, checkField n2r r2k field = .ok o ∧
      cnsi.SimpleClassifier.checkField n2r r2k field = .ok o) ∨
    (∃ e1 e2, checkField n2r r2k field = .error e1 ∧
      cnsi.SimpleClassifier.checkField n2r r2k field = .error e2) := by
  by_cases htag : field.Tag = ""
  · exact Or.inl ⟨none, by simp [checkField, htag],
      by simp [cnsi.SimpleClassifier.checkField, htag]⟩
  · cases hn : mapGet n2r field.Tag with
    | none =>
      exact Or.inr ⟨_, _, by simp [checkField, htag, hn]; rfl,
        by simp [cnsi.SimpleClassifier.checkField, htag, hn]; rfl⟩
    | some uid =>
      cases hk : mapGet r2k uid with
      | none =>
        exact Or.inr ⟨_, _, by simp [checkField, htag, hn, hk]; rfl,
          by simp [cnsi.SimpleClassifier.checkField, htag, hn, hk]; rfl⟩
      | some kind =>
        by_cases hkind : field.Kind = kind
        · exact Or.inl ⟨some uid, by simp [checkField, htag, hn, hk, hkind],
            by simp [cnsi.SimpleClassifier.checkField, htag, hn, hk, hkind]⟩
        · exact Or.inr ⟨_, _, by simp [checkField, htag, hn, hk, hkind]; rfl,
            by simp [cnsi.SimpleClassifier.checkField, htag, hn, hk, hkind]; rfl⟩

/-- The two pre-flight checks pass together, with the same field index. -/
theorem fieldLoop_agree (n2r : List (String × String)) (r2k : List (String × Kind))
    (fields : List StructField) (i : Nat) (idx0 : List (String × Nat)) :
    (∃ idx, fieldLoop n2r r2k fields i idx0 = .ok idx ∧
      cnsi.SimpleClassifier.fieldLoop n2r r2k fields i idx0 = .ok idx) ∨
    (∃ e1 e2, fieldLoop n2r r2k fields i idx0 = .error e1 ∧
      cnsi.SimpleClassifier.fieldLoop n2r r2k fields i idx0 = .error e2) := by
  induction fields generalizing i idx0 with
  | nil => exact Or.inl ⟨idx0, rfl, rfl⟩
  | cons field fields ih =>
    simp only [fieldLoop, cnsi.SimpleClassifier.fieldLoop]
    rcases checkField_agree n2r r2k field with ⟨o, h1, h2⟩ | ⟨e1, e2, h1, h2⟩
    · rw [h1, h2]
      cases o with
      | none => exact ih _ _
      | some uid => exact ih _ _
    · rw [h1, h2]
      exact Or.inr ⟨e1, e2, rfl, rfl⟩

/-- One pair in the two decoders, after a passed pre-flight check on a struct type whose
annotated fields are exported: the pair is applied by both
or rejected by both, and applied with the same value when the two records under construction
are equal and the pair, if bound to a string field, carries one string. -/
theorem setField_agree (typ : RType) (m : cnsiMeta) (idx : List (String × Nat))
    (hpre : preflight typ m = .ok idx)
    (hexp : taggedExported typ) (p : cnsiAttrVal) (val1 val2 : Record) :
    (∃ a b, setAttrVal typ idx p val1 = .ok a ∧
      cnsi.SimpleClassifier.setField typ idx p.toAttributeValue val2 = .ok b ∧
      (val1 = val2 → (boundToString typ idx p → onePayload p) → a = b)) ∨
    (∃ e1 e2, setAttrVal typ idx p val1 = .error (.err e1) ∧
      cnsi.SimpleClassifier.setField typ idx p.toAttributeValue val2 = .error (.err e2)) := by
  unfold setAttrVal cnsi.SimpleClassifier.setField
  simp only [cnsiAttrVal.toAttributeValue]
  cases hg : mapGet idx p.AttrRef with
  | none => exact Or.inl ⟨val1, val2, rfl, rfl, fun h _ => h⟩
  | some j =>
    obtain ⟨fd, hfd, _, _, hkind⟩ := preflight_index typ m idx hpre p.AttrRef j hg
    have hp : fd.PkgPath = "" := bound_field_exported typ m idx hpre hexp p.AttrRef j fd hg hfd
    simp only [hfd, reflectSet_exported _ fd _ _ _ hp]
    rcases hkind with hk | hk
    · simp only [hk]
      cases hs : p.StringVal with
      | some s =>
        cases ht : p.TextVal with
        | some t =>
          refine Or.inl ⟨_, _, rfl, rfl, ?_⟩
          intro hval hone
          rcases hone ⟨j, fd, hg, hfd, hk⟩ with h | h | h
          · rw [ht] at h
            cases h
          · rw [hs] at h
            cases h
          · rw [ht, hs] at h
            simp only [Option.some.injEq] at h
            subst h hval
            rfl
        | none =>
          refine Or.inl ⟨_, _, rfl, rfl, ?_⟩
          intro hval _
          subst hval
          rfl
      | none =>
        cases ht : p.TextVal with
        | some t =>
          refine Or.inl ⟨_, _, rfl, rfl, ?_⟩
          intro hval _
          subst hval
          rfl
        | none => exact Or.inr ⟨_, _, rfl, rfl⟩
    · simp only [hk]
      cases hi : p.IntegerVal with
      | some n =>
        refine Or.inl ⟨_, _, rfl, rfl, ?_⟩
        intro hval _
        subst hval
        rfl
      | none => exact Or.inr ⟨_, _, rfl, rfl⟩

/-- The pairs of one record in the two decoders. -/
theorem setFields_agree (typ : RType) (m : cnsiMeta) (idx : List (String × Nat))
    (hpre : preflight typ m = .ok idx)
    (hexp : taggedExported typ) (ps : List cnsiAttrVal) (val1 val2 : Record) :
    (∃ a b, setAttrVals typ idx ps val1 = .ok a ∧
      cnsi.SimpleClassifier.setFields typ idx (ps.map cnsiAttrVal.toAttributeValue) val2 =
        .ok b ∧
      (val1 = val2 → (∀ p ∈ ps, boundToString typ idx p → onePayload p) → a = b)) ∨
    (∃ e1 e2, setAttrVals typ idx ps val1 = .error (.err e1) ∧
      cnsi.SimpleClassifier.setFields typ idx (ps.map cnsiAttrVal.toAttributeValue) val2 =
        .error (.err e2)) := by
  induction ps generalizing val1 val2 with
  | nil => exact Or.inl ⟨val1, val2, rfl, rfl, fun h _ => h⟩
  | cons p ps ih =>
    simp only [List.map_cons, setAttrVals, cnsi.SimpleClassifier.setFields]
    rcases setField_agree typ m idx hpre hexp p val1 val2 with ⟨a, b, h1, h2, hab⟩ | ⟨e1, e2, h1, h2⟩
    · rw [h1, h2]
      rcases ih a b with ⟨a1, b1, h3, h4, hab1⟩ | ⟨e1, e2, h3, h4⟩
      · refine Or.inl ⟨a1, b1, h3, h4, ?_⟩
        intro hval hone
        exact hab1 (hab hval (hone p (List.mem_cons_self _ _)))
          (fun q hq => hone q (List.mem_cons_of_mem _ hq))
      · exact Or.inr ⟨e1, e2, h3, h4⟩
    · rw [h1, h2]
      exact Or.inr ⟨e1, e2, rfl, rfl⟩

/-- The record loops of the two decoders, without handler and without callback. -/
theorem recordLoop_agree (typ : RType) (m : cnsiMeta) (idx : List (String × Nat))
    (hpre : preflight typ m = .ok idx)
    (hexp : taggedExported typ) (recs : List cnsiRecord) (i : Nat) (s : UState Unit)
    (t : cnsi.UnmarshalState Unit) :
    ((recordLoop none typ idx recs i s).1 = .ret none ∧
      (cnsi.SimpleClassifier.recordLoop typ idx none (recs.map cnsiRecord.toCnsi) i t).1 =
        .ret none ∧
      (s.c.Records = t.dst →
        (∀ rec ∈ recs, ∀ p ∈ rec.AttrVals, boundToString typ idx p → onePayload p) →
        (recordLoop none typ idx recs i s).2.c.Records =
          (cnsi.SimpleClassifier.recordLoop typ idx none (recs.map cnsiRecord.toCnsi) i
            t).2.dst)) ∨
    (∃ e1 e2, (recordLoop none typ idx recs i s).1 = .ret (some e1) ∧
      (cnsi.SimpleClassifier.recordLoop typ idx none (recs.map cnsiRecord.toCnsi) i t).1 =
        .ret (some e2)) := by
  induction recs generalizing i s t with
  | nil => exact Or.inl ⟨rfl, rfl, fun h _ => h⟩
  | cons dr recs ih =>
    simp only [List.map_cons, recordLoop, cnsi.SimpleClassifier.recordLoop, decodeRecord,
      cnsi.SimpleClassifier.newElem, cnsiRecord.toCnsi]
    rcases setFields_agree typ m idx hpre hexp dr.AttrVals (zeroRecord typ) (zeroRecord typ) with
      ⟨a, b, h1, h2, hab⟩ | ⟨e1, e2, h1, h2⟩
    · rw [h1, h2]
      rcases ih (i + 1) { s with c := { s.c with Records := s.c.Records ++ [a] } }
          { t with dst := t.dst ++ [b] } with ⟨h3, h4, hrec⟩ | ⟨e1, e2, h3, h4⟩
      · refine Or.inl ⟨h3, h4, ?_⟩
        intro hst hone
        apply hrec
        · have hab1 : a = b := hab rfl (hone dr (List.mem_cons_self _ _))
          simp only [hst, hab1]
        · exact fun rec hrec1 => hone rec (List.mem_cons_of_mem _ hrec1)
      · exact Or.inr ⟨e1, e2, h3, h4⟩
    · rw [h1, h2]
      exact Or.inr ⟨e1, e2, rfl, rfl⟩

/-- The two decoders on one document and one struct type whose annotated fields are exported,
without handler and without callback, into an empty classifier and an empty slice. -/
theorem unmarshal_agree {ρ : Type} (r : Option ρ) (typ : RType) (doc : cnsiDoc)
    (hstruct : typ.Kind = Kind.Struct) (hexp : taggedExported typ) :
    (((NewDecoder r : Decoder ρ Unit).unmarshal typ emptyClassifier doc ()).1 = .ret none ∧
      (doc.toSimpleClassifier.Unmarshal (sliceOf typ) [] (none : Option (cnsi.Callback Unit))
        ()).1 = .ret none ∧
      ((∀ rec ∈ doc.Records, ∀ p ∈ rec.AttrVals,
          boundToString typ (fieldIndex typ doc.Meta) p → onePayload p) →
        ((NewDecoder r : Decoder ρ Unit).unmarshal typ emptyClassifier doc ()).2.c.Records =
          (doc.toSimpleClassifier.Unmarshal (sliceOf typ) []
            (none : Option (cnsi.Callback Unit)) ()).2.dst)) ∨
    (∃ e1 e2,
      ((NewDecoder r : Decoder ρ Unit).unmarshal typ emptyClassifier doc ()).1 =
        .ret (some e1) ∧
      (doc.toSimpleClassifier.Unmarshal (sliceOf typ) [] (none : Option (cnsi.Callback Unit))
        ()).1 = .ret (some e2)) := by
  unfold cnsi.SimpleClassifier.Unmarshal
  simp only [sliceOf, hstruct, ne_eq, not_true_eq_false, or_self, if_false,
    indexes_eq_attrIndexes]
  have hrecs : doc.toSimpleClassifier.Records = doc.Records.map cnsiRecord.toCnsi := rfl
  rcases fieldLoop_agree (attrIndexes doc.Meta).1 (attrIndexes doc.Meta).2 typ.Fields 0 [] with
    ⟨idx, h1, h2⟩ | ⟨e1, e2, h1, h2⟩
  · have hpre : preflight typ doc.Meta = .ok idx := h1
    have hfi : fieldIndex typ doc.Meta = idx := by simp [fieldIndex, hpre]
    rw [unmarshal_preflight_ok _ typ _ doc _ idx hpre, h2, hrecs, hfi]
    simp only [NewDecoder, Option.isSome_none, Bool.false_eq_true, if_false, emptyClassifier]
    rcases recordLoop_agree typ doc.Meta idx hpre hexp doc.Records 0
        { c := { Name := doc.Meta.Name, Code := doc.Meta.Code, UID := doc.Meta.UID,
                 Version := doc.Meta.Version, Records := [] }, env := (), calls := [] }
        { dst := [], env := (), calls := [] } with ⟨h3, h4, hrec⟩ | ⟨e1, e2, h3, h4⟩
    · exact Or.inl ⟨h3, h4, fun hone => hrec rfl hone⟩
    · exact Or.inr ⟨e1, e2, h3, h4⟩
  · have hpre : preflight typ doc.Meta = .error e1 := h1
    rw [unmarshal_preflight_error _ typ _ doc _ e1 hpre, h2]
    exact Or.inr ⟨e1, e2, rfl, rfl⟩

/-! ## The contract of the decoder -/

/-- C1, counterexample. The record type `hiddenFieldType` passes the pre-flight check on the
sample schema and every pair of the sample document that is bound to a field carries a
payload of that field's kind, but the field bound to `ToSfrCode` is unexported: `Decode`
without a handler into the empty classifier panics in `SetString` instead of returning
nil, and no record is collected. -/
theorem decode_panics_on_unexported_field :
    preflight hiddenFieldType sampleDoc.Meta =
        .ok [("ref-type", 2), ("ref-name", 1), ("ref-code", 0)] ∧
      (∀ dr ∈ sampleDoc.Records, ∀ p ∈ dr.AttrVals,
        payloadFits hiddenFieldType [("ref-type", 2), ("ref-name", 1), ("ref-code", 0)] p =
          true) ∧
      ((NewDecoder (some 0) : Decoder Nat Unit).Decode (parseAs sampleDoc)
        (some hiddenFieldType) (some emptyClassifier) ()).result =
        .panic "reflect: reflect.Value.SetString using value obtained using unexported field" ∧
      ((NewDecoder (some 0) : Decoder Nat Unit).Decode (parseAs sampleDoc)
        (some hiddenFieldType) (some emptyClassifier) ()).result ≠ .ret none ∧
      (((NewDecoder (some 0) : Decoder Nat Unit).Decode (parseAs sampleDoc)
        (some hiddenFieldType) (some emptyClassifier) ()).c.map (fun c => c.Records)) =
        some [] := by
  refine ⟨rfl, by decide, rfl, by decide, rfl⟩

/-- C1, amended. When the pre-flight check passes, every field that carries an `esnsi` tag is
exported, and every pair bound to a field carries a payload of that field's kind, `Decode`
without a handler into a classifier with empty `Records` returns nil, and `Records` then has
one element per input record, in source order, the i-th being the decoding of the i-th input
record. -/
theorem decode_collects_every_record {ρ σ : Type}
    (xmlDecode : ρ → Except GoError cnsiDoc × ρ) (typ : RType) (d : Decoder ρ σ)
    (c0 : Classifier) (env : σ) (r r1 : ρ) (doc : cnsiDoc) (idx : List (String × Nat))
    (hk : typ.Kind = Kind.Struct) (hr : d.r = some r) (hx : xmlDecode r = (.ok doc, r1))
    (hh : d.handler = none) (hc : c0.Records = [])
    (hpre : preflight typ doc.Meta = .ok idx) (hexp : taggedExported typ)
    (hfit : ∀ dr ∈ doc.Records, ∀ p ∈ dr.AttrVals, payloadFits typ idx p = true) :
    (d.Decode xmlDecode (some typ) (some c0) env).result = .ret none ∧
      ∃ c, (d.Decode xmlDecode (some typ) (some c0) env).c = some c ∧
        c.Records.length = doc.Records.length ∧
        List.Forall₂ (fun dr rec => decodeRecord typ idx dr = .ok rec) doc.Records c.Records := by
  have hall : ∀ dr ∈ doc.Records, ∃ rec, decodeRecord typ idx dr = .ok rec := fun dr hdr =>
    setAttrVals_ok_of_fits typ doc.Meta idx hpre hexp dr.AttrVals (hfit dr hdr) (zeroRecord typ)
  have hforall := decodedPrefix_all typ idx doc.Records hall
  rw [Decode_parsed xmlDecode typ d c0 env r r1 doc hk hr hx,
    unmarshal_preflight_ok d typ c0 doc env idx hpre, hh]
  refine ⟨recordLoop_nohandler_ok typ idx doc.Records 0 _ hall, _, rfl, ?_, ?_⟩
  · rw [recordLoop_nohandler_state]
    simp [hc, hforall.length_eq]
  · rw [recordLoop_nohandler_state]
    simpa [hc] using hforall

/-- C1, on the sample document: both records are collected, in order. -/
theorem decode_collects_every_record_witness :
    ((NewDecoder (some 0) : Decoder Nat Unit).Decode (parseAs sampleDoc) (some sampleType)
        (some emptyClassifier) ()).result = .ret none ∧
      ∃ c, ((NewDecoder (some 0) : Decoder Nat Unit).Decode (parseAs sampleDoc)
          (some sampleType) (some emptyClassifier) ()).c = some c ∧
        c.Records.length = sampleDoc.Records.length ∧
        List.Forall₂
          (fun dr rec =>
            decodeRecord sampleType [("ref-type", 2), ("ref-name", 1), ("ref-code", 0)] dr =
              .ok rec)
          sampleDoc.Records c.Records :=
  decode_collects_every_record (parseAs sampleDoc) sampleType (NewDecoder (some 0))
    emptyClassifier () 0 1 sampleDoc [("ref-type", 2), ("ref-name", 1), ("ref-code", 0)]
    rfl rfl rfl rfl rfl rfl (by decide) (by decide)

/-- C2, counterexample. In the clashing schema the field `Code` has kind int while its bound
attribute `Code` is a string attribute, and yet `Decode` returns nil. -/
theorem kind_mismatch_undetected :
    (⟨"Code", Kind.Int, "Code", ""⟩ : StructField) ∈ clashType.Fields ∧
      boundAttr "Code" (declaredAttrs clashDoc.Meta) = some ("ref-1", Kind.String) ∧
      Kind.Int ≠ Kind.String ∧
      ((NewDecoder (some 0) : Decoder Nat Unit).Decode (parseAs clashDoc) (some clashType)
        (some emptyClassifier) ()).result = .ret none := by
  decide

/-- C2, amended. A tagged field whose kind differs from the declared kind of its bound
attribute makes `Decode` return an error, provided every declaration that carries the bound
attribute's reference id has that same kind; when every field declared before it passes the
pre-flight check, the error names the field, its kind, the expected kind, the attribute name
and the reference id. -/
theorem kind_mismatch_rejected {ρ σ : Type}
    (xmlDecode : ρ → Except GoError cnsiDoc × ρ) (typ : RType) (d : Decoder ρ σ)
    (c0 : Classifier) (env : σ) (r r1 : ρ) (doc : cnsiDoc) (f : StructField) (uid : String)
    (kind : Kind)
    (hk : typ.Kind = Kind.Struct) (hr : d.r = some r) (hx : xmlDecode r = (.ok doc, r1))
    (hf : f ∈ typ.Fields) (htag : f.Tag ≠ "")
    (hb : boundAttr f.Tag (declaredAttrs doc.Meta) = some (uid, kind))
    (huniq : ∀ a ∈ declaredAttrs doc.Meta, a.2.1 = uid → a.2.2 = kind)
    (hne : f.Kind ≠ kind) :
    (∃ e, (d.Decode xmlDecode (some typ) (some c0) env).result = .ret (some e)) ∧
      ∀ pre post, typ.Fields = pre ++ f :: post →
        (∀ g ∈ pre, ∃ o,
          checkField (attrIndexes doc.Meta).1 (attrIndexes doc.Meta).2 g = .ok o) →
        (d.Decode xmlDecode (some typ) (some c0) env).result =
          .ret (some (.new ("field " ++ f.Name ++ " has type " ++ kindString f.Kind ++
            ", expected " ++ kindString kind ++ " for attribute " ++ f.Tag ++ " with Ref " ++
            uid))) := by
  have hcheck := checkField_mismatch doc.Meta f uid kind htag hb huniq hne
  rw [Decode_parsed xmlDecode typ d c0 env r r1 doc hk hr hx]
  constructor
  · obtain ⟨e1, he1⟩ := unmarshal_of_failing_field d typ c0 doc env f _ hf hcheck
    exact ⟨e1, by rw [he1]⟩
  · intro pre post hsplit hpre
    rw [unmarshal_of_first_failing_field d typ c0 doc env pre post f _ hsplit hpre hcheck]

/-- C2, on the sample document: the string field `OfficeType` is bound to an integer
attribute. -/
theorem kind_mismatch_rejected_witness :
    (∃ e, ((NewDecoder (some 0) : Decoder Nat Unit).Decode (parseAs sampleDoc)
        (some wrongKindType) (some emptyClassifier) ()).result = .ret (some e)) ∧
      ∀ pre post, wrongKindType.Fields = pre ++ ⟨"OfficeType", Kind.String, "OfficeType", ""⟩ :: post →
        (∀ g ∈ pre, ∃ o,
          checkField (attrIndexes sampleDoc.Meta).1 (attrIndexes sampleDoc.Meta).2 g = .ok o) →
        ((NewDecoder (some 0) : Decoder Nat Unit).Decode (parseAs sampleDoc)
          (some wrongKindType) (some emptyClassifier) ()).result =
          .ret (some (.new ("field " ++ "OfficeType" ++ " has type " ++ kindString Kind.String ++
            ", expected " ++ kindString Kind.Int ++ " for attribute " ++ "OfficeType" ++
            " with Ref " ++ "ref-type"))) :=
  kind_mismatch_rejected (parseAs sampleDoc) wrongKindType (NewDecoder (some 0))
    emptyClassifier () 0 1 sampleDoc ⟨"OfficeType", Kind.String, "OfficeType", ""⟩ "ref-type"
    Kind.Int rfl rfl rfl (by decide) (by decide) (by decide) (by decide) (by decide)

/-- C3. A tagged field whose tag names an attribute declared in none of the three attribute
lists makes `Decode` return an error; when every field declared before it passes the
pre-flight check, the error is `attribute <name> not found in classifier`. -/
theorem unknown_attribute_rejected {ρ σ : Type}
    (xmlDecode : ρ → Except GoError cnsiDoc × ρ) (typ : RType) (d : Decoder ρ σ)
    (c0 : Classifier) (env : σ) (r r1 : ρ) (doc : cnsiDoc) (f : StructField)
    (hk : typ.Kind = Kind.Struct) (hr : d.r = some r) (hx : xmlDecode r = (.ok doc, r1))
    (hf : f ∈ typ.Fields) (htag : f.Tag ≠ "")
    (hs : ∀ a ∈ doc.Meta.StringAttrs, a.Name ≠ f.Tag)
    (ht : ∀ a ∈ doc.Meta.TextAttrs, a.Name ≠ f.Tag)
    (hi : ∀ a ∈ doc.Meta.IntegerAttrs, a.Name ≠ f.Tag) :
    (∃ e, (d.Decode xmlDecode (some typ) (some c0) env).result = .ret (some e)) ∧
      ∀ pre post, typ.Fields = pre ++ f :: post →
        (∀ g ∈ pre, ∃ o,
          checkField (attrIndexes doc.Meta).1 (attrIndexes doc.Meta).2 g = .ok o) →
        (d.Decode xmlDecode (some typ) (some c0) env).result =
          .ret (some (.new ("attribute " ++ f.Tag ++ " not found in classifier"))) := by
  have hcheck := checkField_unknown doc.Meta f htag
    (boundAttr_declaredAttrs_none doc.Meta f.Tag hs ht hi)
  rw [Decode_parsed xmlDecode typ d c0 env r r1 doc hk hr hx]
  constructor
  · obtain ⟨e1, he1⟩ := unmarshal_of_failing_field d typ c0 doc env f _ hf hcheck
    exact ⟨e1, by rw [he1]⟩
  · intro pre post hsplit hpre
    rw [unmarshal_of_first_failing_field d typ c0 doc env pre post f _ hsplit hpre hcheck]

/-- C3, on the sample document: the tag `RegionTitle` names no declared attribute. -/
theorem unknown_attribute_rejected_witness :
    (∃ e, ((NewDecoder (some 0) : Decoder Nat Unit).Decode (parseAs sampleDoc)
        (some unknownAttrType) (some emptyClassifier) ()).result = .ret (some e)) ∧
      ∀ pre post,
        unknownAttrType.Fields = pre ++ ⟨"RegionName", Kind.String, "RegionTitle", ""⟩ :: post →
        (∀ g ∈ pre, ∃ o,
          checkField (attrIndexes sampleDoc.Meta).1 (attrIndexes sampleDoc.Meta).2 g = .ok o) →
        ((NewDecoder (some 0) : Decoder Nat Unit).Decode (parseAs sampleDoc)
          (some unknownAttrType) (some emptyClassifier) ()).result =
          .ret (some (.new ("attribute " ++ "RegionTitle" ++ " not found in classifier"))) :=
  unknown_attribute_rejected (parseAs sampleDoc) unknownAttrType (NewDecoder (some 0))
    emptyClassifier () 0 1 sampleDoc ⟨"RegionName", Kind.String, "RegionTitle", ""⟩
    rfl rfl rfl (by decide) (by decide) (by decide) (by decide) (by decide)

/-- C4. When some field of the record type fails the pre-flight check, `Decode` returns an
error without processing any record: the handler is not called, and the classifier (name,
code, uid, version and records) and the handler state are what they were before the call. -/
theorem preflight_failure_leaves_classifier {ρ σ : Type}
    (xmlDecode : ρ → Except GoError cnsiDoc × ρ) (typ : RType) (d : Decoder ρ σ)
    (c0 : Classifier) (env : σ) (r r1 : ρ) (doc : cnsiDoc) (f : StructField) (e : GoError)
    (hk : typ.Kind = Kind.Struct) (hr : d.r = some r) (hx : xmlDecode r = (.ok doc, r1))
    (hf : f ∈ typ.Fields)
    (hfail : checkField (attrIndexes doc.Meta).1 (attrIndexes doc.Meta).2 f = .error e) :
    (∃ e1, (d.Decode xmlDecode (some typ) (some c0) env).result = .ret (some e1)) ∧
      (d.Decode xmlDecode (some typ) (some c0) env).calls = [] ∧
      (d.Decode xmlDecode (some typ) (some c0) env).c = some c0 ∧
      (d.Decode xmlDecode (some typ) (some c0) env).env = env := by
  obtain ⟨e1, he1⟩ := unmarshal_of_failing_field d typ c0 doc env f e hf hfail
  rw [Decode_parsed xmlDecode typ d c0 env r r1 doc hk hr hx, he1]
  exact ⟨⟨e1, rfl⟩, rfl, rfl, rfl⟩

/-- C4, on the sample document with a collecting handler: nothing is collected and the
classifier stays empty. -/
theorem preflight_failure_leaves_classifier_witness :
    (∃ e1, (((NewDecoder (some 0) : Decoder Nat (List Record)).WithHandler
        (some collectHandler)).Decode (parseAs sampleDoc) (some wrongKindType)
        (some emptyClassifier) []).result = .ret (some e1)) ∧
      (((NewDecoder (some 0) : Decoder Nat (List Record)).WithHandler
        (some collectHandler)).Decode (parseAs sampleDoc) (some wrongKindType)
        (some emptyClassifier) []).calls = [] ∧
      (((NewDecoder (some 0) : Decoder Nat (List Record)).WithHandler
        (some collectHandler)).Decode (parseAs sampleDoc) (some wrongKindType)
        (some emptyClassifier) []).c = some emptyClassifier ∧
      (((NewDecoder (some 0) : Decoder Nat (List Record)).WithHandler
        (some collectHandler)).Decode (parseAs sampleDoc) (some wrongKindType)
        (some emptyClassifier) []).env = [] :=
  preflight_failure_leaves_classifier (parseAs sampleDoc) wrongKindType
    ((NewDecoder (some 0)).WithHandler (some collectHandler)) emptyClassifier [] 0 1 sampleDoc
    ⟨"OfficeType", Kind.String, "OfficeType", ""⟩
    (.new "field OfficeType has type string, expected int for attribute OfficeType with Ref ref-type")
    rfl rfl rfl (by decide) rfl

/-- C5, counterexample. Two inputs. In the first the pair `ref-high` is bound to an int
field and carries no integer payload, but the error `Decode` returns names the earlier pair
`ref-low`, not `ref-high`. In the second the pair `ref-type` is bound to the unexported int
field `officeType` and carries the integer payload 2: the field is not set, `SetInt` panics
and so does `Decode`. -/
theorem int_error_names_first_failing_pair :
    ((⟨"ref-high", none, none, none⟩ : cnsiAttrVal) ∈
        (⟨"r0", [⟨"ref-low", none, none, none⟩, ⟨"ref-high", none, none, none⟩]⟩ :
          cnsiRecord).AttrVals ∧
      preflight pairsType twoBadIntsDoc.Meta =
        .ok [("ref-second", 3), ("ref-first", 2), ("ref-high", 1), ("ref-low", 0)] ∧
      pairsType.Fields.get? 1 = some ⟨"High", Kind.Int, "High", ""⟩ ∧
      ((NewDecoder (some 0) : Decoder Nat Unit).Decode (parseAs twoBadIntsDoc) (some pairsType)
        (some emptyClassifier) ()).result =
        .ret (some (.new "integer value for attribute ref-low is not set")) ∧
      ((NewDecoder (some 0) : Decoder Nat Unit).Decode (parseAs twoBadIntsDoc) (some pairsType)
        (some emptyClassifier) ()).result ≠
        .ret (some (.new "integer value for attribute ref-high is not set"))) ∧
    ((⟨"ref-type", some ⟨2⟩, none, none⟩ : cnsiAttrVal) ∈ sampleRecord.AttrVals ∧
      preflight hiddenIntType sampleDoc.Meta =
        .ok [("ref-type", 2), ("ref-name", 1), ("ref-code", 0)] ∧
      hiddenIntType.Fields.get? 2 = some ⟨"officeType", Kind.Int, "OfficeType", "main"⟩ ∧
      setAttrVal hiddenIntType [("ref-type", 2), ("ref-name", 1), ("ref-code", 0)]
        ⟨"ref-type", some ⟨2⟩, none, none⟩ (zeroRecord hiddenIntType) =
        .error (.panic "reflect: reflect.Value.SetInt using value obtained using unexported field") ∧
      ((NewDecoder (some 0) : Decoder Nat Unit).Decode (parseAs sampleDoc)
        (some hiddenIntType) (some emptyClassifier) ()).result =
        .panic "reflect: reflect.Value.SetInt using value obtained using unexported field") := by
  refine ⟨⟨by decide, rfl, rfl, rfl, by decide⟩, ⟨by decide, rfl, rfl, rfl, rfl⟩⟩

/-- C5, amended. For a pair bound to an int field, when the decoder processes it: with an
integer payload and an exported field the field is set to that integer and no other field
changes (on an unexported field `SetInt` panics); without an integer payload the step
returns the error `integer value for attribute <ref> is not set`. A document holding such a
pair without integer payload never decodes (`Decode` returns an error when every tagged
field is exported), and `Decode` returns that very error when the pair is the first at which
decoding fails (the records before it were decoded and dispatched without error, and so were
the pairs before it in its record). -/
theorem int_pair_decoding {ρ σ : Type}
    (xmlDecode : ρ → Except GoError cnsiDoc × ρ) (typ : RType) (d : Decoder ρ σ)
    (c0 : Classifier) (env : σ) (r r1 : ρ) (doc : cnsiDoc) (idx : List (String × Nat))
    (p : cnsiAttrVal) (i : Nat) (field : StructField)
    (hk : typ.Kind = Kind.Struct) (hr : d.r = some r) (hx : xmlDecode r = (.ok doc, r1))
    (hpre : preflight typ doc.Meta = .ok idx)
    (hb : mapGet idx p.AttrRef = some i) (hfield : typ.Fields.get? i = some field)
    (hint : field.Kind = Kind.Int) :
    (field.PkgPath = "" → ∀ n val, p.IntegerVal = some n → val.length = typ.Fields.length →
      ∃ v, setAttrVal typ idx p val = .ok v ∧ v.get? i = some (.int n.Val) ∧
        ∀ j, j ≠ i → v.get? j = val.get? j) ∧
    (field.PkgPath ≠ "" → ∀ n val, p.IntegerVal = some n →
      setAttrVal typ idx p val =
        .error (.panic "reflect: reflect.Value.SetInt using value obtained using unexported field")) ∧
    (p.IntegerVal = none →
      (∀ val, setAttrVal typ idx p val =
        .error (.err (.new ("integer value for attribute " ++ p.AttrRef ++ " is not set")))) ∧
      ((∃ dr ∈ doc.Records, p ∈ dr.AttrVals) →
        (d.Decode xmlDecode (some typ) (some c0) env).result ≠ .ret none ∧
        (taggedExported typ →
          ∃ e, (d.Decode xmlDecode (some typ) (some c0) env).result = .ret (some e))) ∧
      (∀ pre post uid ps qs val, doc.Records = pre ++ ⟨uid, ps ++ p :: qs⟩ :: post →
        (d.unmarshal typ c0 { doc with Records := pre } env).1 = .ret none →
        setAttrVals typ idx ps (zeroRecord typ) = .ok val →
        (d.Decode xmlDecode (some typ) (some c0) env).result =
          .ret (some (.new ("integer value for attribute " ++ p.AttrRef ++ " is not set"))))) := by
  refine ⟨?_, ?_, ?_⟩
  · intro hexp n val hn hlen
    have hlt := field_lt_of_get typ i field val hfield hlen
    refine ⟨val.set i (.int n.Val), ?_, (set_field val i _ hlt).1, (set_field val i _ hlt).2⟩
    rw [setAttrVal_int typ idx p i field val hb hfield hint hexp, hn]
  · intro hexp n val hn
    simp only [setAttrVal, hb, hfield, hint, hn, reflectSet_unexported _ _ _ _ _ hexp]
    rfl
  · intro hnone
    have hstep : ∀ val, setAttrVal typ idx p val =
        .error (.err (.new ("integer value for attribute " ++ p.AttrRef ++ " is not set"))) :=
      fun val => setAttrVal_int_missing typ idx p i field val hb hfield hint hnone
    rw [Decode_parsed xmlDecode typ d c0 env r r1 doc hk hr hx]
    refine ⟨hstep, ?_, ?_⟩
    · rintro ⟨dr, hdr, hp⟩
      exact ⟨unmarshal_not_nil_of_bad_pair d typ c0 doc env idx hpre dr hdr p hp
          (fun val => ⟨_, hstep val⟩),
        fun hexp => unmarshal_fails_of_bad_pair d typ c0 doc env idx hpre hexp dr hdr p hp
          (fun val => ⟨_, hstep val⟩)⟩
    · intro pre post uid ps qs val hsplit hearlier hps
      exact unmarshal_first_failing_pair d typ c0 doc env idx hpre pre post uid ps qs p val _
        hsplit hearlier hps (hstep val)

/-- C5, on the sample inputs: the integer pair of the sample record sets the field
`OfficeType` of a fresh record to 2 and leaves the other fields alone, and the broken
document, whose first failing pair is the integer pair of the second record, is rejected
with the error naming that pair. -/
theorem int_pair_decoding_witness :
    (∃ v, setAttrVal sampleType [("ref-type", 2), ("ref-name", 1), ("ref-code", 0)]
        ⟨"ref-type", some ⟨2⟩, none, none⟩ (zeroRecord sampleType) = .ok v ∧
        v.get? 2 = some (.int 2) ∧
        ∀ j, j ≠ 2 → v.get? j = (zeroRecord sampleType).get? j) ∧
      (plainDecoder.Decode (parseAs brokenDoc) (some sampleType) (some emptyClassifier) ()).result =
        .ret (some (.new ("integer value for attribute " ++ typePairWithoutInteger.AttrRef ++
          " is not set"))) :=
  ⟨(int_pair_decoding (parseAs sampleDoc) sampleType plainDecoder emptyClassifier () 0 1
      sampleDoc [("ref-type", 2), ("ref-name", 1), ("ref-code", 0)]
      ⟨"ref-type", some ⟨2⟩, none, none⟩ 2 ⟨"OfficeType", Kind.Int, "OfficeType", ""⟩
      rfl rfl rfl rfl rfl rfl rfl).1 rfl ⟨2⟩ (zeroRecord sampleType) rfl rfl,
   ((int_pair_decoding (parseAs brokenDoc) sampleType plainDecoder emptyClassifier () 0 1
      brokenDoc [("ref-type", 2), ("ref-name", 1), ("ref-code", 0)]
      typePairWithoutInteger 2 ⟨"OfficeType", Kind.Int, "OfficeType", ""⟩
      rfl rfl rfl rfl rfl rfl rfl).2.2 rfl).2.2 [sampleRecord] [shortRecord] "r2"
      [⟨"ref-code", none, none, some ⟨"059"⟩⟩] [] [.str "059", .str "", .int 0, .str ""]
      rfl rfl rfl⟩

/-- C6, counterexample. The second record of the broken document has an integer pair without
integer payload; `Decode` without a handler into the empty classifier fails, and the first
record stays in `Records`. -/
theorem records_kept_after_failure :
    brokenDoc.Records.get? 1 = some brokenRecord ∧
      (⟨"ref-type", none, none, some ⟨"2"⟩⟩ : cnsiAttrVal) ∈ brokenRecord.AttrVals ∧
      preflight sampleType brokenDoc.Meta =
        .ok [("ref-type", 2), ("ref-name", 1), ("ref-code", 0)] ∧
      sampleType.Fields.get? 2 = some ⟨"OfficeType", Kind.Int, "OfficeType", ""⟩ ∧
      ((NewDecoder (some 0) : Decoder Nat Unit).Decode (parseAs brokenDoc) (some sampleType)
        (some emptyClassifier) ()).result =
        .ret (some (.new "integer value for attribute ref-type is not set")) ∧
      (((NewDecoder (some 0) : Decoder Nat Unit).Decode (parseAs brokenDoc) (some sampleType)
        (some emptyClassifier) ()).c.map (fun c => c.Records)) =
        some [[.str "210", .str "Tatarstan", .int 2, .str ""]] := by
  refine ⟨rfl, by decide, rfl, rfl, rfl, rfl⟩

/-- C6, amended. When some record holds a pair bound to an int field without an integer
payload, `Decode` without a handler into a classifier with empty `Records` does not succeed:
it returns an error when every tagged field is exported (otherwise `reflect` can panic on an
earlier pair), and `Records` is left holding exactly the decodings, in source order, of the
records that come before the first record whose decoding fails: neither the offending record
nor any later one is in it. -/
theorem missing_integer_keeps_earlier_records {ρ σ : Type}
    (xmlDecode : ρ → Except GoError cnsiDoc × ρ) (typ : RType) (d : Decoder ρ σ)
    (c0 : Classifier) (env : σ) (r r1 : ρ) (doc : cnsiDoc) (idx : List (String × Nat))
    (n : Nat) (dr : cnsiRecord) (p : cnsiAttrVal) (i : Nat) (field : StructField)
    (hk : typ.Kind = Kind.Struct) (hr : d.r = some r) (hx : xmlDecode r = (.ok doc, r1))
    (hh : d.handler = none) (hc : c0.Records = [])
    (hpre : preflight typ doc.Meta = .ok idx)
    (hn : doc.Records.get? n = some dr) (hp : p ∈ dr.AttrVals)
    (hb : mapGet idx p.AttrRef = some i) (hfield : typ.Fields.get? i = some field)
    (hint : field.Kind = Kind.Int) (hmiss : p.IntegerVal = none) :
    (d.Decode xmlDecode (some typ) (some c0) env).result ≠ .ret none ∧
      (taggedExported typ →
        ∃ e, (d.Decode xmlDecode (some typ) (some c0) env).result = .ret (some e)) ∧
      ∃ c, (d.Decode xmlDecode (some typ) (some c0) env).c = some c ∧
        c.Records = decodedPrefix typ idx doc.Records ∧
        c.Records.length ≤ n ∧
        ∀ k rec, c.Records.get? k = some rec →
          ∃ drk, doc.Records.get? k = some drk ∧ decodeRecord typ idx drk = .ok rec := by
  have hstep : ∀ val, ∃ f, setAttrVal typ idx p val = .error f := fun val =>
    ⟨_, setAttrVal_int_missing typ idx p i field val hb hfield hint hmiss⟩
  have hdr : dr ∈ doc.Records := List.get?_mem hn
  obtain ⟨f, hf⟩ := setAttrVals_error_of_mem typ idx dr.AttrVals p hp hstep (zeroRecord typ)
  rw [Decode_parsed xmlDecode typ d c0 env r r1 doc hk hr hx]
  refine ⟨unmarshal_not_nil_of_bad_pair d typ c0 doc env idx hpre dr hdr p hp hstep,
    fun hexp => unmarshal_fails_of_bad_pair d typ c0 doc env idx hpre hexp dr hdr p hp hstep,
    _, rfl, ?_⟩
  have hrec : (d.unmarshal typ c0 doc env).2.c.Records = decodedPrefix typ idx doc.Records := by
    rw [unmarshal_preflight_ok d typ c0 doc env idx hpre, hh, recordLoop_nohandler_state]
    simp [hc]
  rw [hrec]
  exact ⟨rfl, decodedPrefix_length_le typ idx doc.Records n dr f hn hf,
    fun k rec hk1 => decodedPrefix_get typ idx doc.Records k rec hk1⟩

/-- C6, on the broken document: the failure leaves the decoding of the first record in
`Records`. -/
theorem missing_integer_keeps_earlier_records_witness :
    (∃ e, (plainDecoder.Decode (parseAs brokenDoc) (some sampleType) (some emptyClassifier)
        ()).result = .ret (some e)) ∧
      ∃ c, (plainDecoder.Decode (parseAs brokenDoc) (some sampleType) (some emptyClassifier)
          ()).c = some c ∧
        c.Records = decodedPrefix sampleType [("ref-type", 2), ("ref-name", 1), ("ref-code", 0)]
          brokenDoc.Records ∧
        c.Records.length ≤ 1 ∧
        ∀ k rec, c.Records.get? k = some rec →
          ∃ drk, brokenDoc.Records.get? k = some drk ∧
            decodeRecord sampleType [("ref-type", 2), ("ref-name", 1), ("ref-code", 0)] drk =
              .ok rec :=
  ⟨(missing_integer_keeps_earlier_records (parseAs brokenDoc) sampleType plainDecoder
      emptyClassifier () 0 1 brokenDoc [("ref-type", 2), ("ref-name", 1), ("ref-code", 0)] 1
      brokenRecord typePairWithoutInteger 2 ⟨"OfficeType", Kind.Int, "OfficeType", ""⟩
      rfl rfl rfl rfl rfl rfl rfl (by decide) rfl rfl rfl rfl).2.1 (by decide),
    (missing_integer_keeps_earlier_records (parseAs brokenDoc) sampleType plainDecoder
      emptyClassifier () 0 1 brokenDoc [("ref-type", 2), ("ref-name", 1), ("ref-code", 0)] 1
      brokenRecord typePairWithoutInteger 2 ⟨"OfficeType", Kind.Int, "OfficeType", ""⟩
      rfl rfl rfl rfl rfl rfl rfl (by decide) rfl rfl rfl rfl).2.2⟩
/-- C7, counterexample. Two inputs. In the first the pair `ref-second` is bound to a string
field and carries neither a string nor a text payload, but the error `Decode` returns names
the earlier pair `ref-first`, not `ref-second`. In the second the pair `ref-code` is bound to
the unexported string field `toSfrCode` and carries the string payload `210`: the field is
not set, `SetString` panics and so does `Decode`. -/
theorem string_error_names_first_failing_pair :
    ((⟨"ref-second", some ⟨7⟩, none, none⟩ : cnsiAttrVal) ∈
        (⟨"r0", [⟨"ref-first", none, none, none⟩, ⟨"ref-second", some ⟨7⟩, none, none⟩]⟩ :
          cnsiRecord).AttrVals ∧
      preflight pairsType twoBadStringsDoc.Meta =
        .ok [("ref-second", 3), ("ref-first", 2), ("ref-high", 1), ("ref-low", 0)] ∧
      pairsType.Fields.get? 3 = some ⟨"Second", Kind.String, "Second", ""⟩ ∧
      ((NewDecoder (some 0) : Decoder Nat Unit).Decode (parseAs twoBadStringsDoc)
        (some pairsType) (some emptyClassifier) ()).result =
        .ret (some (.new "string value for attribute ref-first is not set")) ∧
      ((NewDecoder (some 0) : Decoder Nat Unit).Decode (parseAs twoBadStringsDoc)
        (some pairsType) (some emptyClassifier) ()).result ≠
        .ret (some (.new "string value for attribute ref-second is not set"))) ∧
    ((⟨"ref-code", none, none, some ⟨"210"⟩⟩ : cnsiAttrVal) ∈ sampleRecord.AttrVals ∧
      preflight hiddenFieldType sampleDoc.Meta =
        .ok [("ref-type", 2), ("ref-name", 1), ("ref-code", 0)] ∧
      hiddenFieldType.Fields.get? 0 = some ⟨"toSfrCode", Kind.String, "ToSfrCode", "main"⟩ ∧
      setAttrVal hiddenFieldType [("ref-type", 2), ("ref-name", 1), ("ref-code", 0)]
        ⟨"ref-code", none, none, some ⟨"210"⟩⟩ (zeroRecord hiddenFieldType) =
        .error (.panic
          "reflect: reflect.Value.SetString using value obtained using unexported field") ∧
      ((NewDecoder (some 0) : Decoder Nat Unit).Decode (parseAs sampleDoc)
        (some hiddenFieldType) (some emptyClassifier) ()).result =
        .panic "reflect: reflect.Value.SetString using value obtained using unexported field") := by
  refine ⟨⟨by decide, rfl, rfl, rfl, by decide⟩, ⟨by decide, rfl, rfl, rfl, rfl⟩⟩

/-- C7, amended. For a pair bound to a string field, when the decoder processes it: on an
exported field, with a string payload the field is set to the string payload (also when a
text payload is present too), with a text payload only the field is set to the text payload,
and no other field changes (on an unexported field `SetString` panics); with neither payload
(even with an integer payload) the step returns the error
`string value for attribute <ref> is not set`. A document holding such a pair without string
and text payload never decodes (`Decode` returns an error when every tagged field is
exported), and `Decode` returns that very error when the pair is the first at which decoding
fails. -/
theorem string_pair_decoding {ρ σ : Type}
    (xmlDecode : ρ → Except GoError cnsiDoc × ρ) (typ : RType) (d : Decoder ρ σ)
    (c0 : Classifier) (env : σ) (r r1 : ρ) (doc : cnsiDoc) (idx : List (String × Nat))
    (p : cnsiAttrVal) (i : Nat) (field : StructField)
    (hk : typ.Kind = Kind.Struct) (hr : d.r = some r) (hx : xmlDecode r = (.ok doc, r1))
    (hpre : preflight typ doc.Meta = .ok idx)
    (hb : mapGet idx p.AttrRef = some i) (hfield : typ.Fields.get? i = some field)
    (hstr : field.Kind = Kind.String) :
    (field.PkgPath = "" → ∀ s val, p.StringVal = some s → val.length = typ.Fields.length →
      ∃ v, setAttrVal typ idx p val = .ok v ∧ v.get? i = some (.str s.Val) ∧
        ∀ j, j ≠ i → v.get? j = val.get? j) ∧
    (field.PkgPath = "" → ∀ t val, p.StringVal = none → p.TextVal = some t →
      val.length = typ.Fields.length →
      ∃ v, setAttrVal typ idx p val = .ok v ∧ v.get? i = some (.str t.Val) ∧
        ∀ j, j ≠ i → v.get? j = val.get? j) ∧
    (field.PkgPath ≠ "" → ∀ val, (p.StringVal ≠ none ∨ p.TextVal ≠ none) →
      setAttrVal typ idx p val =
        .error (.panic
          "reflect: reflect.Value.SetString using value obtained using unexported field")) ∧
    (p.StringVal = none → p.TextVal = none →
      (∀ val, setAttrVal typ idx p val =
        .error (.err (.new ("string value for attribute " ++ p.AttrRef ++ " is not set")))) ∧
      ((∃ dr ∈ doc.Records, p ∈ dr.AttrVals) →
        (d.Decode xmlDecode (some typ) (some c0) env).result ≠ .ret none ∧
        (taggedExported typ →
          ∃ e, (d.Decode xmlDecode (some typ) (some c0) env).result = .ret (some e))) ∧
      (∀ pre post uid ps qs val, doc.Records = pre ++ ⟨uid, ps ++ p :: qs⟩ :: post →
        (d.unmarshal typ c0 { doc with Records := pre } env).1 = .ret none →
        setAttrVals typ idx ps (zeroRecord typ) = .ok val →
        (d.Decode xmlDecode (some typ) (some c0) env).result =
          .ret (some (.new ("string value for attribute " ++ p.AttrRef ++ " is not set"))))) := by
  refine ⟨?_, ?_, ?_, ?_⟩
  · intro hexp s val hs hlen
    have hlt := field_lt_of_get typ i field val hfield hlen
    refine ⟨val.set i (.str s.Val), ?_, (set_field val i _ hlt).1, (set_field val i _ hlt).2⟩
    rw [setAttrVal_string typ idx p i field val hb hfield hstr hexp, hs]
  · intro hexp t val hs ht hlen
    have hlt := field_lt_of_get typ i field val hfield hlen
    refine ⟨val.set i (.str t.Val), ?_, (set_field val i _ hlt).1, (set_field val i _ hlt).2⟩
    rw [setAttrVal_string typ idx p i field val hb hfield hstr hexp, hs, ht]
  · intro hexp val hsome
    cases hs : p.StringVal with
    | some s =>
      simp only [setAttrVal, hb, hfield, hstr, hs, reflectSet_unexported _ _ _ _ _ hexp]
      rfl
    | none =>
      cases ht : p.TextVal with
      | some t =>
        simp only [setAttrVal, hb, hfield, hstr, hs, ht, reflectSet_unexported _ _ _ _ _ hexp]
        rfl
      | none =>
        rcases hsome with h | h
        · exact absurd hs h
        · exact absurd ht h
  · intro hs ht
    have hstep : ∀ val, setAttrVal typ idx p val =
        .error (.err (.new ("string value for attribute " ++ p.AttrRef ++ " is not set"))) :=
      fun val => setAttrVal_string_missing typ idx p i field val hb hfield hstr hs ht
    rw [Decode_parsed xmlDecode typ d c0 env r r1 doc hk hr hx]
    refine ⟨hstep, ?_, ?_⟩
    · rintro ⟨dr, hdr, hp⟩
      exact ⟨unmarshal_not_nil_of_bad_pair d typ c0 doc env idx hpre dr hdr p hp
          (fun val => ⟨_, hstep val⟩),
        fun hexp => unmarshal_fails_of_bad_pair d typ c0 doc env idx hpre hexp dr hdr p hp
          (fun val => ⟨_, hstep val⟩)⟩
    · intro pre post uid ps qs val hsplit hearlier hps
      exact unmarshal_first_failing_pair d typ c0 doc env idx hpre pre post uid ps qs p val _
        hsplit hearlier hps (hstep val)

/-- C7, on the sample inputs: the code pair (string payload) and the name pair (text payload)
of the sample record set their fields, and the document whose first failing pair is a code
pair with an integer payload only is rejected with the error naming that pair. -/
theorem string_pair_decoding_witness :
    (∃ v, setAttrVal sampleType [("ref-type", 2), ("ref-name", 1), ("ref-code", 0)]
        ⟨"ref-code", none, none, some ⟨"210"⟩⟩ (zeroRecord sampleType) = .ok v ∧
        v.get? 0 = some (.str "210") ∧
        ∀ j, j ≠ 0 → v.get? j = (zeroRecord sampleType).get? j) ∧
      (∃ v, setAttrVal sampleType [("ref-type", 2), ("ref-name", 1), ("ref-code", 0)]
        ⟨"ref-name", none, some ⟨"Tatarstan"⟩, none⟩ (zeroRecord sampleType) = .ok v ∧
        v.get? 1 = some (.str "Tatarstan") ∧
        ∀ j, j ≠ 1 → v.get? j = (zeroRecord sampleType).get? j) ∧
      (plainDecoder.Decode (parseAs codelessDoc) (some sampleType) (some emptyClassifier)
        ()).result =
        .ret (some (.new ("string value for attribute " ++ codePairWithoutString.AttrRef ++
          " is not set"))) :=
  ⟨(string_pair_decoding (parseAs sampleDoc) sampleType plainDecoder emptyClassifier () 0 1
      sampleDoc [("ref-type", 2), ("ref-name", 1), ("ref-code", 0)]
      ⟨"ref-code", none, none, some ⟨"210"⟩⟩ 0 ⟨"ToSfrCode", Kind.String, "ToSfrCode", ""⟩
      rfl rfl rfl rfl rfl rfl rfl).1 rfl ⟨"210"⟩ (zeroRecord sampleType) rfl rfl,
   (string_pair_decoding (parseAs sampleDoc) sampleType plainDecoder emptyClassifier () 0 1
      sampleDoc [("ref-type", 2), ("ref-name", 1), ("ref-code", 0)]
      ⟨"ref-name", none, some ⟨"Tatarstan"⟩, none⟩ 1 ⟨"RegionName", Kind.String, "RegionName", ""⟩
      rfl rfl rfl rfl rfl rfl rfl).2.1 rfl ⟨"Tatarstan"⟩ (zeroRecord sampleType) rfl rfl rfl,
   ((string_pair_decoding (parseAs codelessDoc) sampleType plainDecoder emptyClassifier () 0 1
      codelessDoc [("ref-type", 2), ("ref-name", 1), ("ref-code", 0)]
      codePairWithoutString 0 ⟨"ToSfrCode", Kind.String, "ToSfrCode", ""⟩
      rfl rfl rfl rfl rfl rfl rfl).2.2.2 rfl rfl).2.2 [sampleRecord] [] "r3" [] []
      (zeroRecord sampleType) rfl rfl rfl⟩

/-- C8. Pairs whose reference is bound to no field are ignored: decoding a document and
decoding it with all such pairs deleted end alike, with the same returned error or nil, the
same classifier (hence the same decoded records), the same handler state and the same
records passed to the handler; and the step on such a pair changes nothing and cannot
fail, whatever payload the pair carries or lacks. -/
theorem unbound_pairs_ignored {ρ σ : Type}
    (xmlDecode : ρ → Except GoError cnsiDoc × ρ) (typ : RType) (d : Decoder ρ σ)
    (c0 : Classifier) (env : σ) (r r1 r2 r3 : ρ) (doc : cnsiDoc)
    (hk : typ.Kind = Kind.Struct) (hr : d.r = some r) (hx : xmlDecode r = (.ok doc, r1))
    (hx2 : xmlDecode r2 = (.ok (dropUnbound (fieldIndex typ doc.Meta) doc), r3)) :
    (({ d with r := some r2 } : Decoder ρ σ).Decode xmlDecode (some typ) (some c0) env).result =
        (d.Decode xmlDecode (some typ) (some c0) env).result ∧
      (({ d with r := some r2 } : Decoder ρ σ).Decode xmlDecode (some typ) (some c0) env).c =
        (d.Decode xmlDecode (some typ) (some c0) env).c ∧
      (({ d with r := some r2 } : Decoder ρ σ).Decode xmlDecode (some typ) (some c0) env).env =
        (d.Decode xmlDecode (some typ) (some c0) env).env ∧
      (({ d with r := some r2 } : Decoder ρ σ).Decode xmlDecode (some typ) (some c0) env).calls =
        (d.Decode xmlDecode (some typ) (some c0) env).calls ∧
      ∀ p val, mapGet (fieldIndex typ doc.Meta) p.AttrRef = none →
        setAttrVal typ (fieldIndex typ doc.Meta) p val = .ok val := by
  have hun : ({ d with r := some r2 } : Decoder ρ σ).unmarshal typ c0
      (dropUnbound (fieldIndex typ doc.Meta) doc) env = d.unmarshal typ c0 doc env := by
    rw [unmarshal_congr_handler ({ d with r := some r2 } : Decoder ρ σ) d typ c0 _ env rfl]
    exact unmarshal_dropUnbound d typ c0 doc env
  rw [Decode_parsed xmlDecode typ d c0 env r r1 doc hk hr hx,
    Decode_parsed xmlDecode typ ({ d with r := some r2 } : Decoder ρ σ) c0 env r2 r3 _ hk rfl hx2,
    hun]
  exact ⟨rfl, rfl, rfl, rfl, fun p val hp => setAttrVal_unbound typ _ p val hp⟩

/-- C8, on the sample document, whose first record has the unbound pair `ref-other`. -/
theorem unbound_pairs_ignored_witness :
    (({ (NewDecoder (some (sampleDoc, 0)) : Decoder (cnsiDoc × Nat) Unit) with
          r := some (dropUnbound (fieldIndex sampleType sampleDoc.Meta) sampleDoc, 0) } :
          Decoder (cnsiDoc × Nat) Unit).Decode parseHeld (some sampleType)
          (some emptyClassifier) ()).result =
        ((NewDecoder (some (sampleDoc, 0)) : Decoder (cnsiDoc × Nat) Unit).Decode parseHeld
          (some sampleType) (some emptyClassifier) ()).result ∧
      (({ (NewDecoder (some (sampleDoc, 0)) : Decoder (cnsiDoc × Nat) Unit) with
          r := some (dropUnbound (fieldIndex sampleType sampleDoc.Meta) sampleDoc, 0) } :
          Decoder (cnsiDoc × Nat) Unit).Decode parseHeld (some sampleType)
          (some emptyClassifier) ()).c =
        ((NewDecoder (some (sampleDoc, 0)) : Decoder (cnsiDoc × Nat) Unit).Decode parseHeld
          (some sampleType) (some emptyClassifier) ()).c ∧
      (({ (NewDecoder (some (sampleDoc, 0)) : Decoder (cnsiDoc × Nat) Unit) with
          r := some (dropUnbound (fieldIndex sampleType sampleDoc.Meta) sampleDoc, 0) } :
          Decoder (cnsiDoc × Nat) Unit).Decode parseHeld (some sampleType)
          (some emptyClassifier) ()).env =
        ((NewDecoder (some (sampleDoc, 0)) : Decoder (cnsiDoc × Nat) Unit).Decode parseHeld
          (some sampleType) (some emptyClassifier) ()).env ∧
      (({ (NewDecoder (some (sampleDoc, 0)) : Decoder (cnsiDoc × Nat) Unit) with
          r := some (dropUnbound (fieldIndex sampleType sampleDoc.Meta) sampleDoc, 0) } :
          Decoder (cnsiDoc × Nat) Unit).Decode parseHeld (some sampleType)
          (some emptyClassifier) ()).calls =
        ((NewDecoder (some (sampleDoc, 0)) : Decoder (cnsiDoc × Nat) Unit).Decode parseHeld
          (some sampleType) (some emptyClassifier) ()).calls ∧
      ∀ p val, mapGet (fieldIndex sampleType sampleDoc.Meta) p.AttrRef = none →
        setAttrVal sampleType (fieldIndex sampleType sampleDoc.Meta) p val = .ok val :=
  unbound_pairs_ignored parseHeld sampleType (NewDecoder (some (sampleDoc, 0)))
    emptyClassifier () (sampleDoc, 0) (sampleDoc, 1)
    (dropUnbound (fieldIndex sampleType sampleDoc.Meta) sampleDoc, 0)
    (dropUnbound (fieldIndex sampleType sampleDoc.Meta) sampleDoc, 1) sampleDoc rfl rfl rfl rfl

/-- C9. Every record `Decode` produces (appended to `Records`, or passed to the handler) is
the decoding of the input record at the same position, and in it every field that no pair of
that input record targets holds its zero value: so does every field without an `esnsi` tag,
and a tagged field whose attribute has no pair in the record is the empty string or 0. -/
theorem untargeted_fields_stay_zero {ρ σ : Type}
    (xmlDecode : ρ → Except GoError cnsiDoc × ρ) (typ : RType) (d : Decoder ρ σ)
    (c0 : Classifier) (env : σ) (r r1 : ρ) (doc : cnsiDoc) (idx : List (String × Nat))
    (n : Nat) (rec : Record)
    (hk : typ.Kind = Kind.Struct) (hr : d.r = some r) (hx : xmlDecode r = (.ok doc, r1))
    (hpre : preflight typ doc.Meta = .ok idx)
    (hprod : (producedRecords d.handler c0
      (d.Decode xmlDecode (some typ) (some c0) env)).get? n = some rec) :
    ∃ dr, doc.Records.get? n = some dr ∧ decodeRecord typ idx dr = .ok rec ∧
      ∀ j field, typ.Fields.get? j = some field →
        ((∀ p ∈ dr.AttrVals, mapGet idx p.AttrRef ≠ some j) →
          rec.get? j = some (zeroValue field.Kind)) ∧
        (field.Tag = "" → rec.get? j = some (zeroValue field.Kind)) ∧
        (∀ uid, field.Tag ≠ "" → mapGet (attrIndexes doc.Meta).1 field.Tag = some uid →
          (∀ p ∈ dr.AttrVals, p.AttrRef ≠ uid) →
          rec.get? j = some (.str "") ∨ rec.get? j = some (.int 0)) := by
  rw [Decode_parsed xmlDecode typ d c0 env r r1 doc hk hr hx] at hprod
  have hpfx := produced_initial_segment d typ c0 doc env idx hpre (some r1)
  obtain ⟨dr, hdr, hdec⟩ := decodedPrefix_get typ idx doc.Records n rec
    (initial_segment_get _ _ hpfx n rec hprod)
  refine ⟨dr, hdr, hdec, ?_⟩
  intro j field hfield
  have hzero := decodeRecord_untargeted typ idx dr rec hdec j field hfield
  refine ⟨hzero, ?_, ?_⟩
  · intro htag
    apply hzero
    intro p _ hp
    obtain ⟨f, hf, hft, _⟩ := preflight_index typ doc.Meta idx hpre p.AttrRef j hp
    rw [hfield] at hf
    cases hf
    exact hft htag
  · intro uid htag huid hnone
    have hz : rec.get? j = some (zeroValue field.Kind) := by
      apply hzero
      intro p hpmem hp
      obtain ⟨f, hf, _, hfn, _⟩ := preflight_index typ doc.Meta idx hpre p.AttrRef j hp
      rw [hfield] at hf
      cases hf
      rw [huid] at hfn
      cases hfn
      exact hnone p hpmem rfl
    rcases preflight_tagged_kind typ doc.Meta idx hpre j field hfield htag with hkind | hkind
    · left
      rw [hz, hkind]
      rfl
    · right
      rw [hz, hkind]
      rfl

/-- C9, on the sample document with the collecting handler: the second record seen by the
handler comes from the record that has a code pair only. -/
theorem untargeted_fields_stay_zero_witness :
    ∃ dr, sampleDoc.Records.get? 1 = some dr ∧
      decodeRecord sampleType [("ref-type", 2), ("ref-name", 1), ("ref-code", 0)] dr =
        .ok [.str "201", .str "", .int 0, .str ""] ∧
      ∀ j field, sampleType.Fields.get? j = some field →
        ((∀ p ∈ dr.AttrVals,
            mapGet [("ref-type", 2), ("ref-name", 1), ("ref-code", 0)] p.AttrRef ≠ some j) →
          ([.str "201", .str "", .int 0, .str ""] : Record).get? j =
            some (zeroValue field.Kind)) ∧
        (field.Tag = "" →
          ([.str "201", .str "", .int 0, .str ""] : Record).get? j =
            some (zeroValue field.Kind)) ∧
        (∀ uid, field.Tag ≠ "" → mapGet (attrIndexes sampleDoc.Meta).1 field.Tag = some uid →
          (∀ p ∈ dr.AttrVals, p.AttrRef ≠ uid) →
          ([.str "201", .str "", .int 0, .str ""] : Record).get? j = some (.str "") ∨
            ([.str "201", .str "", .int 0, .str ""] : Record).get? j = some (.int 0)) :=
  untargeted_fields_stay_zero (parseAs sampleDoc) sampleType collectingDecoder emptyClassifier
    [] 0 1 sampleDoc [("ref-type", 2), ("ref-name", 1), ("ref-code", 0)] 1
    [.str "201", .str "", .int 0, .str ""] rfl rfl rfl rfl rfl

/-- C10, counterexample. The clearing handler does not modify the classifier. Set with
`WithHandler`, it is called on the first record of the sample document and sets the handler
of its decoder to nil; the record loop reads the handler anew for the second record, finds
none and appends that record: `Decode` returns nil and `Records` is not empty. -/
theorem cleared_handler_lets_decode_append :
    (∀ rec c env, (clearingHandler rec c env).c = c) ∧
      sampleDoc.Records.length = 2 ∧
      (((NewDecoder (some 0) : Decoder Nat (List Record)).WithHandler
        (some clearingHandler)).Decode (parseAs sampleDoc) (some sampleType)
        (some emptyClassifier) []).result = .ret none ∧
      (((NewDecoder (some 0) : Decoder Nat (List Record)).WithHandler
        (some clearingHandler)).Decode (parseAs sampleDoc) (some sampleType)
        (some emptyClassifier) []).calls = [[.str "210", .str "Tatarstan", .int 2, .str ""]] ∧
      (((NewDecoder (some 0) : Decoder Nat (List Record)).WithHandler
        (some clearingHandler)).Decode (parseAs sampleDoc) (some sampleType)
        (some emptyClassifier) []).c.map (fun c => c.Records) =
        some [[.str "201", .str "", .int 0, .str ""]] :=
  ⟨fun _ _ _ => rfl, rfl, rfl, rfl, rfl⟩

/-- C10, amended. With a handler set by `WithHandler` that leaves the handler of its decoder
set, `Decode` itself never appends to `Records`: after a successful `Decode` the classifier
and the handler state are what the handler calls made of the classifier holding the
document's metadata and empty `Records`; so when the handler does not modify the classifier,
`Records` is empty, however many records were decoded. -/
theorem handler_mode_never_appends {ρ σ : Type}
    (xmlDecode : ρ → Except GoError cnsiDoc × ρ) (typ : RType) (h : Handler σ)
    (c0 : Classifier) (env : σ) (r r1 : ρ) (doc : cnsiDoc)
    (hk : typ.Kind = Kind.Struct) (hx : xmlDecode r = (.ok doc, r1))
    (hset : handlerStaysSet h)
    (hok : (((NewDecoder (some r) : Decoder ρ σ).WithHandler (some h)).Decode xmlDecode
      (some typ) (some c0) env).result = .ret none) :
    ∃ c, (((NewDecoder (some r) : Decoder ρ σ).WithHandler (some h)).Decode xmlDecode
        (some typ) (some c0) env).c = some c ∧
      (c, (((NewDecoder (some r) : Decoder ρ σ).WithHandler (some h)).Decode xmlDecode
        (some typ) (some c0) env).env) =
        replayHandler h
          (((NewDecoder (some r) : Decoder ρ σ).WithHandler (some h)).Decode xmlDecode
            (some typ) (some c0) env).calls
          { Name := doc.Meta.Name, Code := doc.Meta.Code, UID := doc.Meta.UID,
            Version := doc.Meta.Version, Records := [] } env ∧
      ((∀ rec c1 e1, (h rec c1 e1).c = c1) → c.Records = []) := by
  rw [Decode_parsed xmlDecode typ _ c0 env r r1 doc hk rfl hx] at hok ⊢
  cases hpre : preflight typ doc.Meta with
  | error e =>
    rw [unmarshal_preflight_error _ typ c0 doc env e hpre] at hok
    cases hok
  | ok idx =>
    rw [unmarshal_preflight_ok _ typ c0 doc env idx hpre]
    simp only [NewDecoder, Decoder.WithHandler, Option.isSome_some, if_true]
    obtain ⟨ks, hcalls, hstate⟩ := recordLoop_handler_replay h hset typ idx doc.Records 0
      { c := { Name := doc.Meta.Name, Code := doc.Meta.Code, UID := doc.Meta.UID,
               Version := doc.Meta.Version, Records := [] }, env := env, calls := [] }
    refine ⟨_, rfl, ?_, ?_⟩
    · rw [hcalls, hstate]
      simp
    · intro hkeep
      rw [recordLoop_handler_c h typ idx doc.Records 0 _ hset hkeep]

/-- C10, on the sample document with the collecting handler: two records are decoded and
`Records` stays empty. -/
theorem handler_mode_never_appends_witness :
    ∃ c, (((NewDecoder (some 0) : Decoder Nat (List Record)).WithHandler
        (some collectHandler)).Decode (parseAs sampleDoc) (some sampleType)
        (some emptyClassifier) []).c = some c ∧
      (c, (((NewDecoder (some 0) : Decoder Nat (List Record)).WithHandler
        (some collectHandler)).Decode (parseAs sampleDoc) (some sampleType)
        (some emptyClassifier) []).env) =
        replayHandler collectHandler
          (((NewDecoder (some 0) : Decoder Nat (List Record)).WithHandler
            (some collectHandler)).Decode (parseAs sampleDoc) (some sampleType)
            (some emptyClassifier) []).calls
          { Name := sampleDoc.Meta.Name, Code := sampleDoc.Meta.Code, UID := sampleDoc.Meta.UID,
            Version := sampleDoc.Meta.Version, Records := [] } [] ∧
      ((∀ rec c1 e1, (collectHandler rec c1 e1).c = c1) → c.Records = []) :=
  handler_mode_never_appends (parseAs sampleDoc) sampleType collectHandler emptyClassifier []
    0 1 sampleDoc rfl rfl (fun _ _ _ => rfl) rfl

/-- C11, counterexample. Three runs on the sample document, which has two records, with a
handler that never returns an error and with every pair that is bound to a field carrying a
payload of the right kind. With the collecting handler and a record type whose second field
names an unknown attribute (the pairs fit under the field index in force, which binds
nothing, and under the index of the one field that resolves), `Decode` never calls the
handler. With the clearing handler and the sample record type, `Decode` returns nil and has
called the handler once. With the collecting handler and a record type whose first tagged
field is unexported, `Decode` panics and the handler is never called. -/
theorem handler_not_called_on_every_record :
    sampleDoc.Records.length = 2 ∧
      ((∀ rec c env, (collectHandler rec c env).err = none) ∧
        (∀ dr ∈ sampleDoc.Records, ∀ p ∈ dr.AttrVals,
          payloadFits unknownAttrType (fieldIndex unknownAttrType sampleDoc.Meta) p = true) ∧
        (∀ dr ∈ sampleDoc.Records, ∀ p ∈ dr.AttrVals,
          payloadFits unknownAttrType [("ref-code", 0)] p = true) ∧
        (collectingDecoder.Decode (parseAs sampleDoc) (some unknownAttrType)
          (some emptyClassifier) []).calls = []) ∧
      ((∀ rec c env, (clearingHandler rec c env).err = none) ∧
        preflight sampleType sampleDoc.Meta =
          .ok [("ref-type", 2), ("ref-name", 1), ("ref-code", 0)] ∧
        (∀ dr ∈ sampleDoc.Records, ∀ p ∈ dr.AttrVals,
          payloadFits sampleType [("ref-type", 2), ("ref-name", 1), ("ref-code", 0)] p =
            true) ∧
        (((NewDecoder (some 0) : Decoder Nat (List Record)).WithHandler
          (some clearingHandler)).Decode (parseAs sampleDoc) (some sampleType)
          (some emptyClassifier) []).result = .ret none ∧
        (((NewDecoder (some 0) : Decoder Nat (List Record)).WithHandler
          (some clearingHandler)).Decode (parseAs sampleDoc) (some sampleType)
          (some emptyClassifier) []).calls.length = 1) ∧
      (preflight hiddenFieldType sampleDoc.Meta =
          .ok [("ref-type", 2), ("ref-name", 1), ("ref-code", 0)] ∧
        (∀ dr ∈ sampleDoc.Records, ∀ p ∈ dr.AttrVals,
          payloadFits hiddenFieldType [("ref-type", 2), ("ref-name", 1), ("ref-code", 0)] p =
            true) ∧
        (collectingDecoder.Decode (parseAs sampleDoc) (some hiddenFieldType)
          (some emptyClassifier) []).result =
          .panic "reflect: reflect.Value.SetString using value obtained using unexported field" ∧
        (collectingDecoder.Decode (parseAs sampleDoc) (some hiddenFieldType)
          (some emptyClassifier) []).calls = []) :=
  ⟨rfl, ⟨fun _ _ _ => rfl, by decide, by decide, rfl⟩,
    ⟨fun _ _ _ => rfl, rfl, by decide, rfl, rfl⟩, ⟨rfl, by decide, rfl, rfl⟩⟩

/-- C11, amended. When the pre-flight check passes, every field that carries an `esnsi` tag
is exported, a handler is set that never returns an error and leaves the handler of its
decoder set, and every pair bound to a field carries a payload of that field's kind,
`Decode` returns nil and has called the handler exactly once per input record, in source
order, each time with the decoding of that input record. -/
theorem handler_sees_every_record {ρ σ : Type}
    (xmlDecode : ρ → Except GoError cnsiDoc × ρ) (typ : RType) (d : Decoder ρ σ)
    (h : Handler σ) (c0 : Classifier) (env : σ) (r r1 : ρ) (doc : cnsiDoc)
    (idx : List (String × Nat))
    (hk : typ.Kind = Kind.Struct) (hr : d.r = some r) (hx : xmlDecode r = (.ok doc, r1))
    (hh : d.handler = some h) (hnil : ∀ rec c e, (h rec c e).err = none)
    (hset : handlerStaysSet h)
    (hpre : preflight typ doc.Meta = .ok idx) (hexp : taggedExported typ)
    (hfit : ∀ dr ∈ doc.Records, ∀ p ∈ dr.AttrVals, payloadFits typ idx p = true) :
    (d.Decode xmlDecode (some typ) (some c0) env).result = .ret none ∧
      (d.Decode xmlDecode (some typ) (some c0) env).calls.length = doc.Records.length ∧
      List.Forall₂ (fun dr rec => decodeRecord typ idx dr = .ok rec) doc.Records
        (d.Decode xmlDecode (some typ) (some c0) env).calls := by
  have hall : ∀ dr ∈ doc.Records, ∃ rec, decodeRecord typ idx dr = .ok rec := fun dr hdr =>
    setAttrVals_ok_of_fits typ doc.Meta idx hpre hexp dr.AttrVals (hfit dr hdr) (zeroRecord typ)
  have hforall := decodedPrefix_all typ idx doc.Records hall
  rw [Decode_parsed xmlDecode typ d c0 env r r1 doc hk hr hx,
    unmarshal_preflight_ok d typ c0 doc env idx hpre, hh]
  obtain ⟨h1, h2⟩ := recordLoop_handler_all h typ idx doc.Records 0
    { c := if (some h).isSome then
             { Name := doc.Meta.Name, Code := doc.Meta.Code, UID := doc.Meta.UID,
               Version := doc.Meta.Version, Records := [] }
           else
             { Name := doc.Meta.Name, Code := doc.Meta.Code, UID := doc.Meta.UID,
               Version := doc.Meta.Version, Records := c0.Records },
      env := env, calls := [] } hset hall hnil
  refine ⟨h1, ?_, ?_⟩
  · rw [h2]
    simp [hforall.length_eq]
  · rw [h2]
    simpa using hforall

/-- C11, on the sample document with the collecting handler: both records reach the
handler. -/
theorem handler_sees_every_record_witness :
    (collectingDecoder.Decode (parseAs sampleDoc) (some sampleType) (some emptyClassifier)
        []).result = .ret none ∧
      (collectingDecoder.Decode (parseAs sampleDoc) (some sampleType) (some emptyClassifier)
        []).calls.length = sampleDoc.Records.length ∧
      List.Forall₂
        (fun dr rec =>
          decodeRecord sampleType [("ref-type", 2), ("ref-name", 1), ("ref-code", 0)] dr =
            .ok rec)
        sampleDoc.Records
        (collectingDecoder.Decode (parseAs sampleDoc) (some sampleType) (some emptyClassifier)
          []).calls :=
  handler_sees_every_record (parseAs sampleDoc) sampleType collectingDecoder collectHandler
    emptyClassifier [] 0 1 sampleDoc [("ref-type", 2), ("ref-name", 1), ("ref-code", 0)]
    rfl rfl rfl rfl (fun _ _ _ => rfl) (fun _ _ _ => rfl) rfl (by decide) (by decide)
/-- C12. When the handler is called on the record at position i and returns an error on it
(the records before it were decoded and handled without error, and `Decode` makes more than
i handler calls, so that the handler is still set when record i is reached), `Decode`
returns an error that wraps the handler's error and whose message starts with
`handler error at record i`; the handler has then been called on the decodings of the
records 0 to i, in order, and on nothing else. -/
theorem handler_error_stops_decode {ρ σ : Type}
    (xmlDecode : ρ → Except GoError cnsiDoc × ρ) (typ : RType) (d : Decoder ρ σ)
    (h : Handler σ) (c0 : Classifier) (env : σ) (r r1 : ρ) (doc : cnsiDoc)
    (idx : List (String × Nat)) (pre post : List cnsiRecord) (dr : cnsiRecord) (rec : Record)
    (e : GoError) (s1 : UState σ)
    (hk : typ.Kind = Kind.Struct) (hr : d.r = some r) (hx : xmlDecode r = (.ok doc, r1))
    (hh : d.handler = some h) (hpre : preflight typ doc.Meta = .ok idx)
    (hsplit : doc.Records = pre ++ dr :: post)
    (hearlier : d.unmarshal typ c0 { doc with Records := pre } env = (.ret none, s1))
    (hdec : decodeRecord typ idx dr = .ok rec)
    (hcalled : pre.length < (d.Decode xmlDecode (some typ) (some c0) env).calls.length)
    (herr : (h rec s1.c s1.env).err = some e) :
    (d.Decode xmlDecode (some typ) (some c0) env).result =
        .ret (some (.wrap ("handler error at record " ++ toString pre.length ++ ": " ++ e.Error)
          e)) ∧
      (d.Decode xmlDecode (some typ) (some c0) env).calls.length = pre.length + 1 ∧
      List.Forall₂ (fun dr1 rec1 => decodeRecord typ idx dr1 = .ok rec1) (pre ++ [dr])
        (d.Decode xmlDecode (some typ) (some c0) env).calls := by
  have hpre1 : preflight typ ({ doc with Records := pre } : cnsiDoc).Meta = .ok idx := hpre
  rw [unmarshal_preflight_ok d typ c0 _ env idx hpre1, hh] at hearlier
  have hallpre := recordLoop_ok_all (some h) typ idx pre 0 _ s1 hearlier
  have hforall := decodedPrefix_all typ idx pre hallpre
  rw [Decode_parsed xmlDecode typ d c0 env r r1 doc hk hr hx,
    unmarshal_preflight_ok d typ c0 doc env idx hpre, hh, hsplit] at hcalled ⊢
  rcases recordLoop_handler_split h typ idx pre (dr :: post) 0 _ s1 hearlier with
    ⟨hgo, hcalls⟩ | ⟨hgo, hlen⟩
  · rw [hgo, recordLoop_handler_error h typ idx dr post _ s1 rec e hdec herr]
    simp only [List.nil_append] at hcalls
    refine ⟨by simp, ?_, ?_⟩
    · simp [hcalls, hforall.length_eq]
    · simp only [hcalls]
      exact List.rel_append hforall (List.Forall₂.cons hdec List.Forall₂.nil)
  · rw [hgo, recordLoop_nohandler_state] at hcalled
    simp only [List.length_nil, Nat.zero_add] at hlen
    simp only at hcalled
    omega

/-- C12, on the sample document with a handler that rejects the second record. -/
theorem handler_error_stops_decode_witness :
    (((NewDecoder (some 0) : Decoder Nat (List Record)).WithHandler
        (some rejectHandler)).Decode (parseAs sampleDoc) (some sampleType)
        (some emptyClassifier) []).result =
        .ret (some (.wrap ("handler error at record " ++ toString [sampleRecord].length ++ ": " ++
          (GoError.new "handler error for record 201").Error)
          (.new "handler error for record 201"))) ∧
      (((NewDecoder (some 0) : Decoder Nat (List Record)).WithHandler
        (some rejectHandler)).Decode (parseAs sampleDoc) (some sampleType)
        (some emptyClassifier) []).calls.length = [sampleRecord].length + 1 ∧
      List.Forall₂
        (fun dr1 rec1 =>
          decodeRecord sampleType [("ref-type", 2), ("ref-name", 1), ("ref-code", 0)] dr1 =
            .ok rec1)
        ([sampleRecord] ++ [shortRecord])
        (((NewDecoder (some 0) : Decoder Nat (List Record)).WithHandler
          (some rejectHandler)).Decode (parseAs sampleDoc) (some sampleType)
          (some emptyClassifier) []).calls :=
  handler_error_stops_decode (parseAs sampleDoc) sampleType
    ((NewDecoder (some 0)).WithHandler (some rejectHandler)) rejectHandler emptyClassifier []
    0 1 sampleDoc [("ref-type", 2), ("ref-name", 1), ("ref-code", 0)] [sampleRecord] []
    shortRecord [.str "201", .str "", .int 0, .str ""] (.new "handler error for record 201")
    { c := { Name := "Test classifier", Code := "TestClassifier", UID := "2fad55ce",
             Version := 55, Records := [] },
      env := [[.str "210", .str "Tatarstan", .int 2, .str ""]],
      calls := [[.str "210", .str "Tatarstan", .int 2, .str ""]] }
    rfl rfl rfl rfl rfl rfl rfl rfl (by decide) rfl

/-- C13, the failing input. For an interface type `T` the `reflect.Type` of `*new(T)` is nil:
`Decode` with a non-nil classifier panics in the struct-type check, whatever the reader is,
instead of returning the error `struct type expected`. -/
theorem interface_type_panics {ρ σ : Type} (xmlDecode : ρ → Except GoError cnsiDoc × ρ)
    (d : Decoder ρ σ) (c0 : Classifier) (env : σ) :
    (d.Decode xmlDecode none (some c0) env).result =
      .panic "invalid memory address or nil pointer dereference" := rfl

/-- C14, the failing input. With a nil reader, a non-nil classifier and an interface type
`T`, `Decode` panics in the struct-type check instead of returning an error. -/
theorem nil_reader_interface_type_panics {ρ σ : Type}
    (xmlDecode : ρ → Except GoError cnsiDoc × ρ) (handler : Option (Handler σ))
    (c0 : Classifier) (env : σ) :
    (({ r := none, handler := handler } : Decoder ρ σ).Decode xmlDecode none (some c0)
      env).result = .panic "invalid memory address or nil pointer dereference" := rfl

/-- C15. With a nil classifier pointer `Decode` returns the error `nil pointer passed`, for
every record type (struct or not, interface or not) and every reader (nil or not); the
reader is left as it was and the handler is not called. -/
theorem nil_classifier_rejected_first {ρ σ : Type}
    (xmlDecode : ρ → Except GoError cnsiDoc × ρ) (T : Option RType) (d : Decoder ρ σ)
    (env : σ) :
    (d.Decode xmlDecode T none env).result = .ret (some (.new "nil pointer passed")) ∧
      (d.Decode xmlDecode T none env).r = d.r ∧
      (d.Decode xmlDecode T none env).c = none ∧
      (d.Decode xmlDecode T none env).env = env ∧
      (d.Decode xmlDecode T none env).calls = [] :=
  ⟨rfl, rfl, rfl, rfl, rfl⟩

/-- C16, counterexample. With a handler that overwrites the classifier's name, `Decode` of
the sample document returns nil and the classifier's name is not the document's. -/
theorem handler_can_overwrite_metadata :
    (((NewDecoder (some 0) : Decoder Nat Unit).WithHandler (some renameHandler)).Decode
        (parseAs sampleDoc) (some sampleType) (some emptyClassifier) ()).result = .ret none ∧
      (((NewDecoder (some 0) : Decoder Nat Unit).WithHandler (some renameHandler)).Decode
        (parseAs sampleDoc) (some sampleType) (some emptyClassifier) ()).c.map
        (fun c => c.Name) = some "renamed" ∧
      sampleDoc.Meta.Name = "Test classifier" := by
  decide

/-- C16, amended. After a successful `Decode`, without a handler or with a handler that
leaves the classifier's name, code, uid and version as it finds them, these four fields
equal the name, code, uid and version of the document's metadata block. -/
theorem successful_decode_sets_metadata {ρ σ : Type}
    (xmlDecode : ρ → Except GoError cnsiDoc × ρ) (typ : RType) (d : Decoder ρ σ)
    (c0 : Classifier) (env : σ) (r r1 : ρ) (doc : cnsiDoc)
    (hk : typ.Kind = Kind.Struct) (hr : d.r = some r) (hx : xmlDecode r = (.ok doc, r1))
    (hkeep : ∀ h, d.handler = some h → ∀ rec c e,
      (h rec c e).c.Name = c.Name ∧ (h rec c e).c.Code = c.Code ∧
        (h rec c e).c.UID = c.UID ∧ (h rec c e).c.Version = c.Version)
    (hok : (d.Decode xmlDecode (some typ) (some c0) env).result = .ret none) :
    ∃ c, (d.Decode xmlDecode (some typ) (some c0) env).c = some c ∧
      c.Name = doc.Meta.Name ∧ c.Code = doc.Meta.Code ∧ c.UID = doc.Meta.UID ∧
      c.Version = doc.Meta.Version := by
  rw [Decode_parsed xmlDecode typ d c0 env r r1 doc hk hr hx] at hok ⊢
  refine ⟨_, rfl, ?_⟩
  cases hpre : preflight typ doc.Meta with
  | error e =>
    rw [unmarshal_preflight_error d typ c0 doc env e hpre] at hok
    cases hok
  | ok idx =>
    rw [unmarshal_preflight_ok d typ c0 doc env idx hpre]
    cases hh : d.handler with
    | none =>
      rw [recordLoop_nohandler_state]
      exact ⟨rfl, rfl, rfl, rfl⟩
    | some h =>
      exact recordLoop_handler_meta h typ idx doc.Records 0 _ (hkeep h hh)

/-- C16, on the sample document with the collecting handler. -/
theorem successful_decode_sets_metadata_witness :
    ∃ c, (collectingDecoder.Decode (parseAs sampleDoc) (some sampleType)
        (some emptyClassifier) []).c = some c ∧
      c.Name = sampleDoc.Meta.Name ∧ c.Code = sampleDoc.Meta.Code ∧
      c.UID = sampleDoc.Meta.UID ∧ c.Version = sampleDoc.Meta.Version :=
  successful_decode_sets_metadata (parseAs sampleDoc) sampleType collectingDecoder
    emptyClassifier [] 0 1 sampleDoc rfl rfl rfl
    (fun h hh rec c e => by
      have hc : h = collectHandler := by
        have h1 : collectingDecoder.handler = some collectHandler := rfl
        rw [h1] at hh
        exact (Option.some.inj hh).symm
      subst hc
      exact ⟨rfl, rfl, rfl, rfl⟩)
    rfl

/-! ## The contract of the OKATO classifier -/

/-- C17. `ParseCode` returns nil exactly when `C` has one of the four shapes DD, DD.DDD,
DD.DDD.DDD, DD.DDD.DDD.DDD, and returns an error exactly when it has none of them. -/
theorem parseCode_accepts_dotted_shapes (r : OkatoRecord) :
    (r.ParseCode.2 = none ↔ IsDottedCode r.C) ∧
      ((∃ e, r.ParseCode.2 = some e) ↔ ¬ IsDottedCode r.C) := by
  have h1 : r.ParseCode.2 = none ↔ IsDottedCode r.C := by
    rw [ParseCode_none_iff, matchString_reValidOkatoC]
  refine ⟨h1, ?_⟩
  rw [← h1]
  cases r.ParseCode.2 with
  | none => simp
  | some e => simp

/-- C18. When `ParseCode` succeeds, `Code` is `C` without its dots and is made of 2, 5, 8 or
11 digits, and `Code11` is `Code` followed by as many characters `0` as it takes to reach 11
characters: `Code` is a prefix of `Code11`, and `Code11` is `Code` when `Code` has 11
digits. -/
theorem parseCode_code_and_code11 (r : OkatoRecord) (hsucc : r.ParseCode.2 = none) :
    r.ParseCode.1.Code.data = r.C.data.filter (fun ch => ch ≠ '.') ∧
      (r.ParseCode.1.Code.length = 2 ∨ r.ParseCode.1.Code.length = 5 ∨
        r.ParseCode.1.Code.length = 8 ∨ r.ParseCode.1.Code.length = 11) ∧
      (∀ ch ∈ r.ParseCode.1.Code.data, ch.isDigit = true) ∧
      r.ParseCode.1.Code11.data =
        r.ParseCode.1.Code.data ++ List.replicate (11 - r.ParseCode.1.Code.length) '0' ∧
      r.ParseCode.1.Code11.length = 11 ∧
      r.ParseCode.1.Code.data <+: r.ParseCode.1.Code11.data ∧
      (r.ParseCode.1.Code.length = 11 → r.ParseCode.1.Code11 = r.ParseCode.1.Code) := by
  have hm : reValidOkatoC.MatchString r.C = true := (ParseCode_none_iff r).mp hsucc
  obtain ⟨hdig, hlen⟩ := dotless_of_dotted r.C ((matchString_reValidOkatoC r.C).mp hm)
  have hle : (dotless r.C).length ≤ 11 := by omega
  have hpad : (goRepeat "0" (11 - (goLen (dotless r.C) : Int))).data =
      List.replicate (11 - (dotless r.C).length) '0' := by
    have hcast : (11 - (goLen (dotless r.C) : Int)) = ((11 - (dotless r.C).length : Nat) : Int) := by
      unfold goLen
      omega
    rw [hcast, goRepeat_zero_data]
  have h11 : (dotless r.C ++ goRepeat "0" (11 - (goLen (dotless r.C) : Int))).data =
      (dotless r.C).data ++ List.replicate (11 - (dotless r.C).length) '0' := by
    rw [String.data_append, hpad]
  rw [ParseCode_valid r hm]
  refine ⟨rfl, hlen, hdig, h11, ?_, ?_, ?_⟩
  · show (dotless r.C ++ goRepeat "0" (11 - (goLen (dotless r.C) : Int))).data.length = 11
    rw [h11, List.length_append, List.length_replicate]
    have : (dotless r.C).data.length = (dotless r.C).length := rfl
    omega
  · show (dotless r.C).data <+: (dotless r.C ++ goRepeat "0" _).data
    rw [h11]
    exact List.prefix_append _ _
  · intro hfull
    apply String.ext
    show (dotless r.C ++ goRepeat "0" _).data = (dotless r.C).data
    rw [h11]
    have hfull1 : (dotless r.C).length = 11 := hfull
    simp [hfull1]

/-- C18, on the code `01`: `Code11` is `01000000000`. -/
theorem parseCode_code_and_code11_witness :
    (okatoRecordOf "01").ParseCode.1.Code.data =
        (okatoRecordOf "01").C.data.filter (fun ch => ch ≠ '.') ∧
      ((okatoRecordOf "01").ParseCode.1.Code.length = 2 ∨
        (okatoRecordOf "01").ParseCode.1.Code.length = 5 ∨
        (okatoRecordOf "01").ParseCode.1.Code.length = 8 ∨
        (okatoRecordOf "01").ParseCode.1.Code.length = 11) ∧
      (∀ ch ∈ (okatoRecordOf "01").ParseCode.1.Code.data, ch.isDigit = true) ∧
      (okatoRecordOf "01").ParseCode.1.Code11.data =
        (okatoRecordOf "01").ParseCode.1.Code.data ++
          List.replicate (11 - (okatoRecordOf "01").ParseCode.1.Code.length) '0' ∧
      (okatoRecordOf "01").ParseCode.1.Code11.length = 11 ∧
      (okatoRecordOf "01").ParseCode.1.Code.data <+:
        (okatoRecordOf "01").ParseCode.1.Code11.data ∧
      ((okatoRecordOf "01").ParseCode.1.Code.length = 11 →
        (okatoRecordOf "01").ParseCode.1.Code11 = (okatoRecordOf "01").ParseCode.1.Code) :=
  parseCode_code_and_code11 (okatoRecordOf "01") rfl

/-- C19. For a record with a valid `C` whose three level fields are empty before the call,
`ParseCode` sets `Region` to the characters [0,2) of `Code`, `Level1` to the characters [2,5)
when `Code` has at least 5 digits, `Level2` to the characters [5,8) when it has at least 8,
and `Level3` to the characters [8,11) when it has 11; a level that `Code` does not reach
stays empty. The levels are cut from `Code`, never from the padded `Code11`. -/
theorem parseCode_levels (r : OkatoRecord) (hvalid : reValidOkatoC.MatchString r.C = true)
    (h1 : r.Level1 = "") (h2 : r.Level2 = "") (h3 : r.Level3 = "") :
    r.ParseCode.1.Region.data = r.ParseCode.1.Code.data.take 2 ∧
      r.ParseCode.1.Level1.data =
        (if 5 ≤ r.ParseCode.1.Code.length then (r.ParseCode.1.Code.data.drop 2).take 3
          else []) ∧
      r.ParseCode.1.Level2.data =
        (if 8 ≤ r.ParseCode.1.Code.length then (r.ParseCode.1.Code.data.drop 5).take 3
          else []) ∧
      r.ParseCode.1.Level3.data =
        (if r.ParseCode.1.Code.length = 11 then (r.ParseCode.1.Code.data.drop 8).take 3
          else []) := by
  obtain ⟨_, hlen⟩ := dotless_of_dotted r.C ((matchString_reValidOkatoC r.C).mp hvalid)
  have hge2 : goLen (dotless r.C) ≥ 2 := by
    unfold goLen
    omega
  rw [ParseCode_valid r hvalid]
  simp only [hge2, if_true, h1, h2, h3]
  refine ⟨by simp [goSlice], ?_, ?_, ?_⟩
  · by_cases h : 5 ≤ (dotless r.C).length
    · have h' : goLen (dotless r.C) ≥ 5 := h
      simp [h, h', goSlice]
    · have h' : ¬ goLen (dotless r.C) ≥ 5 := h
      simp [h, h']
  · by_cases h : 8 ≤ (dotless r.C).length
    · have h' : goLen (dotless r.C) ≥ 8 := h
      simp [h, h', goSlice]
    · have h' : ¬ goLen (dotless r.C) ≥ 8 := h
      simp [h, h']
  · by_cases h : (dotless r.C).length = 11
    · have h' : goLen (dotless r.C) = 11 := h
      simp [h, h', goSlice]
    · have h' : ¬ goLen (dotless r.C) = 11 := h
      simp [h, h']

/-- C19, on the codes `01.201.802.002` and `01`: the first gives 01/201/802/002, the second
the region 01 and three empty levels. -/
theorem parseCode_levels_witness :
    ((okatoRecordOf "01.201.802.002").ParseCode.1.Region = "01" ∧
        (okatoRecordOf "01.201.802.002").ParseCode.1.Level1 = "201" ∧
        (okatoRecordOf "01.201.802.002").ParseCode.1.Level2 = "802" ∧
        (okatoRecordOf "01.201.802.002").ParseCode.1.Level3 = "002") ∧
      ((okatoRecordOf "01").ParseCode.1.Region.data =
          (okatoRecordOf "01").ParseCode.1.Code.data.take 2 ∧
        (okatoRecordOf "01").ParseCode.1.Level1.data =
          (if 5 ≤ (okatoRecordOf "01").ParseCode.1.Code.length then
            ((okatoRecordOf "01").ParseCode.1.Code.data.drop 2).take 3 else []) ∧
        (okatoRecordOf "01").ParseCode.1.Level2.data =
          (if 8 ≤ (okatoRecordOf "01").ParseCode.1.Code.length then
            ((okatoRecordOf "01").ParseCode.1.Code.data.drop 5).take 3 else []) ∧
        (okatoRecordOf "01").ParseCode.1.Level3.data =
          (if (okatoRecordOf "01").ParseCode.1.Code.length = 11 then
            ((okatoRecordOf "01").ParseCode.1.Code.data.drop 8).take 3 else [])) :=
  ⟨by
    obtain ⟨hr, hl1, hl2, hl3⟩ :=
      parseCode_levels (okatoRecordOf "01.201.802.002") rfl rfl rfl rfl
    exact ⟨String.ext hr, String.ext hl1, String.ext hl2, String.ext hl3⟩,
   parseCode_levels (okatoRecordOf "01") rfl rfl rfl rfl⟩

/-- C20. A malformed code never makes `NewOkato` fail: on a record whose code does not match
the dotted pattern the handler returns nil and changes neither the classifier nor an index.
When `NewOkato` succeeds, every input record was decoded, `Records` consists of the decoded
input records with a valid code, in source order, each with its parsed fields filled, and
every record held by `byCode`, `byCode11`, `byRegion` or `Region` is the parse of an input
record with a valid code. -/
theorem okato_skips_malformed_codes {ρ : Type} (xmlDecode : ρ → Except GoError cnsiDoc × ρ)
    (r r1 : ρ) (doc : cnsiDoc) (okato : Okato) (hx : xmlDecode r = (.ok doc, r1))
    (hok : NewOkato xmlDecode (some r) = .ok okato) :
    (∀ record c env, reValidOkatoC.MatchString (OkatoRecord.ofRecord record).C = false →
      (okatoHandler record c env).err = none ∧ (okatoHandler record c env).c = c ∧
        (okatoHandler record c env).env = env) ∧
    ∃ idx inputs, preflight okatoType doc.Meta = .ok idx ∧
      List.Forall₂ (fun dr rec => decodeRecord okatoType idx dr = .ok rec) doc.Records inputs ∧
      okato.Classifier.Records = inputs.filterMap keepValidOkato ∧
      (∀ k v, mapGet okato.byCode k = some v → parsedFrom inputs v) ∧
      (∀ k v, mapGet okato.byCode11 k = some v → parsedFrom inputs v) ∧
      (∀ k l v, mapGet okato.byRegion k = some l → v ∈ l → parsedFrom inputs v) ∧
      (∀ k v, mapGet okato.Region k = some v → parsedFrom inputs v) := by
  refine ⟨okatoHandler_invalid, ?_⟩
  obtain ⟨hres, hc, henv⟩ := NewOkato_ok xmlDecode (some r) okato hok
  rw [Decode_parsed xmlDecode okatoType _ _ _ r r1 doc rfl rfl hx] at hres hc henv
  cases hpre : preflight okatoType doc.Meta with
  | error e =>
    rw [unmarshal_preflight_error _ okatoType _ doc _ e hpre] at hres
    cases hres
  | ok idx =>
    rw [unmarshal_preflight_ok _ okatoType _ doc _ idx hpre] at hres hc henv
    simp only [NewDecoder, Decoder.WithHandler, Option.isSome_some, if_true] at hres hc henv
    have hall := recordLoop_ok_all (some okatoHandler) okatoType idx doc.Records 0 _ _
      (Prod.ext hres rfl)
    have hcalls := recordLoop_handler_ok_calls okatoHandler okatoType idx doc.Records 0 _
      okatoHandler_staysSet hres
    have hinv := recordLoop_handler_invariant okatoHandler okatoHandler_staysSet okatoType idx
      okatoInvariant
      okatoHandler_invariant doc.Records 0
      { c := { Name := doc.Meta.Name, Code := doc.Meta.Code, UID := doc.Meta.UID,
               Version := doc.Meta.Version, Records := [] },
        env := { byCode := [], byCode11 := [], byRegion := [], Region := [] }, calls := [] }
      ⟨rfl, by simp, by simp, by simp, by simp⟩ hres
    rw [hcalls] at hinv
    simp only [List.nil_append, Option.some.injEq] at hinv hc
    rw [hc, henv] at hinv
    obtain ⟨hrec, hbc, hbc11, hbr, hreg⟩ := hinv
    exact ⟨idx, decodedPrefix okatoType idx doc.Records, rfl,
      decodedPrefix_all okatoType idx doc.Records hall, hrec,
      fun k v hkv => hbc _ (mapGet_mem _ _ _ hkv),
      fun k v hkv => hbc11 _ (mapGet_mem _ _ _ hkv),
      fun k l v hkl hv => hbr _ (mapGet_mem _ _ _ hkl) v hv,
      fun k v hkv => hreg _ (mapGet_mem _ _ _ hkv)⟩

/-- C20, on the sample OKATO document, whose second record has a malformed code: `NewOkato`
succeeds and keeps the first and the third record. -/
theorem okato_skips_malformed_codes_witness :
    ∃ okato, NewOkato (parseAs okatoDoc) (some 0) = .ok okato ∧
      okato.Classifier.Records.length = 2 ∧
      ((∀ record c env, reValidOkatoC.MatchString (OkatoRecord.ofRecord record).C = false →
        (okatoHandler record c env).err = none ∧ (okatoHandler record c env).c = c ∧
          (okatoHandler record c env).env = env) ∧
      ∃ idx inputs, preflight okatoType okatoDoc.Meta = .ok idx ∧
        List.Forall₂ (fun dr rec => decodeRecord okatoType idx dr = .ok rec) okatoDoc.Records
          inputs ∧
        okato.Classifier.Records = inputs.filterMap keepValidOkato ∧
        (∀ k v, mapGet okato.byCode k = some v → parsedFrom inputs v) ∧
        (∀ k v, mapGet okato.byCode11 k = some v → parsedFrom inputs v) ∧
        (∀ k l v, mapGet okato.byRegion k = some l → v ∈ l → parsedFrom inputs v) ∧
        (∀ k v, mapGet okato.Region k = some v → parsedFrom inputs v)) :=
  ⟨_, rfl, rfl, okato_skips_malformed_codes (parseAs okatoDoc) 0 1 okatoDoc _ rfl rfl⟩

/-! ## The contract of the OKATO indexes -/

/-- C21, counterexample. In the first document the records of index 0 and 3 have the same
valid code `01`, yet the error names the code `02`, repeated first, and not `01`. In the
second document the records of index 0 and 2 have the same valid code `01`, yet the record
between them does not decode and the error is not a duplicate error. -/
theorem duplicate_code_not_always_named :
    errorText (NewOkato (parseAs okatoTwoDuplicatesDoc) (some 0)) =
        "error decoding: handler error at record 2: duplicate OKATO code '02'" ∧
      errorText (NewOkato (parseAs okatoUndecodableDoc) (some 0)) =
        "error decoding: string value for attribute a-name is not set" := by
  constructor <;> rfl

/-- C21, amended. When the document is parsed, the pre-flight check passes and the records up
to record `j` decode, the valid codes of the records before record `j` are pairwise distinct
once their dots are removed, and record `j` has a valid code that, with its dots removed, is
the code of one of them, then `NewOkato` returns no classifier and an error that wraps the
error `duplicate OKATO code` naming the dot-stripped code of record `j`, with the index `j`
in its message. -/
theorem first_duplicate_code_rejected {ρ : Type} (xmlDecode : ρ → Except GoError cnsiDoc × ρ)
    (r r1 : ρ) (doc : cnsiDoc) (idx : List (String × Nat)) (j : Nat) (rj : Record)
    (hx : xmlDecode r = (.ok doc, r1)) (hpre : preflight okatoType doc.Meta = .ok idx)
    (hj : (decodedPrefix okatoType idx doc.Records).get? j = some rj)
    (hvalid : reValidOkatoC.MatchString (OkatoRecord.ofRecord rj).C = true)
    (hdistinct : (validCodes ((decodedPrefix okatoType idx doc.Records).take j)).Nodup)
    (hdup : dotless (OkatoRecord.ofRecord rj).C ∈
      validCodes ((decodedPrefix okatoType idx doc.Records).take j)) :
    NewOkato xmlDecode (some r) =
      .error (.err (.wrap
        ("error decoding: " ++ ("handler error at record " ++ toString j ++ ": " ++
          ("duplicate OKATO code '" ++ dotless (OkatoRecord.ofRecord rj).C ++ "'")))
        (.wrap
          ("handler error at record " ++ toString j ++ ": " ++
            ("duplicate OKATO code '" ++ dotless (OkatoRecord.ofRecord rj).C ++ "'"))
          (.new ("duplicate OKATO code '" ++ dotless (OkatoRecord.ofRecord rj).C ++ "'"))))) := by
  have hres := Decode_handler_stops xmlDecode okatoType r r1 doc idx okatoHandler
    okatoHandler_staysSet
    { Name := "", Code := "", UID := "", Version := 0, Records := [] }
    { byCode := [], byCode11 := [], byRegion := [], Region := [] }
    byCodeInvariant
    (fun ks rec => reValidOkatoC.MatchString (OkatoRecord.ofRecord rec).C = true →
      dotless (OkatoRecord.ofRecord rec).C ∉ validCodes ks)
    okatoHandler_byCode
    (by intro n cd u v k; simp [validCodes, mapGet])
    rfl hx hpre j rj hj
    (by
      intro a ra ha hget hm hmem
      have hpre1 := validCodes_initial (decodedPrefix okatoType idx doc.Records) (a + 1) j
        (by omega)
      rw [take_succ_get _ a ra hget, validCodes_append] at hpre1
      simp only [hm, if_true] at hpre1
      have hnodup := hdistinct.sublist hpre1.sublist
      rw [List.nodup_append] at hnodup
      exact hnodup.2.2 hmem (List.mem_singleton_self _))
    (.new ("duplicate OKATO code '" ++ dotless (OkatoRecord.ofRecord rj).C ++ "'"))
    (by
      intro c env hinv
      exact okatoHandler_duplicate rj c env hvalid ((hinv _).mpr hdup))
  unfold NewOkato
  simp only [hres]
  rfl

/-- C21, amended, on the sample document with two repeated codes: the first repeated code is
`02`, in the record of index 2. -/
theorem first_duplicate_code_rejected_witness :
    NewOkato (parseAs okatoTwoDuplicatesDoc) (some 0) =
      .error (.err (.wrap "error decoding: handler error at record 2: duplicate OKATO code '02'"
        (.wrap "handler error at record 2: duplicate OKATO code '02'"
          (.new "duplicate OKATO code '02'")))) :=
  first_duplicate_code_rejected (parseAs okatoTwoDuplicatesDoc) 0 1 okatoTwoDuplicatesDoc _ 2 _
    rfl rfl rfl rfl (by decide) (by decide)

/-- C22. On a successful `NewOkato` the index `Region` holds exactly the retained records
whose `Code` has two digits, each under its own `Code`: a key is present exactly when a
retained record has that `Code`, of length 2; the record held under a key is a retained
record with that `Code`, of two digits, so that no record with a longer code is in `Region`;
and every retained record with a `Code` of length 2 is the record held under its `Code`. -/
theorem region_index_holds_two_digit_records {ρ : Type}
    (xmlDecode : ρ → Except GoError cnsiDoc × ρ) (r : Option ρ) (okato : Okato)
    (hok : NewOkato xmlDecode r = .ok okato) :
    (∀ k, (∃ v, mapGet okato.Region k = some v) ↔
      ∃ rec ∈ okato.Classifier.Records, (OkatoRecord.ofRecord rec).Code = k ∧ k.length = 2) ∧
    (∀ k v, mapGet okato.Region k = some v →
      v.toRecord ∈ okato.Classifier.Records ∧ v.Code = k ∧ v.Code.length = 2 ∧
        ∀ ch ∈ v.Code.data, ch.isDigit = true) ∧
    (∀ rec ∈ okato.Classifier.Records, (OkatoRecord.ofRecord rec).Code.length = 2 →
      mapGet okato.Region (OkatoRecord.ofRecord rec).Code = some (OkatoRecord.ofRecord rec)) := by
  obtain ⟨hres, hc, henv⟩ := NewOkato_ok xmlDecode r okato hok
  obtain ⟨doc, idx, c, _, _, hc1, hinv⟩ := Decode_handler_invariant xmlDecode okatoType r
    okatoHandler okatoHandler_staysSet _ _ regionInvariant okatoHandler_region
    (by
      intro n cd u v
      exact ⟨⟨rfl, by simp, by simp, by simp, by simp⟩, by simp, by simp [mapGet], by simp⟩)
    hres
  rw [hc] at hc1
  cases hc1
  rw [henv] at hinv
  obtain ⟨⟨_, _, _, _, hparsed⟩, _, hreg, hrecs⟩ := hinv
  have hheld : ∀ k v, mapGet okato.Region k = some v →
      v.toRecord ∈ okato.Classifier.Records ∧ v.Code = k ∧ v.Code.length = 2 ∧
        ∀ ch ∈ v.Code.data, ch.isDigit = true := by
    intro k v hkv
    obtain ⟨h1, h2, h3⟩ := hreg k v hkv
    refine ⟨h1, h2, h3, ?_⟩
    obtain ⟨rec, _, hm, hp⟩ := hparsed _ (mapGet_mem _ _ _ hkv)
    have hv : v = (OkatoRecord.ofRecord rec).ParseCode.1 := by rw [hp]
    rw [hv, ParseCode_valid _ hm]
    exact (dotless_of_dotted _ ((matchString_reValidOkatoC _).mp hm)).1
  refine ⟨?_, hheld, hrecs⟩
  intro k
  constructor
  · rintro ⟨v, hv⟩
    obtain ⟨h1, h2, h3, _⟩ := hheld k v hv
    exact ⟨v.toRecord, h1, by rw [okatoRecord_ofRecord_toRecord]; exact h2, by rw [← h2]; exact h3⟩
  · rintro ⟨rec, hrec, rfl, hlen⟩
    exact ⟨_, hrecs rec hrec hlen⟩

/-- C22, on a sample document with two regions and a district: `Region` holds the two
regions and nothing under the code of the district. -/
theorem region_index_holds_two_digit_records_witness :
    ∃ okato, NewOkato (parseAs okatoRegionsDoc) (some 0) = .ok okato ∧
      okato.Region.map Prod.fst = ["02", "01"] ∧ mapGet okato.Region "01201" = none ∧
      ((∀ k, (∃ v, mapGet okato.Region k = some v) ↔
        ∃ rec ∈ okato.Classifier.Records, (OkatoRecord.ofRecord rec).Code = k ∧ k.length = 2) ∧
      (∀ k v, mapGet okato.Region k = some v →
        v.toRecord ∈ okato.Classifier.Records ∧ v.Code = k ∧ v.Code.length = 2 ∧
          ∀ ch ∈ v.Code.data, ch.isDigit = true) ∧
      (∀ rec ∈ okato.Classifier.Records, (OkatoRecord.ofRecord rec).Code.length = 2 →
        mapGet okato.Region (OkatoRecord.ofRecord rec).Code =
          some (OkatoRecord.ofRecord rec))) :=
  ⟨_, rfl, rfl, rfl,
    region_index_holds_two_digit_records (parseAs okatoRegionsDoc) (some 0) _ rfl⟩

/-! ## The contract of the SFR classifier -/

/-- C23. For every record retained by a successful `NewSfr`, `OKATOAreas` is the list of the
comma-separated tokens of `OKATOArea`, each trimmed of surrounding white space, with the empty
tokens removed, in their original order; and a record whose tokens are all empty makes the
handler return nil (so it is retained, with an empty `OKATOAreas`). -/
theorem sfr_areas_are_accepted_tokens {ρ : Type} (xmlDecode : ρ → Except GoError cnsiDoc × ρ)
    (r : Option ρ) (sfr : Sfr) (hok : NewSfr xmlDecode r = .ok sfr) :
    (∀ rec ∈ sfr.Classifier.Records,
      (SfrRecord.ofRecord rec).OKATOAreas =
        (((stringsSplit (SfrRecord.ofRecord rec).OKATOArea ',').map stringsTrimSpace).filter
          (fun t => t ≠ ""))) ∧
    (∀ record c env,
      (∀ t ∈ (stringsSplit (SfrRecord.ofRecord record).OKATOArea ',').map stringsTrimSpace,
        t = "") →
      (sfrHandler record c env).err = none ∧
        (sfrHandler record c env).c.Records =
          c.Records ++ [(SfrRecord.ofRecord record).toRecord]) := by
  obtain ⟨hrecs, hheap, _⟩ := NewSfr_spec xmlDecode r sfr hok
  constructor
  · intro rec hrec
    rw [hrecs] at hrec
    obtain ⟨r0, hr0, rfl⟩ := List.mem_map.mp hrec
    rw [sfrRecord_ofRecord_toRecord]
    exact (hheap r0 hr0).1
  · intro record c env hempty
    have hacc : acceptedTokens (SfrRecord.ofRecord record).OKATOArea = [] := by
      unfold acceptedTokens trimmedTokens
      rw [List.filter_eq_nil_iff]
      intro t ht
      simp [hempty t ht]
    have hnil : (sfrHandler record c env).err = none := by
      rw [sfrHandler_nil_iff, hacc]
      simp
    refine ⟨hnil, ?_⟩
    have hkeep : ∀ (areas : List String) (cell : SfrRecord) (e : SfrIndexes),
        (∀ t ∈ areas.map stringsTrimSpace, t = "") →
        (sfrAreas env.heap.length areas cell e).2.1 = cell := by
      intro areas
      induction areas with
      | nil => intro cell e _; rfl
      | cons a areas ih =>
        intro cell e hall
        rw [sfrAreas]
        have ha : stringsTrimSpace a = "" := hall _ (by simp)
        simp only [ha, if_true]
        exact ih cell e (fun t ht => hall t (by simp at ht ⊢; exact Or.inr ht))
    unfold sfrHandler
    simp only
    split
    · rename_i err herr
      have : (sfrHandler record c env).err = some err := by
        unfold sfrHandler
        simp only [herr]
      rw [sfrHandler_err, hacc] at this
      simp at this
    · simp only
      rw [hkeep _ _ _ hempty]

/-- C23, on the sample document: the list `92430,,92432` gives the two codes, the list of
the second record is trimmed, and the third record, whose only token is blank, is retained
with an empty `OKATOAreas`. -/
theorem sfr_areas_are_accepted_tokens_witness :
    ∃ sfr, NewSfr (parseAs sfrDoc) (some 0) = .ok sfr ∧
      sfr.Classifier.Records.map (fun rec => (SfrRecord.ofRecord rec).OKATOAreas) =
        [["92430", "92432"], ["92430", "9243"], []] ∧
      ((∀ rec ∈ sfr.Classifier.Records,
        (SfrRecord.ofRecord rec).OKATOAreas =
          (((stringsSplit (SfrRecord.ofRecord rec).OKATOArea ',').map stringsTrimSpace).filter
            (fun t => t ≠ ""))) ∧
      (∀ record c env,
        (∀ t ∈ (stringsSplit (SfrRecord.ofRecord record).OKATOArea ',').map stringsTrimSpace,
          t = "") →
        (sfrHandler record c env).err = none ∧
          (sfrHandler record c env).c.Records =
            c.Records ++ [(SfrRecord.ofRecord record).toRecord])) :=
  ⟨_, rfl, rfl, sfr_areas_are_accepted_tokens (parseAs sfrDoc) (some 0) _ rfl⟩

/-- C24, counterexample. In the first document the third record holds the token `ZZ`, yet
the error names the token `92X30` of the second record and the index 1: neither `ZZ` nor the
index 2. In the second document the first record does not decode, and the error says nothing
of the token `ZZ` of the second record. -/
theorem invalid_area_not_always_named :
    errorText (NewSfr (parseAs sfrTwoBadDoc) (some 0)) =
        "error decoding: handler error at record 1: invalid OKATO '92X30'" ∧
      errorText (NewSfr (parseAs sfrUndecodableDoc) (some 0)) =
        "error decoding: integer value for attribute COID is not set" := by
  constructor <;> rfl

/-- C24, amended. When the document is parsed, the pre-flight check passes and the records up
to record `i` decode, and the first token, in processing order, that is non-empty after
trimming and is not a string of 2 to 11 ASCII digits is the token `t` of record `i`, then
`NewSfr` returns no classifier and an error whose message names the token (`invalid OKATO`
followed by the token in quotes) and the zero-based index `i` of the record. -/
theorem first_invalid_area_rejected {ρ : Type} (xmlDecode : ρ → Except GoError cnsiDoc × ρ)
    (r r1 : ρ) (doc : cnsiDoc) (idx : List (String × Nat)) (i : Nat) (rec : Record)
    (pre post : List String) (t : String)
    (hx : xmlDecode r = (.ok doc, r1)) (hpre : preflight sfrType doc.Meta = .ok idx)
    (hi : (decodedPrefix sfrType idx doc.Records).get? i = some rec)
    (hearlier : ∀ rj ∈ (decodedPrefix sfrType idx doc.Records).take i,
      ∀ tok ∈ (stringsSplit (SfrRecord.ofRecord rj).OKATOArea ',').map stringsTrimSpace,
        tok = "" ∨ IsPlainOkato tok)
    (htokens : (stringsSplit (SfrRecord.ofRecord rec).OKATOArea ',').map stringsTrimSpace =
      pre ++ t :: post)
    (hbefore : ∀ tok ∈ pre, tok = "" ∨ IsPlainOkato tok)
    (ht : t ≠ "") (hbad : ¬ IsPlainOkato t) :
    NewSfr xmlDecode (some r) =
      .error (.err (.new ("error decoding: " ++ ("handler error at record " ++ toString i ++
        ": " ++ ("invalid OKATO '" ++ t ++ "'"))))) := by
  have hres := Decode_handler_stops xmlDecode sfrType r r1 doc idx sfrHandler
    sfrHandler_staysSet
    { Name := "", Code := "", UID := "", Version := 0, Records := [] }
    { heap := [], byOkato := [], byOkato11 := [], byOkato8 := [], byOkato5 := [],
      byOkato2 := [] }
    (fun _ _ _ => True)
    (fun _ rj => ∀ tok ∈ acceptedTokens (SfrRecord.ofRecord rj).OKATOArea, IsPlainOkato tok)
    (fun ks rj c env _ hgood => ⟨(sfrHandler_nil_iff rj c env).mpr hgood, trivial⟩)
    (fun _ _ _ _ => trivial) rfl hx hpre i rec hi
    (by
      intro j rj hj hget tok htok
      have hmem : rj ∈ (decodedPrefix sfrType idx doc.Records).take i := by
        have hget2 : ((decodedPrefix sfrType idx doc.Records).take i).get? j = some rj := by
          rw [List.get?_eq_getElem?, List.getElem?_take_of_lt hj, ← List.get?_eq_getElem?]
          exact hget
        exact List.get?_mem hget2
      unfold acceptedTokens trimmedTokens at htok
      rw [List.mem_filter] at htok
      rcases hearlier rj hmem tok htok.1 with h | h
      · simp [h] at htok
      · exact h)
    (.new ("invalid OKATO '" ++ t ++ "'"))
    (by
      intro c env _
      rw [sfrHandler_err]
      have hacc : acceptedTokens (SfrRecord.ofRecord rec).OKATOArea =
          pre.filter (fun t => t ≠ "") ++ t :: post.filter (fun t => t ≠ "") := by
        unfold acceptedTokens trimmedTokens
        rw [htokens, List.filter_append, List.filter_cons_of_pos (by simpa using ht)]
      rw [hacc, List.find?_append]
      have hnone : (pre.filter (fun t => t ≠ "")).find?
          (fun t => !reOKATOPlain.MatchString t) = none := by
        rw [List.find?_eq_none]
        intro tok htok
        rw [List.mem_filter] at htok
        rcases hbefore tok htok.1 with h | h
        · simp [h] at htok
        · simp [(matchString_reOKATOPlain tok).mpr h]
      rw [hnone]
      simp [(matchString_reOKATOPlain_false t).mpr hbad])
  unfold NewSfr
  simp only [hres]
  rfl

/-- C24, amended, on the sample document with two bad records: the first bad token is
`92X30` in the record of index 1. -/
theorem first_invalid_area_rejected_witness :
    NewSfr (parseAs sfrTwoBadDoc) (some 0) =
      .error (.err (.new "error decoding: handler error at record 1: invalid OKATO '92X30'")) :=
  first_invalid_area_rejected (parseAs sfrTwoBadDoc) 0 1 sfrTwoBadDoc _ 1 _ [] ["AB"] "92X30"
    rfl rfl rfl (by decide) rfl (by decide) (by decide) (by decide)

/-- C25. On a successful `NewSfr` the keys of `ByOkato` are exactly the accepted (trimmed,
non-empty) tokens of the `OKATOArea` of the records; the record a key is mapped to is the last
record, in processing order, that has the key among its tokens; and a record all of whose
accepted tokens are plain codes never makes the handler fail, whatever the indexes hold, so
that a repeated code is never an error. The pointers held by the map point to the variables
`heap`, whose contents are the records of `Records`, in order. -/
theorem byOkato_keeps_last_office {ρ : Type} (xmlDecode : ρ → Except GoError cnsiDoc × ρ)
    (r : Option ρ) (sfr : Sfr) (hok : NewSfr xmlDecode r = .ok sfr) :
    sfr.Classifier.Records = sfr.heap.map SfrRecord.toRecord ∧
    (∀ k, (∃ p, mapGet sfr.ByOkato k = some p) ↔
      ∃ rec ∈ sfr.heap, k ∈ acceptedTokens rec.OKATOArea) ∧
    (∀ k p, mapGet sfr.ByOkato k = some p →
      (∃ rec, sfr.heap.get? p = some rec ∧ k ∈ acceptedTokens rec.OKATOArea) ∧
      ∀ q rq, p < q → sfr.heap.get? q = some rq → k ∉ acceptedTokens rq.OKATOArea) ∧
    (∀ record c env,
      (∀ t ∈ acceptedTokens (SfrRecord.ofRecord record).OKATOArea, IsPlainOkato t) →
      (sfrHandler record c env).err = none) := by
  obtain ⟨hrecs, hheap, _⟩ := NewSfr_spec xmlDecode r sfr hok
  obtain ⟨hidx, _, _⟩ := NewSfr_indexes xmlDecode r sfr hok
  have hlast : ∀ k p, mapGet sfr.ByOkato k = some p →
      (∃ rec, sfr.heap.get? p = some rec ∧ k ∈ acceptedTokens rec.OKATOArea) ∧
      ∀ q rq, p < q → sfr.heap.get? q = some rq → k ∉ acceptedTokens rq.OKATOArea := by
    intro k p hkp
    rw [hidx k] at hkp
    obtain ⟨⟨rec, hrec, t, ht, hf⟩, hafter⟩ := recordsUnder_getLast_heap id sfr.heap k p hkp
    simp only [id] at hf
    subst hf
    rw [(hheap rec (List.get?_mem hrec)).1] at ht
    refine ⟨⟨rec, hrec, ht⟩, ?_⟩
    intro q rq hpq hq hmem
    rw [← (hheap rq (List.get?_mem hq)).1] at hmem
    exact hafter q rq hpq hq t hmem rfl
  refine ⟨hrecs, ?_, hlast, fun record c env h => (sfrHandler_nil_iff record c env).mpr h⟩
  intro k
  constructor
  · rintro ⟨p, hp⟩
    obtain ⟨⟨rec, hrec, hk⟩, _⟩ := hlast k p hp
    exact ⟨rec, List.get?_mem hrec, hk⟩
  · rintro ⟨rec, hrec, hk⟩
    obtain ⟨p, hp⟩ := List.get?_of_mem hrec
    rw [← (hheap rec hrec).1] at hk
    have hmem := (mem_recordsUnder_heap id sfr.heap k p).mpr ⟨rec, hp, k, hk, rfl⟩
    rw [hidx k]
    cases hl : (recordsUnder id (occurrencesFrom 0
        (sfr.heap.map (fun rec => rec.OKATOAreas))) k).getLast? with
    | none =>
      rw [List.getLast?_eq_none_iff] at hl
      rw [hl] at hmem
      simp at hmem
    | some q => exact ⟨q, rfl⟩

/-- C25, on the sample document: the code `92430` is served by the first and by the second
office, and `ByOkato` maps it to the second. -/
theorem byOkato_keeps_last_office_witness :
    ∃ sfr, NewSfr (parseAs sfrDoc) (some 0) = .ok sfr ∧
      mapGet sfr.ByOkato "92430" = some 1 ∧
      (sfr.Classifier.Records = sfr.heap.map SfrRecord.toRecord ∧
      (∀ k, (∃ p, mapGet sfr.ByOkato k = some p) ↔
        ∃ rec ∈ sfr.heap, k ∈ acceptedTokens rec.OKATOArea) ∧
      (∀ k p, mapGet sfr.ByOkato k = some p →
        (∃ rec, sfr.heap.get? p = some rec ∧ k ∈ acceptedTokens rec.OKATOArea) ∧
        ∀ q rq, p < q → sfr.heap.get? q = some rq → k ∉ acceptedTokens rq.OKATOArea) ∧
      (∀ record c env,
        (∀ t ∈ acceptedTokens (SfrRecord.ofRecord record).OKATOArea, IsPlainOkato t) →
        (sfrHandler record c env).err = none)) :=
  ⟨_, rfl, rfl, byOkato_keeps_last_office (parseAs sfrDoc) (some 0) _ rfl⟩

/-- C26. On a successful `NewSfr` the keys of `ByOkato11` are exactly the accepted tokens
right-padded with `0` to 11 characters, and every value is a one-element list holding the
first record, in processing order, that has a token padding to the key: no token of an
earlier record pads to it, and the tokens that pad to it later add nothing. -/
theorem byOkato11_keeps_first_office {ρ : Type} (xmlDecode : ρ → Except GoError cnsiDoc × ρ)
    (r : Option ρ) (sfr : Sfr) (hok : NewSfr xmlDecode r = .ok sfr) :
    (∀ k, (∃ l, mapGet sfr.ByOkato11 k = some l) ↔
      ∃ rec ∈ sfr.heap, ∃ t ∈ acceptedTokens rec.OKATOArea, zeroPadded11 t = k) ∧
    (∀ k l, mapGet sfr.ByOkato11 k = some l →
      k.length = 11 ∧
      ∃ p rec, l = [p] ∧ sfr.heap.get? p = some rec ∧
        (∃ t ∈ acceptedTokens rec.OKATOArea, zeroPadded11 t = k) ∧
        ∀ q rq, q < p → sfr.heap.get? q = some rq →
          ∀ t ∈ acceptedTokens rq.OKATOArea, zeroPadded11 t ≠ k) := by
  obtain ⟨_, hheap, _⟩ := NewSfr_spec xmlDecode r sfr hok
  obtain ⟨_, hidx, _⟩ := NewSfr_indexes xmlDecode r sfr hok
  have hfirst : ∀ k l, mapGet sfr.ByOkato11 k = some l →
      k.length = 11 ∧
      ∃ p rec, l = [p] ∧ sfr.heap.get? p = some rec ∧
        (∃ t ∈ acceptedTokens rec.OKATOArea, zeroPadded11 t = k) ∧
        ∀ q rq, q < p → sfr.heap.get? q = some rq →
          ∀ t ∈ acceptedTokens rq.OKATOArea, zeroPadded11 t ≠ k := by
    intro k l hkl
    rw [hidx k] at hkl
    cases hh : (recordsUnder zeroPadded11 (occurrencesFrom 0
        (sfr.heap.map (fun rec => rec.OKATOAreas))) k).head? with
    | none => simp [hh] at hkl
    | some p =>
      simp only [hh, Option.map_some', Option.some.injEq] at hkl
      obtain ⟨⟨rec, hrec, t, ht, hf⟩, hbefore⟩ :=
        recordsUnder_head_heap zeroPadded11 sfr.heap k p hh
      have hplain : IsPlainOkato t := (hheap rec (List.get?_mem hrec)).2 t ht
      rw [(hheap rec (List.get?_mem hrec)).1] at ht
      refine ⟨by rw [← hf]; exact zeroPadded11_length t hplain.2.1, p, rec, hkl.symm, hrec,
        ⟨t, ht, hf⟩, ?_⟩
      intro q rq hqp hq t1 ht1
      rw [← (hheap rq (List.get?_mem hq)).1] at ht1
      exact hbefore q rq hqp hq t1 ht1
  refine ⟨?_, hfirst⟩
  intro k
  constructor
  · rintro ⟨l, hl⟩
    obtain ⟨_, p, rec, _, hrec, ht, _⟩ := hfirst k l hl
    exact ⟨rec, List.get?_mem hrec, ht⟩
  · rintro ⟨rec, hrec, t, ht, hf⟩
    obtain ⟨p, hp⟩ := List.get?_of_mem hrec
    rw [← (hheap rec hrec).1] at ht
    have hmem := (mem_recordsUnder_heap zeroPadded11 sfr.heap k p).mpr ⟨rec, hp, t, ht, hf⟩
    rw [hidx k]
    cases hl : recordsUnder zeroPadded11 (occurrencesFrom 0
        (sfr.heap.map (fun rec => rec.OKATOAreas))) k with
    | nil =>
      rw [hl] at hmem
      simp at hmem
    | cons a l1 => exact ⟨[a], rfl⟩

/-- C26, on the sample document: the codes `92430` of the first office and `92430` and `9243`
of the second all pad to `92430000000`, and `ByOkato11` holds the first office alone under
that key. -/
theorem byOkato11_keeps_first_office_witness :
    ∃ sfr, NewSfr (parseAs sfrDoc) (some 0) = .ok sfr ∧
      mapGet sfr.ByOkato11 "92430000000" = some [0] ∧
      ((∀ k, (∃ l, mapGet sfr.ByOkato11 k = some l) ↔
        ∃ rec ∈ sfr.heap, ∃ t ∈ acceptedTokens rec.OKATOArea, zeroPadded11 t = k) ∧
      (∀ k l, mapGet sfr.ByOkato11 k = some l →
        k.length = 11 ∧
        ∃ p rec, l = [p] ∧ sfr.heap.get? p = some rec ∧
          (∃ t ∈ acceptedTokens rec.OKATOArea, zeroPadded11 t = k) ∧
          ∀ q rq, q < p → sfr.heap.get? q = some rq →
            ∀ t ∈ acceptedTokens rq.OKATOArea, zeroPadded11 t ≠ k)) :=
  ⟨_, rfl, rfl, byOkato11_keeps_first_office (parseAs sfrDoc) (some 0) _ rfl⟩

/-- C27. On a successful `NewSfr`, for each N in 8, 5, 2 and the map `ByOkatoN`: every key has
exactly N characters; the list held under a key `k` is not empty and lists, in processing
order, the record of every accepted token occurrence whose zero-padded form starts with `k`
(its first N characters are `k`), so that a record appears in it once for each of its tokens
under `k`; a key is present exactly when there is such an occurrence; and the lengths of the
lists of the keys sum to the total number of accepted tokens. -/
theorem leading_digit_indexes_list_occurrences {ρ : Type}
    (xmlDecode : ρ → Except GoError cnsiDoc × ρ) (r : Option ρ) (sfr : Sfr)
    (hok : NewSfr xmlDecode r = .ok sfr) :
    ∀ n m, (n, m) ∈ [(8, sfr.ByOkato8), (5, sfr.ByOkato5), (2, sfr.ByOkato2)] →
      (∀ k l, mapGet m k = some l →
        k.length = n ∧ l ≠ [] ∧
        l = recordsUnder (fun t => firstChars n (zeroPadded11 t))
          (occurrencesFrom 0 (sfr.heap.map (fun rec => acceptedTokens rec.OKATOArea))) k ∧
        ∀ p rec, sfr.heap.get? p = some rec →
          l.count p = ((acceptedTokens rec.OKATOArea).filter
            (fun t => firstChars n (zeroPadded11 t) = k)).length) ∧
      (∀ k, (∃ l, mapGet m k = some l) ↔
        ∃ rec ∈ sfr.heap, ∃ t ∈ acceptedTokens rec.OKATOArea,
          firstChars n (zeroPadded11 t) = k) ∧
      (∀ ks : List String, ks.Nodup → (∀ k, k ∈ ks ↔ ∃ l, mapGet m k = some l) →
        (ks.map (fun k => ((mapGet m k).getD []).length)).sum =
          (sfr.heap.map (fun rec => (acceptedTokens rec.OKATOArea).length)).sum) := by
  obtain ⟨_, hheap, _⟩ := NewSfr_spec xmlDecode r sfr hok
  obtain ⟨_, _, hidx⟩ := NewSfr_indexes xmlDecode r sfr hok
  have hmap : sfr.heap.map (fun rec => acceptedTokens rec.OKATOArea) =
      sfr.heap.map (fun rec => rec.OKATOAreas) :=
    List.map_congr_left (fun rec hrec => ((hheap rec hrec).1).symm)
  intro n m hnm
  have hn : n ≤ 11 := by
    simp only [List.mem_cons, Prod.mk.injEq, List.mem_singleton, List.mem_nil_iff,
      or_false] at hnm
    omega
  have hm := hidx n m hnm
  rw [hmap]
  have hpresent : ∀ k, (∃ l, mapGet m k = some l) ↔
      recordsUnder (fun t => firstChars n (zeroPadded11 t))
        (occurrencesFrom 0 (sfr.heap.map (fun rec => rec.OKATOAreas))) k ≠ [] := by
    intro k
    rw [hm k]
    by_cases hl : recordsUnder (fun t => firstChars n (zeroPadded11 t))
        (occurrencesFrom 0 (sfr.heap.map (fun rec => rec.OKATOAreas))) k = [] <;> simp [hl]
  have hnonempty : ∀ k, recordsUnder (fun t => firstChars n (zeroPadded11 t))
        (occurrencesFrom 0 (sfr.heap.map (fun rec => rec.OKATOAreas))) k ≠ [] ↔
      ∃ rec ∈ sfr.heap, ∃ t ∈ rec.OKATOAreas, firstChars n (zeroPadded11 t) = k := by
    intro k
    constructor
    · intro hne
      cases hl : recordsUnder (fun t => firstChars n (zeroPadded11 t))
          (occurrencesFrom 0 (sfr.heap.map (fun rec => rec.OKATOAreas))) k with
      | nil => exact absurd hl hne
      | cons p tl =>
        obtain ⟨rec, hrec, ht⟩ := (mem_recordsUnder_heap _ sfr.heap k p).mp
          (by rw [hl]; exact List.mem_cons_self _ _)
        exact ⟨rec, List.get?_mem hrec, ht⟩
    · rintro ⟨rec, hrec, ht⟩ hl
      obtain ⟨p, hp⟩ := List.get?_of_mem hrec
      have hmem := (mem_recordsUnder_heap _ sfr.heap k p).mpr ⟨rec, hp, ht⟩
      rw [hl] at hmem
      simp at hmem
  refine ⟨?_, ?_, ?_⟩
  · intro k l hkl
    have hne := (hpresent k).mp ⟨l, hkl⟩
    rw [hm k, if_neg hne, Option.some.injEq] at hkl
    subst hkl
    obtain ⟨rec, hrec, t, ht, hf⟩ := (hnonempty k).mp hne
    refine ⟨?_, hne, rfl, ?_⟩
    · rw [← hf]
      have hplain := (hheap rec hrec).2 t ht
      apply firstChars_length
      rw [zeroPadded11_length t hplain.2.1]
      exact hn
    · intro p rec1 hp
      have := recordsUnder_count (fun t => firstChars n (zeroPadded11 t)) 0
        (sfr.heap.map (fun rec => rec.OKATOAreas)) k p rec1.OKATOAreas
        ((heap_areas_get sfr.heap p _).mpr ⟨rec1, hp, rfl⟩)
      rw [Nat.zero_add] at this
      rw [this, (hheap rec1 (List.get?_mem hp)).1]
  · intro k
    rw [hpresent k, hnonempty k]
    constructor
    · rintro ⟨rec, hrec, t, ht, hf⟩
      exact ⟨rec, hrec, t, by rw [← (hheap rec hrec).1]; exact ht, hf⟩
    · rintro ⟨rec, hrec, t, ht, hf⟩
      exact ⟨rec, hrec, t, by rw [(hheap rec hrec).1]; exact ht, hf⟩
  · intro ks hnodup hkeys
    have htotal := recordsUnder_total (fun t => firstChars n (zeroPadded11 t))
      (occurrencesFrom 0 (sfr.heap.map (fun rec => rec.OKATOAreas))) ks hnodup
      (fun k => (hkeys k).trans (hpresent k))
    rw [occurrencesFrom_length, List.map_map] at htotal
    have hlen : (sfr.heap.map (fun rec => (acceptedTokens rec.OKATOArea).length)) =
        sfr.heap.map (List.length ∘ fun rec => rec.OKATOAreas) :=
      List.map_congr_left (fun rec hrec => by simp [(hheap rec hrec).1])
    rw [hlen, ← htotal]
    congr 1
    apply List.map_congr_left
    intro k _
    rw [hm k]
    by_cases hl : recordsUnder (fun t => firstChars n (zeroPadded11 t))
        (occurrencesFrom 0 (sfr.heap.map (fun rec => rec.OKATOAreas))) k = [] <;> simp [hl]

/-- C27, on the sample document: the four accepted tokens all start with `92`, and the second
office, with its two tokens `92430` and `9243` under `92430000`, appears twice under that
key. -/
theorem leading_digit_indexes_list_occurrences_witness :
    ∃ sfr, NewSfr (parseAs sfrDoc) (some 0) = .ok sfr ∧
      mapGet sfr.ByOkato8 "92430000" = some [0, 1, 1] ∧
      mapGet sfr.ByOkato2 "92" = some [0, 0, 1, 1] ∧
      (∀ n m, (n, m) ∈ [(8, sfr.ByOkato8), (5, sfr.ByOkato5), (2, sfr.ByOkato2)] →
        (∀ k l, mapGet m k = some l →
          k.length = n ∧ l ≠ [] ∧
          l = recordsUnder (fun t => firstChars n (zeroPadded11 t))
            (occurrencesFrom 0 (sfr.heap.map (fun rec => acceptedTokens rec.OKATOArea))) k ∧
          ∀ p rec, sfr.heap.get? p = some rec →
            l.count p = ((acceptedTokens rec.OKATOArea).filter
              (fun t => firstChars n (zeroPadded11 t) = k)).length) ∧
        (∀ k, (∃ l, mapGet m k = some l) ↔
          ∃ rec ∈ sfr.heap, ∃ t ∈ acceptedTokens rec.OKATOArea,
            firstChars n (zeroPadded11 t) = k) ∧
        (∀ ks : List String, ks.Nodup → (∀ k, k ∈ ks ↔ ∃ l, mapGet m k = some l) →
          (ks.map (fun k => ((mapGet m k).getD []).length)).sum =
            (sfr.heap.map (fun rec => (acceptedTokens rec.OKATOArea).length)).sum)) :=
  ⟨_, rfl, rfl, rfl, leading_digit_indexes_list_occurrences (parseAs sfrDoc) (some 0) _ rfl⟩

/-! ## The contract of `SimpleClassifier.Unmarshal` and of the SFR_CO classifier -/

/-- C28, counterexample. With a slice that holds one element before the call and a classifier
of one record, the callback is called once, with the index 0, while the element appended for
the record sits at the index 1 of the slice (the element at the index 0 is the old one, whose
`COID` is 0). -/
theorem callback_index_is_not_the_dst_index :
    ((sfrCoClassifier [sfrCoRow 7 "92430"]).Unmarshal sfrCoDst [zeroRecord sfrCoType]
        (some (countingCallback 5)) 0).1 = .ret none ∧
      ((sfrCoClassifier [sfrCoRow 7 "92430"]).Unmarshal sfrCoDst [zeroRecord sfrCoType]
        (some (countingCallback 5)) 0).2.calls.map (fun entry => entry.1) = [0] ∧
      ((sfrCoClassifier [sfrCoRow 7 "92430"]).Unmarshal sfrCoDst [zeroRecord sfrCoType]
        (some (countingCallback 5)) 0).2.dst.map (fun elem => intField elem 0) = [0, 7] := by
  refine ⟨rfl, rfl, rfl⟩

/-- C28, amended. When `dst` is a pointer to a slice of structs and the field check passes,
`Unmarshal` with a callback makes call number `j` for record number `j` of the classifier, in
order and at most once for each record, exactly once when it returns nil: each call is made
after the element built for the record has been appended to the slice the preceding call left
(the slice behind `dst` at the start for the first call), and it is passed the index `j` of
the record. When the callback never changes the length of the slice, the element sits at the
index `j` plus the length the slice had before `Unmarshal`, which is `j` only for a slice that
was empty. If a call returns an error, it is the last call, and `Unmarshal` returns an error
that wraps it and names the index. -/
theorem unmarshal_callback_contract {σ : Type} (c : cnsi.SimpleClassifier)
    (typ : cnsi.DstType) (dst0 : List Record) (cb : cnsi.Callback σ) (env0 : σ)
    (idx : List (String × Nat))
    (hptr : typ.Kind = Kind.Pointer) (hslice : typ.ElemKind = Kind.Slice)
    (hstruct : typ.ElemType.Kind = Kind.Struct)
    (hfields : cnsi.SimpleClassifier.fieldLoop c.Properties.Attributes.indexes.1
      c.Properties.Attributes.indexes.2 typ.ElemType.Fields 0 [] = .ok idx) :
    (c.Unmarshal typ dst0 (some cb) env0).2.calls.length ≤ c.Records.length ∧
    ((c.Unmarshal typ dst0 (some cb) env0).1 = .ret none →
      (c.Unmarshal typ dst0 (some cb) env0).2.calls.length = c.Records.length) ∧
    (∀ j entry, (c.Unmarshal typ dst0 (some cb) env0).2.calls.get? j = some entry →
      entry.1 = j ∧
      entry.2.2 =
        (cnsi.stateBefore cb dst0 env0 (c.Unmarshal typ dst0 (some cb) env0).2.calls j).2 ∧
      ∃ record elem, c.Records.get? j = some record ∧
        cnsi.SimpleClassifier.newElem typ.ElemType idx record = .ok elem ∧
        entry.2.1 =
          (cnsi.stateBefore cb dst0 env0 (c.Unmarshal typ dst0 (some cb) env0).2.calls j).1 ++
            [elem]) ∧
    ((∀ i d e, (cb i d e).dst.length = d.length) →
      ∀ j entry, (c.Unmarshal typ dst0 (some cb) env0).2.calls.get? j = some entry →
        entry.2.1.length = dst0.length + j + 1) ∧
    (∀ j entry err, (c.Unmarshal typ dst0 (some cb) env0).2.calls.get? j = some entry →
      (cb entry.1 entry.2.1 entry.2.2).result = .ret (some err) →
      (c.Unmarshal typ dst0 (some cb) env0).2.calls.length = j + 1 ∧
        (c.Unmarshal typ dst0 (some cb) env0).1 =
          .ret (some (.wrap ("callback error at index " ++ toString j ++ ": " ++ err.Error)
            err))) := by
  have hun : c.Unmarshal typ dst0 (some cb) env0 =
      cnsi.SimpleClassifier.recordLoop typ.ElemType idx (some cb) c.Records 0
        { dst := dst0, env := env0, calls := [] } := by
    unfold cnsi.SimpleClassifier.Unmarshal
    simp [hptr, hslice, hstruct, hfields]
  rw [hun]
  obtain ⟨new, hcalls, hlen, hnil, hentries, hstop⟩ := unmarshal_recordLoop_trace typ.ElemType
    idx cb c.Records 0 { dst := dst0, env := env0, calls := [] }
  simp only [List.nil_append] at hcalls
  rw [hcalls]
  have hshape : ∀ j entry, new.get? j = some entry →
      entry.1 = j ∧ entry.2.2 = (cnsi.stateBefore cb dst0 env0 new j).2 ∧
      ∃ record elem, c.Records.get? j = some record ∧
        cnsi.SimpleClassifier.newElem typ.ElemType idx record = .ok elem ∧
        entry.2.1 = (cnsi.stateBefore cb dst0 env0 new j).1 ++ [elem] := by
    intro j entry h
    obtain ⟨h1, h2, h3⟩ := hentries j entry h
    exact ⟨by omega, h2, h3⟩
  refine ⟨hlen, hnil, hshape, ?_, ?_⟩
  · intro hkeep j
    induction j with
    | zero =>
      intro entry h
      obtain ⟨_, _, record, elem, _, _, h5⟩ := hshape 0 entry h
      rw [h5]
      simp [cnsi.stateBefore]
    | succ j ihj =>
      intro entry h
      obtain ⟨_, _, record, elem, _, _, h5⟩ := hshape (j + 1) entry h
      have hj : j < new.length := by
        by_contra hge
        rw [List.get?_eq_none.mpr (by omega)] at h
        cases h
      have hsome : new.get? j = some (new.get ⟨j, hj⟩) := List.get?_eq_get hj
      have hprev := ihj _ hsome
      rw [h5]
      simp only [cnsi.stateBefore, hsome, List.length_append, List.length_singleton, hkeep]
      omega
  · intro j entry err h hcb
    obtain ⟨h1, h2⟩ := hstop j entry err h hcb
    refine ⟨h1, ?_⟩
    rw [h2, Nat.zero_add]

/-- C28, amended, on a classifier of three records, an empty slice and a callback that fails
at the index 1: two calls are made, with the indexes 0 and 1, and the error of the second is
returned, wrapped with its index. -/
theorem unmarshal_callback_contract_witness :
    ((sfrCoClassifier [sfrCoRow 1 "92430", sfrCoRow 2 "92432", sfrCoRow 3 "9243"]).Unmarshal
        sfrCoDst [] (some (countingCallback 1)) 0).2.calls.map (fun entry => entry.1) = [0, 1] ∧
      ((sfrCoClassifier [sfrCoRow 1 "92430", sfrCoRow 2 "92432", sfrCoRow 3 "9243"]).Unmarshal
        sfrCoDst [] (some (countingCallback 1)) 0).1 =
        .ret (some (.wrap "callback error at index 1: expected error" (.new "expected error"))) ∧
      ((sfrCoClassifier [sfrCoRow 1 "92430", sfrCoRow 2 "92432", sfrCoRow 3 "9243"]).Unmarshal
        sfrCoDst [] (some (countingCallback 1)) 0).2.calls.length ≤ 3 :=
  ⟨rfl, rfl,
    (unmarshal_callback_contract
      (sfrCoClassifier [sfrCoRow 1 "92430", sfrCoRow 2 "92432", sfrCoRow 3 "9243"]) sfrCoDst []
      (countingCallback 1) 0 _ rfl rfl rfl rfl).1⟩

/-- C29. `ByOKATO` is an exact-key index. When the classifier is parsed, the field check
passes and the elements up to element `i` are built, and the trimmed token `t` of element `i`
is the first token, in processing order, that occurs a second time (the tokens before it are
plain codes, pairwise distinct, and `t` is one of them, in an earlier record or earlier in the
same list), `NewSfrCo` fails with the error `duplicate OKATO` naming `t` and the index `i`.
On success all token occurrences are pairwise distinct, `ByOKATO` has exactly one entry for
each token occurrence, and a key is mapped to the record whose `OKATOAreas`, the trimmed
tokens of its `OKATOAreaOrig`, holds it. -/
theorem byOKATO_is_an_exact_key_index {ρ : Type}
    (xmlDecode : ρ → Except GoError cnsi.SimpleClassifier × ρ) (r : ρ) :
    (∀ (c : cnsi.SimpleClassifier) (idx : List (String × Nat)) (i : Nat) (elem : Record)
        (pre post : List String) (t : String),
      (xmlDecode r).1 = .ok c →
      cnsi.SimpleClassifier.fieldLoop c.Properties.Attributes.indexes.1
        c.Properties.Attributes.indexes.2 sfrCoType.Fields 0 [] = .ok idx →
      (cnsi.decodedElems sfrCoType idx c.Records).get? i = some elem →
      sfrCoTokens elem = pre ++ t :: post →
      (∀ tok ∈ (((cnsi.decodedElems sfrCoType idx c.Records).take i).map
        sfrCoTokens).flatten ++ pre, IsPlainOkato tok) →
      ((((cnsi.decodedElems sfrCoType idx c.Records).take i).map
        sfrCoTokens).flatten ++ pre).Nodup →
      t ∈ (((cnsi.decodedElems sfrCoType idx c.Records).take i).map
        sfrCoTokens).flatten ++ pre →
      NewSfrCo xmlDecode r =
        .error (.err (.new ("failed to unmarshal records: " ++
          ("callback error at index " ++ toString i ++ ": " ++
            ("duplicate OKATO '" ++ t ++ "' found in record at index " ++ toString i)))))) ∧
    (∀ sfrCo : SfrCo, NewSfrCo xmlDecode r = .ok sfrCo →
      ((sfrCo.Records.map (fun rec => (SfrCoRecord.ofRecord rec).OKATOAreas)).flatten).Nodup ∧
      (sfrCo.ByOKATO.map Prod.fst).reverse =
        (sfrCo.Records.map (fun rec => (SfrCoRecord.ofRecord rec).OKATOAreas)).flatten ∧
      (∀ k p, mapGet sfrCo.ByOKATO k = some p ↔
        ∃ rec, sfrCo.Records.get? p = some rec ∧ k ∈ (SfrCoRecord.ofRecord rec).OKATOAreas) ∧
      (∀ rec ∈ sfrCo.Records,
        (SfrCoRecord.ofRecord rec).OKATOAreas =
          (stringsSplit (SfrCoRecord.ofRecord rec).OKATOAreaOrig ',').map stringsTrimSpace)) := by
  constructor
  · intro c idx i elem pre post t hx hfields hi htokens hplain hnodup hdup
    have htake : ((cnsi.decodedElems sfrCoType idx c.Records).take i).length = i := by
      have hlt : i < (cnsi.decodedElems sfrCoType idx c.Records).length := by
        by_contra hge
        rw [List.get?_eq_none.mpr (by omega)] at hi
        cases hi
      rw [List.length_take]
      omega
    have hplaint : IsPlainOkato t := hplain t hdup
    exact NewSfrCo_stops xmlDecode r c idx hx hfields i elem hi
      (fun tok htok => hplain tok (List.mem_append_left _ htok))
      (List.nodup_append.mp hnodup).1
      (.new ("duplicate OKATO '" ++ t ++ "' found in record at index " ++ toString i))
      (by
        intro dst m hinv
        have := (unmarshalHelper_bad _ elem dst m pre post t hinv htokens
          (fun p hp => hplain p (List.mem_append_right _ hp)) hnodup).2 hplaint hdup
        rw [htake] at this
        exact this)
  · intro sfrCo hok
    obtain ⟨idx, _, _, _, hdst, hm, _, hnd⟩ := NewSfrCo_spec xmlDecode r sfrCo hok
    have hareas : sfrCo.Records.map (fun rec => (SfrCoRecord.ofRecord rec).OKATOAreas) =
        (cnsi.decodedElems sfrCoType idx sfrCo.SimpleClassifier.Records).map sfrCoTokens := by
      rw [hdst, List.map_map]
      rfl
    have hkeys := sfrCo_keys _ _ hm
    refine ⟨by rw [hareas]; exact hnd, by rw [hareas, hkeys, List.reverse_reverse], ?_, ?_⟩
    · intro k p
      have hknodup : (sfrCo.ByOKATO.map Prod.fst).Nodup := by
        rw [hkeys]
        exact List.nodup_reverse.mpr hnd
      have hmem : (k, p) ∈ sfrCo.ByOKATO ↔
          (p, k) ∈ occurrencesFrom 0
            ((cnsi.decodedElems sfrCoType idx sfrCo.SimpleClassifier.Records).map
              sfrCoTokens) := by
        rw [hm, List.mem_reverse, List.mem_map]
        constructor
        · rintro ⟨⟨p1, k1⟩, hx1, heq⟩
          simp only [Prod.mk.injEq] at heq
          obtain ⟨rfl, rfl⟩ := heq
          exact hx1
        · intro h
          exact ⟨(p, k), h, rfl⟩
      have hocc : (p, k) ∈ occurrencesFrom 0
            ((cnsi.decodedElems sfrCoType idx sfrCo.SimpleClassifier.Records).map
              sfrCoTokens) ↔
          ∃ rec, sfrCo.Records.get? p = some rec ∧
            k ∈ (SfrCoRecord.ofRecord rec).OKATOAreas := by
        rw [mem_occurrencesFrom, ← hareas]
        constructor
        · rintro ⟨j, ts, hj, rfl, hk⟩
          rw [Nat.zero_add]
          simp only [List.get?_eq_getElem?, List.getElem?_map] at hj ⊢
          cases hrec : sfrCo.Records[j]? with
          | none => simp [hrec] at hj
          | some rec =>
            simp only [hrec, Option.map_some', Option.some.injEq] at hj
            exact ⟨rec, rfl, by rw [hj]; exact hk⟩
        · rintro ⟨rec, hrec, hk⟩
          refine ⟨p, _, ?_, by simp, hk⟩
          simp only [List.get?_eq_getElem?, List.getElem?_map] at hrec ⊢
          simp [hrec]
      rw [← hocc, ← hmem]
      exact ⟨mapGet_mem _ _ _, mapGet_of_nodup _ _ _ hknodup⟩
    · intro rec hrec
      rw [hdst] at hrec
      obtain ⟨el, _, rfl⟩ := List.mem_map.mp hrec
      rfl

/-- C29, on two sample classifiers: in the first the code `92430` of the second record
repeats a code of the first, and `NewSfrCo` fails at the index 1; the second is indexed, with
one entry for each of its three tokens. -/
theorem byOKATO_is_an_exact_key_index_witness :
    NewSfrCo (parseSimple (sfrCoClassifier [sfrCoRow 1 "92430, 92432", sfrCoRow 2 "92430"])) 0 =
        .error (.err (.new ("failed to unmarshal records: callback error at index 1: " ++
          "duplicate OKATO '92430' found in record at index 1"))) ∧
      ∃ sfrCo, NewSfrCo (parseSimple (sfrCoClassifier [sfrCoRow 1 "92430, 92432",
          sfrCoRow 2 "9243"])) 0 = .ok sfrCo ∧
        sfrCo.ByOKATO = [("9243", 1), ("92432", 0), ("92430", 0)] ∧
        ((sfrCo.Records.map (fun rec => (SfrCoRecord.ofRecord rec).OKATOAreas)).flatten).Nodup :=
  ⟨(byOKATO_is_an_exact_key_index
      (parseSimple (sfrCoClassifier [sfrCoRow 1 "92430, 92432", sfrCoRow 2 "92430"])) 0).1
      (sfrCoClassifier [sfrCoRow 1 "92430, 92432", sfrCoRow 2 "92430"]) _ 1 _ [] [] "92430"
      rfl rfl rfl rfl (by decide) (by decide) (by decide),
    _, rfl, rfl,
    ((byOKATO_is_an_exact_key_index
      (parseSimple (sfrCoClassifier [sfrCoRow 1 "92430, 92432", sfrCoRow 2 "9243"])) 0).2
      _ rfl).1⟩

/-- C30, counterexample. The list `92430,92430,XX` holds the token `XX`, which is not a
string of 2 to 11 digits, yet `NewSfrCo` fails with the error of the repeated code before it,
and the error message says nothing of an invalid code. -/
theorem invalid_token_after_duplicate_not_reported :
    NewSfrCo (parseSimple (sfrCoClassifier [sfrCoRow 1 "92430,92430,XX"])) 0 =
      .error (.err (.new ("failed to unmarshal records: callback error at index 0: " ++
        "duplicate OKATO '92430' found in record at index 0"))) := by
  rfl

/-- C30, amended. When the classifier is parsed, the field check passes and the elements up
to element `i` are built, and the trimmed token `t` of element `i` is the first token, in
processing order, that is not a string of 2 to 11 digits (an empty token included), the tokens
before it being pairwise distinct, `NewSfrCo` fails with the error `invalid OKATO` naming `t`
and the index `i`. -/
theorem first_invalid_token_rejected {ρ : Type}
    (xmlDecode : ρ → Except GoError cnsi.SimpleClassifier × ρ) (r : ρ)
    (c : cnsi.SimpleClassifier) (idx : List (String × Nat)) (i : Nat) (elem : Record)
    (pre post : List String) (t : String)
    (hx : (xmlDecode r).1 = .ok c)
    (hfields : cnsi.SimpleClassifier.fieldLoop c.Properties.Attributes.indexes.1
      c.Properties.Attributes.indexes.2 sfrCoType.Fields 0 [] = .ok idx)
    (hi : (cnsi.decodedElems sfrCoType idx c.Records).get? i = some elem)
    (htokens : sfrCoTokens elem = pre ++ t :: post)
    (hplain : ∀ tok ∈ (((cnsi.decodedElems sfrCoType idx c.Records).take i).map
      sfrCoTokens).flatten ++ pre, IsPlainOkato tok)
    (hnodup : ((((cnsi.decodedElems sfrCoType idx c.Records).take i).map
      sfrCoTokens).flatten ++ pre).Nodup)
    (hbad : ¬ IsPlainOkato t) :
    NewSfrCo xmlDecode r =
      .error (.err (.new ("failed to unmarshal records: " ++
        ("callback error at index " ++ toString i ++ ": " ++
          ("invalid OKATO '" ++ t ++ "' in record at index " ++ toString i))))) := by
  have htake : ((cnsi.decodedElems sfrCoType idx c.Records).take i).length = i := by
    have hlt : i < (cnsi.decodedElems sfrCoType idx c.Records).length := by
      by_contra hge
      rw [List.get?_eq_none.mpr (by omega)] at hi
      cases hi
    rw [List.length_take]
    omega
  exact NewSfrCo_stops xmlDecode r c idx hx hfields i elem hi
    (fun tok htok => hplain tok (List.mem_append_left _ htok))
    (List.nodup_append.mp hnodup).1
    (.new ("invalid OKATO '" ++ t ++ "' in record at index " ++ toString i))
    (by
      intro dst m hinv
      have := (unmarshalHelper_bad _ elem dst m pre post t hinv htokens
        (fun p hp => hplain p (List.mem_append_right _ hp)) hnodup).1 hbad
      rw [htake] at this
      exact this)

/-- C30, amended, on two sample classifiers: a trailing comma leaves an empty token after
`92430`, and an empty field is one empty token. -/
theorem first_invalid_token_rejected_witness :
    NewSfrCo (parseSimple (sfrCoClassifier [sfrCoRow 1 "92432", sfrCoRow 2 "92430,"])) 0 =
        .error (.err (.new ("failed to unmarshal records: callback error at index 1: " ++
          "invalid OKATO '' in record at index 1"))) ∧
      NewSfrCo (parseSimple (sfrCoClassifier [sfrCoRow 1 ""])) 0 =
        .error (.err (.new ("failed to unmarshal records: callback error at index 0: " ++
          "invalid OKATO '' in record at index 0"))) :=
  ⟨first_invalid_token_rejected
      (parseSimple (sfrCoClassifier [sfrCoRow 1 "92432", sfrCoRow 2 "92430,"])) 0
      (sfrCoClassifier [sfrCoRow 1 "92432", sfrCoRow 2 "92430,"]) _ 1 _ ["92430"] [] ""
      rfl rfl rfl rfl (by decide) (by decide) (by decide),
    first_invalid_token_rejected (parseSimple (sfrCoClassifier [sfrCoRow 1 ""])) 0
      (sfrCoClassifier [sfrCoRow 1 ""]) _ 0 _ [] [] ""
      rfl rfl rfl rfl (by decide) (by decide) (by decide)⟩

/-! ## The contract of the code indexes of the OKATO classifier -/

/-- C31, counterexample. On a document with the codes `01`, `02` and `01.000`, `NewOkato`
succeeds and retains the three records; the codes `01` and `01.000` both pad to
`01000000000`, and `byCode11` holds under that key the record with the code `01.000`, the
last of the two in source order, not the record with the code `01`. -/
theorem byCode11_holds_the_later_record :
    ∃ okato, NewOkato (parseAs okatoPaddedDoc) (some 0) = .ok okato ∧
      (okatoRecords okato.Classifier).map (fun v => (v.C, v.Code11)) =
        [("01", "01000000000"), ("02", "02000000000"), ("01.000", "01000000000")] ∧
      (mapGet okato.byCode11 "01000000000").map (fun v => v.C) = some "01.000" ∧
      (mapGet okato.byCode11 "01000000000").map (fun v => v.C) ≠ some "01" :=
  ⟨_, rfl, rfl, rfl, by decide⟩

/-- C31, amended. On a successful `NewOkato` every retained record has as `Code11` its `Code`
padded with zeros to 11 characters, and `byCode11` holds under a key the last retained
record, in source order, whose `Code11` is the key: the record held under a key has that
`Code11`, and no retained record after it has. A key is present exactly when a retained
record pads to it. -/
theorem byCode11_keeps_last_record {ρ : Type} (xmlDecode : ρ → Except GoError cnsiDoc × ρ)
    (r : Option ρ) (okato : Okato) (hok : NewOkato xmlDecode r = .ok okato) :
    (∀ v ∈ okatoRecords okato.Classifier, v.Code11 = zeroPadded11 v.Code) ∧
    (∀ k, mapGet okato.byCode11 k =
      ((okatoRecords okato.Classifier).filter (fun v => v.Code11 = k)).getLast?) ∧
    (∀ k v, mapGet okato.byCode11 k = some v →
      ∃ l1 l2, okatoRecords okato.Classifier = l1 ++ v :: l2 ∧ v.Code11 = k ∧
        ∀ w ∈ l2, w.Code11 ≠ k) ∧
    (∀ k, (∃ v, mapGet okato.byCode11 k = some v) ↔
      ∃ w ∈ okatoRecords okato.Classifier, w.Code11 = k) := by
  obtain ⟨ks, hinv, _, _, h11, _⟩ := NewOkato_indexes xmlDecode r okato hok
  refine ⟨?_, h11, ?_, ?_⟩
  · intro v hv
    obtain ⟨rec, _, hm, hp⟩ := okatoRecords_parsed ks _ _ hinv v hv
    rw [hp]
    exact (parsed_fields _ hm).2.1
  · intro k v hkv
    rw [h11 k] at hkv
    obtain ⟨l1, l2, hl, hv, hrest⟩ := getLast?_filter_some _ _ v hkv
    refine ⟨l1, l2, hl, by simpa using hv, ?_⟩
    intro w hw
    simpa using hrest w hw
  · intro k
    rw [h11 k]
    constructor
    · rintro ⟨v, hv⟩
      obtain ⟨l1, l2, hl, hp, _⟩ := getLast?_filter_some _ _ v hv
      exact ⟨v, by rw [hl]; simp, by simpa using hp⟩
    · rintro ⟨w, hw, hk⟩
      have hmem : w ∈ (okatoRecords okato.Classifier).filter (fun v => v.Code11 = k) :=
        List.mem_filter.mpr ⟨hw, by simpa using hk⟩
      cases hl : ((okatoRecords okato.Classifier).filter (fun v => v.Code11 = k)).getLast? with
      | some v => exact ⟨v, rfl⟩
      | none =>
        rw [List.getLast?_eq_none_iff] at hl
        rw [hl] at hmem
        cases hmem

/-- C31, amended, on the document with the codes `01`, `02` and `01.000`: the record held
under `01000000000` is the third retained record. -/
theorem byCode11_keeps_last_record_witness :
    ∃ okato, NewOkato (parseAs okatoPaddedDoc) (some 0) = .ok okato ∧
      mapGet okato.byCode11 "01000000000" = (okatoRecords okato.Classifier).get? 2 ∧
      ((∀ v ∈ okatoRecords okato.Classifier, v.Code11 = zeroPadded11 v.Code) ∧
      (∀ k, mapGet okato.byCode11 k =
        ((okatoRecords okato.Classifier).filter (fun v => v.Code11 = k)).getLast?) ∧
      (∀ k v, mapGet okato.byCode11 k = some v →
        ∃ l1 l2, okatoRecords okato.Classifier = l1 ++ v :: l2 ∧ v.Code11 = k ∧
          ∀ w ∈ l2, w.Code11 ≠ k) ∧
      (∀ k, (∃ v, mapGet okato.byCode11 k = some v) ↔
        ∃ w ∈ okatoRecords okato.Classifier, w.Code11 = k)) :=
  ⟨_, rfl, rfl, byCode11_keeps_last_record (parseAs okatoPaddedDoc) (some 0) _ rfl⟩

/-- C32. On a successful `NewOkato` the index `byCode` corresponds one to one to `Records`:
the codes of the retained records are pairwise distinct; a key is present exactly when it is
the `Code` of a retained record; the map holds one entry for each key, as many as there are
retained records; the record held under the `Code` of a retained record has the field values
of that record; and the record held under a key is a retained record with that `Code`. -/
theorem byCode_corresponds_to_records {ρ : Type} (xmlDecode : ρ → Except GoError cnsiDoc × ρ)
    (r : Option ρ) (okato : Okato) (hok : NewOkato xmlDecode r = .ok okato) :
    (okato.Classifier.Records.map (fun rec => (OkatoRecord.ofRecord rec).Code)).Nodup ∧
    (∀ k, (∃ v, mapGet okato.byCode k = some v) ↔
      ∃ rec ∈ okato.Classifier.Records, (OkatoRecord.ofRecord rec).Code = k) ∧
    (okato.byCode.map Prod.fst).Nodup ∧
    okato.byCode.length = okato.Classifier.Records.length ∧
    (∀ rec ∈ okato.Classifier.Records,
      mapGet okato.byCode (OkatoRecord.ofRecord rec).Code = some (OkatoRecord.ofRecord rec) ∧
        (OkatoRecord.ofRecord rec).toRecord = rec) ∧
    (∀ k v, mapGet okato.byCode k = some v →
      v.toRecord ∈ okato.Classifier.Records ∧ v.Code = k) := by
  obtain ⟨ks, hinv, hbyCode, hnodup, _, _⟩ := NewOkato_indexes xmlDecode r okato hok
  simp only at hbyCode
  have hcodes : (okatoRecords okato.Classifier).map (fun v => v.Code) =
      okato.Classifier.Records.map (fun rec => (OkatoRecord.ofRecord rec).Code) := by
    simp [okatoRecords, Function.comp_def]
  have hkeys : okato.byCode.map Prod.fst =
      (okato.Classifier.Records.map (fun rec => (OkatoRecord.ofRecord rec).Code)).reverse := by
    rw [hbyCode, List.map_reverse, List.map_map, ← hcodes]
    rfl
  have hkeysNodup : (okato.byCode.map Prod.fst).Nodup := by
    rw [hkeys, List.nodup_reverse, ← hcodes]
    exact hnodup
  have hround : ∀ rec ∈ okato.Classifier.Records, (OkatoRecord.ofRecord rec).toRecord = rec := by
    intro rec hrec
    have hr := hinv.1
    rw [hr] at hrec
    simp only [List.mem_filterMap] at hrec
    obtain ⟨x, _, hkeep⟩ := hrec
    unfold keepValidOkato at hkeep
    by_cases hm : reValidOkatoC.MatchString (OkatoRecord.ofRecord x).C = true
    · simp only [hm, if_true, Option.some.injEq] at hkeep
      rw [← hkeep, okatoRecord_ofRecord_toRecord]
    · simp [hm] at hkeep
  have hheld : ∀ rec ∈ okato.Classifier.Records,
      mapGet okato.byCode (OkatoRecord.ofRecord rec).Code = some (OkatoRecord.ofRecord rec) := by
    intro rec hrec
    apply mapGet_of_nodup _ _ _ hkeysNodup
    rw [hbyCode, List.mem_reverse, List.mem_map]
    exact ⟨OkatoRecord.ofRecord rec, List.mem_map.mpr ⟨rec, hrec, rfl⟩, rfl⟩
  have hvalue : ∀ k v, mapGet okato.byCode k = some v →
      v.toRecord ∈ okato.Classifier.Records ∧ v.Code = k := by
    intro k v hkv
    have hmem := mapGet_mem _ _ _ hkv
    rw [hbyCode, List.mem_reverse, List.mem_map] at hmem
    obtain ⟨w, hw, heq⟩ := hmem
    simp only [Prod.mk.injEq] at heq
    obtain ⟨hk, hwv⟩ := heq
    subst hwv
    simp only [okatoRecords, List.mem_map] at hw
    obtain ⟨rec, hrec, hw⟩ := hw
    refine ⟨?_, hk⟩
    rw [← hw, hround rec hrec]
    exact hrec
  refine ⟨by rw [← hcodes]; exact hnodup, ?_, hkeysNodup, ?_,
    fun rec hrec => ⟨hheld rec hrec, hround rec hrec⟩, hvalue⟩
  · intro k
    constructor
    · rintro ⟨v, hv⟩
      obtain ⟨h1, h2⟩ := hvalue k v hv
      exact ⟨v.toRecord, h1, by rw [okatoRecord_ofRecord_toRecord]; exact h2⟩
    · rintro ⟨rec, hrec, rfl⟩
      exact ⟨_, hheld rec hrec⟩
  · rw [hbyCode]
    simp [okatoRecords]

/-- C32, on the sample document with two regions and a district: `byCode` has the three keys
`01`, `01201` and `02`. -/
theorem byCode_corresponds_to_records_witness :
    ∃ okato, NewOkato (parseAs okatoRegionsDoc) (some 0) = .ok okato ∧
      okato.byCode.map Prod.fst = ["02", "01201", "01"] ∧
      okato.byCode.length = okato.Classifier.Records.length ∧
      (okato.Classifier.Records.map (fun rec => (OkatoRecord.ofRecord rec).Code)).Nodup :=
  ⟨_, rfl, rfl,
    (byCode_corresponds_to_records (parseAs okatoRegionsDoc) (some 0) _ rfl).2.2.2.1,
    by decide⟩

/-! ## The contract of the region lists of the OKATO classifier -/

/-- C33. On a successful `NewOkato` the index `byRegion` splits the retained records by the
first two characters of `Code`: the list held under a key consists, in source order, of the
retained records whose `Code` starts with the key, it is not empty, and the key is made of two
digits; a key is present exactly when some retained record starts with it; a retained record
is listed once under the first two characters of its `Code` and under no other key; and the
lengths of the lists, summed over the keys, give the number of retained records. -/
theorem byRegion_partitions_records {ρ : Type} (xmlDecode : ρ → Except GoError cnsiDoc × ρ)
    (r : Option ρ) (okato : Okato) (hok : NewOkato xmlDecode r = .ok okato) :
    (∀ k l, mapGet okato.byRegion k = some l →
      l = (okatoRecords okato.Classifier).filter (fun v => firstChars 2 v.Code = k) ∧
        l ≠ [] ∧ k.length = 2 ∧ ∀ ch ∈ k.data, ch.isDigit = true) ∧
    (∀ k, (∃ l, mapGet okato.byRegion k = some l) ↔
      ∃ v ∈ okatoRecords okato.Classifier, firstChars 2 v.Code = k) ∧
    (∀ v ∈ okatoRecords okato.Classifier, ∀ k,
      ((mapGet okato.byRegion k).getD []).count v =
        if firstChars 2 v.Code = k then 1 else 0) ∧
    (((okato.byRegion.map Prod.fst).dedup).map
      (fun k => ((mapGet okato.byRegion k).getD []).length)).sum =
        okato.Classifier.Records.length := by
  obtain ⟨ks, hinv, _, hnodup, _, hregion⟩ := NewOkato_indexes xmlDecode r okato hok
  simp only at hregion
  have hfields : ∀ v ∈ okatoRecords okato.Classifier,
      v.Region = firstChars 2 v.Code ∧ v.Region.length = 2 ∧
        ∀ ch ∈ v.Region.data, ch.isDigit = true := by
    intro v hv
    obtain ⟨rec, _, hm, hp⟩ := okatoRecords_parsed ks _ _ hinv v hv
    rw [hp]
    exact (parsed_fields _ hm).2.2
  have hfilter : ∀ k, (okatoRecords okato.Classifier).filter (fun v => v.Region = k) =
      (okatoRecords okato.Classifier).filter (fun v => firstChars 2 v.Code = k) := by
    intro k
    apply List.filter_congr
    intro v hv
    rw [(hfields v hv).1]
  have hrecsNodup : (okatoRecords okato.Classifier).Nodup := List.Nodup.of_map _ hnodup
  refine ⟨?_, ?_, ?_, ?_⟩
  · intro k l hkl
    rw [hregion k] at hkl
    obtain ⟨hl, hne⟩ := listEntry_eq_some _ _ hkl
    rw [hfilter k] at hl hne
    obtain ⟨v, hv⟩ := List.exists_mem_of_ne_nil _ hne
    rw [List.mem_filter] at hv
    obtain ⟨hv1, hv2⟩ := hv
    have hk : firstChars 2 v.Code = k := by simpa using hv2
    obtain ⟨h1, h2, h3⟩ := hfields v hv1
    rw [h1, hk] at h2 h3
    exact ⟨hl, by rw [hl]; exact hne, h2, h3⟩
  · intro k
    rw [hregion k, hfilter k]
    constructor
    · rintro ⟨l, hl⟩
      obtain ⟨_, hne⟩ := listEntry_eq_some _ _ hl
      obtain ⟨v, hv⟩ := List.exists_mem_of_ne_nil _ hne
      rw [List.mem_filter] at hv
      exact ⟨v, hv.1, by simpa using hv.2⟩
    · rintro ⟨v, hv, hk⟩
      have hmem : v ∈ (okatoRecords okato.Classifier).filter
          (fun v => firstChars 2 v.Code = k) := List.mem_filter.mpr ⟨hv, by simpa using hk⟩
      cases hl : listEntry ((okatoRecords okato.Classifier).filter
          (fun v => firstChars 2 v.Code = k)) with
      | some l => exact ⟨l, rfl⟩
      | none =>
        rw [listEntry_eq_none] at hl
        rw [hl] at hmem
        cases hmem
  · intro v hv k
    rw [hregion k, listEntry_getD, hfilter k]
    by_cases hk : firstChars 2 v.Code = k
    · simp only [hk, if_true]
      apply List.count_eq_one_of_mem (hrecsNodup.filter _)
      exact List.mem_filter.mpr ⟨hv, by simpa using hk⟩
    · simp only [hk, if_false]
      rw [List.count_eq_zero]
      intro hmem
      rw [List.mem_filter] at hmem
      exact hk (by simpa using hmem.2)
  · have := byRegion_total (okatoRecords okato.Classifier) okato.byRegion hregion
    rw [this]
    simp [okatoRecords]

/-- C33, on the sample document with two regions and a district: the region `01` lists the
region and its district, the region `02` lists itself. -/
theorem byRegion_partitions_records_witness :
    ∃ okato, NewOkato (parseAs okatoRegionsDoc) (some 0) = .ok okato ∧
      (mapGet okato.byRegion "01").map (fun l => l.map (fun v => v.C)) =
        some ["01", "01.201"] ∧
      (mapGet okato.byRegion "02").map (fun l => l.map (fun v => v.C)) = some ["02"] ∧
      (((okato.byRegion.map Prod.fst).dedup).map
        (fun k => ((mapGet okato.byRegion k).getD []).length)).sum =
          okato.Classifier.Records.length :=
  ⟨_, rfl, rfl, rfl,
    (byRegion_partitions_records (parseAs okatoRegionsDoc) (some 0) _ rfl).2.2.2⟩

/-! ## The contract of the decoder: held records, repeated names, unreachable branches -/

/-- C34, the failing input. `Decode` without a handler into a classifier that holds one
record appends the two records of the sample document to it: `Records` has three elements,
the held record first. Decoding the sample document twice into one classifier leaves four
records, the two decoded records twice. -/
theorem decode_without_handler_keeps_held_records :
    (plainDecoder.Decode (parseAs sampleDoc) (some sampleType) (some heldClassifier) ()).result =
        .ret none ∧
      (plainDecoder.Decode (parseAs sampleDoc) (some sampleType) (some heldClassifier) ()).c.map
          (fun c => c.Records) =
        some (heldClassifier.Records ++ decodedPrefix sampleType
          (fieldIndex sampleType sampleMeta) sampleDoc.Records) ∧
      (plainDecoder.Decode (parseAs sampleDoc) (some sampleType) (some heldClassifier) ()).c.map
          (fun c => c.Records.length) = some 3 ∧
      ∃ c1 c2,
        (plainDecoder.Decode (parseAs sampleDoc) (some sampleType) (some emptyClassifier) ()).c =
          some c1 ∧
        (plainDecoder.Decode (parseAs sampleDoc) (some sampleType) (some c1) ()).result =
          .ret none ∧
        (plainDecoder.Decode (parseAs sampleDoc) (some sampleType) (some c1) ()).c = some c2 ∧
        c1.Records.length = 2 ∧ c2.Records = c1.Records ++ c1.Records :=
  ⟨rfl, rfl, rfl, _, _, rfl, rfl, rfl, rfl, rfl⟩

/-- C35, counterexample. In a schema that declares the name `Code` twice as a string
attribute, the second time with the reference id `ref-2`, and an integer attribute `Count`
with the same reference id, the last declaration of `Code` has kind string, yet the index
gives `ref-2` the kind int: a string field tagged `Code` fails the pre-flight check and an int
field tagged `Code` passes it. -/
theorem repeated_name_takes_kind_of_shared_ref :
    boundAttr "Code" (declaredAttrs sharedRefMeta) = some ("ref-2", Kind.String) ∧
      mapGet (attrIndexes sharedRefMeta).1 "Code" = some "ref-2" ∧
      mapGet (attrIndexes sharedRefMeta).2 "ref-2" = some Kind.Int ∧
      preflight codeStringType sharedRefMeta =
        .error (.new
          "field Code has type string, expected int for attribute Code with Ref ref-2") ∧
      preflight clashType sharedRefMeta = .ok [("ref-2", 0)] :=
  ⟨rfl, rfl, rfl, rfl, rfl⟩

/-- C35, amended. When the last declaration of a name, in the order string attributes, text
attributes, integer attributes, has the reference id `uid` and the kind `k`, the decoder
resolves the name to `uid`, and resolves `uid` to the kind of the last declaration, in the
same order, that carries the reference id `uid`: that is `k` when no declaration with the
reference id `uid` has another kind, and it is int when an integer attribute declares the
name. A field tagged with the name passes the pre-flight check, bound to `uid`, exactly when
its kind is that kind. -/
theorem repeated_name_resolved_by_last_write (m : cnsiMeta) (name uid : String) (k : Kind)
    (hlast : boundAttr name (declaredAttrs m) = some (uid, k)) :
    mapGet (attrIndexes m).1 name = some uid ∧
      mapGet (attrIndexes m).2 uid = declaredKind uid (declaredAttrs m) ∧
      ((∀ a ∈ declaredAttrs m, a.2.1 = uid → a.2.2 = k) →
        mapGet (attrIndexes m).2 uid = some k) ∧
      ((∃ a ∈ m.IntegerAttrs, a.Name = name) →
        k = Kind.Int ∧ mapGet (attrIndexes m).2 uid = some Kind.Int) ∧
      ∀ field : StructField, field.Tag = name → name ≠ "" →
        (checkField (attrIndexes m).1 (attrIndexes m).2 field = .ok (some uid) ↔
          mapGet (attrIndexes m).2 uid = some field.Kind) := by
  have hname : mapGet (attrIndexes m).1 name = some uid := by
    rw [attrIndexes_nameToRef, hlast]
    rfl
  refine ⟨hname, attrIndexes_refToKind m uid, ?_, ?_, ?_⟩
  · intro hsame
    obtain ⟨kind, hk, _⟩ := attrIndexes_ref_has_kind m name uid hname
    rw [hk]
    rw [attrIndexes_refToKind] at hk
    obtain ⟨n, hn⟩ := declaredKind_mem hk
    rw [← hsame (n, uid, kind) hn rfl]
  · intro hint
    obtain ⟨hk, hd⟩ := boundAttr_of_integer m name uid k hlast hint
    exact ⟨hk, by rw [attrIndexes_refToKind, hd]⟩
  · intro field htag hne
    constructor
    · intro hok
      exact (checkField_ok_some _ _ field uid hok).2.2
    · intro hk
      simp [checkField, htag, hne, hname, hk]

/-- C35, amended, on a schema that declares the name `Code` as a string, as a text and as an
integer attribute: the name is resolved to the reference id and the kind of the integer
declaration. -/
theorem repeated_name_resolved_by_last_write_witness :
    boundAttr "Code" (declaredAttrs thriceMeta) = some ("ref-i", Kind.Int) ∧
      mapGet (attrIndexes thriceMeta).1 "Code" = some "ref-i" ∧
      mapGet (attrIndexes thriceMeta).2 "ref-i" = some Kind.Int :=
  ⟨rfl, (repeated_name_resolved_by_last_write thriceMeta "Code" "ref-i" Kind.Int rfl).1,
    ((repeated_name_resolved_by_last_write thriceMeta "Code" "ref-i" Kind.Int rfl).2.2.2.1
      ⟨⟨"ref-i", "Code"⟩, by decide, rfl⟩).2⟩

/-- C38. The two unreachable branches. Whenever the first lookup of the pre-flight check finds
a reference id, the second lookup finds its kind, string or int, so the check of a field ends
in one of: skipped, `attribute ... not found`, the kind mismatch error, or bound; the branch
`attribute ... with Ref ... not found` is never taken. A tagged field of a kind other than
string and int makes the pre-flight check fail. Once the check has passed, every field a
record pair reaches has kind string or int, a pair is applied, ends in one of the two
errors `... value for attribute ... is not set`, or makes `reflect` panic on an unexported
field, and `unmarshal` never returns the error `unsupported field type`. -/
theorem unsupported_field_type_unreachable {ρ σ : Type} (d : Decoder ρ σ) (typ : RType)
    (c : Classifier) (doc : cnsiDoc) (env : σ) :
    (∀ name uid, mapGet (attrIndexes doc.Meta).1 name = some uid →
      ∃ kind, mapGet (attrIndexes doc.Meta).2 uid = some kind ∧
        (kind = Kind.String ∨ kind = Kind.Int)) ∧
    (∀ field : StructField,
      (field.Tag = "" ∧
        checkField (attrIndexes doc.Meta).1 (attrIndexes doc.Meta).2 field = .ok none) ∨
      (field.Tag ≠ "" ∧ mapGet (attrIndexes doc.Meta).1 field.Tag = none ∧
        checkField (attrIndexes doc.Meta).1 (attrIndexes doc.Meta).2 field =
          .error (.new ("attribute " ++ field.Tag ++ " not found in classifier"))) ∨
      ∃ uid kind, field.Tag ≠ "" ∧ mapGet (attrIndexes doc.Meta).1 field.Tag = some uid ∧
        mapGet (attrIndexes doc.Meta).2 uid = some kind ∧
        ((field.Kind ≠ kind ∧
          checkField (attrIndexes doc.Meta).1 (attrIndexes doc.Meta).2 field =
            .error (.new ("field " ++ field.Name ++ " has type " ++ kindString field.Kind ++
              ", expected " ++ kindString kind ++ " for attribute " ++ field.Tag ++
              " with Ref " ++ uid))) ∨
          (field.Kind = kind ∧
            checkField (attrIndexes doc.Meta).1 (attrIndexes doc.Meta).2 field =
              .ok (some uid)))) ∧
    (∀ field ∈ typ.Fields, field.Tag ≠ "" → field.Kind ≠ Kind.String →
      field.Kind ≠ Kind.Int → ∃ e, preflight typ doc.Meta = .error e) ∧
    (∀ idx, preflight typ doc.Meta = .ok idx →
      (∀ ref j, mapGet idx ref = some j →
        ∃ field, typ.Fields.get? j = some field ∧
          (field.Kind = Kind.String ∨ field.Kind = Kind.Int)) ∧
      (∀ attrVal val,
        (∃ val1, setAttrVal typ idx attrVal val = .ok val1) ∨
        setAttrVal typ idx attrVal val =
          .error (.err (.new ("string value for attribute " ++ attrVal.AttrRef ++
            " is not set"))) ∨
        setAttrVal typ idx attrVal val =
          .error (.err (.new ("integer value for attribute " ++ attrVal.AttrRef ++
            " is not set"))) ∨
        ∃ method, setAttrVal typ idx attrVal val =
          .error (.panic ("reflect: reflect.Value." ++ method ++
            " using value obtained using unexported field"))) ∧
      ∀ k, (d.unmarshal typ c doc env).1 ≠
        .ret (some (.new ("unsupported field type: " ++ kindString k)))) := by
  refine ⟨attrIndexes_ref_has_kind doc.Meta, checkField_outcomes doc.Meta, ?_, ?_⟩
  · intro field hmem htag hs hi
    cases hpre : preflight typ doc.Meta with
    | error e => exact ⟨e, rfl⟩
    | ok idx =>
      obtain ⟨j, hj⟩ := List.get?_of_mem hmem
      rcases preflight_tagged_kind typ doc.Meta idx hpre j field hj htag with h | h
      · exact absurd h hs
      · exact absurd h hi
  · intro idx hpre
    refine ⟨?_, setAttrVal_outcomes typ doc.Meta idx hpre, ?_⟩
    · intro ref j hj
      obtain ⟨f, hf, _, _, hk⟩ := preflight_index typ doc.Meta idx hpre ref j hj
      exact ⟨f, hf, hk⟩
    · intro k
      rw [unmarshal_preflight_ok d typ c doc env idx hpre]
      exact recordLoop_supported d.handler typ doc.Meta idx hpre _ _ _ k

/-- C38, on the sample document and the sample record type: the reference id of `OfficeType`
has a kind, and the decoding does not end in `unsupported field type`. -/
theorem unsupported_field_type_unreachable_witness :
    (∃ kind, mapGet (attrIndexes sampleDoc.Meta).2 "ref-type" = some kind ∧
      (kind = Kind.String ∨ kind = Kind.Int)) ∧
    ∀ k, (plainDecoder.unmarshal sampleType emptyClassifier sampleDoc ()).1 ≠
      .ret (some (.new ("unsupported field type: " ++ kindString k))) :=
  ⟨(unsupported_field_type_unreachable plainDecoder sampleType emptyClassifier sampleDoc ()).1
      "OfficeType" "ref-type" rfl,
    ((unsupported_field_type_unreachable plainDecoder sampleType emptyClassifier sampleDoc
      ()).2.2.2 _ rfl).2.2⟩

/-! ## The contract of the two decoders on one document -/

/-- C36, the failing input. On a document whose only record has a code pair with the text
payload `from text` and the string payload `from string`, both decoders succeed, and the
record `unmarshal` produces holds `from string` where the record `Unmarshal` produces holds
`from text`: `unmarshal` tests the string payload first, `Unmarshal` the text payload. -/
theorem decoders_differ_on_two_payloads :
    (plainDecoder.unmarshal sampleType emptyClassifier twoPayloadsDoc ()).1 = .ret none ∧
      (twoPayloadsDoc.toSimpleClassifier.Unmarshal (sliceOf sampleType) []
        (none : Option (cnsi.Callback Unit)) ()).1 = .ret none ∧
      (plainDecoder.unmarshal sampleType emptyClassifier twoPayloadsDoc ()).2.c.Records =
        [[.str "from string", .str "", .int 0, .str ""]] ∧
      (twoPayloadsDoc.toSimpleClassifier.Unmarshal (sliceOf sampleType) []
        (none : Option (cnsi.Callback Unit)) ()).2.dst =
        [[.str "from text", .str "", .int 0, .str ""]] ∧
      (plainDecoder.unmarshal sampleType emptyClassifier twoPayloadsDoc ()).2.c.Records ≠
        (twoPayloadsDoc.toSimpleClassifier.Unmarshal (sliceOf sampleType) []
          (none : Option (cnsi.Callback Unit)) ()).2.dst := by
  decide

/-! ## The contract of `ParseCode` on records that were parsed before, and of the padding -/

/-- What `ParseCode` does to two records with the same valid `C`: it succeeds on both and
gives them the same `Code`, `Code11` and `Region`; `Level1` (`Level2`, `Level3`) is the same
after the call exactly when `Code` has at least 5 (at least 8, exactly 11) digits or the two
records held the same `Level1` (`Level2`, `Level3`) before the call, because a level that
`Code` does not reach keeps the value it held. -/
theorem ParseCode_same_C (r1 r2 : OkatoRecord) (hC : r1.C = r2.C)
    (hvalid : reValidOkatoC.MatchString r1.C = true) :
    r1.ParseCode.2 = none ∧ r2.ParseCode.2 = none ∧
      r1.ParseCode.1.Code = r2.ParseCode.1.Code ∧
      r1.ParseCode.1.Code11 = r2.ParseCode.1.Code11 ∧
      r1.ParseCode.1.Region = r2.ParseCode.1.Region ∧
      (r1.ParseCode.1.Level1 = r2.ParseCode.1.Level1 ↔
        (goLen r1.ParseCode.1.Code ≥ 5 ∨ r1.Level1 = r2.Level1)) ∧
      (r1.ParseCode.1.Level2 = r2.ParseCode.1.Level2 ↔
        (goLen r1.ParseCode.1.Code ≥ 8 ∨ r1.Level2 = r2.Level2)) ∧
      (r1.ParseCode.1.Level3 = r2.ParseCode.1.Level3 ↔
        (goLen r1.ParseCode.1.Code = 11 ∨ r1.Level3 = r2.Level3)) ∧
      (goLen r1.ParseCode.1.Code < 5 → r1.ParseCode.1.Level1 = r1.Level1) ∧
      (goLen r1.ParseCode.1.Code < 8 → r1.ParseCode.1.Level2 = r1.Level2) ∧
      (goLen r1.ParseCode.1.Code ≠ 11 → r1.ParseCode.1.Level3 = r1.Level3) := by
  have hvalid2 : reValidOkatoC.MatchString r2.C = true := hC ▸ hvalid
  obtain ⟨_, hlen⟩ := dotless_of_dotted r1.C ((matchString_reValidOkatoC r1.C).mp hvalid)
  have hge2 : goLen (dotless r1.C) ≥ 2 := by
    unfold goLen
    omega
  rw [ParseCode_valid r1 hvalid, ParseCode_valid r2 hvalid2, ← hC]
  simp only [hge2, if_true]
  refine ⟨trivial, trivial, trivial, trivial, trivial, ?_, ?_, ?_, ?_, ?_, ?_⟩
  · by_cases h : goLen (dotless r1.C) ≥ 5
    · simp [h]
    · simp [h]
  · by_cases h : goLen (dotless r1.C) ≥ 8
    · simp [h]
    · simp [h]
  · by_cases h : goLen (dotless r1.C) = 11
    · simp [h]
    · simp [h]
  · intro h
    have h' : ¬ goLen (dotless r1.C) ≥ 5 := by omega
    simp [h']
  · intro h
    have h' : ¬ goLen (dotless r1.C) ≥ 8 := by omega
    simp [h']
  · intro h
    simp [h]

/-- C37, the failing input. A record parsed from the code `01.201` whose `C` is then changed
to `01` has the same valid `C` as a fresh record with the code `01`; `ParseCode` succeeds on
both and resets `Code`, but the re-parsed record keeps its `Level1` of `201` while the fresh
record has an empty `Level1`: the derived fields are not determined by `C` alone. -/
theorem reparsed_record_keeps_stale_level :
    ((okatoRecordOf "01.201").ParseCode.1.withC "01").C = (okatoRecordOf "01").C ∧
      reValidOkatoC.MatchString (okatoRecordOf "01").C = true ∧
      ((okatoRecordOf "01.201").ParseCode.1.withC "01").ParseCode.2 = none ∧
      (okatoRecordOf "01").ParseCode.2 = none ∧
      ((okatoRecordOf "01.201").ParseCode.1.withC "01").ParseCode.1.Code =
        (okatoRecordOf "01").ParseCode.1.Code ∧
      ((okatoRecordOf "01.201").ParseCode.1.withC "01").ParseCode.1.Level1 = "201" ∧
      (okatoRecordOf "01").ParseCode.1.Level1 = "" ∧
      ((okatoRecordOf "01.201").ParseCode.1.withC "01").ParseCode.1.Level1 ≠
        (okatoRecordOf "01").ParseCode.1.Level1 := by
  decide

/-- C39. The padding and the slicing stay in range. For a token the plain pattern accepts,
the pad count `11 - len(area)` lies between 0 and 9, so `strings.Repeat` does not panic; the
padded code has 11 characters, each one byte long, and its prefixes `[:8]`, `[:5]` and `[:2]`
pass the bounds check. For a code the dotted pattern accepts, the pad count
`11 - len(Code)` lies between 0 and 9, `Code11` has 11 characters, each one byte long, and
each of the slices `Code[:2]`, `Code[2:5]`, `Code[5:8]`, `Code[8:11]` passes the bounds check
whenever the test that guards it holds; the first test always holds. -/
theorem padding_and_slices_stay_in_range :
    (∀ area : String, reOKATOPlain.MatchString area = true →
      0 ≤ 11 - (goLen area : Int) ∧ 11 - (goLen area : Int) ≤ 9 ∧
      goRepeatChecked "0" (11 - (goLen area : Int)) =
        some (goRepeat "0" (11 - (goLen area : Int))) ∧
      goLen (area ++ goRepeat "0" (11 - (goLen area : Int))) = 11 ∧
      (area ++ goRepeat "0" (11 - (goLen area : Int))).utf8ByteSize = 11 ∧
      goSliceChecked (area ++ goRepeat "0" (11 - (goLen area : Int))) 0 8 =
        some (goSlice (area ++ goRepeat "0" (11 - (goLen area : Int))) 0 8) ∧
      goSliceChecked (area ++ goRepeat "0" (11 - (goLen area : Int))) 0 5 =
        some (goSlice (area ++ goRepeat "0" (11 - (goLen area : Int))) 0 5) ∧
      goSliceChecked (area ++ goRepeat "0" (11 - (goLen area : Int))) 0 2 =
        some (goSlice (area ++ goRepeat "0" (11 - (goLen area : Int))) 0 2)) ∧
    (∀ r : OkatoRecord, reValidOkatoC.MatchString r.C = true →
      0 ≤ 11 - (goLen r.ParseCode.1.Code : Int) ∧ 11 - (goLen r.ParseCode.1.Code : Int) ≤ 9 ∧
      goRepeatChecked "0" (11 - (goLen r.ParseCode.1.Code : Int)) =
        some (goRepeat "0" (11 - (goLen r.ParseCode.1.Code : Int))) ∧
      r.ParseCode.1.Code11 =
        r.ParseCode.1.Code ++ goRepeat "0" (11 - (goLen r.ParseCode.1.Code : Int)) ∧
      goLen r.ParseCode.1.Code11 = 11 ∧
      r.ParseCode.1.Code11.utf8ByteSize = 11 ∧
      r.ParseCode.1.Code.utf8ByteSize = goLen r.ParseCode.1.Code ∧
      goLen r.ParseCode.1.Code ≥ 2 ∧
      goSliceChecked r.ParseCode.1.Code 0 2 = some (goSlice r.ParseCode.1.Code 0 2) ∧
      (goLen r.ParseCode.1.Code ≥ 5 →
        goSliceChecked r.ParseCode.1.Code 2 5 = some (goSlice r.ParseCode.1.Code 2 5)) ∧
      (goLen r.ParseCode.1.Code ≥ 8 →
        goSliceChecked r.ParseCode.1.Code 5 8 = some (goSlice r.ParseCode.1.Code 5 8)) ∧
      (goLen r.ParseCode.1.Code = 11 →
        goSliceChecked r.ParseCode.1.Code 8 11 = some (goSlice r.ParseCode.1.Code 8 11))) := by
  have hpadded : ∀ code : String, 2 ≤ code.length → code.length ≤ 11 →
      (∀ ch ∈ code.data, ch.isDigit = true) →
      0 ≤ 11 - (goLen code : Int) ∧ 11 - (goLen code : Int) ≤ 9 ∧
      goRepeatChecked "0" (11 - (goLen code : Int)) =
        some (goRepeat "0" (11 - (goLen code : Int))) ∧
      goLen (code ++ goRepeat "0" (11 - (goLen code : Int))) = 11 ∧
      (code ++ goRepeat "0" (11 - (goLen code : Int))).utf8ByteSize = 11 := by
    intro code h2 h11 hdig
    have hlo : 0 ≤ 11 - (goLen code : Int) := by
      unfold goLen
      omega
    have hhi : 11 - (goLen code : Int) ≤ 9 := by
      unfold goLen
      omega
    have hlen : goLen (code ++ goRepeat "0" (11 - (goLen code : Int))) = 11 := by
      rw [okato11_eq]
      exact zeroPadded11_length code h11
    refine ⟨hlo, hhi, ?_, hlen, ?_⟩
    · simp [goRepeatChecked, not_lt.mpr hlo]
    · rw [utf8ByteSize_of_digits, hlen]
      rw [okato11_eq]
      intro ch hch
      simp only [zeroPadded11, List.mem_append, List.mem_replicate] at hch
      rcases hch with hch | ⟨_, rfl⟩
      · exact Or.inl (hdig ch hch)
      · exact Or.inl (by decide)
  constructor
  · intro area harea
    obtain ⟨h2, h11, hdig⟩ := (matchString_reOKATOPlain area).mp harea
    obtain ⟨hlo, hhi, hrep, hlen, hbytes⟩ := hpadded area h2 h11 hdig
    refine ⟨hlo, hhi, hrep, hlen, hbytes, ?_, ?_, ?_⟩ <;>
      simp [goSliceChecked, hlen]
  · intro r hvalid
    obtain ⟨hdig, hlen⟩ := dotless_of_dotted r.C ((matchString_reValidOkatoC r.C).mp hvalid)
    have h2 : 2 ≤ (dotless r.C).length := by omega
    have h11 : (dotless r.C).length ≤ 11 := by omega
    obtain ⟨hlo, hhi, hrep, hlen11, hbytes⟩ := hpadded (dotless r.C) h2 h11 hdig
    rw [ParseCode_valid r hvalid]
    refine ⟨hlo, hhi, hrep, rfl, hlen11, hbytes, ?_, h2, ?_, ?_, ?_, ?_⟩
    · exact utf8ByteSize_of_digits _ (fun ch hch => Or.inl (hdig ch hch))
    · have : 2 ≤ goLen (dotless r.C) := h2
      simp [goSliceChecked, this]
    · intro h
      have : 5 ≤ goLen (dotless r.C) := h
      simp [goSliceChecked, this]
    · intro h
      have : 8 ≤ goLen (dotless r.C) := h
      simp [goSliceChecked, this]
    · intro h
      have : goLen (dotless r.C) = 11 := h
      simp [goSliceChecked, this]

/-- C39, on the token `9243` and on the code `01.201`: the pad counts are 7 and 6. -/
theorem padding_and_slices_stay_in_range_witness :
    (11 - (goLen "9243" : Int) = 7 ∧ 0 ≤ 11 - (goLen "9243" : Int) ∧
      goLen ("9243" ++ goRepeat "0" (11 - (goLen "9243" : Int))) = 11) ∧
    (11 - (goLen (okatoRecordOf "01.201").ParseCode.1.Code : Int) = 6 ∧
      goLen (okatoRecordOf "01.201").ParseCode.1.Code11 = 11 ∧
      goSliceChecked (okatoRecordOf "01.201").ParseCode.1.Code 2 5 = some "201") :=
  ⟨⟨by decide, (padding_and_slices_stay_in_range.1 "9243" (by decide)).1,
      (padding_and_slices_stay_in_range.1 "9243" (by decide)).2.2.2.1⟩,
    ⟨by decide, (padding_and_slices_stay_in_range.2 (okatoRecordOf "01.201") rfl).2.2.2.2.1,
      by decide⟩⟩

/-- C40. `ParseCode` loses no information. For a record with a valid `C` whose derived fields
are empty before the call, the call succeeds, `Region`, `Level1`, `Level2` and `Level3` put
one after the other are `Code`, and the non-empty ones among them joined by dots are `C`;
hence a record with a valid code and the same `Code` has the same `C`. -/
theorem parseCode_loses_no_information (r : OkatoRecord)
    (hvalid : reValidOkatoC.MatchString r.C = true)
    (hempty : r.Code = "" ∧ r.Code11 = "" ∧ r.Region = "" ∧ r.Level1 = "" ∧ r.Level2 = "" ∧
      r.Level3 = "") :
    r.ParseCode.2 = none ∧
      r.ParseCode.1.Region ++ r.ParseCode.1.Level1 ++ r.ParseCode.1.Level2 ++
        r.ParseCode.1.Level3 = r.ParseCode.1.Code ∧
      joinNonEmpty [r.ParseCode.1.Region, r.ParseCode.1.Level1, r.ParseCode.1.Level2,
        r.ParseCode.1.Level3] "." = r.C ∧
      ∀ r2 : OkatoRecord, reValidOkatoC.MatchString r2.C = true →
        r2.ParseCode.1.Code = r.ParseCode.1.Code → r2.C = r.C := by
  obtain ⟨_, _, _, h1, h2, h3⟩ := hempty
  obtain ⟨_, hlen⟩ := dotless_of_dotted r.C ((matchString_reValidOkatoC r.C).mp hvalid)
  have hge2 : goLen (dotless r.C) ≥ 2 := by
    unfold goLen
    omega
  refine ⟨(ParseCode_none_iff r).mpr hvalid, ?_, ?_, ?_⟩
  · rw [ParseCode_valid r hvalid]
    simp only [hge2, if_true, h1, h2, h3]
    exact slices_concat (dotless r.C) hlen
  · rw [ParseCode_valid r hvalid]
    simp only [hge2, if_true, h1, h2, h3]
    exact dottedForm_dotless r.C hvalid
  · intro r2 hvalid2 hcode
    rw [ParseCode_valid r hvalid, ParseCode_valid r2 hvalid2] at hcode
    have hd : dotless r2.C = dotless r.C := hcode
    rw [← dottedForm_dotless r2.C hvalid2, ← dottedForm_dotless r.C hvalid, hd]

/-- C40, on the code `01.201.802`: the levels are 01, 201, 802 and an empty one, and joined
by dots they give the code back. -/
theorem parseCode_loses_no_information_witness :
    (okatoRecordOf "01.201.802").ParseCode.1.Code = "01201802" ∧
      (okatoRecordOf "01.201.802").ParseCode.1.Level3 = "" ∧
      ((okatoRecordOf "01.201.802").ParseCode.2 = none ∧
        (okatoRecordOf "01.201.802").ParseCode.1.Region ++
            (okatoRecordOf "01.201.802").ParseCode.1.Level1 ++
            (okatoRecordOf "01.201.802").ParseCode.1.Level2 ++
            (okatoRecordOf "01.201.802").ParseCode.1.Level3 =
          (okatoRecordOf "01.201.802").ParseCode.1.Code ∧
        joinNonEmpty [(okatoRecordOf "01.201.802").ParseCode.1.Region,
            (okatoRecordOf "01.201.802").ParseCode.1.Level1,
            (okatoRecordOf "01.201.802").ParseCode.1.Level2,
            (okatoRecordOf "01.201.802").ParseCode.1.Level3] "." =
          (okatoRecordOf "01.201.802").C ∧
        ∀ r2 : OkatoRecord, reValidOkatoC.MatchString r2.C = true →
          r2.ParseCode.1.Code = (okatoRecordOf "01.201.802").ParseCode.1.Code →
            r2.C = (okatoRecordOf "01.201.802").C) :=
  ⟨by decide, by decide,
    parseCode_loses_no_information (okatoRecordOf "01.201.802") rfl
      ⟨rfl, rfl, rfl, rfl, rfl, rfl⟩⟩

end Esnsi
